import Mathlib

/-!
# Evidra: event store, timeline, change aggregation, evidence pack, collector

A shallow embedding of `internal/cloudevents`, `internal/store` (the in-memory
repository, and the argument checks of the relational one), `internal/app`
(`changes.go`, and `ParseSubject` and `CreateExport` of `service.go`),
`internal/export/fs.go` and the collector of `internal/ingest/argo`
(`toSourceEvents`, the checkpoint and `handleAppEvent`), followed by the
properties proved about them.

Conventions of the embedding

* A Go `string` is a Lean `String`; `json.RawMessage` is the text of the message.
* A Go `map[string]V` is an association list with first-match lookup (`GoMap`);
  iteration visits it in list order.  Every place where the source iterates over
  a map sorts the outcome afterwards.
* `time.Time` is an instant (nanoseconds since the zero time) with the offset of
  its location.  `time.Now()` is an explicit argument.
* Standard-library routines whose behaviour is not defined in the repository
  (SHA-256, `encoding/json`, `encoding/base64`, `strings.ToLower`,
  `strconv.FormatInt`, `filepath.Join`, time formatting) are the fields of
  `StdLib`; every definition that calls one takes the library as its first
  argument and every theorem holds for all of them.
* The file system enters `CreateEvidencePack` as the outcome of its two calls,
  and an Argo CD `Application` is the record of the fields the code reads.
* `sort.Slice(xs, less)` is insertion sort: `x` is placed before `y` unless
  `less y x`.
-/

namespace Evidra

/-! ## Values -/

/-- A `time.Time` value. -/
structure Time where
  /-- Nanoseconds elapsed since January 1, year 1, 00:00:00 UTC. -/
  nanos : Int
  /-- Offset of the location, in seconds east of UTC. -/
  offset : Int
deriving DecidableEq, Repr

namespace Time

/-- The zero value `time.Time{}`. -/
def zero : Time := ⟨0, 0⟩

/-- Go `t.IsZero()`. -/
def IsZero (t : Time) : Bool := decide (t.nanos = 0)

/-- Go `t.UTC()`. -/
def UTC (t : Time) : Time := ⟨t.nanos, 0⟩

/-- Go `t.Before(u)`. -/
def Before (t u : Time) : Bool := decide (t.nanos < u.nanos)

/-- Go `t.After(u)`. -/
def After (t u : Time) : Bool := decide (u.nanos < t.nanos)

/-- Go `t.Equal(u)`. -/
def Equal (t u : Time) : Bool := decide (t.nanos = u.nanos)

/-- Go `t.Add(d)`, `d` in nanoseconds. -/
def Add (t : Time) (d : Int) : Time := ⟨t.nanos + d, t.offset⟩

/-- Go `t.Unix()`: seconds since 1970, rounded down. -/
def Unix (t : Time) : Int := (t.nanos - 62135596800 * 1000000000) / 1000000000

/-- Go `t.UnixNano()`: nanoseconds since 1970, wrapped to `int64`. -/
def UnixNano (t : Time) : Int :=
  ((t.nanos - 62135596800 * 1000000000 + 2 ^ 63) % 2 ^ 64) - 2 ^ 63

end Time

/-- A decoded JSON value (`interface{}` as produced by `encoding/json`); a Go
`int` held in an extension map is a `num` as well. -/
inductive JVal where
  | null
  | bool (b : Bool)
  | num (q : ℚ)
  | str (s : String)
  | arr (xs : List JVal)
  | obj (kvs : List (String × JVal))

/-- A Go `map[string]V`. -/
abbrev GoMap (V : Type) := List (String × V)

namespace GoMap

/-- Go `v, ok := m[k]`. -/
def get? {V : Type} (m : GoMap V) (k : String) : Option V :=
  match m with
  | [] => none
  | (k1, v) :: rest => if k1 = k then some v else get? rest k

/-- Go `m[k] = v`. -/
def set {V : Type} (m : GoMap V) (k : String) (v : V) : GoMap V :=
  match m with
  | [] => [(k, v)]
  | (k1, v1) :: rest => if k1 = k then (k, v) :: rest else (k1, v1) :: set rest k v

/-- The values in iteration order. -/
def values {V : Type} (m : GoMap V) : List V := m.map Prod.snd

/-- The keys in iteration order. -/
def keys {V : Type} (m : GoMap V) : List String := m.map Prod.fst

end GoMap

/-- The struct `cloudevents.StoredEvent`. -/
structure StoredEvent where
  ID : String
  EventType : String
  Source : String
  Subject : String
  Time : Evidra.Time
  Extensions : GoMap JVal
  Data : String
  IntegrityHash : String
  IngestedAt : Evidra.Time

/-- The anonymous struct that `ComputeIntegrityHash` marshals. -/
structure Canon where
  SpecVersion : String
  ID : String
  Source : String
  EventType : String
  Subject : String
  Time : String
  Extensions : GoMap JVal
  Data : String

/-- The struct `exportChangeView` of package `export`. -/
structure exportChangeView where
  ChangeID : String
  Application : String
  Cluster : String
  Namespace : String
  Revision : String
  Initiator : String
  Result : String
  ExternalChangeID : String
  TicketID : String
  PostDeployDegradation : GoMap JVal

/-- The map literal `canonical` of `CreateEvidencePack`, one field for each of
its keys. -/
structure CanonicalPack where
  change_id : String
  source : String
  application : String
  cluster : String
  namespace_ : String
  revision : String
  initiator : String
  result : String
  external_change_id : String
  ticket_id : String
  post_deploy_degradation : GoMap JVal
  timeline : List StoredEvent

/-- The anonymous struct `payload` that `CreateEvidencePack` writes. -/
structure Payload where
  SchemaVersion : String
  ChangeID : String
  GeneratedAt : Evidra.Time
  Source : String
  Application : String
  Cluster : String
  Namespace : String
  Revision : String
  Initiator : String
  Result : String
  ExternalChange : String
  TicketID : String
  Degradation : GoMap JVal
  Timeline : List StoredEvent
  CreatedAt : Evidra.Time
  Count : Int
  ChecksumSHA256 : String
  Deterministic : String
  Items : List StoredEvent

/-- The standard-library routines the code calls. -/
structure StdLib where
  /-- Hex form of `sha256.Sum256`. -/
  sha256Hex : String → String
  /-- Go `strings.ToLower`. -/
  toLower : String → String
  /-- Go `t.Format(time.RFC3339)`. -/
  formatRFC3339 : Time → String
  /-- Go `t.Format(time.RFC3339Nano)`. -/
  formatRFC3339Nano : Time → String
  /-- Go `time.Parse(time.RFC3339Nano, s)`, `none` on error. -/
  parseRFC3339Nano : String → Option Time
  /-- Go `json.Marshal` of the canonical struct, `none` on error. -/
  jsonMarshalCanon : Canon → Option String
  /-- Go `json.Unmarshal` into a `map[string]interface{}`, `none` on error. -/
  jsonUnmarshalObject : String → Option (GoMap JVal)
  /-- Go `json.Unmarshal` into a `[]map[string]interface{}`, `none` on error. -/
  jsonUnmarshalObjects : String → Option (List (GoMap JVal))
  /-- Go `json.Marshal` of the timeline cursor struct (fields `ts`, `id`). -/
  jsonMarshalCursor : String → String → String
  /-- Go `json.Unmarshal` into the timeline cursor struct, `none` on error. -/
  jsonUnmarshalCursor : String → Option (String × String)
  /-- Go `base64.StdEncoding.EncodeToString`. -/
  base64Encode : String → String
  /-- Go `base64.StdEncoding.DecodeString`, `none` on error. -/
  base64Decode : String → Option String
  /-- Go `json.Marshal` of a `[]StoredEvent`, `none` on error. -/
  jsonMarshalEvents : List StoredEvent → Option String
  /-- Go `json.Marshal` of the map `canonical` of `CreateEvidencePack`, `none`
  on error. -/
  jsonMarshalCanonical : CanonicalPack → Option String
  /-- Go `json.MarshalIndent` of the evidence-pack payload, `none` on error. -/
  jsonMarshalIndentPayload : Payload → Option String
  /-- Go `filepath.Join` of two elements. -/
  filepathJoin : String → String → String
  /-- Go `json.Marshal` of a `map[string]string`. -/
  jsonMarshalStringMap : GoMap String → String
  /-- Go `json.Unmarshal` into a `map[string]string`, `none` on error. -/
  jsonUnmarshalStringMap : String → Option (GoMap String)
  /-- Go `base64.RawStdEncoding.EncodeToString`. -/
  rawBase64Encode : String → String
  /-- Go `base64.RawStdEncoding.DecodeString`, `none` on error. -/
  rawBase64Decode : String → Option String
  /-- Go `strconv.FormatInt(n, 10)`. -/
  formatInt : Int → String
  /-- Go `time.Parse(time.RFC3339, s)`, `none` on error. -/
  parseRFC3339 : String → Option Time

/-! ## Strings -/

/-- Go `unicode.IsSpace`. -/
def isSpace (c : Char) : Bool :=
  let n := c.toNat
  n = 0x20 || (0x09 ≤ n && n ≤ 0x0d) || n = 0x85 || n = 0xa0 || n = 0x1680 ||
    (0x2000 ≤ n && n ≤ 0x200a) || n = 0x2028 || n = 0x2029 || n = 0x202f ||
    n = 0x205f || n = 0x3000

/-- Go `strings.TrimSpace`. -/
def TrimSpace (s : String) : String :=
  String.mk (((s.data.dropWhile isSpace).reverse.dropWhile isSpace).reverse)

/-- Go `a < b` on strings: the lexicographic order of the code points, which
on UTF-8 text is the order of the bytes. -/
def strLt (a b : String) : Bool := decide (a.data < b.data)

/-- Go `a <= b` on strings. -/
def strLe (a b : String) : Bool := !strLt b a

/-- Go `strings.Contains`. -/
def Contains (s sub : String) : Bool :=
  decide (sub.data <:+: s.data)

/-! ## internal/cloudevents -/

/-- Go `ExtensionString`: the trimmed string value of an extension, `""` if absent
or not a string. -/
def ExtensionString (extensions : GoMap JVal) (key : String) : String :=
  match extensions.get? key with
  | some (JVal.str v) => TrimSpace v
  | _ => ""

/-- Go `ExtensionBool`. -/
def ExtensionBool (L : StdLib) (extensions : GoMap JVal) (key : String) : Bool :=
  match extensions.get? key with
  | some (JVal.bool v) => v
  | some (JVal.str v) =>
    let lv := L.toLower (TrimSpace v)
    lv = "true" || lv = "1" || lv = "yes"
  | some (JVal.num v) => decide (v ≠ 0)
  | _ => false

/-- Insertion of a key into a sorted list of keys (`sort.Strings`). -/
def insertKey (k : String) : List String → List String
  | [] => [k]
  | k1 :: rest => if strLe k k1 then k :: k1 :: rest else k1 :: insertKey k rest

/-- Go `sort.Strings`. -/
def sortStrings : List String → List String
  | [] => []
  | k :: rest => insertKey k (sortStrings rest)

/-- Go `sortedExtensions`: the same entries, entered in ascending key order. -/
def sortedExtensions (ext : GoMap JVal) : GoMap JVal :=
  (sortStrings ext.keys).foldl
    (fun out k => match ext.get? k with
      | some v => out.set k v
      | none => out) []

/-- Go `ComputeIntegrityHash`: SHA-256 of the canonical JSON encoding, or the
marshalling error. -/
def ComputeIntegrityHash (L : StdLib) (e : StoredEvent) : Option String :=
  let canon : Canon :=
    { SpecVersion := "1.0"
      ID := e.ID
      Source := e.Source
      EventType := e.EventType
      Subject := e.Subject
      Time := L.formatRFC3339Nano e.Time.UTC
      Extensions := sortedExtensions e.Extensions
      Data := e.Data }
  match L.jsonMarshalCanon canon with
  | none => none
  | some b => some (L.sha256Hex b)

/-! ## internal/store: the in-memory repository -/

/-- The error values of package `store`, `ErrMarshal` for an error returned by
`encoding/json`, and `ErrInvalidChangeCursor` of package `app`. -/
inductive Error where
  | ErrNotFound
  | ErrConflict
  | ErrInvalidInput
  | ErrAppendOnly
  | ErrInvalidCursor
  | ErrMarshal
  | ErrInvalidChangeCursor
deriving DecidableEq, Repr

/-- Go `IngestStatus`. -/
inductive IngestStatus where
  | IngestAccepted
  | IngestDuplicate
deriving DecidableEq, Repr

instance instDecidableEqExcept {ε α : Type} [DecidableEq ε] [DecidableEq α] :
    DecidableEq (Except ε α) := fun a b =>
  match a, b with
  | Except.ok x, Except.ok y =>
    if h : x = y then isTrue (by rw [h]) else isFalse (by intro h1; cases h1; exact h rfl)
  | Except.error x, Except.error y =>
    if h : x = y then isTrue (by rw [h]) else isFalse (by intro h1; cases h1; exact h rfl)
  | Except.ok _, Except.error _ => isFalse (by intro h; cases h)
  | Except.error _, Except.ok _ => isFalse (by intro h; cases h)

/-- The struct `model.ExportJob`. -/
structure ExportJob where
  ID : String
  Status : String
  Format : String
  Filter : GoMap JVal
  ArtifactURI : String
  Error : String
  CreatedAt : Time
  CompletedAt : Option Time

/-- The struct `MemoryRepository` (without its lock). -/
structure MemoryRepository where
  events : GoMap StoredEvent
  exports : GoMap ExportJob

/-- Go `NewMemoryRepository`. -/
def NewMemoryRepository : MemoryRepository := ⟨[], []⟩

/-- Go `validateStoredEvent`: `none` when the event passes. -/
def validateStoredEvent (e : StoredEvent) : Option Error :=
  if e.ID = "" ∨ e.Source = "" ∨ e.EventType = "" then some Error.ErrInvalidInput
  else if e.Data.length = 0 ∨ e.Data = "null" then some Error.ErrInvalidInput
  else if e.Time.IsZero then some Error.ErrInvalidInput
  else none

/-- The first part of `IngestEvent`: the event with its integrity hash filled
in when the field is empty. -/
def withIntegrityHash (L : StdLib) (event : StoredEvent) : Except Error StoredEvent :=
  if event.IntegrityHash = "" then
    match ComputeIntegrityHash L event with
    | none => Except.error Error.ErrMarshal
    | some h => Except.ok { event with IntegrityHash := h }
  else Except.ok event

/-- Go `MemoryRepository.IngestEvent`; `clock` is the value of `time.Now()`.  The
result and the repository after the call. -/
def IngestEvent (L : StdLib) (clock : Time) (m : MemoryRepository) (event : StoredEvent) :
    Except Error (IngestStatus × Time) × MemoryRepository :=
  match validateStoredEvent event with
  | some err => (Except.error err, m)
  | none =>
    match withIntegrityHash L event with
    | Except.error err => (Except.error err, m)
    | Except.ok event =>
      let now := clock.UTC
      match m.events.get? event.ID with
      | some existing =>
        if existing.IntegrityHash = event.IntegrityHash then
          (Except.ok (IngestStatus.IngestDuplicate, existing.IngestedAt), m)
        else (Except.error Error.ErrConflict, m)
      | none =>
        let event := if event.IngestedAt.IsZero then { event with IngestedAt := now } else event
        (Except.ok (IngestStatus.IngestAccepted, now), { m with events := m.events.set event.ID event })

/-- Go `MemoryRepository.GetEvent`. -/
def GetEvent (m : MemoryRepository) (id : String) : Except Error StoredEvent :=
  match m.events.get? id with
  | none => Except.error Error.ErrNotFound
  | some e => Except.ok e

/-- Go `MemoryRepository.CreateExport`; `clock1` and `clock2` are the two readings
of `time.Now()`. -/
def CreateExport (clock1 clock2 : Time) (m : MemoryRepository) (format : String)
    (filter : GoMap JVal) : ExportJob × MemoryRepository :=
  let format := if format = "" then "json" else format
  let id := "exp_" ++ toString clock1.UTC.UnixNano
  let job : ExportJob :=
    { ID := id, Status := "pending", Format := format, Filter := filter,
      ArtifactURI := "", Error := "", CreatedAt := clock2.UTC, CompletedAt := none }
  (job, { m with exports := m.exports.set id job })

/-- Go `MemoryRepository.SetExportCompleted`. -/
def SetExportCompleted (clock : Time) (m : MemoryRepository) (id artifactURI : String) :
    Option Error × MemoryRepository :=
  match m.exports.get? id with
  | none => (some Error.ErrNotFound, m)
  | some job =>
    let job := { job with Status := "completed", ArtifactURI := artifactURI,
                          CompletedAt := some clock.UTC }
    (none, { m with exports := m.exports.set id job })

/-- Go `MemoryRepository.SetExportFailed`. -/
def SetExportFailed (clock : Time) (m : MemoryRepository) (id message : String) :
    Option Error × MemoryRepository :=
  match m.exports.get? id with
  | none => (some Error.ErrNotFound, m)
  | some job =>
    let job := { job with Status := "failed", Error := message,
                          CompletedAt := some clock.UTC }
    (none, { m with exports := m.exports.set id job })

/-- Go `MemoryRepository.GetExport`. -/
def GetExport (m : MemoryRepository) (id : String) : Except Error ExportJob :=
  match m.exports.get? id with
  | none => Except.error Error.ErrNotFound
  | some job => Except.ok job

/-- Go `MemoryRepository.DeleteEvent`. -/
def DeleteEvent (_m : MemoryRepository) (_id : String) : Error := Error.ErrAppendOnly

/-- The struct `TimelineQuery`. -/
structure TimelineQuery where
  Subject : String
  Cluster : String
  Namespace : String
  From : Time
  To : Time
  Source : String
  EventType : String
  CorrelationKey : String
  CorrelationValue : String
  IncludeSupporting : Bool
  Limit : Int
  Cursor : String

/-- The struct `TimelineResult`. -/
structure TimelineResult where
  Items : List StoredEvent
  NextCursor : String

/-- Go `sort.Slice(xs, less)`. -/
def sortSlice {α : Type} (less : α → α → Bool) (xs : List α) : List α :=
  xs.insertionSort (fun a b => less b a = false)

/-- The comparison function of `sortStoredEvents`. -/
def eventLess (a b : StoredEvent) : Bool :=
  if a.Time.Equal b.Time then strLt a.ID b.ID else a.Time.Before b.Time

/-- Go `sortStoredEvents`. -/
def sortStoredEvents (items : List StoredEvent) : List StoredEvent :=
  sortSlice eventLess items

/-- Go `encodeCursor`. -/
def encodeCursor (L : StdLib) (ts : Time) (id : String) : String :=
  L.base64Encode (L.jsonMarshalCursor (L.formatRFC3339Nano ts) id)

/-- Go `decodeCursor`. -/
def decodeCursor (L : StdLib) (s : String) : Except Error (Time × String) :=
  if TrimSpace s = "" then Except.ok (Time.zero, "")
  else
    match L.base64Decode s with
    | none => Except.error Error.ErrInvalidCursor
    | some raw =>
      match L.jsonUnmarshalCursor raw with
      | none => Except.error Error.ErrInvalidCursor
      | some (ts, id) =>
        match L.parseRFC3339Nano ts with
        | none => Except.error Error.ErrInvalidCursor
        | some t => Except.ok (t.UTC, id)

/-- The filter tests of the loop of `QueryTimeline` that come before the cursor
test: `false` where the loop says `continue`. -/
def timelineFilter (L : StdLib) (q : TimelineQuery) (e : StoredEvent) : Bool :=
  if !q.From.IsZero && e.Time.Before q.From then false
  else if !q.To.IsZero && e.Time.After q.To then false
  else if q.Subject ≠ "" && e.Subject ≠ q.Subject then false
  else if q.Subject ≠ "" && q.Cluster ≠ "" &&
      ExtensionString e.Extensions "cluster" ≠ q.Cluster then false
  else if q.Subject ≠ "" && q.Namespace ≠ "" &&
      ExtensionString e.Extensions "namespace" ≠ q.Namespace then false
  else if q.Source ≠ "" && e.Source ≠ q.Source then false
  else if q.EventType ≠ "" && e.EventType ≠ q.EventType then false
  else if q.CorrelationKey ≠ "" && q.CorrelationValue ≠ "" &&
      ExtensionString e.Extensions q.CorrelationKey ≠ q.CorrelationValue then false
  else if !q.IncludeSupporting && ExtensionBool L e.Extensions "supporting_observation" then false
  else true

/-- The cursor test of the loop of `QueryTimeline`. -/
def afterCursor (cursorTS : Time) (cursorID : String) (e : StoredEvent) : Bool :=
  if !cursorTS.IsZero then
    if e.Time.Before cursorTS || (e.Time.Equal cursorTS && strLe e.ID cursorID) then false
    else true
  else true

/-- The limit that `QueryTimeline` applies: 50 by default, 500 at most. -/
def timelineLimit (limit : Int) : Nat :=
  if limit ≤ 0 then 50 else if limit > 500 then 500 else limit.toNat

/-- Go `MemoryRepository.QueryTimeline`. -/
def QueryTimeline (L : StdLib) (m : MemoryRepository) (q : TimelineQuery) :
    Except Error TimelineResult :=
  let limit := timelineLimit q.Limit
  match decodeCursor L q.Cursor with
  | Except.error err => Except.error err
  | Except.ok (cursorTS, cursorID) =>
    let items := m.events.values.filter
      (fun e => timelineFilter L q e && afterCursor cursorTS cursorID e)
    let items := sortStoredEvents items
    if items.length > limit then
      let page := items.take limit
      match page.getLast? with
      | some last => Except.ok ⟨page, encodeCursor L last.Time last.ID⟩
      | none => Except.ok ⟨page, ""⟩
    else Except.ok ⟨items, ""⟩

/-- The client loop that follows `NextCursor` until it is empty and
concatenates the pages; `none` when a call fails or `fuel` calls do not reach
the last page. -/
def collectPages (L : StdLib) (m : MemoryRepository) (q : TimelineQuery) :
    Nat → Option (List StoredEvent)
  | 0 => none
  | fuel + 1 =>
    match QueryTimeline L m q with
    | Except.error _ => none
    | Except.ok r =>
      if r.NextCursor = "" then some r.Items
      else
        match collectPages L m { q with Cursor := r.NextCursor } fuel with
        | none => none
        | some rest => some (r.Items ++ rest)

/-- The states a `MemoryRepository` can be in: those produced from
`NewMemoryRepository` by its mutating methods. -/
inductive Reachable (L : StdLib) : MemoryRepository → Prop where
  | init : Reachable L NewMemoryRepository
  | ingest (clock : Time) (m : MemoryRepository) (e : StoredEvent) :
      Reachable L m → Reachable L (IngestEvent L clock m e).2
  | createExport (clock1 clock2 : Time) (m : MemoryRepository) (format : String)
      (filter : GoMap JVal) :
      Reachable L m → Reachable L (CreateExport clock1 clock2 m format filter).2
  | setExportCompleted (clock : Time) (m : MemoryRepository) (id uri : String) :
      Reachable L m → Reachable L (SetExportCompleted clock m id uri).2
  | setExportFailed (clock : Time) (m : MemoryRepository) (id message : String) :
      Reachable L m → Reachable L (SetExportFailed clock m id message).2

/-- The same event submitted once per clock reading: the results in order
and the repository at the end. -/
def ingestRepeat (L : StdLib) (m : MemoryRepository) (e : StoredEvent) :
    List Time → List (Except Error (IngestStatus × Time)) × MemoryRepository
  | [] => ([], m)
  | clock :: rest =>
    let r := IngestEvent L clock m e
    let rs := ingestRepeat L r.2 e rest
    (r.1 :: rs.1, rs.2)

/-! ## internal/app: change aggregation -/

/-- Go `strings.EqualFold` on ASCII text, where Unicode simple folding is the
folding of the letters A to Z. -/
def EqualFold (s t : String) : Bool :=
  decide (s.data.map Char.toLower = t.data.map Char.toLower)

/-- The struct `PostDeployDegradation`. -/
structure PostDeployDegradation where
  Observed : Bool
  FirstTimestamp : Option Time

/-- The struct `Change`. -/
structure Change where
  ID : String
  ChangeID : String
  Permalink : String
  Subject : String
  Application : String
  Project : String
  TargetCluster : String
  Namespace : String
  PrimaryProvider : String
  PrimaryReference : String
  Revision : String
  Initiator : String
  ExternalChangeID : String
  TicketID : String
  ApprovalReference : String
  ResultStatus : String
  HealthStatus : String
  HealthAtOperationStart : String
  HealthAfterDeploy : String
  PostDeployDegradation : Evidra.PostDeployDegradation
  EvidenceLastUpdatedAt : Time
  EvidenceWindowSeconds : Int
  EvidenceMayBeIncomplete : Bool
  HasApprovals : Bool
  StartedAt : Time
  CompletedAt : Time
  EventCount : Int

/-- The struct `ChangeDetail`: a `Change` and its events. -/
structure ChangeDetail where
  Change : Evidra.Change
  Events : List StoredEvent

/-- The struct `ApprovalEvidence`. -/
structure ApprovalEvidence where
  Source : String
  Identity : String
  Timestamp : String
  Reference : String
  Summary : String

/-- Go `firstExtension`: the first of `keys` whose extension is a non-blank
string, trimmed. -/
def firstExtension (extensions : GoMap JVal) : List String → String
  | [] => ""
  | k :: keys =>
    match extensions.get? k with
    | some (JVal.str s) =>
      if TrimSpace s ≠ "" then TrimSpace s else firstExtension extensions keys
    | _ => firstExtension extensions keys

/-- Go `firstMapString`. -/
def firstMapString (m : GoMap JVal) (keys : List String) : String :=
  firstExtension m keys

/-- Go `stringFromAny`, applied to the outcome of a map lookup. -/
def stringFromAny : Option JVal → String
  | some (JVal.str v) => TrimSpace v
  | _ => ""

/-- Go `nestedMap`; a nil map is the empty map. -/
def nestedMap (m : GoMap JVal) (key : String) : GoMap JVal :=
  match m.get? key with
  | some (JVal.obj kvs) => kvs
  | _ => []

/-- Go `dataString`. -/
def dataString (L : StdLib) (data : String) (key : String) : String :=
  if data.length = 0 then ""
  else
    match L.jsonUnmarshalObject data with
    | none => ""
    | some m =>
      match m.get? key with
      | some (JVal.str s) => TrimSpace s
      | _ => ""

/-- Go `stableHash`. -/
def stableHash (L : StdLib) (input : String) : String := L.sha256Hex input

/-- Go `normalizePrimaryProvider`. -/
def normalizePrimaryProvider (L : StdLib) (source : String) (extensions : GoMap JVal) : String :=
  if ExtensionBool L extensions "supporting_observation" &&
      firstExtension extensions ["operation_id", "history_id", "deploy_id", "sync_revision"] ≠ ""
  then "argo"
  else if ExtensionString extensions "primary_provider" ≠ "" then
    L.toLower (ExtensionString extensions "primary_provider")
  else
    let s := L.toLower (TrimSpace source)
    if s = "argocd" ∨ s = "argo" then "argo"
    else if s = "github_actions" ∨ s = "gha" then "gha"
    else if s = "gitlab_ci" ∨ s = "gitlabci" then "gitlabci"
    else if s = "jenkins" then "jenkins"
    else if s = "" then "generic"
    else s

/-- Go `deriveChangeIdentity`: id, provider, reference and revision. -/
def deriveChangeIdentity (L : StdLib) (e : StoredEvent) : String × String × String × String :=
  let ext := e.Extensions
  let cluster := ExtensionString ext "cluster"
  let namespace1 := ExtensionString ext "namespace"
  let subjectID := L.toLower (e.Subject ++ ":" ++ namespace1 ++ ":" ++ cluster)
  let provider := normalizePrimaryProvider L e.Source ext
  let reference := firstExtension ext
    ["primary_reference", "operation_id", "history_id", "deploy_id", "pipeline_id", "run_id",
      "job_id"]
  let revision := firstExtension ext ["revision", "sync_revision", "commit_sha"]
  if reference ≠ "" then
    ("chg_" ++ stableHash L (subjectID ++ ":" ++ provider ++ ":" ++ reference),
      provider, reference, revision)
  else
    let finishedAt := L.formatRFC3339 e.Time.UTC
    ("chg_" ++ stableHash L (subjectID ++ ":" ++ provider ++ ":" ++ revision ++ ":" ++ finishedAt),
      provider, reference, revision)

/-- Go `externalCorrelationFromEvent`: external change id, ticket id and
approval reference. -/
def externalCorrelationFromEvent (L : StdLib) (e : StoredEvent) : String × String × String :=
  let ext := e.Extensions
  let externalChangeID := ExtensionString ext "external_change_id"
  let externalChangeID :=
    if externalChangeID = "" then ExtensionString ext "change_id" else externalChangeID
  let ticketID := ExtensionString ext "ticket_id"
  let approvalReference := ExtensionString ext "approval_reference"
  if externalChangeID = "" ∨ ticketID = "" ∨ approvalReference = "" then
    if e.Data.length > 0 then
      match L.jsonUnmarshalObject e.Data with
      | some dataMap =>
        let annotations := nestedMap (nestedMap dataMap "source_payload") "annotations"
        (if externalChangeID = "" then stringFromAny (annotations.get? "evidra.io/change-id")
          else externalChangeID,
         if ticketID = "" then stringFromAny (annotations.get? "evidra.io/ticket")
          else ticketID,
         if approvalReference = "" then stringFromAny (annotations.get? "evidra.io/approvals-ref")
          else approvalReference)
      | none => (externalChangeID, ticketID, approvalReference)
    else (externalChangeID, ticketID, approvalReference)
  else (externalChangeID, ticketID, approvalReference)

/-- The closures `parseEntry` and `appendIfSet` of `approvalsFromMap`: the
entries that one map adds. -/
def parseEntry (m : GoMap JVal) : List ApprovalEvidence :=
  let a : ApprovalEvidence :=
    { Source := firstMapString m ["source", "approval.source"]
      Identity := firstMapString m ["identity", "approval.identity"]
      Timestamp := firstMapString m ["timestamp", "approval.timestamp"]
      Reference := firstMapString m ["reference", "approval.reference"]
      Summary := firstMapString m ["summary", "approval.summary"] }
  if TrimSpace a.Source = "" ∧ TrimSpace a.Identity = "" ∧ TrimSpace a.Timestamp = "" ∧
      TrimSpace a.Reference = "" ∧ TrimSpace a.Summary = "" then []
  else [a]

/-- The closure `parseEntry` on a value that need not be a map. -/
def parseEntryAny : JVal → List ApprovalEvidence
  | JVal.obj kvs => parseEntry kvs
  | _ => []

/-- Go `approvalsFromMap`. -/
def approvalsFromMap (L : StdLib) (dataMap : GoMap JVal) : List ApprovalEvidence :=
  let out : List ApprovalEvidence :=
    match dataMap.get? "approvals" with
    | some (JVal.arr vv) => vv.flatMap parseEntryAny
    | some (JVal.obj vv) => parseEntry vv
    | _ => []
  let annotations := nestedMap (nestedMap dataMap "source_payload") "annotations"
  let raw := stringFromAny (annotations.get? "evidra.io/approvals-json")
  if raw ≠ "" then
    match L.jsonUnmarshalObjects raw with
    | some list => out ++ list.flatMap parseEntry
    | none =>
      match L.jsonUnmarshalObject raw with
      | some single => out ++ parseEntry single
      | none => out
  else out

/-- Go `approvalsFromData`. -/
def approvalsFromData (L : StdLib) (data : String) : List ApprovalEvidence :=
  if data.length = 0 then []
  else
    match L.jsonUnmarshalObject data with
    | none => []
    | some dataMap => approvalsFromMap L dataMap

/-- The text that `inferResultStatus` searches: the lower-cased event type and
status. -/
def resultBucket (L : StdLib) (e : StoredEvent) : String :=
  let status := dataString L e.Data "status"
  let status := if status = "" then dataString L e.Data "result" else status
  let status := if status = "" then dataString L e.Data "phase" else status
  let status := if status = "" then dataString L e.Data "outcome" else status
  L.toLower (e.EventType ++ " " ++ status)

/-- Go `inferResultStatus`. -/
def inferResultStatus (L : StdLib) (e : StoredEvent) : String :=
  let bucket := resultBucket L e
  if Contains bucket "fail" || Contains bucket "error" || Contains bucket "degrad" ||
      Contains bucket "abort" then "failed"
  else if Contains bucket "success" || Contains bucket "succeed" || Contains bucket "healthy" ||
      Contains bucket "complete" then "succeeded"
  else "unknown"

/-- Go `mergeResultStatus`. -/
def mergeResultStatus (current next : String) : String :=
  if current = "failed" ∨ next = "failed" then "failed"
  else if current = "succeeded" ∨ next = "succeeded" then "succeeded"
  else "unknown"

/-- Go `inferHealthStatus`. -/
def inferHealthStatus (L : StdLib) (e : StoredEvent) : String :=
  let raw := L.toLower (ExtensionString e.Extensions "health_status")
  let raw := if raw = "" then L.toLower (ExtensionString e.Extensions "health") else raw
  if raw = "healthy" then "healthy"
  else if raw = "degraded" then "degraded"
  else if raw = "progressing" then "progressing"
  else if raw = "missing" then "missing"
  else "unknown"

/-- Go `mergeHealthStatus`. -/
def mergeHealthStatus (current next : String) : String :=
  if next = "degraded" then "degraded"
  else if next = "progressing" ∧ current ≠ "degraded" then "progressing"
  else if next = "healthy" ∧ current = "unknown" then "healthy"
  else if next = "missing" ∧ current = "unknown" then "missing"
  else current

/-- The constant `evidenceWindowSeconds`. -/
def evidenceWindowSeconds : Int := 300

/-- The `ChangeDetail` that `buildChangesByID` creates for an id it has not
seen, from the first event with that id. -/
def newChangeDetail (id provider reference revision : String) (e : StoredEvent) : ChangeDetail :=
  { Change :=
      { ID := id
        ChangeID := id
        Permalink := "/ui/explorer/change/" ++ id
        Subject := e.Subject
        Application := e.Subject
        Project := ""
        TargetCluster := ExtensionString e.Extensions "cluster"
        Namespace := ExtensionString e.Extensions "namespace"
        PrimaryProvider := provider
        PrimaryReference := reference
        Revision := revision
        Initiator := ""
        ExternalChangeID := ""
        TicketID := ""
        ApprovalReference := ""
        ResultStatus := "unknown"
        HealthStatus := "unknown"
        HealthAtOperationStart := "unknown"
        HealthAfterDeploy := "unknown"
        PostDeployDegradation := ⟨false, none⟩
        EvidenceLastUpdatedAt := Time.zero
        EvidenceWindowSeconds := 0
        EvidenceMayBeIncomplete := false
        HasApprovals := false
        StartedAt := e.Time.UTC
        CompletedAt := e.Time.UTC
        EventCount := 0 }
    Events := [] }

/-- The updates that the first loop of `buildChangesByID` applies to the
current entry `cur` for the event `e`. -/
def absorbEvent (L : StdLib) (cur : ChangeDetail) (e : StoredEvent) : ChangeDetail :=
  let corr := externalCorrelationFromEvent L e
  let c := cur.Change
  let c := if c.ExternalChangeID = "" then { c with ExternalChangeID := corr.1 } else c
  let c := if c.TicketID = "" then { c with TicketID := corr.2.1 } else c
  let c := if c.ApprovalReference = "" then { c with ApprovalReference := corr.2.2 } else c
  let events := cur.Events ++ [e]
  let c := if (approvalsFromData L e.Data).length > 0 then { c with HasApprovals := true } else c
  let c := if c.Project = "" then { c with Project := ExtensionString e.Extensions "project" } else c
  let c :=
    if c.Namespace = "" then { c with Namespace := ExtensionString e.Extensions "namespace" } else c
  let c :=
    if c.TargetCluster = "" then { c with TargetCluster := ExtensionString e.Extensions "cluster" }
    else c
  let c :=
    if c.Initiator = "" then
      let initiator := ExtensionString e.Extensions "initiator"
      if TrimSpace initiator ≠ "" then { c with Initiator := TrimSpace initiator } else c
    else c
  let c := if e.Time.UTC.Before c.StartedAt then { c with StartedAt := e.Time.UTC } else c
  let c := if e.Time.UTC.After c.CompletedAt then { c with CompletedAt := e.Time.UTC } else c
  let c := { c with EventCount := (events.length : Int) }
  let c := { c with ResultStatus := mergeResultStatus c.ResultStatus (inferResultStatus L e) }
  let c := { c with HealthStatus := mergeHealthStatus c.HealthStatus (inferHealthStatus L e) }
  { Change := c, Events := events }

/-- The body of the first loop of `buildChangesByID`. -/
def accumulate (L : StdLib) (out : GoMap ChangeDetail) (e : StoredEvent) : GoMap ChangeDetail :=
  let ident := deriveChangeIdentity L e
  let id := ident.1
  let cur :=
    match out.get? id with
    | some cur => cur
    | none => newChangeDetail id ident.2.1 ident.2.2.1 ident.2.2.2 e
  out.set id (absorbEvent L cur e)

/-- The variables of the loop of `finalizeChange`. -/
structure HealthScan where
  startHealth : String
  endHealth : String
  lastHealth : String
  firstDegradedAfterStart : Option Time

/-- The body of the loop of `finalizeChange`. -/
def scanHealth (L : StdLib) (startedAt completedAt : Time) (st : HealthScan) (e : StoredEvent) :
    HealthScan :=
  let h := inferHealthStatus L e
  if h = "unknown" then st
  else
    let st := if !e.Time.After startedAt then { st with startHealth := h } else st
    let st := if !e.Time.Before completedAt then { st with endHealth := h } else st
    let st :=
      if st.firstDegradedAfterStart.isNone && e.Time.After startedAt && decide (h = "degraded")
      then { st with firstDegradedAfterStart := some e.Time.UTC }
      else st
    { st with lastHealth := h }

/-- Go `finalizeChange`; `clock` is the value of `time.Now()` read by
`time.Since`. -/
def finalizeChange (L : StdLib) (clock : Time) (c : ChangeDetail) : ChangeDetail :=
  let events := sortSlice eventLess c.Events
  match events.head?, events.getLast? with
  | some first, some last =>
    let startedAt := first.Time.UTC
    let completedAt := last.Time.UTC
    let st := events.foldl (scanHealth L startedAt completedAt)
      ⟨"unknown", "unknown", "unknown", none⟩
    let endHealth := if st.endHealth = "unknown" then st.lastHealth else st.endHealth
    { Change :=
        { c.Change with
          StartedAt := startedAt
          CompletedAt := completedAt
          EventCount := (events.length : Int)
          EvidenceLastUpdatedAt := completedAt
          EvidenceWindowSeconds := evidenceWindowSeconds
          EvidenceMayBeIncomplete :=
            decide (clock.nanos - completedAt.nanos < evidenceWindowSeconds * 1000000000)
          HealthAtOperationStart := st.startHealth
          HealthAfterDeploy := endHealth
          PostDeployDegradation :=
            ⟨EqualFold st.startHealth "healthy" && st.firstDegradedAfterStart.isSome,
              st.firstDegradedAfterStart⟩ }
      Events := events }
  | _, _ => { c with Events := events }

/-- Go `buildChangesByID`. -/
def buildChangesByID (L : StdLib) (clock : Time) (events : List StoredEvent) :
    GoMap ChangeDetail :=
  (events.foldl (accumulate L) []).map (fun p => (p.1, finalizeChange L clock p.2))

/-- The comparison function of the sort in `buildChanges`. -/
def changeLess (a b : Change) : Bool :=
  if a.CompletedAt.Equal b.CompletedAt then strLt a.ID b.ID
  else a.CompletedAt.After b.CompletedAt

/-- Go `buildChanges`. -/
def buildChanges (L : StdLib) (clock : Time) (events : List StoredEvent) : List Change :=
  sortSlice changeLess ((buildChangesByID L clock events).values.map ChangeDetail.Change)

/-! ## A reference library

One concrete `StdLib`, used to evaluate the code on examples.  It lower-cases
ASCII letters, reads and accepts the JSON documents that are flat objects with
string members and rejects every other text, marshals a raw JSON body in its
compacted form, and uses injective text encodings in place of SHA-256, base64
and the RFC 3339 layouts. -/

/-- The characters of a JSON string up to its closing quote, and the text
after the quote; a backslash is not read. -/
def readString : List Char → Option (List Char × List Char)
  | [] => none
  | c :: rest =>
    if c = Char.ofNat 34 then some ([], rest)
    else if c = Char.ofNat 92 then none
    else
      match readString rest with
      | some (s, r) => some (c :: s, r)
      | none => none

/-- The members of a flat JSON object, from the opening quote of the first
name. -/
def readMembers : Nat → List Char → Option (GoMap JVal)
  | 0, _ => none
  | _, [] => none
  | n + 1, c :: rest =>
    if c = Char.ofNat 34 then
      match readString rest with
      | some (k, c1 :: c2 :: rest1) =>
        if c1 = Char.ofNat 58 ∧ c2 = Char.ofNat 34 then
          match readString rest1 with
          | some (v, [c3]) =>
            if c3 = Char.ofNat 125 then some [(String.mk k, JVal.str (String.mk v))] else none
          | some (v, c3 :: rest2) =>
            if c3 = Char.ofNat 44 then
              match readMembers n rest2 with
              | some ms => some ((String.mk k, JVal.str (String.mk v)) :: ms)
              | none => none
            else none
          | _ => none
        else none
      | _ => none
    else none

/-- A flat JSON object with string members, read into a map. -/
def readObject (s : String) : Option (GoMap JVal) :=
  match s.data with
  | [c1, c2] => if c1 = Char.ofNat 123 ∧ c2 = Char.ofNat 125 then some [] else none
  | c1 :: rest => if c1 = Char.ofNat 123 then readMembers rest.length rest else none
  | [] => none

/-- The text of the string members of a map, in order. -/
def showMembers : GoMap JVal → String
  | [] => ""
  | (k, JVal.str v) :: rest => k ++ "=" ++ v ++ ";" ++ showMembers rest
  | (k, _) :: rest => k ++ ";" ++ showMembers rest

/-- Decimal text of an integer. -/
def showInt (n : Int) : String :=
  if 0 ≤ n then Nat.repr n.toNat else "-" ++ Nat.repr (-n).toNat

/-- The number written by a list of decimal digits. -/
def readDigits : List Char → Option Nat
  | [] => none
  | cs => cs.foldl (fun acc c =>
      match acc with
      | some n => if c.isDigit then some (10 * n + (c.toNat - 48)) else none
      | none => none) (some 0)

/-- The integer written by `showInt`. -/
def readInt : List Char → Option Int
  | [] => none
  | c :: rest =>
    if c = Char.ofNat 45 then (readDigits rest).map (fun n => -(n : Int))
    else (readDigits (c :: rest)).map (fun n => (n : Int))

/-- The text before and after the first occurrence of `sep`. -/
def splitAt (sep : Char) : List Char → Option (List Char × List Char)
  | [] => none
  | c :: rest =>
    if c = sep then some ([], rest)
    else
      match splitAt sep rest with
      | some (a, b) => some (c :: a, b)
      | none => none

/-- The reference layout of a time: instant, `@`, offset. -/
def showTime (t : Time) : String :=
  showInt t.nanos ++ "@" ++ showInt t.offset

/-- The time written by `showTime`. -/
def readTime (s : String) : Option Time :=
  match splitAt (Char.ofNat 64) s.data with
  | some (a, b) =>
    match readInt a, readInt b with
    | some n, some o => some ⟨n, o⟩
    | _, _ => none
  | none => none

/-- The characters that `encoding/json` keeps when it compacts a JSON text:
white space outside strings is dropped.  `inStr` tells that the reader is
inside a string, `esc` that the previous character was a backslash there. -/
def compactChars (inStr esc : Bool) : List Char → List Char
  | [] => []
  | c :: rest =>
    if inStr then
      if esc then c :: compactChars true false rest
      else if c = Char.ofNat 92 then c :: compactChars true true rest
      else if c = Char.ofNat 34 then c :: compactChars false false rest
      else c :: compactChars true false rest
    else if c = Char.ofNat 32 ∨ c = Char.ofNat 9 ∨ c = Char.ofNat 10 ∨ c = Char.ofNat 13 then
      compactChars false false rest
    else if c = Char.ofNat 34 then c :: compactChars true false rest
    else c :: compactChars false false rest

/-- The compacted form of a JSON text, as `json.Marshal` writes a
`json.RawMessage`. -/
def compact (s : String) : String := String.mk (compactChars false false s.data)

/-- The reference text of a stored event. -/
def showEvent (e : StoredEvent) : String :=
  e.ID ++ "|" ++ e.Source ++ "|" ++ e.EventType ++ "|" ++ e.Subject ++ "|" ++
    showTime e.Time ++ "|" ++ showMembers e.Extensions ++ "|" ++ compact e.Data ++ "|" ++
    e.IntegrityHash ++ "|" ++ showTime e.IngestedAt ++ ";"

/-- The reference text of a list of stored events; there is none when a body
is not a JSON document. -/
def showEvents (events : List StoredEvent) : Option String :=
  if events.all (fun e => (readObject (compact e.Data)).isSome) then
    some (String.join (events.map showEvent))
  else none

/-- The reference library. -/
def refLib : StdLib where
  sha256Hex := fun s => s
  toLower := fun s => String.mk (s.data.map Char.toLower)
  formatRFC3339 := fun t => showTime ⟨t.nanos - t.nanos % 1000000000, t.offset⟩
  formatRFC3339Nano := showTime
  parseRFC3339Nano := readTime
  jsonMarshalCanon := fun c =>
    if (readObject (compact c.Data)).isSome then
      some (c.SpecVersion ++ "|" ++ c.ID ++ "|" ++ c.Source ++ "|" ++ c.EventType ++ "|" ++
        c.Subject ++ "|" ++ c.Time ++ "|" ++ showMembers c.Extensions ++ "|" ++ compact c.Data)
    else none
  jsonUnmarshalObject := readObject
  jsonUnmarshalObjects := fun _ => none
  jsonMarshalCursor := fun ts id => ts ++ "|" ++ id
  jsonUnmarshalCursor := fun s =>
    match splitAt (Char.ofNat 124) s.data with
    | some (a, b) => some (String.mk a, String.mk b)
    | none => none
  base64Encode := fun s => s
  base64Decode := fun s => some s
  jsonMarshalEvents := showEvents
  jsonMarshalCanonical := fun c =>
    (showEvents c.timeline).map (fun t =>
      c.application ++ "|" ++ c.change_id ++ "|" ++ c.cluster ++ "|" ++
        c.external_change_id ++ "|" ++ c.initiator ++ "|" ++ c.namespace_ ++ "|" ++
        showMembers c.post_deploy_degradation ++ "|" ++ c.result ++ "|" ++ c.revision ++ "|" ++
        c.source ++ "|" ++ c.ticket_id ++ "|" ++ t)
  jsonMarshalIndentPayload := fun p =>
    (showEvents p.Items).map (fun t =>
      p.SchemaVersion ++ "|" ++ p.ChangeID ++ "|" ++ showTime p.GeneratedAt ++ "|" ++
        showTime p.CreatedAt ++ "|" ++ showInt p.Count ++ "|" ++ p.ChecksumSHA256 ++ "|" ++
        p.Deterministic ++ "|" ++ t)
  filepathJoin := fun dir name => dir ++ "/" ++ name
  jsonMarshalStringMap := fun m => (m.get? "ts").getD "" ++ "|" ++ (m.get? "id").getD ""
  jsonUnmarshalStringMap := fun s =>
    match splitAt (Char.ofNat 124) s.data with
    | some (a, b) => some [("ts", String.mk a), ("id", String.mk b)]
    | none => none
  rawBase64Encode := fun s => s
  rawBase64Decode := fun s => some s
  formatInt := showInt
  parseRFC3339 := readTime


/-! ## Predicates used in the statements -/

/-- The invariant of the event map: keys are distinct, every event is stored
under its own id, and every stored event passes `validateStoredEvent`. -/
def RepoInv (m : MemoryRepository) : Prop :=
  m.events.keys.Nodup ∧ ∀ p ∈ m.events, p.1 = p.2.ID ∧ validateStoredEvent p.2 = none

/-- The integrity hash that `IngestEvent` compares and stores: the field of
the event, or the computed hash when the field is empty; `none` when the
computation fails. -/
def effectiveHash (L : StdLib) (e : StoredEvent) : Option String :=
  if e.IntegrityHash = "" then ComputeIntegrityHash L e else some e.IntegrityHash

/-- The event that `IngestEvent` stores for an accepted event whose hash is
filled in: `ingested_at` is stamped when it is zero. -/
def stamped (clock : Time) (event : StoredEvent) : StoredEvent :=
  if event.IngestedAt.IsZero then { event with IngestedAt := clock.UTC } else event


/-! ## Example data -/

/-- The event of the idempotent-ingest scenario. -/
def sampleEvent : StoredEvent :=
  { ID := "e1", EventType := "push", Source := "git", Subject := "payments-api",
    Time := ⟨63906926400000000000, 0⟩,
    Extensions := [("cluster", JVal.str "eu-1"), ("namespace", JVal.str "prod-eu")],
    Data := "\x7b\"repo\":\"o/p\"\x7d", IntegrityHash := "", IngestedAt := Time.zero }

/-- The sample event with a body that is not a JSON document. -/
def brokenBodyEvent : StoredEvent := { sampleEvent with Data := "\x7b" }

/-- The sample event with another body. -/
def otherBodyEvent : StoredEvent := { sampleEvent with Data := "\x7b\"repo\":\"o/q\"\x7d" }


/-! ## Predicates on timelines -/

/-- The pair an event is ordered by: instant, then id. -/
def eventKey (e : StoredEvent) : Lex (Int × String) := toLex (e.Time.nanos, e.ID)

/-- Event `a` comes before event `b` in (time ASC, id ASC) order. -/
def timeOrdered (a b : StoredEvent) : Prop :=
  a.Time.Before b.Time = true ∨ (a.Time.Equal b.Time = true ∧ a.ID < b.ID)

/-- The events of the repository that pass the filters of the query, the cursor
left aside. -/
def matching (L : StdLib) (m : MemoryRepository) (q : TimelineQuery) : List StoredEvent :=
  m.events.values.filter (timelineFilter L q)

/-- The library decodes the cursor of every stored event to the instant and id
that were encoded. -/
def CursorRoundTrips (L : StdLib) (m : MemoryRepository) : Prop :=
  ∀ e ∈ m.events.values,
    decodeCursor L (encodeCursor L e.Time e.ID) = Except.ok (e.Time.UTC, e.ID)

/-- A second event, one minute after the sample event. -/
def sampleEvent2 : StoredEvent :=
  { sampleEvent with ID := "e2", Time := ⟨63906926460000000000, 0⟩ }

/-- A third event, at the instant of the second. -/
def sampleEvent3 : StoredEvent :=
  { sampleEvent with ID := "e3", Time := ⟨63906926460000000000, 0⟩ }

/-- The repository after the three sample events were ingested, latest first. -/
def sampleRepo : MemoryRepository :=
  (IngestEvent refLib ⟨9, 0⟩
    (IngestEvent refLib ⟨8, 0⟩
      (IngestEvent refLib ⟨7, 0⟩ NewMemoryRepository sampleEvent3).2 sampleEvent2).2
    sampleEvent).2

/-- A query for the subject of the sample events, one event per page. -/
def sampleQuery : TimelineQuery :=
  { Subject := "payments-api", Cluster := "eu-1", Namespace := "prod-eu",
    From := Time.zero, To := Time.zero, Source := "", EventType := "",
    CorrelationKey := "", CorrelationValue := "", IncludeSupporting := false,
    Limit := 1, Cursor := "" }


/-! ## Auxiliary functions on changes -/

/-- The change id of an event. -/
def changeID (L : StdLib) (e : StoredEvent) : String := (deriveChangeIdentity L e).1

/-- The events of a list that have the change id `id`, in the order of the list. -/
def group (L : StdLib) (id : String) (events : List StoredEvent) : List StoredEvent :=
  events.filter (fun e => decide (changeID L e = id))

/-- The entry that `buildChangesByID` creates when `e` is the first event of its
change. -/
def freshDetail (L : StdLib) (e : StoredEvent) : ChangeDetail :=
  newChangeDetail (deriveChangeIdentity L e).1 (deriveChangeIdentity L e).2.1
    (deriveChangeIdentity L e).2.2.1 (deriveChangeIdentity L e).2.2.2 e

/-- The entry that the first loop of `buildChangesByID` holds for a change
whose events are `g`, in order. -/
def accumulated (L : StdLib) (g : List StoredEvent) : Option ChangeDetail :=
  match g with
  | [] => none
  | e0 :: _ => some (g.foldl (absorbEvent L) (freshDetail L e0))


/-! ## Predicates on changes -/

/-- Event `a` is not after event `b` in (time ASC, id ASC) order. -/
def timeOrderedOrSame (a b : StoredEvent) : Prop :=
  a.Time.Before b.Time = true ∨ (a.Time.Equal b.Time = true ∧ a.ID ≤ b.ID)

/-- The text contains one of the words. -/
def containsAny (text : String) (words : List String) : Bool :=
  words.any (fun w => Contains text w)

/-- The words that make `inferResultStatus` answer `failed`. -/
def failureWords : List String := ["fail", "error", "degrad", "abort"]

/-- The words that make `inferResultStatus` answer `succeeded`. -/
def successWords : List String := ["success", "succeed", "healthy", "complete"]

/-- The start of an operation: a `sync.started` event that reports `Healthy`. -/
def syncStarted : StoredEvent :=
  { ID := "evt-start", EventType := "argo.sync.started", Source := "argocd",
    Subject := "payments-api", Time := ⟨1000, 0⟩,
    Extensions := [("cluster", JVal.str "eu-1"), ("namespace", JVal.str "prod-eu"),
      ("operation_id", JVal.str "op-1"), ("sync_revision", JVal.str "rev-1"),
      ("health_status", JVal.str "Healthy")],
    Data := "\x7b\"argocd_app\":\"payments-api\"\x7d", IntegrityHash := "",
    IngestedAt := Time.zero }

/-- A health change to `Degraded` during the operation. -/
def healthDegraded : StoredEvent :=
  { ID := "evt-mid", EventType := "argo.health.changed", Source := "argocd",
    Subject := "payments-api", Time := ⟨2000, 0⟩,
    Extensions := [("cluster", JVal.str "eu-1"), ("namespace", JVal.str "prod-eu"),
      ("operation_id", JVal.str "op-1"), ("sync_revision", JVal.str "rev-1"),
      ("health_status", JVal.str "Degraded")],
    Data := "\x7b\"argocd_app\":\"payments-api\"\x7d", IntegrityHash := "",
    IngestedAt := Time.zero }

/-- The end of the operation: a `sync.finished` event with status `Succeeded`. -/
def syncFinished : StoredEvent :=
  { ID := "evt-end", EventType := "argo.sync.finished", Source := "argocd",
    Subject := "payments-api", Time := ⟨3000, 0⟩,
    Extensions := [("cluster", JVal.str "eu-1"), ("namespace", JVal.str "prod-eu"),
      ("operation_id", JVal.str "op-1"), ("sync_revision", JVal.str "rev-1")],
    Data := "\x7b\"status\":\"Succeeded\"\x7d", IntegrityHash := "",
    IngestedAt := Time.zero }

/-- The three events of the sample operation. -/
def sampleOperation : List StoredEvent := [syncStarted, healthDegraded, syncFinished]

/-- The change id of the sample operation under the reference library. -/
def sampleChangeID : String := "chg_payments-api:prod-eu:eu-1:argo:op-1"


/-- The change that `buildChangesByID` derives from the sample operation, with
the clock at 5000. -/
def sampleChange : ChangeDetail :=
  finalizeChange refLib ⟨5000, 0⟩
    (sampleOperation.foldl (absorbEvent refLib) (freshDetail refLib syncStarted))


/-- The health that the first event reporting `healthy` or `missing` reports,
`unknown` when no event reports either. -/
def firstSettledHealth (L : StdLib) (g : List StoredEvent) : String :=
  ((g.map (inferHealthStatus L)).find?
    (fun h => decide (h = "healthy") || decide (h = "missing"))).getD "unknown"

/-- An event of operation `op-2` that reports `Missing`. -/
def reportsMissing : StoredEvent :=
  { ID := "evt-a", EventType := "argo.health.changed", Source := "argocd",
    Subject := "payments-api", Time := ⟨1000, 0⟩,
    Extensions := [("cluster", JVal.str "eu-1"), ("namespace", JVal.str "prod-eu"),
      ("operation_id", JVal.str "op-2"), ("health_status", JVal.str "Missing")],
    Data := "\x7b\x7d", IntegrityHash := "", IngestedAt := Time.zero }

/-- A later event of operation `op-2` that reports `Healthy`. -/
def reportsHealthy : StoredEvent :=
  { ID := "evt-b", EventType := "argo.health.changed", Source := "argocd",
    Subject := "payments-api", Time := ⟨2000, 0⟩,
    Extensions := [("cluster", JVal.str "eu-1"), ("namespace", JVal.str "prod-eu"),
      ("operation_id", JVal.str "op-2"), ("health_status", JVal.str "Healthy")],
    Data := "\x7b\x7d", IntegrityHash := "", IngestedAt := Time.zero }

/-- The change of operation `op-2`, built from the two events in time order. -/
def missingThenHealthy : ChangeDetail :=
  finalizeChange refLib ⟨5000, 0⟩
    ([reportsMissing, reportsHealthy].foldl (absorbEvent refLib)
      (freshDetail refLib reportsMissing))


/-- The test of the loop of `finalizeChange` for a degradation after the start. -/
def degradedAfter (L : StdLib) (startedAt : Time) (e : StoredEvent) : Bool :=
  e.Time.After startedAt && decide (inferHealthStatus L e = "degraded")


/-- The extension keys that `deriveChangeIdentity` searches for the reference. -/
def referenceKeys : List String :=
  ["primary_reference", "operation_id", "history_id", "deploy_id", "pipeline_id", "run_id",
    "job_id"]

/-- The lower-cased `subject:namespace:cluster` of an event. -/
def subjectKey (L : StdLib) (e : StoredEvent) : String :=
  L.toLower (e.Subject ++ ":" ++ ExtensionString e.Extensions "namespace" ++ ":" ++
    ExtensionString e.Extensions "cluster")

/-- An event without any reference extension, at revision `rev-1`. -/
def unreferenced1 : StoredEvent :=
  { ID := "evt-r1", EventType := "deploy", Source := "jenkins",
    Subject := "payments-api", Time := ⟨1000, 0⟩,
    Extensions := [("cluster", JVal.str "eu-1"), ("namespace", JVal.str "prod-eu"),
      ("revision", JVal.str "rev-1")],
    Data := "\x7b\x7d", IntegrityHash := "", IngestedAt := Time.zero }

/-- The same event at revision `rev-2`. -/
def unreferenced2 : StoredEvent :=
  { unreferenced1 with
    ID := "evt-r2"
    Extensions := [("cluster", JVal.str "eu-1"), ("namespace", JVal.str "prod-eu"),
      ("revision", JVal.str "rev-2")] }


/-- An event of a change, written with capitals, that names its provider,
reference, revision, initiator and correlation fields and reports `Missing`. -/
def mixedCaseEvent : StoredEvent :=
  { ID := "evt-x", EventType := "deploy", Source := "ci",
    Subject := "Payments", Time := ⟨1000, 0⟩,
    Extensions := [("cluster", JVal.str "EU-1"), ("namespace", JVal.str "Prod"),
      ("primary_provider", JVal.str "x:y"), ("primary_reference", JVal.str "z"),
      ("revision", JVal.str "rev-a"), ("initiator", JVal.str "alice"),
      ("external_change_id", JVal.str "CHG-1"), ("ticket_id", JVal.str "T-1"),
      ("approval_reference", JVal.str "AP-1"), ("health_status", JVal.str "Missing")],
    Data := "\x7b\x7d", IntegrityHash := "", IngestedAt := Time.zero }

/-- An event with the same change id as `mixedCaseEvent`, written in lower case,
with other values in every one of those fields; it reports `Healthy`. -/
def lowerCaseEvent : StoredEvent :=
  { ID := "evt-y", EventType := "deploy", Source := "ci",
    Subject := "payments", Time := ⟨2000, 0⟩,
    Extensions := [("cluster", JVal.str "eu-1"), ("namespace", JVal.str "prod"),
      ("primary_provider", JVal.str "x"), ("primary_reference", JVal.str "y:z"),
      ("revision", JVal.str "rev-b"), ("initiator", JVal.str "bob"),
      ("external_change_id", JVal.str "CHG-2"), ("ticket_id", JVal.str "T-2"),
      ("approval_reference", JVal.str "AP-2"), ("health_status", JVal.str "Healthy")],
    Data := "\x7b\x7d", IntegrityHash := "", IngestedAt := Time.zero }

/-- An event with id `dup` that reports `Healthy`. -/
def sameIdHealthy : StoredEvent :=
  { ID := "dup", EventType := "argo.health.changed", Source := "argocd",
    Subject := "payments-api", Time := ⟨1000, 0⟩,
    Extensions := [("operation_id", JVal.str "op-3"), ("health_status", JVal.str "Healthy")],
    Data := "\x7b\x7d", IntegrityHash := "", IngestedAt := Time.zero }

/-- An event with the same id and time that reports `Degraded`. -/
def sameIdDegraded : StoredEvent :=
  { sameIdHealthy with
    Extensions := [("operation_id", JVal.str "op-3"), ("health_status", JVal.str "Degraded")] }

/-- The summary fields of the change with the given id, as text, that the
first loop of `buildChangesByID` takes from the events in input order. -/
def inputOrderFields (L : StdLib) (clock : Time) (events : List StoredEvent) (id : String) :
    Option (List String) :=
  ((buildChangesByID L clock events).get? id).map (fun c =>
    [c.Change.Subject, c.Change.TargetCluster, c.Change.Namespace, c.Change.PrimaryProvider,
      c.Change.Revision, c.Change.Initiator, c.Change.ExternalChangeID, c.Change.TicketID,
      c.Change.ApprovalReference, c.Change.HealthStatus])


/-- The pair a change is ordered by in `buildChanges`: `completed_at`
descending, then id. -/
def changeKey (c : Change) : Lex (Int × String) := toLex (-c.CompletedAt.nanos, c.ID)

/-- Two entries for one change agree on the fields that do not depend on the
order of the input. -/
def sameDerivedSummary (c c2 : ChangeDetail) : Prop :=
  c2.Change.HasApprovals = c.Change.HasApprovals ∧
    c2.Change.ResultStatus = c.Change.ResultStatus ∧
    c2.Change.HealthAtOperationStart = c.Change.HealthAtOperationStart ∧
    c2.Change.HealthAfterDeploy = c.Change.HealthAfterDeploy ∧
    c2.Change.PostDeployDegradation = c.Change.PostDeployDegradation ∧
    c2.Change.StartedAt = c.Change.StartedAt ∧
    c2.Change.CompletedAt = c.Change.CompletedAt ∧
    c2.Change.EventCount = c.Change.EventCount ∧
    c2.Events = c.Events

/-! ## Sequences of repository operations -/

/-- The methods of `MemoryRepository`, with their arguments. -/
inductive RepoOp where
  | ingestEvent (clock : Time) (event : StoredEvent)
  | getEvent (id : String)
  | queryTimeline (q : TimelineQuery)
  | listSubjects
  | eventsByExtension (key value : String) (limit : Int)
  | createExport (clock1 clock2 : Time) (format : String) (filter : GoMap JVal)
  | setExportCompleted (clock : Time) (id artifactURI : String)
  | setExportFailed (clock : Time) (id message : String)
  | getExport (id : String)
  | deleteEvent (id : String)

/-- The repository after one method call; the read methods and `DeleteEvent`
assign to no field. -/
def applyOp (L : StdLib) (m : MemoryRepository) : RepoOp → MemoryRepository
  | RepoOp.ingestEvent clock event => (IngestEvent L clock m event).2
  | RepoOp.createExport clock1 clock2 format filter => (CreateExport clock1 clock2 m format filter).2
  | RepoOp.setExportCompleted clock id uri => (SetExportCompleted clock m id uri).2
  | RepoOp.setExportFailed clock id message => (SetExportFailed clock m id message).2
  | RepoOp.getEvent _ => m
  | RepoOp.queryTimeline _ => m
  | RepoOp.listSubjects => m
  | RepoOp.eventsByExtension _ _ _ => m
  | RepoOp.getExport _ => m
  | RepoOp.deleteEvent _ => m

/-- The repository after a sequence of method calls. -/
def runOps (L : StdLib) (m : MemoryRepository) (ops : List RepoOp) : MemoryRepository :=
  ops.foldl (applyOp L) m

/-- The event carries the hash of its own content. -/
def carriesOwnHash (L : StdLib) (s : StoredEvent) : Prop :=
  ComputeIntegrityHash L s = some s.IntegrityHash

/-- The sample event arriving with a hash that is not the hash of its content. -/
def forgedHashEvent : StoredEvent := { sampleEvent with IntegrityHash := "forged" }

/-- The sample event arriving with an ingestion time already set. -/
def presetIngestedAt : StoredEvent := { sampleEvent with IngestedAt := ⟨5, 0⟩ }

/-! ## Predicates on the health of a change -/

/-- The event reports a health: `inferHealthStatus` does not answer `unknown`. -/
def reportsHealth (L : StdLib) (e : StoredEvent) : Bool :=
  decide (inferHealthStatus L e ≠ "unknown")

/-- The event reports a health and is not before `completedAt`. -/
def reportsAtEnd (L : StdLib) (completedAt : Time) (e : StoredEvent) : Bool :=
  reportsHealth L e && !e.Time.Before completedAt

/-- The health that the last event of the list reports, `dflt` for the empty list. -/
def lastReport (L : StdLib) (l : List StoredEvent) (dflt : String) : String :=
  match l.getLast? with
  | some e => inferHealthStatus L e
  | none => dflt

/-- An event of operation `op-4` at time 1000 that reports `Healthy`. -/
def tieHealthy : StoredEvent :=
  { ID := "evt-1", EventType := "argo.health.changed", Source := "argocd",
    Subject := "payments-api", Time := ⟨1000, 0⟩,
    Extensions := [("operation_id", JVal.str "op-4"), ("health_status", JVal.str "Healthy")],
    Data := "\x7b\x7d", IntegrityHash := "", IngestedAt := Time.zero }

/-- An event of operation `op-4` at the same time, with a greater id, that
reports `Degraded`. -/
def tieDegraded : StoredEvent :=
  { ID := "evt-2", EventType := "argo.health.changed", Source := "argocd",
    Subject := "payments-api", Time := ⟨1000, 0⟩,
    Extensions := [("operation_id", JVal.str "op-4"), ("health_status", JVal.str "Degraded")],
    Data := "\x7b\x7d", IntegrityHash := "", IngestedAt := Time.zero }

/-- The change of operation `op-4`. -/
def tiedChange : ChangeDetail :=
  finalizeChange refLib ⟨5000, 0⟩
    ([tieHealthy, tieDegraded].foldl (absorbEvent refLib) (freshDetail refLib tieHealthy))

/-! ## The canonical form of an event -/

/-- The struct literal `canon` of `ComputeIntegrityHash`: what the function
hands to `json.Marshal`. -/
def canon (L : StdLib) (e : StoredEvent) : Canon :=
  { SpecVersion := "1.0"
    ID := e.ID
    Source := e.Source
    EventType := e.EventType
    Subject := e.Subject
    Time := L.formatRFC3339Nano e.Time.UTC
    Extensions := sortedExtensions e.Extensions
    Data := e.Data }

/-- The sample event as another producer writes it: the same instant in a zone
two hours east of UTC, and the extensions entered in the other order. -/
def reorderedEvent : StoredEvent :=
  { sampleEvent with
    Time := ⟨63906926400000000000, 7200⟩
    Extensions := [("namespace", JVal.str "prod-eu"), ("cluster", JVal.str "eu-1")] }

/-- The sample event with a blank after the colon of its body. -/
def spacedBodyEvent : StoredEvent := { sampleEvent with Data := "\x7b\"repo\": \"o/p\"\x7d" }

/-! ## internal/export: the evidence pack -/

/-- Go `sortedEvents`: a copy of the events sorted by time, then id; the
closure it sorts with is the comparison `eventLess`. -/
def sortedEvents (events : List StoredEvent) : List StoredEvent :=
  sortSlice eventLess events

/-- The loop over `keys` of `dataStringField`. -/
def dataStringFieldKeys (m : GoMap JVal) : List String → String
  | [] => ""
  | k :: keys =>
    match m.get? k with
    | some (JVal.str s) =>
      if TrimSpace s ≠ "" then TrimSpace s else dataStringFieldKeys m keys
    | _ => dataStringFieldKeys m keys

/-- Go `dataStringField`. -/
def dataStringField (L : StdLib) (data : String) (keys : List String) : String :=
  if data.length = 0 then ""
  else
    match L.jsonUnmarshalObject data with
    | none => ""
    | some m => dataStringFieldKeys m keys

/-- The loops `for _, k := range []string{...}` of `derivePrimaryChange`: the
first of the keys whose trimmed extension is not empty, `""` if there is none. -/
def firstTrimmedExtension (extensions : GoMap JVal) : List String → String
  | [] => ""
  | k :: keys =>
    if TrimSpace (ExtensionString extensions k) ≠ "" then TrimSpace (ExtensionString extensions k)
    else firstTrimmedExtension extensions keys

/-- One round of the loop of `derivePrimaryChange`, on the view `out` and the
variable `result`. -/
def derivePrimaryChangeStep (L : StdLib) (st : exportChangeView × String) (e : StoredEvent) :
    exportChangeView × String :=
  let out := st.1
  let result := st.2
  let out := if out.ChangeID = "" then
      { out with ChangeID := TrimSpace (ExtensionString e.Extensions "change_id") }
    else out
  let out := if out.Revision = "" then
      { out with Revision :=
          firstTrimmedExtension e.Extensions ["sync_revision", "revision", "commit_sha"] }
    else out
  let out := if out.Initiator = "" then
      { out with Initiator := TrimSpace (ExtensionString e.Extensions "initiator") }
    else out
  let out := if out.ExternalChangeID = "" then
      { out with ExternalChangeID :=
          firstTrimmedExtension e.Extensions ["external_change_id", "change_id"] }
    else out
  let out := if out.TicketID = "" then
      { out with TicketID :=
          firstTrimmedExtension e.Extensions ["ticket_id", "ticket_key_primary"] }
    else out
  let statusVal := dataStringField L e.Data ["status", "phase", "result", "outcome"]
  let bucket := L.toLower (e.EventType ++ " " ++ statusVal)
  let result :=
    if Contains bucket "fail" || Contains bucket "error" || Contains bucket "degrad" ||
        Contains bucket "abort" then "failed"
    else if result ≠ "failed" && (Contains bucket "success" || Contains bucket "succeed" ||
        Contains bucket "complete") then "succeeded"
    else result
  (out, result)

/-- Go `derivePrimaryChange`; a nil map is the empty map. -/
def derivePrimaryChange (L : StdLib) (events : List StoredEvent) : exportChangeView :=
  match events with
  | [] =>
    { ChangeID := "", Application := "", Cluster := "", Namespace := "", Revision := "",
      Initiator := "", Result := "", ExternalChangeID := "", TicketID := "",
      PostDeployDegradation := [] }
  | first :: _ =>
    let out : exportChangeView :=
      { ChangeID := "", Application := first.Subject,
        Cluster := ExtensionString first.Extensions "cluster",
        Namespace := ExtensionString first.Extensions "namespace", Revision := "",
        Initiator := "", Result := "", ExternalChangeID := "", TicketID := "",
        PostDeployDegradation := [] }
    let st := events.foldl (derivePrimaryChangeStep L) (out, "unknown")
    let out := { st.1 with Result := st.2 }
    let out := if out.ChangeID = "" then
        { out with ChangeID := "chg_" ++ stableHash L (out.Application ++ ":" ++ out.Cluster ++
            ":" ++ out.Namespace ++ ":" ++ out.Revision) }
      else out
    { out with PostDeployDegradation := [("observed", JVal.bool false)] }

/-- The map `canonical` that `CreateEvidencePack` builds from the sorted events. -/
def canonical (L : StdLib) (events : List StoredEvent) : CanonicalPack :=
  let change := derivePrimaryChange L events
  { change_id := change.ChangeID
    source := "argocd"
    application := change.Application
    cluster := change.Cluster
    namespace_ := change.Namespace
    revision := change.Revision
    initiator := change.Initiator
    result := change.Result
    external_change_id := change.ExternalChangeID
    ticket_id := change.TicketID
    post_deploy_degradation := change.PostDeployDegradation
    timeline := events }

/-- Go `FilesystemExporter.CreateEvidencePack`: the path and the payload that
is written, `none` on an error.  `mkdirAll` and `writeFile` tell whether
`os.MkdirAll` and `os.WriteFile` succeed; `now1` and `now2` are the two
readings of the clock. -/
def CreateEvidencePack (L : StdLib) (mkdirAll writeFile : Bool) (now1 now2 : Time)
    (baseDir jobID : String) (events : List StoredEvent) : Option (String × Payload) :=
  if !mkdirAll then none
  else
    let path := L.filepathJoin baseDir (jobID ++ ".json")
    let events := sortedEvents events
    match L.jsonMarshalEvents events with
    | none => none
    | some itemsJSON =>
      let sum := L.sha256Hex itemsJSON
      let change := derivePrimaryChange L events
      match L.jsonMarshalCanonical (canonical L events) with
      | none => none
      | some canonicalJSON =>
        let canonicalSum := L.sha256Hex canonicalJSON
        let payload : Payload :=
          { SchemaVersion := "evidence-pack/v1"
            ChangeID := change.ChangeID
            GeneratedAt := now1.UTC
            Source := "argocd"
            Application := change.Application
            Cluster := change.Cluster
            Namespace := change.Namespace
            Revision := change.Revision
            Initiator := change.Initiator
            Result := change.Result
            ExternalChange := change.ExternalChangeID
            TicketID := change.TicketID
            Degradation := change.PostDeployDegradation
            Timeline := events
            CreatedAt := now2.UTC
            Count := events.length
            ChecksumSHA256 := sum
            Deterministic := canonicalSum
            Items := events }
        match L.jsonMarshalIndentPayload payload with
        | none => none
        | some _ => if writeFile then some (path, payload) else none

/-- The deterministic hash, under the reference library, of the pack of the
first two sample events. -/
def samplePackHash : String :=
  "payments-api|chg_payments-api:eu-1:prod-eu:|eu-1|||prod-eu|observed;|unknown||argocd||" ++
    "e1|git|push|payments-api|63906926400000000000@0|cluster=eu-1;namespace=prod-eu;|" ++
    "\x7b\"repo\":\"o/p\"\x7d||0@0;" ++
    "e2|git|push|payments-api|63906926460000000000@0|cluster=eu-1;namespace=prod-eu;|" ++
    "\x7b\"repo\":\"o/p\"\x7d||0@0;"

/-! ## internal/app: the list of changes -/

/-- The struct `ParsedSubject`. -/
structure ParsedSubject where
  App : String
  Environment : String
  Cluster : String

/-- The struct `ChangeQuery`. -/
structure ChangeQuery where
  Subject : ParsedSubject
  From : Time
  To : Time
  Q : String
  ResultStatus : String
  HealthStatus : String
  ExternalChangeID : String
  ExternalChangeIDState : String
  TicketID : String
  TicketIDState : String
  ApprovalReference : String
  HasApprovals : String
  Limit : Int
  Cursor : String

/-- The struct `ChangeListResult`. -/
structure ChangeListResult where
  Items : List Change
  NextCursor : String

/-- Go `eventMatchesQuery`. -/
def eventMatchesQuery (L : StdLib) (e : StoredEvent) (q : String) : Bool :=
  if Contains (L.toLower e.ID) q then true
  else if Contains (L.toLower e.Source) q || Contains (L.toLower e.EventType) q then true
  else if Contains (L.toLower e.Subject) q then true
  else if e.Extensions.values.any (fun v =>
      match v with
      | JVal.str s => Contains (L.toLower s) q
      | _ => false) then true
  else Contains (L.toLower e.Data) q

/-- Go `filterEventsByQuery`. -/
def filterEventsByQuery (L : StdLib) (events : List StoredEvent) (q : String) :
    List StoredEvent :=
  let q := L.toLower (TrimSpace q)
  if q = "" then events
  else events.filter (fun e => eventMatchesQuery L e q)

/-- Go `Service.eventsForChangeQuery`, on the in-memory repository. -/
def eventsForChangeQuery (L : StdLib) (m : MemoryRepository) (q : ChangeQuery) :
    Except Error (List StoredEvent) :=
  match QueryTimeline L m
      { Subject := q.Subject.App, Namespace := q.Subject.Environment,
        Cluster := q.Subject.Cluster, From := q.From.UTC, To := q.To.UTC,
        IncludeSupporting := true, Limit := 500, Source := "", EventType := "",
        CorrelationKey := "", CorrelationValue := "", Cursor := "" } with
  | Except.error err => Except.error err
  | Except.ok res =>
    if TrimSpace q.Q ≠ "" then Except.ok (filterEventsByQuery L res.Items q.Q)
    else Except.ok res.Items

/-- The tests of the loop of `filterChanges`: `false` where the loop says
`continue`. -/
def changeFilter (L : StdLib) (q : ChangeQuery) (c : Change) : Bool :=
  let wantExternal := TrimSpace q.ExternalChangeID
  let wantTicket := TrimSpace q.TicketID
  let wantApprovalRef := TrimSpace q.ApprovalReference
  let externalState := L.toLower (TrimSpace q.ExternalChangeIDState)
  let ticketState := L.toLower (TrimSpace q.TicketIDState)
  let wantHasApprovals := L.toLower (TrimSpace q.HasApprovals)
  if q.ResultStatus ≠ "" && c.ResultStatus ≠ q.ResultStatus then false
  else if q.HealthStatus ≠ "" && c.HealthStatus ≠ q.HealthStatus then false
  else if externalState = "set" && TrimSpace c.ExternalChangeID = "" then false
  else if externalState = "unset" && TrimSpace c.ExternalChangeID ≠ "" then false
  else if wantExternal ≠ "" && !EqualFold c.ExternalChangeID wantExternal then false
  else if ticketState = "set" && TrimSpace c.TicketID = "" then false
  else if ticketState = "unset" && TrimSpace c.TicketID ≠ "" then false
  else if wantTicket ≠ "" && !EqualFold c.TicketID wantTicket then false
  else if wantApprovalRef ≠ "" && !EqualFold c.ApprovalReference wantApprovalRef then false
  else if wantHasApprovals = "yes" && !c.HasApprovals then false
  else if wantHasApprovals = "no" && c.HasApprovals then false
  else true

/-- Go `filterChanges`. -/
def filterChanges (L : StdLib) (changes : List Change) (q : ChangeQuery) : List Change :=
  changes.filter (changeFilter L q)

/-- Go `encodeChangeCursor`. -/
def encodeChangeCursor (L : StdLib) (ts : Time) (id : String) : String :=
  L.rawBase64Encode (L.jsonMarshalStringMap [("ts", L.formatRFC3339Nano ts.UTC), ("id", id)])

/-- Go `decodeChangeCursor`. -/
def decodeChangeCursor (L : StdLib) (cursor : String) : Except Error (Time × String) :=
  if TrimSpace cursor = "" then Except.ok (Time.zero, "")
  else
    match L.rawBase64Decode cursor with
    | none => Except.error Error.ErrInvalidChangeCursor
    | some b =>
      match L.jsonUnmarshalStringMap b with
      | none => Except.error Error.ErrInvalidChangeCursor
      | some payload =>
        match L.parseRFC3339Nano ((payload.get? "ts").getD "") with
        | none => Except.error Error.ErrInvalidChangeCursor
        | some ts =>
          let id := (payload.get? "id").getD ""
          if TrimSpace id = "" then Except.error Error.ErrInvalidChangeCursor
          else Except.ok (ts.UTC, id)

/-- Go `applyChangeCursor`. -/
def applyChangeCursor (changes : List Change) (cursorTS : Time) (cursorID : String) :
    List Change :=
  changes.filter (fun c =>
    c.CompletedAt.Before cursorTS || (c.CompletedAt.Equal cursorTS && strLt cursorID c.ID))

/-- The limit that `ListChanges` applies. -/
def changeLimit (limit : Int) : Nat :=
  if limit ≤ 0 then 100 else if limit > 500 then 500 else limit.toNat

/-- Go `Service.ListChanges`, on the in-memory repository; `clock` is the
value of `time.Now()` that `buildChanges` reads. -/
def ListChanges (L : StdLib) (clock : Time) (m : MemoryRepository) (q : ChangeQuery) :
    Except Error ChangeListResult :=
  match eventsForChangeQuery L m q with
  | Except.error err => Except.error err
  | Except.ok events =>
    let changes := buildChanges L clock events
    let changes := filterChanges L changes q
    match decodeChangeCursor L q.Cursor with
    | Except.error _ => Except.error Error.ErrInvalidChangeCursor
    | Except.ok (cursorTS, cursorID) =>
      let changes :=
        if !cursorTS.IsZero then applyChangeCursor changes cursorTS cursorID else changes
      let limit := changeLimit q.Limit
      if changes.length > limit then
        let items := changes.take limit
        match items.getLast? with
        | some last => Except.ok ⟨items, encodeChangeCursor L last.CompletedAt last.ID⟩
        | none => Except.ok ⟨items, ""⟩
      else Except.ok ⟨changes, ""⟩

/-- The client loop that follows `NextCursor` until it is empty and
concatenates the pages; the calls are made at the times `clocks`, one after
the other.  The result is `none` when a call fails or the times run out before
the last page. -/
def collectChangePages (L : StdLib) (m : MemoryRepository) (q : ChangeQuery) :
    List Time → Option (List Change)
  | [] => none
  | clock :: clocks =>
    match ListChanges L clock m q with
    | Except.error _ => none
    | Except.ok r =>
      if r.NextCursor = "" then some r.Items
      else
        match collectChangePages L m { q with Cursor := r.NextCursor } clocks with
        | none => none
        | some rest => some (r.Items ++ rest)

/-- The sorted, filtered list of changes that `ListChanges` builds before it
applies the cursor and the limit, with the clock at `clock`. -/
def changeList (L : StdLib) (clock : Time) (m : MemoryRepository) (q : ChangeQuery) :
    List Change :=
  match eventsForChangeQuery L m q with
  | Except.error _ => []
  | Except.ok events => filterChanges L (buildChanges L clock events) q

/-- A change without the one field that depends on the time of the call. -/
def clockFree (c : Change) : Change := { c with EvidenceMayBeIncomplete := false }

/-- The order (completed_at DESC, id ASC): `a` was completed after `b`, or at
the same instant with the smaller id. -/
def changeOrdered (a b : Change) : Prop :=
  b.CompletedAt.nanos < a.CompletedAt.nanos ∨
    (a.CompletedAt.nanos = b.CompletedAt.nanos ∧ strLt a.ID b.ID = true)

/-- The library decodes the cursor of every listed change to the instant and
id that were encoded. -/
def ChangeCursorRoundTrips (L : StdLib) (clock : Time) (m : MemoryRepository)
    (q : ChangeQuery) : Prop :=
  ∀ c ∈ changeList L clock m q,
    decodeChangeCursor L (encodeChangeCursor L c.CompletedAt c.ID) =
      Except.ok (c.CompletedAt.UTC, c.ID)

/-- The changes that `ListChanges` keeps for a decoded cursor. -/
def cursorApplied (changes : List Change) (cursorTS : Time) (cursorID : String) : List Change :=
  if !cursorTS.IsZero then applyChangeCursor changes cursorTS cursorID else changes

/-- The result that `ListChanges` cuts from the changes that passed the cursor. -/
def changePage (L : StdLib) (changes : List Change) (limit : Nat) : ChangeListResult :=
  if changes.length > limit then
    match (changes.take limit).getLast? with
    | some last => ⟨changes.take limit, encodeChangeCursor L last.CompletedAt last.ID⟩
    | none => ⟨changes.take limit, ""⟩
  else ⟨changes, ""⟩

/-- The end of a later operation, `op-2`, of the same application. -/
def laterSync : StoredEvent :=
  { syncFinished with
    ID := "evt-later", Time := ⟨4000, 0⟩,
    Extensions := [("cluster", JVal.str "eu-1"), ("namespace", JVal.str "prod-eu"),
      ("operation_id", JVal.str "op-2")] }

/-- The repository after the events of the sample operation and the later
event were ingested. -/
def changeRepo : MemoryRepository :=
  (IngestEvent refLib ⟨9, 0⟩
    (IngestEvent refLib ⟨9, 0⟩
      (IngestEvent refLib ⟨8, 0⟩
        (IngestEvent refLib ⟨7, 0⟩ NewMemoryRepository syncStarted).2 healthDegraded).2
      syncFinished).2 laterSync).2

/-- A query for the changes of the sample application, one change per page. -/
def changeQuery : ChangeQuery :=
  { Subject := ⟨"payments-api", "prod-eu", "eu-1"⟩, From := Time.zero, To := Time.zero,
    Q := "", ResultStatus := "", HealthStatus := "", ExternalChangeID := "",
    ExternalChangeIDState := "", TicketID := "", TicketIDState := "", ApprovalReference := "",
    HasApprovals := "", Limit := 1, Cursor := "" }

/-! ## internal/ingest/argo: source events of an application -/

/-- The struct `SourceEvent`. -/
structure SourceEvent where
  ID : String
  AppUID : String
  App : String
  Cluster : String
  Namespace : String
  Revision : String
  Occurred : Time
  Actor : String
  EventType : String
  Result : String
  HealthStatus : String
  HistoryID : Int
  OperationKey : String
  Payload : GoMap JVal

/-- The fields of an Argo CD `RevisionHistory` that the code reads;
`DeployStartedAt` is a pointer. -/
structure RevisionHistory where
  ID : Int
  Revision : String
  DeployedAt : Time
  DeployStartedAt : Option Time

/-- The fields of an Argo CD `OperationState` that the code reads;
`FinishedAt` is a pointer, the last two fields are
`Operation.InitiatedBy.Username` and `Operation.InitiatedBy.Automated`. -/
structure OperationState where
  Phase : String
  StartedAt : Time
  FinishedAt : Option Time
  InitiatedByUsername : String
  InitiatedByAutomated : Bool

/-- The fields of an Argo CD `Application` that the code reads:
`UID`, `Name`, `Annotations`, `Spec.Destination.Server` and `.Namespace`,
`Status.Sync.Revision` and `.Revisions`, `Status.History`,
`Status.OperationState` (a pointer), `Status.Health.Status` and
`Status.ReconciledAt` (a pointer). -/
structure Application where
  UID : String
  Name : String
  Annotations : GoMap String
  DestinationServer : String
  DestinationNamespace : String
  SyncRevision : String
  SyncRevisions : List String
  History : List RevisionHistory
  OperationState : Option Evidra.OperationState
  HealthStatus : String
  ReconciledAt : Option Time

/-- Go `timeFromMeta`. -/
def timeFromMeta (ts : Option Time) : Time :=
  match ts with
  | none => Time.zero
  | some t => t.UTC

/-- Go `trimTimeKey`. -/
def trimTimeKey (L : StdLib) (ts : Time) : String :=
  if ts.IsZero then "0" else L.formatInt ts.UTC.Unix

/-- Go `evidraAnnotations`; a nil map is the empty map. -/
def evidraAnnotations (annotations : GoMap String) : GoMap String :=
  if annotations.length = 0 then []
  else
    ["evidra.io/change-id", "evidra.io/ticket", "evidra.io/approvals-ref",
      "evidra.io/approvals-json"].foldl
      (fun out k =>
        if TrimSpace ((annotations.get? k).getD "") ≠ "" then
          out.set k (TrimSpace ((annotations.get? k).getD ""))
        else out) []

/-- Go `resolveActor`. -/
def resolveActor (app : Application) : String :=
  match app.OperationState with
  | some op =>
    if TrimSpace op.InitiatedByUsername ≠ "" then TrimSpace op.InitiatedByUsername
    else if op.InitiatedByAutomated then "argocd-automated"
    else "argocd"
  | none => "argocd"

/-- Go `deterministicHistoryID`. -/
def deterministicHistoryID (L : StdLib) (appUID : String) (historyID : Int)
    (revision : String) (occurred : Time) : String :=
  if historyID > 0 then TrimSpace appUID ++ ":hist:" ++ L.formatInt historyID
  else TrimSpace appUID ++ ":hist:" ++ TrimSpace revision ++ ":" ++ trimTimeKey L occurred

/-- Go `deterministicOperationID`. -/
def deterministicOperationID (appUID opKey suffix : String) : String :=
  TrimSpace appUID ++ ":op:" ++ TrimSpace opKey ++ ":" ++ TrimSpace suffix

/-- Go `deterministicHealthID`. -/
def deterministicHealthID (L : StdLib) (appUID health : String) (occurred : Time) : String :=
  TrimSpace appUID ++ ":health:" ++ L.toLower (TrimSpace health) ++ ":" ++
    trimTimeKey L occurred

/-- Go `operationKey`. -/
def operationKey (L : StdLib) (revision : String) (startedAt finishedAt : Time) : String :=
  let revision := if TrimSpace revision = "" then "unknown" else TrimSpace revision
  if !startedAt.IsZero then revision ++ ":" ++ L.formatInt startedAt.UTC.UnixNano
  else if !finishedAt.IsZero then revision ++ ":" ++ L.formatInt finishedAt.UTC.UnixNano
  else revision ++ ":unknown"

/-- Go `historyOperationKey`. -/
def historyOperationKey (L : StdLib) (historyID : Int) (revision : String) (occurred : Time) :
    String :=
  if historyID > 0 then "hist:" ++ L.formatInt historyID
  else operationKey L revision Time.zero occurred

/-- Go `mostRecentTime`; `clock` is the value of `time.Now()`. -/
def mostRecentTime (clock : Time) (app : Application) : Time :=
  let choices := [timeFromMeta app.ReconciledAt]
  let choices :=
    match app.OperationState with
    | some op => choices ++ [timeFromMeta op.FinishedAt, op.StartedAt.UTC]
    | none => choices
  let choices :=
    match app.History.getLast? with
    | some last =>
      match last.DeployStartedAt with
      | some t => choices ++ [last.DeployedAt.UTC, t.UTC]
      | none => choices ++ [last.DeployedAt.UTC]
    | none => choices
  let latest := choices.foldl
    (fun latest ts => if ts.IsZero then latest else if ts.After latest then ts else latest)
    Time.zero
  if latest.IsZero then clock.UTC else latest.UTC

/-- Go `historyOccurredAt`; `clock` is the value of `time.Now()`. -/
def historyOccurredAt (clock : Time) (history : RevisionHistory) (app : Application) : Time :=
  if !history.DeployedAt.IsZero then history.DeployedAt.UTC
  else
    match history.DeployStartedAt with
    | some t => if !t.IsZero then t.UTC else mostRecentTime clock app
    | none => mostRecentTime clock app

/-- Go `terminalOperationWindow`: the revision, the start and the end of a
terminal operation, and whether there is one. -/
def terminalOperationWindow (app : Application) (revision : String) :
    String × Time × Time × Bool :=
  match app.OperationState with
  | none => ("", Time.zero, Time.zero, false)
  | some op =>
    if op.Phase = "Succeeded" ∨ op.Phase = "Failed" ∨ op.Phase = "Error" then
      let rev := if TrimSpace revision = "" then TrimSpace app.SyncRevision
        else TrimSpace revision
      let startedAt := op.StartedAt.UTC
      let finishedAt :=
        if (timeFromMeta op.FinishedAt).IsZero then startedAt else timeFromMeta op.FinishedAt
      (rev, startedAt, finishedAt, true)
    else ("", Time.zero, Time.zero, false)

/-- The constant `jitter` of `sameRevisionWindow`: two minutes, in nanoseconds. -/
def jitter : Int := 2 * 60 * 1000000000

/-- Go `sameRevisionWindow`. -/
def sameRevisionWindow (historyRevision terminalRevision : String)
    (historyOccurred terminalStartedAt terminalFinishedAt : Time) : Bool :=
  if TrimSpace historyRevision = "" ∨ TrimSpace terminalRevision = "" then false
  else if TrimSpace historyRevision ≠ TrimSpace terminalRevision then false
  else if historyOccurred.IsZero || terminalStartedAt.IsZero || terminalFinishedAt.IsZero then
    true
  else
    !historyOccurred.Before (terminalStartedAt.Add (-jitter)) &&
      !historyOccurred.After (terminalFinishedAt.Add jitter)

/-- The variable `revision` of `toSourceEvents`. -/
def appRevision (app : Application) : String :=
  if app.SyncRevision = "" then
    match app.SyncRevisions with
    | r :: _ => r
    | [] => app.SyncRevision
  else app.SyncRevision

/-- The variable `cluster` of `toSourceEvents`. -/
def appCluster (app : Application) : String :=
  if TrimSpace app.DestinationServer = "" then "unknown" else TrimSpace app.DestinationServer

/-- The annotations entry that `toSourceEvents` adds to a payload. -/
def withAnnotations (app : Application) (payload : GoMap JVal) : GoMap JVal :=
  if (evidraAnnotations app.Annotations).length > 0 then
    payload.set "annotations"
      (JVal.obj ((evidraAnnotations app.Annotations).map (fun p => (p.1, JVal.str p.2))))
  else payload

/-- One round of the loop of `toSourceEvents` over the history: the event of
the entry `h`, `none` where the loop says `continue`; `clock` is the value of
`time.Now()` in this round. -/
def historyEvent (L : StdLib) (clock : Time) (app : Application) (h : RevisionHistory) :
    Option SourceEvent :=
  let revision := appRevision app
  let terminal := terminalOperationWindow app revision
  let occurred := historyOccurredAt clock h app
  let hRevision := if TrimSpace h.Revision = "" then TrimSpace revision else TrimSpace h.Revision
  if terminal.2.2.2 &&
      sameRevisionWindow hRevision terminal.1 occurred terminal.2.1 terminal.2.2.1 then none
  else
    some
      { ID := deterministicHistoryID L (TrimSpace app.UID) h.ID hRevision occurred
        AppUID := TrimSpace app.UID
        App := TrimSpace app.Name
        Cluster := appCluster app
        Namespace := TrimSpace app.DestinationNamespace
        Revision := hRevision
        Occurred := occurred
        Actor := resolveActor app
        EventType := "argo.deployment.recorded"
        Result := "Recorded"
        HealthStatus := ""
        HistoryID := h.ID
        OperationKey := historyOperationKey L h.ID hRevision occurred
        Payload := withAnnotations app
          [("history_id", JVal.num h.ID), ("sync_revision", JVal.str hRevision)] }

/-- The block of `toSourceEvents` on the operation state; `clock` is the value
of `time.Now()` there. -/
def operationEvents (L : StdLib) (clock : Time) (app : Application) : List SourceEvent :=
  match app.OperationState with
  | none => []
  | some op =>
    let revision := appRevision app
    let phase := TrimSpace op.Phase
    let startedAt := op.StartedAt.UTC
    let finishedAt := timeFromMeta op.FinishedAt
    let finishedAt := if finishedAt.IsZero then startedAt else finishedAt
    let finishedAt := if finishedAt.IsZero then mostRecentTime clock app else finishedAt
    let opKey := operationKey L revision startedAt finishedAt
    if op.Phase = "Running" ∨ op.Phase = "Terminating" then
      if !startedAt.IsZero then
        [{ ID := deterministicOperationID (TrimSpace app.UID) opKey "start"
           AppUID := TrimSpace app.UID
           App := TrimSpace app.Name
           Cluster := appCluster app
           Namespace := TrimSpace app.DestinationNamespace
           Revision := TrimSpace revision
           Occurred := startedAt
           Actor := resolveActor app
           EventType := "argo.sync.started"
           Result := phase
           HealthStatus := ""
           HistoryID := 0
           OperationKey := opKey
           Payload := withAnnotations app [("operation_phase", JVal.str phase)] }]
      else []
    else if op.Phase = "Succeeded" ∨ op.Phase = "Failed" ∨ op.Phase = "Error" then
      [{ ID := deterministicOperationID (TrimSpace app.UID) opKey "finish"
         AppUID := TrimSpace app.UID
         App := TrimSpace app.Name
         Cluster := appCluster app
         Namespace := TrimSpace app.DestinationNamespace
         Revision := TrimSpace revision
         Occurred := finishedAt
         Actor := resolveActor app
         EventType := "argo.sync.finished"
         Result := phase
         HealthStatus := ""
         HistoryID := 0
         OperationKey := opKey
         Payload := withAnnotations app [("operation_phase", JVal.str phase)] }]
    else []

/-- The block of `toSourceEvents` on the health; `clock` is the value of
`time.Now()` there. -/
def healthEvents (L : StdLib) (clock : Time) (app : Application) : List SourceEvent :=
  let health := TrimSpace app.HealthStatus
  if health ≠ "" then
    let occurred := timeFromMeta app.ReconciledAt
    let occurred := if occurred.IsZero then clock.UTC else occurred
    [{ ID := deterministicHealthID L (TrimSpace app.UID) health occurred
       AppUID := TrimSpace app.UID
       App := TrimSpace app.Name
       Cluster := appCluster app
       Namespace := TrimSpace app.DestinationNamespace
       Revision := TrimSpace (appRevision app)
       Occurred := occurred
       Actor := "argocd"
       EventType := "argo.health.changed"
       Result := ""
       HealthStatus := health
       HistoryID := 0
       OperationKey := ""
       Payload := withAnnotations app
         [("health_status", JVal.str health),
           ("observed_at", JVal.str (L.formatRFC3339Nano occurred.UTC))] }]
  else []

/-- Go `toSourceEvents`.  The value `now i` is what `time.Now()` returns in
the round of the history entry at position `i`, and at the two positions after
the last entry in the blocks on the operation state and on the health. -/
def toSourceEvents (L : StdLib) (now : Nat → Time) (app : Application) : List SourceEvent :=
  (app.History.enum.filterMap (fun p => historyEvent L (now p.1) app p.2)) ++
    operationEvents L (now app.History.length) app ++
    healthEvents L (now (app.History.length + 1)) app

/-- The end of an operation: its finished_at, and its started_at when it
carries no finished_at. -/
def operationEnd (op : OperationState) : Time :=
  if (timeFromMeta op.FinishedAt).IsZero then op.StartedAt else timeFromMeta op.FinishedAt

/-- The history entry of `TestToSourceEventsFromApplication`: revision
`abc123`, deployed at 11:59:00.987654321 on 16 February 2026. -/
def testHistory : RevisionHistory := ⟨11, "abc123", ⟨63906839940987654321, 0⟩, none⟩

/-- The operation state of `TestToSourceEventsFromApplication`: succeeded,
started at 11:58:00.123456789 and finished at 11:59:00.987654321. -/
def testOperation : OperationState :=
  ⟨"Succeeded", ⟨63906839880123456789, 0⟩, some ⟨63906839940987654321, 0⟩, "", false⟩

/-- The application of `TestToSourceEventsFromApplication`: a succeeded
operation on revision `abc123` and one history entry for the same revision,
deployed when the operation finished. -/
def testApplication : Application :=
  { UID := "uid-1", Name := "payments-api", Annotations := [],
    DestinationServer := "https://kubernetes.default.svc", DestinationNamespace := "prod-eu",
    SyncRevision := "abc123", SyncRevisions := [],
    History := [testHistory],
    OperationState := some testOperation,
    HealthStatus := "Healthy", ReconciledAt := some ⟨63906840000000000000, 0⟩ }

/-! ## internal/ingest/argo: the checkpoint of the collector -/

/-- The struct `AppCheckpoint`. -/
structure AppCheckpoint where
  LastHistoryID : Int
  LastHistoryAt : Time
  LastStartKey : String
  LastTerminalKey : String
  LastHealth : String

/-- Go `sourceAppKey`. -/
def sourceAppKey (se : SourceEvent) : String :=
  if TrimSpace se.AppUID ≠ "" then TrimSpace se.AppUID else TrimSpace se.App

/-- Go `c.appCursors[appKey]`: the cursor of the application, the zero value
when the map has none. -/
def cursorOf (appCursors : GoMap AppCheckpoint) (appKey : String) : AppCheckpoint :=
  (appCursors.get? appKey).getD ⟨0, Time.zero, "", "", ""⟩

/-- Go `Collector.shouldProcess`, on the map `c.appCursors`. -/
def shouldProcess (appCursors : GoMap AppCheckpoint) (se : SourceEvent) : Bool :=
  if TrimSpace se.ID = "" ∨ TrimSpace se.EventType = "" then false
  else
    let cursor := cursorOf appCursors (sourceAppKey se)
    if TrimSpace se.EventType = "argo.deployment.recorded" then
      if se.HistoryID > 0 then
        if se.HistoryID > cursor.LastHistoryID then true
        else if se.HistoryID = cursor.LastHistoryID ∧
            se.Occurred.After cursor.LastHistoryAt = true then true
        else false
      else if TrimSpace se.OperationKey = "" then false
      else decide (TrimSpace se.OperationKey ≠ TrimSpace cursor.LastTerminalKey)
    else if TrimSpace se.EventType = "argo.sync.finished" then
      if se.HistoryID > 0 then
        if se.HistoryID > cursor.LastHistoryID then true
        else if se.HistoryID = cursor.LastHistoryID ∧
            se.Occurred.After cursor.LastHistoryAt = true then true
        else false
      else if TrimSpace se.OperationKey = "" then false
      else decide (TrimSpace se.OperationKey ≠ TrimSpace cursor.LastTerminalKey)
    else if TrimSpace se.EventType = "argo.sync.started" then
      if TrimSpace se.OperationKey = "" then false
      else decide (TrimSpace se.OperationKey ≠ TrimSpace cursor.LastStartKey)
    else if TrimSpace se.EventType = "argo.health.changed" then
      if TrimSpace se.HealthStatus = "" then false
      else !EqualFold (TrimSpace se.HealthStatus) (TrimSpace cursor.LastHealth)
    else true

/-- The cursor that `advanceCheckpoint` writes back for the application of the
event: the body of its `switch`. -/
def advancedCursor (cursor : AppCheckpoint) (se : SourceEvent) : AppCheckpoint :=
  if TrimSpace se.EventType = "argo.deployment.recorded" ∨
      TrimSpace se.EventType = "argo.sync.finished" then
    if se.HistoryID > 0 then
      let cursor :=
        if se.HistoryID > cursor.LastHistoryID then { cursor with LastHistoryID := se.HistoryID }
        else cursor
      if se.Occurred.After cursor.LastHistoryAt then
        { cursor with LastHistoryAt := se.Occurred.UTC }
      else cursor
    else if TrimSpace se.OperationKey ≠ "" then
      { cursor with LastTerminalKey := TrimSpace se.OperationKey }
    else cursor
  else if TrimSpace se.EventType = "argo.sync.started" then
    if TrimSpace se.OperationKey ≠ "" then
      { cursor with LastStartKey := TrimSpace se.OperationKey }
    else cursor
  else if TrimSpace se.EventType = "argo.health.changed" then
    if TrimSpace se.HealthStatus ≠ "" then
      { cursor with LastHealth := TrimSpace se.HealthStatus }
    else cursor
  else cursor

/-- Go `Collector.advanceCheckpoint`, on the map `c.appCursors`; a nil map is
the empty map.  The cases `argo.deployment.recorded` and `argo.sync.finished` of
the `switch` have the same body. -/
def advanceCheckpoint (appCursors : GoMap AppCheckpoint) (se : SourceEvent) :
    GoMap AppCheckpoint :=
  appCursors.set (sourceAppKey se) (advancedCursor (cursorOf appCursors (sourceAppKey se)) se)

/-- Go `nestedString`, from the value reached so far. -/
def nestedStringFrom : JVal → List String → Option String
  | JVal.str s, [] => some s
  | _, [] => none
  | JVal.obj m, f :: fields =>
    match GoMap.get? m f with
    | some v => nestedStringFrom v fields
    | none => none
  | _, _ :: _ => none

/-- Go `nestedString`: the string and `ok`, as an option. -/
def nestedString (obj : GoMap JVal) (fields : List String) : Option String :=
  nestedStringFrom (JVal.obj obj) fields

/-- The last entry of `status.history` as `handleAppEvent` reads it: `none`
where the type assertion on `payload["status"]` or on the last entry panics,
`some none` where there is no history. -/
def lastHistory (payload : GoMap JVal) : Option (Option (GoMap JVal)) :=
  match payload.get? "status" with
  | some (JVal.obj status) =>
    match GoMap.get? status "history" with
    | some (JVal.arr histSlice) =>
      match histSlice.getLast? with
      | none => some none
      | some (JVal.obj lastHist) => some (some lastHist)
      | some _ => none
    | _ => some none
  | _ => none

/-- The `SourceEvent` that `handleAppEvent` synthesizes from the content of an
unstructured Application, `none` where it panics.  `now1` and `now2` are the two
values of `time.Now()`; `GetName`, `GetUID` and `GetNamespace` of the object read
the strings `metadata.name`, `metadata.uid` and `metadata.namespace`; a number
under `id` stands for the `int64` or the `float64` of the source. -/
def observedEvent (L : StdLib) (now1 now2 : Time) (payload : GoMap JVal) : Option SourceEvent :=
  let name := (nestedString payload ["metadata", "name"]).getD ""
  let uid := (nestedString payload ["metadata", "uid"]).getD ""
  let healthStatus := (nestedString payload ["status", "health", "status"]).getD ""
  let opKey := (nestedString payload ["status", "sync", "revision"]).getD ""
  let cluster :=
    match nestedString payload ["spec", "destination", "name"] with
    | some dest => dest
    | none => (nestedString payload ["spec", "destination", "server"]).getD ""
  let result :=
    match nestedString payload ["status", "operationState", "phase"] with
    | some phase => phase
    | none => (nestedString payload ["status", "sync", "status"]).getD ""
  match lastHistory payload with
  | none => none
  | some hist =>
    let histID : Int :=
      match hist with
      | some lastHist =>
        match GoMap.get? lastHist "id" with
        | some (JVal.num idVal) => Int.tdiv idVal.num idVal.den
        | _ => 0
      | none => 0
    let histRev :=
      match hist with
      | some lastHist =>
        match GoMap.get? lastHist "revision" with
        | some (JVal.str rev) => rev
        | _ => ""
      | none => ""
    let histOccurred :=
      match hist with
      | some lastHist =>
        match GoMap.get? lastHist "deployedAt" with
        | some (JVal.str deployedAtStr) => (L.parseRFC3339 deployedAtStr).getD Time.zero
        | _ => Time.zero
      | none => Time.zero
    let opKey := if opKey = "" then histRev else opKey
    let occurred :=
      if !histOccurred.IsZero then histOccurred
      else
        match nestedString payload ["status", "operationState", "finishedAt"] with
        | some finishedAtStr => (L.parseRFC3339 finishedAtStr).getD now1.UTC
        | none => now1.UTC
    some
      { ID := uid ++ "-" ++ L.formatInt now2.UnixNano
        AppUID := uid
        App := name
        Cluster := cluster
        Namespace := (nestedString payload ["metadata", "namespace"]).getD ""
        Revision := opKey
        Occurred := occurred
        Actor := ""
        EventType := "argo.sync.finished"
        Result := result
        HealthStatus := healthStatus
        HistoryID := histID
        OperationKey := opKey
        Payload := payload }

/-- The state of a `Collector` that handling an event reads and writes: the
cursors and the repository behind `Sink`. -/
structure CollectorState where
  appCursors : GoMap AppCheckpoint
  Sink : MemoryRepository

/-- The part of `handleAppEvent` after the source event is built, for a
collector whose `Normalize` and `Sink` are set and whose sink is the in-memory
repository; `normalize` answers `none` for an error and `clock` is the value of
`time.Now()` in `IngestEvent`.  Saving the checkpoint to its store is left out. -/
def processSourceEvent (L : StdLib) (normalize : SourceEvent → Option StoredEvent)
    (clock : Time) (st : CollectorState) (se : SourceEvent) : CollectorState :=
  if !shouldProcess st.appCursors se then st
  else
    match normalize se with
    | none => st
    | some e =>
      match (IngestEvent L clock st.Sink e).1 with
      | Except.error _ => { st with Sink := (IngestEvent L clock st.Sink e).2 }
      | Except.ok _ =>
        { appCursors := advanceCheckpoint st.appCursors se
          Sink := (IngestEvent L clock st.Sink e).2 }

/-- Go `Collector.handleAppEvent` on the content of an unstructured
Application; `none` where it panics. -/
def handleAppEvent (L : StdLib) (normalize : SourceEvent → Option StoredEvent)
    (now1 now2 clock : Time) (st : CollectorState) (payload : GoMap JVal) :
    Option CollectorState :=
  match observedEvent L now1 now2 payload with
  | none => none
  | some se => some (processSourceEvent L normalize clock st se)

/-- The time that `handleAppEvent` finds in the object itself: `deployedAt` of
the last history entry when it parses to a time that is not zero, else
`finishedAt` of the operation state when it parses; `none` where the code keeps
`time.Now()`. -/
def recordedTime (L : StdLib) (payload : GoMap JVal) : Option Time :=
  match lastHistory payload with
  | none => none
  | some hist =>
    let histOccurred :=
      match hist with
      | some lastHist =>
        match GoMap.get? lastHist "deployedAt" with
        | some (JVal.str deployedAtStr) => (L.parseRFC3339 deployedAtStr).getD Time.zero
        | _ => Time.zero
      | none => Time.zero
    if !histOccurred.IsZero then some histOccurred
    else
      match nestedString payload ["status", "operationState", "finishedAt"] with
      | some finishedAtStr => L.parseRFC3339 finishedAtStr
      | none => none

/-- The object handled again and again, once for each triple of clock readings
(the two of `handleAppEvent` and the one of `IngestEvent`). -/
def observeRepeat (L : StdLib) (normalize : SourceEvent → Option StoredEvent)
    (payload : GoMap JVal) : List (Time × Time × Time) → CollectorState → Option CollectorState
  | [], st => some st
  | (now1, now2, clock) :: rest, st =>
    match handleAppEvent L normalize now1 now2 clock st payload with
    | none => none
    | some st1 => observeRepeat L normalize payload rest st1

/-- The event is of one of the four classes that `shouldProcess` tells apart. -/
def knownClass (se : SourceEvent) : Prop :=
  TrimSpace se.EventType = "argo.deployment.recorded" ∨
    TrimSpace se.EventType = "argo.sync.finished" ∨
    TrimSpace se.EventType = "argo.sync.started" ∨
    TrimSpace se.EventType = "argo.health.changed"

/-- The `Normalize` of `TestCollectorDeduplicatesHistoryRecordedEventsViaInformer`. -/
def testNormalize (se : SourceEvent) : Option StoredEvent :=
  some
    { ID := "evt_from_" ++ se.ID, Source := "argocd", EventType := "argo.sync.finished",
      Time := se.Occurred.UTC, Subject := se.App,
      Extensions := [("cluster", JVal.str "eu-1"), ("namespace", JVal.str "prod-eu"),
        ("initiator", JVal.str "argocd"), ("history_id", JVal.num se.HistoryID)],
      Data := "\x7b\"argocd_app\":\"" ++ se.App ++ "\"\x7d", IntegrityHash := "",
      IngestedAt := Time.zero }

/-- The object of that test: history entry 100 with a `deployedAt`, written in
the layout of the reference library. -/
def testObject : GoMap JVal :=
  [("metadata", JVal.obj [("name", JVal.str "payments-api"),
      ("namespace", JVal.str "prod-eu"), ("uid", JVal.str "uid-1")]),
    ("status", JVal.obj [("sync", JVal.obj [("status", JVal.str "Synced")]),
      ("history", JVal.arr [JVal.obj [("id", JVal.num 100), ("revision", JVal.str "abc123"),
        ("deployedAt", JVal.str "63906842290000000000@0")]])])]

/-- The same object without `deployedAt` in its history entry. -/
def clocklessObject : GoMap JVal :=
  [("metadata", JVal.obj [("name", JVal.str "payments-api"),
      ("namespace", JVal.str "prod-eu"), ("uid", JVal.str "uid-1")]),
    ("status", JVal.obj [("sync", JVal.obj [("status", JVal.str "Synced")]),
      ("history", JVal.arr [JVal.obj [("id", JVal.num 100),
        ("revision", JVal.str "abc123")]])])]

/-- A collector that has seen nothing, with an empty repository. -/
def freshCollector : CollectorState := ⟨[], NewMemoryRepository⟩

/-! ## internal/app: subjects -/

/-- The loop of `splitN`: `k` is the number of cuts still allowed
(`n - 1 - len(out)`), `cur` the text since the last cut. -/
def splitNFrom (sep : Char) : Nat → List Char → List Char → List String
  | _, cur, [] => [String.mk cur]
  | k, cur, ch :: rest =>
    if ch = sep ∧ 0 < k then String.mk cur :: splitNFrom sep (k - 1) [] rest
    else splitNFrom sep k (cur ++ [ch]) rest

/-- Go `splitN`. -/
def splitN (input : String) (sep : Char) (n : Nat) : List String :=
  splitNFrom sep (n - 1) [] input.data

/-- Go `ParseSubject`; `none` is the error `invalid subject`. -/
def ParseSubject (subject : String) : Option ParsedSubject :=
  match splitN subject (Char.ofNat 58) 3 with
  | app :: environment :: cluster :: _ => some ⟨app, environment, cluster⟩
  | _ => none

/-! ## internal/app: export jobs -/

/-- The errors that `Service.CreateExport` can meet: of `time.Parse` on a
text, of `ParseSubject`, of the repository, and of the exporter. -/
inductive ExportError where
  | parseTime (raw : String)
  | invalidSubject
  | store (err : Error)
  | exporter

/-- Go `Service.exportItemsForJob`, on the in-memory repository; a nil filter
is the empty map. -/
def exportItemsForJob (L : StdLib) (m : MemoryRepository) (filter : GoMap JVal) :
    Except ExportError (List StoredEvent) :=
  let fromRaw := match filter.get? "from" with
    | some (JVal.str s) => s
    | _ => ""
  let toRaw := match filter.get? "to" with
    | some (JVal.str s) => s
    | _ => ""
  let subjectRaw := match filter.get? "subject" with
    | some (JVal.str s) => s
    | _ => ""
  if fromRaw = "" ∨ toRaw = "" ∨ subjectRaw = "" then Except.ok []
  else
    match L.parseRFC3339 fromRaw with
    | none => Except.error (ExportError.parseTime fromRaw)
    | some fromTime =>
      match L.parseRFC3339 toRaw with
      | none => Except.error (ExportError.parseTime toRaw)
      | some toTime =>
        match ParseSubject subjectRaw with
        | none => Except.error ExportError.invalidSubject
        | some subject =>
          match QueryTimeline L m
              { Subject := subject.App, Namespace := subject.Environment,
                Cluster := subject.Cluster, From := fromTime.UTC, To := toTime.UTC,
                IncludeSupporting := true, Limit := 500, Source := "", EventType := "",
                CorrelationKey := "", CorrelationValue := "", Cursor := "" } with
          | Except.error err => Except.error (ExportError.store err)
          | Except.ok res => Except.ok res.Items

/-- Go `Service.CreateExport`, with the in-memory repository and the
filesystem exporter on `baseDir`: the result and the repository after the call.
`errorText` is `err.Error()`; `clock1` and `clock2` are the readings of the clock
in the repository's `CreateExport`, `now1` and `now2` those in
`CreateEvidencePack`, `clock3` that of the one call that sets the status. -/
def Service.CreateExport (L : StdLib) (errorText : ExportError → String)
    (mkdirAll writeFile : Bool) (clock1 clock2 now1 now2 clock3 : Time) (baseDir : String)
    (m : MemoryRepository) (format : String) (filter : GoMap JVal) :
    Except ExportError ExportJob × MemoryRepository :=
  let created := Evidra.CreateExport clock1 clock2 m format filter
  let job := created.1
  let m := created.2
  match exportItemsForJob L m job.Filter with
  | Except.error err =>
    (Except.error err, (SetExportFailed clock3 m job.ID (errorText err)).2)
  | Except.ok items =>
    match CreateEvidencePack L mkdirAll writeFile now1 now2 baseDir job.ID items with
    | none =>
      (Except.error ExportError.exporter,
        (SetExportFailed clock3 m job.ID (errorText ExportError.exporter)).2)
    | some packed =>
      match SetExportCompleted clock3 m job.ID packed.1 with
      | (some err, m) => (Except.error (ExportError.store err), m)
      | (none, m) =>
        match GetExport m job.ID with
        | Except.error err => (Except.error (ExportError.store err), m)
        | Except.ok stored => (Except.ok stored, m)

/-- A job created in an empty repository, and the repository that holds it. -/
def pendingExport : ExportJob × MemoryRepository :=
  Evidra.CreateExport ⟨7, 0⟩ ⟨7, 0⟩ NewMemoryRepository "json" []

/-- The repository after that job was completed. -/
def completedExport : MemoryRepository :=
  (SetExportCompleted ⟨8, 0⟩ pendingExport.2 pendingExport.1.ID "/tmp/pack.json").2

/-- The repository after the completed job was then set failed. -/
def overwrittenExport : MemoryRepository :=
  (SetExportFailed ⟨9, 0⟩ completedExport pendingExport.1.ID "late").2

/-! ## internal/store: lookups by extension -/

/-- Go `MemoryRepository.EventsByExtension`. -/
def EventsByExtension (m : MemoryRepository) (key value : String) (limit : Int) :
    Except Error (List StoredEvent) :=
  if key = "" ∨ value = "" then Except.error Error.ErrInvalidInput
  else
    let limit := if limit ≤ 0 then 100 else limit
    let out := m.events.values.filter
      (fun e => decide (ExtensionString e.Extensions key = value))
    let out := sortStoredEvents out
    if (out.length : Int) > limit then Except.ok (out.take limit.toNat) else Except.ok out

/-- The test that the loop of `isValidExtensionKey` makes on a character. -/
def isExtensionKeyChar (c : Char) : Bool :=
  ('a' ≤ c && c ≤ 'z') || ('A' ≤ c && c ≤ 'Z') || ('0' ≤ c && c ≤ '9') || c = '_' || c = '-'

/-- Go `isValidExtensionKey` (sql.go). -/
def isValidExtensionKey (key : String) : Bool :=
  if key.data.all isExtensionKeyChar then decide (key.utf8ByteSize > 0) else false

/-- The checks that `SQLRepository.EventsByExtension` makes on its arguments
before it queries the database: the error it returns, `none` when the arguments
pass. -/
def sqlExtensionArguments (key value : String) : Option Error :=
  if key = "" ∨ value = "" then some Error.ErrInvalidInput
  else if !isValidExtensionKey key then some Error.ErrInvalidInput
  else none

/-- An event whose extension key has a dot in it. -/
def dottedEvent : StoredEvent :=
  { ID := "evt-dot", EventType := "github.push", Source := "github",
    Subject := "payments-api", Time := ⟨1000, 0⟩,
    Extensions := [("commit.sha", JVal.str "abc123")],
    Data := "\x7b\"ref\":\"main\"\x7d", IntegrityHash := "", IngestedAt := Time.zero }

/-- The repository after that event was ingested. -/
def dottedRepo : MemoryRepository :=
  (IngestEvent refLib ⟨7, 0⟩ NewMemoryRepository dottedEvent).2

/-! ## internal/store: subjects -/

/-- The struct `SubjectInfo`. -/
structure SubjectInfo where
  Subject : String
  Cluster : String
  Namespace : String
deriving DecidableEq

/-- The text that `ListSubjects` forms of a triple, in its loop (`key`) and in
the comparison of its sort (`li`, `lj`). -/
def subjectInfoKey (s : SubjectInfo) : String :=
  s.Subject ++ ":" ++ s.Cluster ++ ":" ++ s.Namespace

/-- The triple that `ListSubjects` reads off an event. -/
def subjectOf (e : StoredEvent) : SubjectInfo :=
  { Subject := e.Subject, Cluster := ExtensionString e.Extensions "cluster",
    Namespace := ExtensionString e.Extensions "namespace" }

/-- One round of the loop of `ListSubjects`, on the map `seen` and the slice
`out`. -/
def listSubjectsStep (st : GoMap Unit × List SubjectInfo) (e : StoredEvent) :
    GoMap Unit × List SubjectInfo :=
  let cluster := ExtensionString e.Extensions "cluster"
  let namespace1 := ExtensionString e.Extensions "namespace"
  let key := e.Subject ++ ":" ++ cluster ++ ":" ++ namespace1
  match st.1.get? key with
  | some _ => st
  | none =>
    (st.1.set key (),
      st.2 ++ [{ Subject := e.Subject, Cluster := cluster, Namespace := namespace1 }])

/-- Go `MemoryRepository.ListSubjects`. -/
def ListSubjects (m : MemoryRepository) : List SubjectInfo :=
  let st := m.events.values.foldl listSubjectsStep ([], [])
  sortSlice (fun a b => strLt (subjectInfoKey a) (subjectInfoKey b)) st.2

/-- An event of subject `a:b` on cluster `c`. -/
def colonInSubject : StoredEvent :=
  { ID := "evt-1", EventType := "push", Source := "git", Subject := "a:b",
    Time := ⟨1000, 0⟩, Extensions := [("cluster", JVal.str "c")],
    Data := "\x7b\"repo\":\"o/p\"\x7d", IntegrityHash := "", IngestedAt := Time.zero }

/-- An event of subject `a` on cluster `b:c`. -/
def colonInCluster : StoredEvent :=
  { ID := "evt-2", EventType := "push", Source := "git", Subject := "a",
    Time := ⟨2000, 0⟩, Extensions := [("cluster", JVal.str "b:c")],
    Data := "\x7b\"repo\":\"o/p\"\x7d", IntegrityHash := "", IngestedAt := Time.zero }

/-- The repository after the two events were ingested. -/
def colonRepo : MemoryRepository :=
  (IngestEvent refLib ⟨8, 0⟩
    (IngestEvent refLib ⟨7, 0⟩ NewMemoryRepository colonInSubject).2 colonInCluster).2

/-! ## Supporting observations -/

/-- The test of `QueryTimeline` for a supporting observation:
`ce.ExtensionBool(e.Extensions, "supporting_observation")`. -/
def isSupporting (L : StdLib) (e : StoredEvent) : Bool :=
  ExtensionBool L e.Extensions "supporting_observation"

/-- The event `evt-primary` of `TestTimelineExcludesSupportingByDefault`, one
minute after 2026-02-16T10:00:00Z. -/
def primaryEvent : StoredEvent :=
  { ID := "evt-primary", EventType := "pull_request_merged", Source := "git",
    Subject := "payments-api", Time := ⟨63906832860000000000, 0⟩,
    Extensions := [("cluster", JVal.str "eu-1"), ("namespace", JVal.str "prod-eu"),
      ("initiator", JVal.str "jane.doe"), ("commit_sha", JVal.str "p1")],
    Data := "\x7b\"repo\":\"org/payments\"\x7d", IntegrityHash := "",
    IngestedAt := Time.zero }

/-- The event `evt-supporting` of that test, two minutes after the hour. -/
def supportingEvent : StoredEvent :=
  { ID := "evt-supporting", EventType := "k8s.supporting.observation", Source := "kubernetes",
    Subject := "payments-api", Time := ⟨63906832920000000000, 0⟩,
    Extensions := [("cluster", JVal.str "eu-1"), ("namespace", JVal.str "prod-eu"),
      ("initiator", JVal.str "kubelet"), ("supporting_observation", JVal.bool true)],
    Data := "\x7b\"event\":\"pod_restart\"\x7d", IntegrityHash := "",
    IngestedAt := Time.zero }

/-- The repository of that test. -/
def supportingRepo : MemoryRepository :=
  (IngestEvent refLib ⟨8, 0⟩
    (IngestEvent refLib ⟨7, 0⟩ NewMemoryRepository primaryEvent).2 supportingEvent).2

/-- A supporting observation at the hour, before the primary event. -/
def earlySupportingEvent : StoredEvent :=
  { supportingEvent with ID := "evt-early", Time := ⟨63906832800000000000, 0⟩ }

/-- The repository of the test with the early observation added. -/
def earlySupportingRepo : MemoryRepository :=
  (IngestEvent refLib ⟨9, 0⟩ supportingRepo earlySupportingEvent).2

/-- The query of that test, from the hour to ten minutes later, with the given
`IncludeSupporting` and `Limit`. -/
def supportingQuery (includeSupporting : Bool) (limit : Int) : TimelineQuery :=
  { Subject := "payments-api", Cluster := "eu-1", Namespace := "prod-eu",
    From := ⟨63906832800000000000, 0⟩, To := ⟨63906833400000000000, 0⟩, Source := "",
    EventType := "", CorrelationKey := "", CorrelationValue := "",
    IncludeSupporting := includeSupporting, Limit := limit, Cursor := "" }

/-! ## The result of the evidence pack and of the change view -/

/-- The text that the loop of `derivePrimaryChange` searches for one event: the
lower-cased event type and `statusVal`. -/
def packBucket (L : StdLib) (e : StoredEvent) : String :=
  L.toLower (e.EventType ++ " " ++
    dataStringField L e.Data ["status", "phase", "result", "outcome"])

/-- What the loop of `derivePrimaryChange` reads off one event: `failed` where
it sets `result = "failed"`, `succeeded` where the test of its second branch
holds for a result that is not failed, `unknown` where it leaves the result. -/
def packOutcome (L : StdLib) (e : StoredEvent) : String :=
  let bucket := packBucket L e
  if Contains bucket "fail" || Contains bucket "error" || Contains bucket "degrad" ||
      Contains bucket "abort" then "failed"
  else if Contains bucket "success" || Contains bucket "succeed" ||
      Contains bucket "complete" then "succeeded"
  else "unknown"

/-- A health report of operation `op-3` whose body has the status `Healthy`. -/
def healthyReport : StoredEvent :=
  { ID := "evt-health", EventType := "argo.health.changed", Source := "argocd",
    Subject := "payments-api", Time := ⟨4000, 0⟩,
    Extensions := [("cluster", JVal.str "eu-1"), ("namespace", JVal.str "prod-eu"),
      ("operation_id", JVal.str "op-3")],
    Data := "\x7b\"status\":\"Healthy\"\x7d", IntegrityHash := "", IngestedAt := Time.zero }

/-- A report of operation `op-4` whose body has the result `failed` and the
phase `Succeeded`. -/
def mixedReport : StoredEvent :=
  { ID := "evt-mixed", EventType := "deploy.finished", Source := "jenkins",
    Subject := "payments-api", Time := ⟨5000, 0⟩,
    Extensions := [("cluster", JVal.str "eu-1"), ("namespace", JVal.str "prod-eu"),
      ("operation_id", JVal.str "op-4")],
    Data := "\x7b\"result\":\"failed\",\"phase\":\"Succeeded\"\x7d", IntegrityHash := "",
    IngestedAt := Time.zero }

/-! ## The events that a change query aggregates -/

/-- The timeline query that `eventsForChangeQuery` makes. -/
def changeTimelineQuery (q : ChangeQuery) : TimelineQuery :=
  { Subject := q.Subject.App, Namespace := q.Subject.Environment,
    Cluster := q.Subject.Cluster, From := q.From.UTC, To := q.To.UTC,
    IncludeSupporting := true, Limit := 500, Source := "", EventType := "",
    CorrelationKey := "", CorrelationValue := "", Cursor := "" }

/-- The events that `eventsForChangeQuery` reads from the repository: the one
page, of at most 500 events, of its timeline query. -/
def eventsRead (L : StdLib) (m : MemoryRepository) (q : ChangeQuery) : List StoredEvent :=
  (sortStoredEvents (matching L m (changeTimelineQuery q))).take 500

/-- The test that `filterEventsByQuery` makes on an event for the search text
`q`: every event passes when the lower-cased, trimmed text is empty. -/
def searchMatches (L : StdLib) (q : String) (e : StoredEvent) : Bool :=
  decide (L.toLower (TrimSpace q) = "") || eventMatchesQuery L e (L.toLower (TrimSpace q))

/-- The sample change query with the search text `evt-mid`, which only the
event `evt-mid` of the sample operation matches. -/
def searchQuery : ChangeQuery := { changeQuery with Q := "evt-mid", Limit := 10 }

/-! ## The events counted by the changes -/

/-- A change query without search text and without filters on the changes. -/
def Unfiltered (q : ChangeQuery) : Prop :=
  q.Q = "" ∧ q.ResultStatus = "" ∧ q.HealthStatus = "" ∧ q.ExternalChangeID = "" ∧
    q.ExternalChangeIDState = "" ∧ q.TicketID = "" ∧ q.TicketIDState = "" ∧
    q.ApprovalReference = "" ∧ q.HasApprovals = ""

/-- Event number `i` of a burst of events of the operation `op-1`: its id is
`i + 1` letters `e`, its instant is `i + 1`. -/
def burstEvent (i : Nat) : StoredEvent :=
  { ID := String.mk (List.replicate (i + 1) 'e'), EventType := "argo.sync.finished",
    Source := "argocd", Subject := "payments-api", Time := ⟨(i : Int) + 1, 0⟩,
    Extensions := [("cluster", JVal.str "eu-1"), ("namespace", JVal.str "prod-eu"),
      ("operation_id", JVal.str "op-1")],
    Data := "\x7b\"status\":\"Succeeded\"\x7d", IntegrityHash := "",
    IngestedAt := Time.zero }

/-- The repository after the first `n` events of the burst were ingested, one
after the other. -/
def burstRepo (n : Nat) : MemoryRepository :=
  (List.range n).foldl (fun m i => (IngestEvent refLib ⟨7, 0⟩ m (burstEvent i)).2)
    NewMemoryRepository

/-- The sample change query with the largest limit. -/
def burstQuery : ChangeQuery := { changeQuery with Limit := 500 }

/-! ## Many operations -/

/-- The extensions of an event of the operation `op` of the sample
application. -/
def spreadExtensions (op : String) : GoMap JVal :=
  [("cluster", JVal.str "eu-1"), ("namespace", JVal.str "prod-eu"),
    ("operation_id", JVal.str op)]

/-- The name of operation number `i`: `i + 1` letters `o`. -/
def spreadOperation (i : Nat) : String := String.mk (List.replicate (i + 1) 'o')

/-- Event number `i` of a run of events of as many operations: its id is
`i + 1` letters `e`, its operation is number `i`, its instant is `i + 1`. -/
def spreadEvent (i : Nat) : StoredEvent :=
  { ID := String.mk (List.replicate (i + 1) 'e'), EventType := "argo.sync.finished",
    Source := "argocd", Subject := "payments-api", Time := ⟨(i : Int) + 1, 0⟩,
    Extensions := spreadExtensions (spreadOperation i),
    Data := "\x7b\"status\":\"Succeeded\"\x7d", IntegrityHash := "",
    IngestedAt := Time.zero }

/-- The repository after the first `n` events of the run were ingested, one
after the other. -/
def spreadRepo (n : Nat) : MemoryRepository :=
  (List.range n).foldl (fun m i => (IngestEvent refLib ⟨7, 0⟩ m (spreadEvent i)).2)
    NewMemoryRepository

/-- The fields of an event that the timeline filter and the change identity
read. -/
def eventCore (e : StoredEvent) : String × String × String × Time × GoMap JVal :=
  (e.EventType, e.Source, e.Subject, e.Time, e.Extensions)

/-- An event with the given fields and nothing else. -/
def eventOfCore (c : String × String × String × Time × GoMap JVal) : StoredEvent :=
  { ID := "", EventType := c.1, Source := c.2.1, Subject := c.2.2.1, Time := c.2.2.2.1,
    Extensions := c.2.2.2.2, Data := "", IntegrityHash := "", IngestedAt := Time.zero }

/-! ## A library with an injective encoder -/

/-- A text with its length in front of it, in unary. -/
def frame (s : String) : List Char :=
  List.replicate s.data.length 'x' ++ '|' :: s.data

/-- The framed texts of a list, one after the other. -/
def frames : List String → List Char
  | [] => []
  | s :: rest => frame s ++ frames rest

/-- The keys and values of a map whose values are all strings. -/
def flatPairs : GoMap JVal → Option (List String)
  | [] => some []
  | (k, JVal.str v) :: rest =>
    match flatPairs rest with
    | some ps => some (k :: v :: ps)
    | none => none
  | _ :: _ => none

/-- An encoder of the canonical struct that frames every field, writes the body
compacted, and has no encoding for extensions that are not strings. -/
def frameMarshal (c : Canon) : Option String :=
  match flatPairs c.Extensions with
  | none => none
  | some ps =>
    some (String.mk (frames (c.SpecVersion :: c.ID :: c.Source :: c.EventType :: c.Subject ::
      c.Time :: compact c.Data :: ps)))

/-- The reference library with the framing encoder of the canonical struct. -/
def frameLib : StdLib := { refLib with jsonMarshalCanon := frameMarshal }

/-- The encoder of the canonical struct tells two structs apart unless they
agree in every field, the extensions compared as mappings and the bodies in the
form `written` in which the encoder writes a `json.RawMessage`. -/
def MarshalInjective (L : StdLib) (written : String → String) : Prop :=
  ∀ (c1 c2 : Canon) (b : String),
    L.jsonMarshalCanon c1 = some b → L.jsonMarshalCanon c2 = some b →
      c1.SpecVersion = c2.SpecVersion ∧ c1.ID = c2.ID ∧ c1.Source = c2.Source ∧
        c1.EventType = c2.EventType ∧ c1.Subject = c2.Subject ∧ c1.Time = c2.Time ∧
        (∀ k, c1.Extensions.get? k = c2.Extensions.get? k) ∧
        written c1.Data = written c2.Data

/-- The encoder of the canonical struct reads the body only in the form
`written` in which it writes a `json.RawMessage`: another body of the same
written form gives the same outcome. -/
def MarshalWrites (L : StdLib) (written : String → String) : Prop :=
  ∀ (c : Canon) (d : String), written d = written c.Data →
    L.jsonMarshalCanon { c with Data := d } = L.jsonMarshalCanon c

/-! # Properties -/

/-! ## Strings -/

theorem strLt_iff (a b : String) : strLt a b = true ↔ a < b := by
  simp only [strLt, decide_eq_true_eq]
  exact String.lt_iff_toList_lt.symm

theorem strLe_iff (a b : String) : strLe a b = true ↔ a ≤ b := by
  simp only [strLe, Bool.not_eq_true', ← Bool.not_eq_true, strLt_iff, not_lt]

/-! ## Maps -/

theorem GoMap.get?_set_self {V : Type} (m : GoMap V) (k : String) (v : V) :
    (m.set k v).get? k = some v := by
  induction m with
  | nil => simp [GoMap.set, GoMap.get?]
  | cons p rest ih =>
    obtain ⟨k1, v1⟩ := p
    by_cases h : k1 = k
    · simp [GoMap.set, GoMap.get?, h]
    · simp [GoMap.set, GoMap.get?, h, ih]

theorem GoMap.get?_set_of_ne {V : Type} (m : GoMap V) (k k2 : String) (v : V) (h : k ≠ k2) :
    (m.set k v).get? k2 = m.get? k2 := by
  induction m with
  | nil => simp [GoMap.set, GoMap.get?, h]
  | cons p rest ih =>
    obtain ⟨k1, v1⟩ := p
    by_cases h1 : k1 = k
    · subst h1
      simp [GoMap.set, GoMap.get?, h]
    · by_cases h2 : k1 = k2
      · subst h2
        simp [GoMap.set, GoMap.get?, h1]
      · simp [GoMap.set, GoMap.get?, h1, h2, ih]

theorem GoMap.get?_eq_none_iff {V : Type} (m : GoMap V) (k : String) :
    m.get? k = none ↔ ∀ p ∈ m, p.1 ≠ k := by
  induction m with
  | nil => simp [GoMap.get?]
  | cons p rest ih =>
    obtain ⟨k1, v1⟩ := p
    by_cases h : k1 = k
    · simp [GoMap.get?, h]
    · simp [GoMap.get?, h, ih]

theorem GoMap.set_of_get?_eq_none {V : Type} (m : GoMap V) (k : String) (v : V)
    (h : m.get? k = none) : m.set k v = m ++ [(k, v)] := by
  induction m with
  | nil => simp [GoMap.set]
  | cons p rest ih =>
    obtain ⟨k1, v1⟩ := p
    by_cases h1 : k1 = k
    · simp [GoMap.get?, h1] at h
    · simp only [GoMap.get?, h1, if_false] at h
      simp [GoMap.set, h1, ih h]

theorem GoMap.mem_of_get?_eq_some {V : Type} (m : GoMap V) (k : String) (v : V)
    (h : m.get? k = some v) : (k, v) ∈ m := by
  induction m with
  | nil => simp [GoMap.get?] at h
  | cons p rest ih =>
    obtain ⟨k1, v1⟩ := p
    by_cases h1 : k1 = k
    · simp [GoMap.get?, h1] at h
      simp [h1, h]
    · simp only [GoMap.get?, h1, if_false] at h
      simp [ih h]

theorem GoMap.get?_of_mem_of_nodup {V : Type} (m : GoMap V) (k : String) (v : V)
    (hnd : m.keys.Nodup) (h : (k, v) ∈ m) : m.get? k = some v := by
  induction m with
  | nil => simp at h
  | cons p rest ih =>
    obtain ⟨k1, v1⟩ := p
    simp only [GoMap.keys, List.map_cons, List.nodup_cons] at hnd
    rcases List.mem_cons.1 h with h1 | h1
    · cases h1
      simp [GoMap.get?]
    · have hne : k1 ≠ k := by
        intro hk
        apply hnd.1
        rw [hk]
        exact List.mem_map_of_mem Prod.fst h1
      simp only [GoMap.get?, hne, if_false]
      exact ih hnd.2 h1

theorem GoMap.keys_set {V : Type} (m : GoMap V) (k : String) (v : V) :
    (m.set k v).keys = if (m.get? k).isNone then m.keys ++ [k] else m.keys := by
  induction m with
  | nil => simp [GoMap.set, GoMap.get?, GoMap.keys]
  | cons p rest ih =>
    obtain ⟨k1, v1⟩ := p
    by_cases h1 : k1 = k
    · simp [GoMap.set, GoMap.get?, GoMap.keys, h1]
    · simp only [GoMap.set, GoMap.get?, h1, if_false]
      simp only [GoMap.keys, List.map_cons] at ih ⊢
      rw [ih]
      split <;> simp

theorem GoMap.nodup_keys_set {V : Type} (m : GoMap V) (k : String) (v : V)
    (hnd : m.keys.Nodup) : (m.set k v).keys.Nodup := by
  rw [GoMap.keys_set]
  split
  · rename_i h
    rw [Option.isNone_iff_eq_none, GoMap.get?_eq_none_iff] at h
    refine List.Nodup.append hnd (List.nodup_singleton k) ?_
    intro x hx hx2
    simp only [List.mem_singleton] at hx2
    subst hx2
    simp only [GoMap.keys, List.mem_map] at hx
    obtain ⟨p, hp, hpk⟩ := hx
    exact h p hp hpk
  · exact hnd

theorem GoMap.mem_set {V : Type} (m : GoMap V) (k : String) (v : V) (p : String × V)
    (h : p ∈ m.set k v) : p = (k, v) ∨ p ∈ m := by
  induction m with
  | nil =>
    simp only [GoMap.set, List.mem_singleton] at h
    exact Or.inl h
  | cons q rest ih =>
    obtain ⟨k1, v1⟩ := q
    by_cases h1 : k1 = k
    · simp only [GoMap.set, h1, if_true, List.mem_cons] at h
      rcases h with h | h
      · exact Or.inl h
      · exact Or.inr (List.mem_cons_of_mem _ h)
    · simp only [GoMap.set, h1, if_false, List.mem_cons] at h
      rcases h with h | h
      · exact Or.inr (by simp [h])
      · rcases ih h with h2 | h2
        · exact Or.inl h2
        · exact Or.inr (List.mem_cons_of_mem _ h2)

/-! ## Ingestion -/

theorem withIntegrityHash_fields (L : StdLib) (e e1 : StoredEvent)
    (h : withIntegrityHash L e = Except.ok e1) :
    e1.ID = e.ID ∧ e1.Source = e.Source ∧ e1.EventType = e.EventType ∧ e1.Subject = e.Subject ∧
      e1.Time = e.Time ∧ e1.Extensions = e.Extensions ∧ e1.Data = e.Data ∧
      e1.IngestedAt = e.IngestedAt := by
  unfold withIntegrityHash at h
  split at h
  · split at h
    · cases h
    · cases h
      simp
  · cases h
    simp

theorem withIntegrityHash_of_effectiveHash (L : StdLib) (e : StoredEvent) (h : String)
    (hh : effectiveHash L e = some h) :
    withIntegrityHash L e = Except.ok { e with IntegrityHash := h } := by
  unfold effectiveHash at hh
  unfold withIntegrityHash
  split at hh
  · rename_i h0
    simp only [h0, if_true, hh]
  · rename_i h0
    simp only [h0, if_false]
    cases hh
    rfl

theorem validateStoredEvent_congr (a b : StoredEvent) (h1 : a.ID = b.ID)
    (h2 : a.Source = b.Source) (h3 : a.EventType = b.EventType) (h4 : a.Data = b.Data)
    (h5 : a.Time = b.Time) : validateStoredEvent a = validateStoredEvent b := by
  simp [validateStoredEvent, h1, h2, h3, h4, h5]

theorem stamped_fields (clock : Time) (e : StoredEvent) :
    (stamped clock e).ID = e.ID ∧ (stamped clock e).Source = e.Source ∧
      (stamped clock e).EventType = e.EventType ∧ (stamped clock e).Subject = e.Subject ∧
      (stamped clock e).Time = e.Time ∧ (stamped clock e).Extensions = e.Extensions ∧
      (stamped clock e).Data = e.Data ∧ (stamped clock e).IntegrityHash = e.IntegrityHash := by
  unfold stamped
  split <;> simp

theorem IngestEvent_fresh (L : StdLib) (clock : Time) (m : MemoryRepository) (e e1 : StoredEvent)
    (hvalid : validateStoredEvent e = none) (hhash : withIntegrityHash L e = Except.ok e1)
    (hnew : m.events.get? e.ID = none) :
    IngestEvent L clock m e =
      (Except.ok (IngestStatus.IngestAccepted, clock.UTC),
        { m with events := m.events.set e.ID (stamped clock e1) }) := by
  have hid := (withIntegrityHash_fields L e e1 hhash).1
  have hsid := (stamped_fields clock e1).1
  unfold IngestEvent
  simp only [hvalid, hhash, hid, hnew]
  unfold stamped at hsid ⊢
  split <;> simp_all

theorem IngestEvent_duplicate (L : StdLib) (clock : Time) (m : MemoryRepository)
    (e e1 existing : StoredEvent)
    (hvalid : validateStoredEvent e = none) (hhash : withIntegrityHash L e = Except.ok e1)
    (hex : m.events.get? e.ID = some existing)
    (hsame : existing.IntegrityHash = e1.IntegrityHash) :
    IngestEvent L clock m e =
      (Except.ok (IngestStatus.IngestDuplicate, existing.IngestedAt), m) := by
  have hid := (withIntegrityHash_fields L e e1 hhash).1
  unfold IngestEvent
  simp only [hvalid, hhash, hid, hex, hsame, if_true]

theorem IngestEvent_conflict (L : StdLib) (clock : Time) (m : MemoryRepository)
    (e e1 existing : StoredEvent)
    (hvalid : validateStoredEvent e = none) (hhash : withIntegrityHash L e = Except.ok e1)
    (hex : m.events.get? e.ID = some existing)
    (hdiff : e1.IntegrityHash ≠ existing.IntegrityHash) :
    IngestEvent L clock m e = (Except.error Error.ErrConflict, m) := by
  have hid := (withIntegrityHash_fields L e e1 hhash).1
  unfold IngestEvent
  simp only [hvalid, hhash, hid, hex, Ne.symm hdiff, if_false]

theorem IngestEvent_state (L : StdLib) (clock : Time) (m : MemoryRepository) (e : StoredEvent) :
    (IngestEvent L clock m e).2 = m ∨
      ∃ e1, validateStoredEvent e = none ∧ withIntegrityHash L e = Except.ok e1 ∧
        m.events.get? e.ID = none ∧
        (IngestEvent L clock m e).2 = { m with events := m.events.set e.ID (stamped clock e1) } := by
  cases hv : validateStoredEvent e with
  | some err => left; simp [IngestEvent, hv]
  | none =>
    cases hh : withIntegrityHash L e with
    | error err => left; simp [IngestEvent, hv, hh]
    | ok e1 =>
      have hid := (withIntegrityHash_fields L e e1 hh).1
      cases hg : m.events.get? e.ID with
      | some existing =>
        left
        unfold IngestEvent
        simp only [hv, hh, hid, hg]
        split <;> rfl
      | none =>
        right
        exact ⟨e1, rfl, rfl, rfl, by rw [IngestEvent_fresh L clock m e e1 hv hh hg]⟩

theorem RepoInv_ingest (L : StdLib) (clock : Time) (m : MemoryRepository) (e : StoredEvent)
    (h : RepoInv m) : RepoInv (IngestEvent L clock m e).2 := by
  rcases IngestEvent_state L clock m e with h1 | ⟨e1, hv, hh, _, h1⟩
  · rw [h1]; exact h
  · rw [h1]
    have hf := withIntegrityHash_fields L e e1 hh
    have hs := stamped_fields clock e1
    refine ⟨GoMap.nodup_keys_set _ _ _ h.1, ?_⟩
    intro p hp
    rcases GoMap.mem_set _ _ _ _ hp with hp1 | hp1
    · subst hp1
      refine ⟨by simp [hs.1, hf.1], ?_⟩
      rw [← hv]
      apply validateStoredEvent_congr
      · simp [hs.1, hf.1]
      · simp [hs.2.1, hf.2.1]
      · simp [hs.2.2.1, hf.2.2.1]
      · simp [hs.2.2.2.2.2.2.1, hf.2.2.2.2.2.2.1]
      · simp [hs.2.2.2.2.1, hf.2.2.2.2.1]
    · exact h.2 p hp1

theorem RepoInv_of_reachable (L : StdLib) (m : MemoryRepository) (h : Reachable L m) :
    RepoInv m := by
  induction h with
  | init => exact ⟨List.nodup_nil, by intro p hp; cases hp⟩
  | ingest clock m e _ ih => exact RepoInv_ingest L clock m e ih
  | createExport c1 c2 m f flt _ ih => exact ih
  | setExportCompleted clock m id uri _ ih =>
    unfold SetExportCompleted
    split <;> exact ih
  | setExportFailed clock m id msg _ ih =>
    unfold SetExportFailed
    split <;> exact ih

theorem ingestRepeat_duplicates (L : StdLib) (m : MemoryRepository) (e e1 existing : StoredEvent)
    (clocks : List Time)
    (hvalid : validateStoredEvent e = none) (hhash : withIntegrityHash L e = Except.ok e1)
    (hex : m.events.get? e.ID = some existing)
    (hsame : existing.IntegrityHash = e1.IntegrityHash) :
    ingestRepeat L m e clocks =
      (List.replicate clocks.length
        (Except.ok (IngestStatus.IngestDuplicate, existing.IngestedAt)), m) := by
  induction clocks with
  | nil => rfl
  | cons c rest ih =>
    simp only [ingestRepeat, IngestEvent_duplicate L c m e e1 existing hvalid hhash hex hsame, ih,
      List.length_cons, List.replicate_succ]

theorem filter_values_append_fresh (evs : GoMap StoredEvent) (id : String) (stored : StoredEvent)
    (hkeys : ∀ p ∈ evs, p.1 = p.2.ID) (hnew : ∀ p ∈ evs, p.1 ≠ id) (hid : stored.ID = id) :
    (GoMap.values (evs ++ [(id, stored)])).filter (fun s => decide (s.ID = id)) = [stored] := by
  have h0 : (GoMap.values evs).filter (fun s => decide (s.ID = id)) = [] := by
    rw [List.filter_eq_nil_iff]
    intro a ha
    simp only [GoMap.values, List.mem_map] at ha
    obtain ⟨p, hp, hpa⟩ := ha
    have h1 := hkeys p hp
    have h2 := hnew p hp
    rw [h1, hpa] at h2
    simpa using h2
  simp only [GoMap.values] at h0
  simp [GoMap.values, List.filter_append, h0, hid]

/-- C1 (as amended): for every repository state, every event that passes
validation and whose integrity hash is given or can be computed, and whose id is
not stored: submitting it once per clock reading returns `accepted` on the first
call and `duplicate` with the stored ingestion time on every other call, leaves
exactly one stored event with that id, and `GetEvent` returns that event, whose
id, source, type, subject, time, extensions and data are those submitted. -/
theorem ingest_repeat_idempotent (L : StdLib) (m : MemoryRepository) (e : StoredEvent)
    (h : String) (clock : Time) (clocks : List Time)
    (hreach : Reachable L m)
    (hvalid : validateStoredEvent e = none)
    (hh : effectiveHash L e = some h)
    (hnew : m.events.get? e.ID = none) :
    ∃ stored : StoredEvent,
      (ingestRepeat L m e (clock :: clocks)).1 =
        Except.ok (IngestStatus.IngestAccepted, clock.UTC) ::
          List.replicate clocks.length
            (Except.ok (IngestStatus.IngestDuplicate, stored.IngestedAt)) ∧
      (ingestRepeat L m e (clock :: clocks)).2.events.values.filter
        (fun s => decide (s.ID = e.ID)) = [stored] ∧
      GetEvent (ingestRepeat L m e (clock :: clocks)).2 e.ID = Except.ok stored ∧
      stored.ID = e.ID ∧ stored.Source = e.Source ∧ stored.EventType = e.EventType ∧
      stored.Subject = e.Subject ∧ stored.Time = e.Time ∧ stored.Extensions = e.Extensions ∧
      stored.Data = e.Data := by
  have hhash := withIntegrityHash_of_effectiveHash L e h hh
  generalize ({ e with IntegrityHash := h } : StoredEvent) = e1 at hhash
  have hf := withIntegrityHash_fields L e e1 hhash
  have hs := stamped_fields clock e1
  have hinv := RepoInv_of_reachable L m hreach
  refine ⟨stamped clock e1, ?_⟩
  have hget : (GoMap.set m.events e.ID (stamped clock e1)).get? e.ID = some (stamped clock e1) :=
    GoMap.get?_set_self _ _ _
  have hrest := ingestRepeat_duplicates L
    { m with events := m.events.set e.ID (stamped clock e1) } e e1 (stamped clock e1) clocks
    hvalid hhash hget hs.2.2.2.2.2.2.2
  simp only [ingestRepeat, IngestEvent_fresh L clock m e e1 hvalid hhash hnew, hrest]
  refine ⟨trivial, ?_, ?_, ?_⟩
  · rw [GoMap.set_of_get?_eq_none _ _ _ hnew]
    apply filter_values_append_fresh
    · intro p hp
      exact (hinv.2 p hp).1
    · exact (GoMap.get?_eq_none_iff _ _).1 hnew
    · rw [hs.1, hf.1]
  · simp [GetEvent, hget]
  · refine ⟨?_, ?_, ?_, ?_, ?_, ?_, ?_⟩
    · rw [hs.1, hf.1]
    · rw [hs.2.1, hf.2.1]
    · rw [hs.2.2.1, hf.2.2.1]
    · rw [hs.2.2.2.1, hf.2.2.2.1]
    · rw [hs.2.2.2.2.1, hf.2.2.2.2.1]
    · rw [hs.2.2.2.2.2.1, hf.2.2.2.2.2.1]
    · rw [hs.2.2.2.2.2.2.1, hf.2.2.2.2.2.2.1]

/-- C1, an instance: the sample event submitted three times to the empty repository. -/
theorem ingest_repeat_idempotent_witness :
    ∃ stored : StoredEvent,
      (ingestRepeat refLib NewMemoryRepository sampleEvent [⟨7, 0⟩, ⟨8, 0⟩, ⟨9, 0⟩]).1 =
        Except.ok (IngestStatus.IngestAccepted, Time.UTC ⟨7, 0⟩) ::
          List.replicate 2 (Except.ok (IngestStatus.IngestDuplicate, stored.IngestedAt)) ∧
      (ingestRepeat refLib NewMemoryRepository sampleEvent
        [⟨7, 0⟩, ⟨8, 0⟩, ⟨9, 0⟩]).2.events.values.filter
        (fun s => decide (s.ID = sampleEvent.ID)) = [stored] ∧
      GetEvent (ingestRepeat refLib NewMemoryRepository sampleEvent [⟨7, 0⟩, ⟨8, 0⟩, ⟨9, 0⟩]).2
        sampleEvent.ID = Except.ok stored ∧
      stored.ID = sampleEvent.ID ∧ stored.Source = sampleEvent.Source ∧
      stored.EventType = sampleEvent.EventType ∧
      stored.Subject = sampleEvent.Subject ∧ stored.Time = sampleEvent.Time ∧
      stored.Extensions = sampleEvent.Extensions ∧
      stored.Data = sampleEvent.Data :=
  ingest_repeat_idempotent refLib NewMemoryRepository sampleEvent
    "1.0|e1|git|push|payments-api|63906926400000000000@0|cluster=eu-1;namespace=prod-eu;|\x7b\"repo\":\"o/p\"\x7d"
    ⟨7, 0⟩ [⟨8, 0⟩, ⟨9, 0⟩] Reachable.init (by decide) (by decide) (by rfl)

/-- C1, as stated, fails: an event with non-empty id, source and type, a
non-empty body other than `null` and a non-zero time, but whose body is not a
JSON document and whose hash field is empty, is not accepted by the empty
repository; the call returns the marshalling error and stores nothing. -/
theorem ingest_valid_event_rejected :
    validateStoredEvent brokenBodyEvent = none ∧
      NewMemoryRepository.events.get? brokenBodyEvent.ID = none ∧
      (IngestEvent refLib ⟨7, 0⟩ NewMemoryRepository brokenBodyEvent).1 =
        Except.error Error.ErrMarshal ∧
      (IngestEvent refLib ⟨7, 0⟩ NewMemoryRepository brokenBodyEvent).2.events = [] := by
  refine ⟨by decide, by rfl, by decide, by rfl⟩

/-- C2: for every repository state that holds an event under the id of a
valid event `e`, if the integrity hash of `e` (the field, or the computed hash
when the field is empty) differs from the stored one, `IngestEvent` returns
`ErrConflict` and the repository, events and export jobs, is unchanged. -/
theorem ingest_conflict_unchanged (L : StdLib) (clock : Time) (m : MemoryRepository)
    (e existing : StoredEvent) (h : String)
    (hvalid : validateStoredEvent e = none)
    (hh : effectiveHash L e = some h)
    (hex : m.events.get? e.ID = some existing)
    (hdiff : h ≠ existing.IntegrityHash) :
    (IngestEvent L clock m e).1 = Except.error Error.ErrConflict ∧
      (IngestEvent L clock m e).2 = m := by
  rw [IngestEvent_conflict L clock m e _ existing hvalid
    (withIntegrityHash_of_effectiveHash L e h hh) hex hdiff]
  exact ⟨rfl, rfl⟩

/-- C2, an instance: the sample event is stored and the same id arrives with
another body. -/
theorem ingest_conflict_unchanged_witness :
    (IngestEvent refLib ⟨8, 0⟩ (IngestEvent refLib ⟨7, 0⟩ NewMemoryRepository sampleEvent).2
        otherBodyEvent).1 = Except.error Error.ErrConflict ∧
      (IngestEvent refLib ⟨8, 0⟩ (IngestEvent refLib ⟨7, 0⟩ NewMemoryRepository sampleEvent).2
        otherBodyEvent).2 = (IngestEvent refLib ⟨7, 0⟩ NewMemoryRepository sampleEvent).2 :=
  ingest_conflict_unchanged refLib ⟨8, 0⟩
    (IngestEvent refLib ⟨7, 0⟩ NewMemoryRepository sampleEvent).2 otherBodyEvent
    (stamped ⟨7, 0⟩ { sampleEvent with IntegrityHash :=
      "1.0|e1|git|push|payments-api|63906926400000000000@0|cluster=eu-1;namespace=prod-eu;|\x7b\"repo\":\"o/p\"\x7d" })
    "1.0|e1|git|push|payments-api|63906926400000000000@0|cluster=eu-1;namespace=prod-eu;|\x7b\"repo\":\"o/q\"\x7d"
    (by decide) (by decide)
    (by
      rw [IngestEvent_fresh refLib ⟨7, 0⟩ NewMemoryRepository sampleEvent _ (by decide)
        (withIntegrityHash_of_effectiveHash refLib sampleEvent
          "1.0|e1|git|push|payments-api|63906926400000000000@0|cluster=eu-1;namespace=prod-eu;|\x7b\"repo\":\"o/p\"\x7d"
          (by decide)) (by rfl)]
      rfl)
    (by decide)

/-! ## Sorting -/

theorem sortSlice_perm {α : Type} (less : α → α → Bool) (xs : List α) :
    (sortSlice less xs).Perm xs :=
  List.perm_insertionSort _ xs

theorem sortSlice_sorted {α κ : Type} [LinearOrder κ] (key : α → κ) (less : α → α → Bool)
    (hless : ∀ a b, less a b = true ↔ key a < key b) (xs : List α) :
    (sortSlice less xs).Pairwise (fun a b => key a ≤ key b) := by
  have hr : ∀ a b, less b a = false ↔ key a ≤ key b := by
    intro a b
    rw [← Bool.not_eq_true, hless, not_lt]
  haveI : IsTotal α (fun a b => less b a = false) :=
    ⟨fun a b => by
      simp only [hr]
      exact le_total _ _⟩
  haveI : IsTrans α (fun a b => less b a = false) :=
    ⟨fun a b c hab hbc => by
      simp only [hr] at hab hbc ⊢
      exact le_trans hab hbc⟩
  have h := List.sorted_insertionSort (fun a b => less b a = false) xs
  exact List.Pairwise.imp (fun {a b} hab => (hr a b).1 hab) h

theorem sortSlice_sorted_strict {α κ : Type} [LinearOrder κ] (key : α → κ) (less : α → α → Bool)
    (hless : ∀ a b, less a b = true ↔ key a < key b) (xs : List α)
    (hnd : (xs.map key).Nodup) :
    (sortSlice less xs).Pairwise (fun a b => key a < key b) := by
  have h1 := sortSlice_sorted key less hless xs
  have h2 : ((sortSlice less xs).map key).Nodup :=
    ((sortSlice_perm less xs).map key).nodup_iff.2 hnd
  have h3 : (sortSlice less xs).Pairwise (fun a b => key a ≠ key b) :=
    List.pairwise_map.1 h2
  exact List.Pairwise.imp₂ (fun a b hle hne => lt_of_le_of_ne hle hne) h1 h3

theorem strict_sorted_unique {α κ : Type} [LinearOrder κ] (key : α → κ) (l1 l2 : List α)
    (hp : l1.Perm l2) (h1 : l1.Pairwise (fun a b => key a < key b))
    (h2 : l2.Pairwise (fun a b => key a < key b)) : l1 = l2 := by
  haveI : IsAntisymm α (fun a b => key a < key b) :=
    ⟨fun a b hab hba => absurd hab (not_lt_of_gt hba)⟩
  exact List.eq_of_perm_of_sorted hp h1 h2

theorem sortSlice_eq_of_perm {α κ : Type} [LinearOrder κ] (key : α → κ) (less : α → α → Bool)
    (hless : ∀ a b, less a b = true ↔ key a < key b) (xs ys : List α)
    (hp : xs.Perm ys) (hnd : (xs.map key).Nodup) :
    sortSlice less xs = sortSlice less ys := by
  apply strict_sorted_unique key
  · exact ((sortSlice_perm less xs).trans hp).trans (sortSlice_perm less ys).symm
  · exact sortSlice_sorted_strict key less hless xs hnd
  · exact sortSlice_sorted_strict key less hless ys ((hp.map key).nodup_iff.1 hnd)

theorem sortSlice_filter {α κ : Type} [LinearOrder κ] (key : α → κ) (less : α → α → Bool)
    (hless : ∀ a b, less a b = true ↔ key a < key b) (xs : List α) (p : α → Bool)
    (hnd : (xs.map key).Nodup) :
    sortSlice less (xs.filter p) = (sortSlice less xs).filter p := by
  have hsub : ((xs.filter p).map key).Nodup :=
    List.Nodup.sublist (List.Sublist.map key (List.filter_sublist xs)) hnd
  apply strict_sorted_unique key
  · exact (sortSlice_perm less (xs.filter p)).trans ((sortSlice_perm less xs).symm.filter p)
  · exact sortSlice_sorted_strict key less hless (xs.filter p) hsub
  · exact List.Pairwise.sublist (List.filter_sublist _)
      (sortSlice_sorted_strict key less hless xs hnd)

theorem sortSlice_of_sorted {α κ : Type} [LinearOrder κ] (key : α → κ) (less : α → α → Bool)
    (hless : ∀ a b, less a b = true ↔ key a < key b) (xs : List α)
    (hs : xs.Pairwise (fun a b => key a < key b)) : sortSlice less xs = xs := by
  have hnd : (xs.map key).Nodup :=
    List.pairwise_map.2 (List.Pairwise.imp (fun {a b} h => ne_of_lt h) hs)
  apply strict_sorted_unique key
  · exact sortSlice_perm less xs
  · exact sortSlice_sorted_strict key less hless xs hnd
  · exact hs

/-- The sort key of an event: instant, then id. -/
theorem eventLess_iff (a b : StoredEvent) :
    eventLess a b = true ↔
      toLex (a.Time.nanos, a.ID) < toLex (b.Time.nanos, b.ID) := by
  rw [Prod.Lex.lt_iff]
  unfold eventLess Time.Equal Time.Before
  by_cases h : a.Time.nanos = b.Time.nanos
  · simp [h, strLt_iff]
  · simp [h]

/-! ## Timeline -/

theorem eventLess_iff_key (a b : StoredEvent) :
    eventLess a b = true ↔ eventKey a < eventKey b :=
  eventLess_iff a b

theorem timeOrdered_of_key_lt (a b : StoredEvent) (h : eventKey a < eventKey b) :
    timeOrdered a b := by
  unfold eventKey at h
  rw [Prod.Lex.lt_iff] at h
  unfold timeOrdered Time.Before Time.Equal
  simpa using h

theorem RepoInv.values_ids (m : MemoryRepository) (h : RepoInv m) :
    m.events.values.map (fun e => e.ID) = m.events.keys := by
  unfold GoMap.values GoMap.keys
  rw [List.map_map]
  apply List.map_congr_left
  intro p hp
  exact ((h.2 p hp).1).symm

theorem RepoInv.nodup_eventKey (m : MemoryRepository) (h : RepoInv m) :
    (m.events.values.map eventKey).Nodup := by
  have h1 : (m.events.values.map (fun e => e.ID)).Nodup := by
    rw [RepoInv.values_ids m h]
    exact h.1
  have h2 : m.events.values.map (fun e => e.ID) =
      (m.events.values.map eventKey).map (fun k => (ofLex k).2) := by
    rw [List.map_map]
    rfl
  rw [h2] at h1
  exact List.Nodup.of_map _ h1

theorem RepoInv.time_ne_zero (m : MemoryRepository) (h : RepoInv m) (e : StoredEvent)
    (he : e ∈ m.events.values) : e.Time.nanos ≠ 0 := by
  simp only [GoMap.values, List.mem_map] at he
  obtain ⟨p, hp, hpe⟩ := he
  have hv := (h.2 p hp).2
  rw [hpe] at hv
  unfold validateStoredEvent at hv
  split at hv
  · cases hv
  · split at hv
    · cases hv
    · split at hv
      · cases hv
      · rename_i hz
        simpa [Time.IsZero] using hz

/-- The sorted list of the events that pass the filters and the cursor test. -/
theorem QueryTimeline_eq (L : StdLib) (m : MemoryRepository) (q : TimelineQuery)
    (ts : Time) (id : String) (hc : decodeCursor L q.Cursor = Except.ok (ts, id)) :
    QueryTimeline L m q =
      (let items := sortStoredEvents (m.events.values.filter
          (fun e => timelineFilter L q e && afterCursor ts id e))
       if items.length > timelineLimit q.Limit then
         match (items.take (timelineLimit q.Limit)).getLast? with
         | some last => Except.ok ⟨items.take (timelineLimit q.Limit),
             encodeCursor L last.Time last.ID⟩
         | none => Except.ok ⟨items.take (timelineLimit q.Limit), ""⟩
       else Except.ok ⟨items, ""⟩) := by
  unfold QueryTimeline
  simp only [hc]

theorem decodeCursor_error (L : StdLib) (s : String) (err : Error)
    (h : decodeCursor L s = Except.error err) : err = Error.ErrInvalidCursor := by
  unfold decodeCursor at h
  split at h
  · cases h
  · split at h
    · cases h; rfl
    · split at h
      · cases h; rfl
      · split at h
        · cases h; rfl
        · cases h

theorem QueryTimeline_items_sublist (L : StdLib) (m : MemoryRepository) (q : TimelineQuery)
    (r : TimelineResult) (h : QueryTimeline L m q = Except.ok r) :
    ∃ ts id, r.Items.Sublist (sortStoredEvents (m.events.values.filter
      (fun e => timelineFilter L q e && afterCursor ts id e))) := by
  cases hc : decodeCursor L q.Cursor with
  | error err => simp [QueryTimeline, hc] at h
  | ok p =>
    obtain ⟨ts, id⟩ := p
    refine ⟨ts, id, ?_⟩
    rw [QueryTimeline_eq L m q ts id hc] at h
    simp only at h
    split at h
    · split at h
      · cases h
        exact List.take_sublist _ _
      · cases h
        exact List.take_sublist _ _
    · cases h
      exact List.Sublist.refl _

/-- C4: in every repository state and for every query, the items that
`QueryTimeline` returns are in (time ASC, id ASC) order: of two consecutive
items the first is earlier, or they are at the same instant and the first has
the smaller id.  The call returns items unless the cursor is invalid. -/
theorem timeline_items_ordered (L : StdLib) (m : MemoryRepository) (q : TimelineQuery)
    (hreach : Reachable L m) :
    (∀ r, QueryTimeline L m q = Except.ok r → r.Items.Chain' timeOrdered) ∧
      (QueryTimeline L m q = Except.error Error.ErrInvalidCursor ∨
        ∃ r, QueryTimeline L m q = Except.ok r) := by
  have hinv := RepoInv_of_reachable L m hreach
  constructor
  · intro r hr
    obtain ⟨ts, id, hsub⟩ := QueryTimeline_items_sublist L m q r hr
    have hnd : ((m.events.values.filter
        (fun e => timelineFilter L q e && afterCursor ts id e)).map eventKey).Nodup :=
      List.Nodup.sublist (List.Sublist.map eventKey (List.filter_sublist _))
        (RepoInv.nodup_eventKey m hinv)
    have hs := sortSlice_sorted_strict eventKey eventLess eventLess_iff_key _ hnd
    have hs2 : r.Items.Pairwise (fun a b => eventKey a < eventKey b) :=
      List.Pairwise.sublist hsub hs
    exact List.Pairwise.chain'
      (List.Pairwise.imp (fun {a b} hab => timeOrdered_of_key_lt a b hab) hs2)
  · cases hq : QueryTimeline L m q with
    | ok r => exact Or.inr ⟨r, rfl⟩
    | error err =>
      left
      cases hc : decodeCursor L q.Cursor with
      | error err2 =>
        have := decodeCursor_error L _ _ hc
        subst this
        simp [QueryTimeline, hc] at hq
        rw [hq]
      | ok p =>
        obtain ⟨ts, id⟩ := p
        rw [QueryTimeline_eq L m q ts id hc] at hq
        simp only at hq
        split at hq
        · split at hq <;> cases hq
        · cases hq

/-- C4, an instance: a query of the repository that holds the three sample
events. -/
theorem timeline_items_ordered_witness :
    (∀ r, QueryTimeline refLib sampleRepo sampleQuery = Except.ok r →
        r.Items.Chain' timeOrdered) ∧
      (QueryTimeline refLib sampleRepo sampleQuery = Except.error Error.ErrInvalidCursor ∨
        ∃ r, QueryTimeline refLib sampleRepo sampleQuery = Except.ok r) :=
  timeline_items_ordered refLib sampleRepo sampleQuery
    (Reachable.ingest _ _ _ (Reachable.ingest _ _ _ (Reachable.ingest _ _ _ Reachable.init)))

theorem afterCursor_zero (e : StoredEvent) : afterCursor Time.zero "" e = true := by
  simp [afterCursor, Time.zero, Time.IsZero]

theorem afterCursor_iff (x e : StoredEvent) (hx : x.Time.nanos ≠ 0) :
    afterCursor x.Time.UTC x.ID e = true ↔ eventKey x < eventKey e := by
  have hle : eventKey e ≤ eventKey x ↔
      e.Time.nanos < x.Time.nanos ∨ e.Time.nanos = x.Time.nanos ∧ e.ID ≤ x.ID :=
    Prod.Lex.le_iff _ _
  rw [← not_le, hle]
  unfold afterCursor
  have hz : (!x.Time.UTC.IsZero) = true := by simp [Time.IsZero, Time.UTC, hx]
  rw [if_pos hz]
  by_cases h : (e.Time.Before x.Time.UTC || (e.Time.Equal x.Time.UTC && strLe e.ID x.ID)) = true
  · rw [if_pos h]
    simp only [Time.Before, Time.Equal, Time.UTC, Bool.or_eq_true, Bool.and_eq_true,
      decide_eq_true_eq, strLe_iff] at h
    exact ⟨fun h0 => absurd h0 (by decide), fun hn => absurd h hn⟩
  · rw [if_neg h]
    simp only [Time.Before, Time.Equal, Time.UTC, Bool.or_eq_true, Bool.and_eq_true,
      decide_eq_true_eq, strLe_iff] at h
    exact ⟨fun _ => h, fun _ => rfl⟩

theorem timelineLimit_pos (limit : Int) : 1 ≤ timelineLimit limit := by
  unfold timelineLimit
  split
  · decide
  · split
    · decide
    · omega

theorem filter_gt_of_sorted (P T : List StoredEvent) (x : StoredEvent)
    (hs : (P ++ x :: T).Pairwise (fun a b => eventKey a < eventKey b)) :
    (P ++ x :: T).filter (fun e => decide (eventKey x < eventKey e)) = T := by
  rw [List.pairwise_append] at hs
  obtain ⟨_, hxT, hPx⟩ := hs
  rw [List.pairwise_cons] at hxT
  rw [List.filter_append]
  have h1 : P.filter (fun e => decide (eventKey x < eventKey e)) = [] := by
    rw [List.filter_eq_nil_iff]
    intro a ha
    have := hPx a ha x (List.mem_cons_self _ _)
    simpa using le_of_lt this
  have h2 : T.filter (fun e => decide (eventKey x < eventKey e)) = T := by
    rw [List.filter_eq_self]
    intro a ha
    simpa using hxT.1 a ha
  rw [h1, List.filter_cons]
  simp [h2]

/-- The sorted items of the page that follows the stored event `x`. -/
theorem items_after (L : StdLib) (m : MemoryRepository) (q : TimelineQuery) (hinv : RepoInv m)
    (P T : List StoredEvent) (x : StoredEvent)
    (hS : sortStoredEvents (matching L m q) = P ++ x :: T) :
    sortStoredEvents (m.events.values.filter
      (fun e => timelineFilter L q e && afterCursor x.Time.UTC x.ID e)) = T := by
  have hnd : ((matching L m q).map eventKey).Nodup :=
    List.Nodup.sublist (List.Sublist.map eventKey (List.filter_sublist _))
      (RepoInv.nodup_eventKey m hinv)
  have hsorted := sortSlice_sorted_strict eventKey eventLess eventLess_iff_key _ hnd
  have hxmem : x ∈ m.events.values := by
    have h1 : x ∈ sortStoredEvents (matching L m q) := by
      rw [hS]
      simp
    have h2 := (sortSlice_perm eventLess (matching L m q)).mem_iff.1 h1
    exact (List.mem_filter.1 h2).1
  have hx := RepoInv.time_ne_zero m hinv x hxmem
  have hfun : (fun e => timelineFilter L q e && afterCursor x.Time.UTC x.ID e) =
      (fun e => decide (eventKey x < eventKey e) && timelineFilter L q e) := by
    funext e
    rw [Bool.and_comm]
    congr 1
    rw [Bool.eq_iff_iff, afterCursor_iff x e hx]
    simp
  rw [hfun, ← List.filter_filter]
  have h3 := sortSlice_filter eventKey eventLess eventLess_iff_key (matching L m q)
    (fun e => decide (eventKey x < eventKey e)) hnd
  unfold sortStoredEvents matching at *
  rw [h3, hS]
  rw [hS] at hsorted
  exact filter_gt_of_sorted P T x hsorted

theorem encodeCursor_ne_empty (L : StdLib) (m : MemoryRepository) (hinv : RepoInv m)
    (hcodec : CursorRoundTrips L m) (x : StoredEvent) (hx : x ∈ m.events.values) :
    encodeCursor L x.Time x.ID ≠ "" := by
  intro h
  have h1 := hcodec x hx
  rw [h] at h1
  have h2 : decodeCursor L "" = Except.ok (Time.zero, "") := by
    unfold decodeCursor
    rw [if_pos (by decide)]
  rw [h2] at h1
  injection h1 with h3
  injection h3 with h4 h5
  have := RepoInv.time_ne_zero m hinv x hx
  apply this
  have h6 : (Time.zero).nanos = (x.Time.UTC).nanos := by rw [h4]
  simpa [Time.zero, Time.UTC] using h6.symm

theorem collectPages_suffix (L : StdLib) (m : MemoryRepository) (q : TimelineQuery)
    (hinv : RepoInv m) (hcodec : CursorRoundTrips L m) :
    ∀ (n : Nat) (T P : List StoredEvent) (c : String) (ts : Time) (id : String),
      T.length ≤ n →
      sortStoredEvents (matching L m q) = P ++ T →
      decodeCursor L c = Except.ok (ts, id) →
      sortStoredEvents (m.events.values.filter
        (fun e => timelineFilter L q e && afterCursor ts id e)) = T →
      collectPages L m { q with Cursor := c } (n + 1) = some T := by
  intro n
  induction n with
  | zero =>
    intro T P c ts id hlen _ hc hitems
    have hT : T = [] := List.length_eq_zero.1 (Nat.le_zero.1 hlen)
    have hq := QueryTimeline_eq L m { q with Cursor := c } ts id hc
    have hf : timelineFilter L { q with Cursor := c } = timelineFilter L q := rfl
    simp only [hf, hitems] at hq
    have hlim := timelineLimit_pos q.Limit
    unfold collectPages
    rw [hq, hT]
    simp
  | succ n ih =>
    intro T P c ts id hlen hS hc hitems
    have hq := QueryTimeline_eq L m { q with Cursor := c } ts id hc
    have hf : timelineFilter L { q with Cursor := c } = timelineFilter L q := rfl
    simp only [hf, hitems] at hq
    have hlim := timelineLimit_pos q.Limit
    by_cases hgt : T.length > timelineLimit q.Limit
    · -- a full page, followed by the rest
      have hpage_ne : T.take (timelineLimit q.Limit) ≠ [] := by
        intro h0
        rcases List.take_eq_nil_iff.1 h0 with h1 | h1
        · omega
        · rw [h1] at hgt
          simp at hgt
      cases hlast : (T.take (timelineLimit q.Limit)).getLast? with
      | none => exact absurd (List.getLast?_eq_none_iff.1 hlast) hpage_ne
      | some last =>
        obtain ⟨front, hfront⟩ := List.getLast?_eq_some_iff.1 hlast
        have hTsplit : T = front ++ last :: T.drop (timelineLimit q.Limit) := by
          conv_lhs => rw [← List.take_append_drop (timelineLimit q.Limit) T, hfront]
          simp
        have hS2 : sortStoredEvents (matching L m q) =
            (P ++ front) ++ last :: T.drop (timelineLimit q.Limit) := by
          rw [hS]
          conv_lhs => rw [hTsplit]
          simp
        have hlastmem : last ∈ m.events.values := by
          have h1 : last ∈ sortStoredEvents (matching L m q) := by
            rw [hS2]
            simp
          have h2 := (sortSlice_perm eventLess (matching L m q)).mem_iff.1 h1
          exact (List.mem_filter.1 h2).1
        have hne := encodeCursor_ne_empty L m hinv hcodec last hlastmem
        have hnext := items_after L m q hinv (P ++ front) (T.drop (timelineLimit q.Limit))
          last hS2
        have hrec := ih (T.drop (timelineLimit q.Limit)) (P ++ front ++ [last])
          (encodeCursor L last.Time last.ID) last.Time.UTC last.ID
          (by rw [List.length_drop]; omega)
          (by rw [hS2]; simp)
          (hcodec last hlastmem) hnext
        unfold collectPages
        rw [hq]
        simp only [hgt, if_true, hlast, hne, if_false]
        have hq2 : ({ ({ q with Cursor := c } : TimelineQuery) with
            Cursor := encodeCursor L last.Time last.ID } : TimelineQuery) =
            { q with Cursor := encodeCursor L last.Time last.ID } := rfl
        rw [hq2, hrec]
        simp [List.take_append_drop]
    · unfold collectPages
      rw [hq]
      simp [hgt]

/-- C3: for every repository state and every query with an empty cursor,
whatever its limit, when the library decodes the cursors of the stored events to
what was encoded: the loop that calls `QueryTimeline` and follows `NextCursor`
until it is empty ends after at most one call more than there are matching
events, and the concatenated pages are the events that pass the filters of the
query, each once, in (time ASC, id ASC) order. -/
theorem timeline_pages_complete (L : StdLib) (m : MemoryRepository) (q : TimelineQuery)
    (hreach : Reachable L m) (hcodec : CursorRoundTrips L m) (hcur : q.Cursor = "") :
    ∃ pages : List StoredEvent,
      (∀ fuel, (matching L m q).length < fuel → collectPages L m q fuel = some pages) ∧
      pages = sortStoredEvents (matching L m q) ∧
      pages.Perm (matching L m q) ∧
      pages.Pairwise timeOrdered ∧
      pages.Nodup := by
  have hinv := RepoInv_of_reachable L m hreach
  have hnd : ((matching L m q).map eventKey).Nodup :=
    List.Nodup.sublist (List.Sublist.map eventKey (List.filter_sublist _))
      (RepoInv.nodup_eventKey m hinv)
  have hsorted := sortSlice_sorted_strict eventKey eventLess eventLess_iff_key _ hnd
  have hperm := sortSlice_perm eventLess (matching L m q)
  refine ⟨sortStoredEvents (matching L m q), ?_, rfl, hperm, ?_, ?_⟩
  · intro fuel hfuel
    obtain ⟨n, rfl⟩ : ∃ n, fuel = n + 1 := ⟨fuel - 1, by omega⟩
    have hq : q = { q with Cursor := "" } := by
      cases q
      simp only at hcur
      subst hcur
      rfl
    have hdec : decodeCursor L "" = Except.ok (Time.zero, "") := by
      unfold decodeCursor
      rw [if_pos (by decide)]
    have hitems : sortStoredEvents (m.events.values.filter
        (fun e => timelineFilter L q e && afterCursor Time.zero "" e)) =
        sortStoredEvents (matching L m q) := by
      simp only [afterCursor_zero, Bool.and_true]
      rfl
    have hlen : (sortStoredEvents (matching L m q)).length ≤ n := by
      show (sortSlice eventLess (matching L m q)).length ≤ n
      rw [hperm.length_eq]
      omega
    have := collectPages_suffix L m q hinv hcodec n (sortStoredEvents (matching L m q)) []
      "" Time.zero "" hlen (by simp) hdec hitems
    rw [← hq] at this
    exact this
  · exact List.Pairwise.imp (fun {a b} hab => timeOrdered_of_key_lt a b hab) hsorted
  · have h1 : ((sortStoredEvents (matching L m q)).map eventKey).Nodup :=
      (hperm.map eventKey).nodup_iff.2 hnd
    exact List.Nodup.of_map _ h1

/-- C3, an instance: the three sample events are read one per page. -/
theorem timeline_pages_complete_witness :
    ∃ pages : List StoredEvent,
      (∀ fuel, (matching refLib sampleRepo sampleQuery).length < fuel →
        collectPages refLib sampleRepo sampleQuery fuel = some pages) ∧
      pages = sortStoredEvents (matching refLib sampleRepo sampleQuery) ∧
      pages.Perm (matching refLib sampleRepo sampleQuery) ∧
      pages.Pairwise timeOrdered ∧
      pages.Nodup :=
  timeline_pages_complete refLib sampleRepo sampleQuery
    (Reachable.ingest _ _ _ (Reachable.ingest _ _ _ (Reachable.ingest _ _ _ Reachable.init)))
    (by unfold CursorRoundTrips; decide) (by rfl)

/-- The pages of the sample repository, by id. -/
theorem sample_pages :
    (collectPages refLib sampleRepo sampleQuery 4).map (List.map (fun e => e.ID)) =
      some ["e1", "e2", "e3"] ∧
    (collectPages refLib sampleRepo sampleQuery 2).map (List.map (fun e => e.ID)) = none := by
  decide

/-! ## Change aggregation: the first loop, change by change -/

theorem accumulate_eq (L : StdLib) (out : GoMap ChangeDetail) (e : StoredEvent) :
    accumulate L out e =
      out.set (changeID L e)
        (absorbEvent L ((out.get? (changeID L e)).getD (freshDetail L e)) e) := by
  unfold accumulate changeID freshDetail
  cases h : out.get? (deriveChangeIdentity L e).1 with
  | none => simp only [h, Option.getD_none]
  | some c => simp only [h, Option.getD_some]

theorem accumulate_get?_same (L : StdLib) (out : GoMap ChangeDetail) (e : StoredEvent) :
    (accumulate L out e).get? (changeID L e) =
      some (absorbEvent L ((out.get? (changeID L e)).getD (freshDetail L e)) e) := by
  rw [accumulate_eq, GoMap.get?_set_self]

theorem accumulate_get?_other (L : StdLib) (out : GoMap ChangeDetail) (e : StoredEvent)
    (id : String) (h : changeID L e ≠ id) :
    (accumulate L out e).get? id = out.get? id := by
  rw [accumulate_eq, GoMap.get?_set_of_ne _ _ _ _ h]

theorem foldl_accumulate_get? (L : StdLib) (id : String) (events : List StoredEvent) :
    ∀ out : GoMap ChangeDetail,
      (events.foldl (accumulate L) out).get? id =
        match out.get? id with
        | some c => some ((group L id events).foldl (absorbEvent L) c)
        | none => accumulated L (group L id events) := by
  induction events with
  | nil =>
    intro out
    cases h : out.get? id <;> simp [group, accumulated, h]
  | cons e rest ih =>
    intro out
    rw [List.foldl_cons, ih]
    by_cases hid : changeID L e = id
    · have hg : group L id (e :: rest) = e :: group L id rest := by
        simp [group, hid]
      rw [hg]
      subst hid
      rw [accumulate_get?_same]
      cases h : out.get? (changeID L e) <;> simp [accumulated]
    · have hg : group L id (e :: rest) = group L id rest := by
        simp [group, hid]
      rw [hg, accumulate_get?_other L out e id hid]

theorem foldl_accumulate_nodup (L : StdLib) (events : List StoredEvent) :
    ∀ out : GoMap ChangeDetail, out.keys.Nodup →
      (events.foldl (accumulate L) out).keys.Nodup := by
  induction events with
  | nil => intro out h; exact h
  | cons e rest ih =>
    intro out h
    rw [List.foldl_cons]
    apply ih
    rw [accumulate_eq]
    exact GoMap.nodup_keys_set _ _ _ h

theorem GoMap.get?_map {V W : Type} (m : GoMap V) (f : V → W) (k : String) :
    GoMap.get? (m.map (fun p => (p.1, f p.2))) k = (m.get? k).map f := by
  induction m with
  | nil => rfl
  | cons p rest ih =>
    obtain ⟨k1, v1⟩ := p
    by_cases h : k1 = k
    · simp [GoMap.get?, h]
    · simp only [List.map_cons, GoMap.get?, h, if_false]
      exact ih

theorem GoMap.keys_map {V W : Type} (m : GoMap V) (f : V → W) :
    GoMap.keys (m.map (fun p => (p.1, f p.2))) = m.keys := by
  simp [GoMap.keys, List.map_map, Function.comp_def]

theorem buildChangesByID_get? (L : StdLib) (clock : Time) (events : List StoredEvent)
    (id : String) :
    (buildChangesByID L clock events).get? id =
      (accumulated L (group L id events)).map (finalizeChange L clock) := by
  unfold buildChangesByID
  rw [GoMap.get?_map, foldl_accumulate_get?]
  rfl

theorem buildChangesByID_nodup (L : StdLib) (clock : Time) (events : List StoredEvent) :
    (buildChangesByID L clock events).keys.Nodup := by
  unfold buildChangesByID
  rw [GoMap.keys_map]
  exact foldl_accumulate_nodup L events [] List.nodup_nil

/-- The entries of the result of `buildChangesByID`: the finalized accumulation
of each non-empty group. -/
theorem mem_buildChangesByID (L : StdLib) (clock : Time) (events : List StoredEvent)
    (id : String) (c : ChangeDetail) :
    (id, c) ∈ buildChangesByID L clock events ↔
      ∃ e0 rest, group L id events = e0 :: rest ∧
        c = finalizeChange L clock ((e0 :: rest).foldl (absorbEvent L) (freshDetail L e0)) := by
  have hget := buildChangesByID_get? L clock events id
  have hnd := buildChangesByID_nodup L clock events
  constructor
  · intro h
    have h1 := GoMap.get?_of_mem_of_nodup _ id c hnd h
    rw [hget] at h1
    cases hg : group L id events with
    | nil => simp [hg, accumulated] at h1
    | cons e0 rest =>
      simp only [hg, accumulated, Option.map_some', Option.some.injEq] at h1
      exact ⟨e0, rest, rfl, h1.symm⟩
  · rintro ⟨e0, rest, hg, hc⟩
    apply GoMap.mem_of_get?_eq_some
    rw [hget, hg, hc]
    rfl

theorem absorbEvent_Events (L : StdLib) (cur : ChangeDetail) (e : StoredEvent) :
    (absorbEvent L cur e).Events = cur.Events ++ [e] := rfl

theorem absorbEvent_ResultStatus (L : StdLib) (cur : ChangeDetail) (e : StoredEvent) :
    (absorbEvent L cur e).Change.ResultStatus =
      mergeResultStatus cur.Change.ResultStatus (inferResultStatus L e) := by
  simp only [absorbEvent, apply_ite Change.ResultStatus, ite_self]

theorem absorbEvent_HealthStatus (L : StdLib) (cur : ChangeDetail) (e : StoredEvent) :
    (absorbEvent L cur e).Change.HealthStatus =
      mergeHealthStatus cur.Change.HealthStatus (inferHealthStatus L e) := by
  simp only [absorbEvent, apply_ite Change.HealthStatus, ite_self]

theorem absorbEvent_HasApprovals (L : StdLib) (cur : ChangeDetail) (e : StoredEvent) :
    (absorbEvent L cur e).Change.HasApprovals =
      (cur.Change.HasApprovals || decide ((approvalsFromData L e.Data).length > 0)) := by
  simp only [absorbEvent, apply_ite Change.HasApprovals, ite_self]
  by_cases h : (approvalsFromData L e.Data).length > 0
  · simp [h]
  · simp [h]

theorem foldl_absorbEvent_Events (L : StdLib) (g : List StoredEvent) :
    ∀ c : ChangeDetail, (g.foldl (absorbEvent L) c).Events = c.Events ++ g := by
  induction g with
  | nil => intro c; simp
  | cons e rest ih =>
    intro c
    rw [List.foldl_cons, ih, absorbEvent_Events]
    simp

theorem foldl_absorbEvent_ResultStatus (L : StdLib) (g : List StoredEvent) :
    ∀ c : ChangeDetail, (g.foldl (absorbEvent L) c).Change.ResultStatus =
      g.foldl (fun s e => mergeResultStatus s (inferResultStatus L e)) c.Change.ResultStatus := by
  induction g with
  | nil => intro c; rfl
  | cons e rest ih =>
    intro c
    rw [List.foldl_cons, ih, absorbEvent_ResultStatus]
    rfl

theorem foldl_absorbEvent_HealthStatus (L : StdLib) (g : List StoredEvent) :
    ∀ c : ChangeDetail, (g.foldl (absorbEvent L) c).Change.HealthStatus =
      g.foldl (fun s e => mergeHealthStatus s (inferHealthStatus L e)) c.Change.HealthStatus := by
  induction g with
  | nil => intro c; rfl
  | cons e rest ih =>
    intro c
    rw [List.foldl_cons, ih, absorbEvent_HealthStatus]
    rfl

theorem foldl_absorbEvent_HasApprovals (L : StdLib) (g : List StoredEvent) :
    ∀ c : ChangeDetail, (g.foldl (absorbEvent L) c).Change.HasApprovals =
      (c.Change.HasApprovals ||
        g.any (fun e => decide ((approvalsFromData L e.Data).length > 0))) := by
  induction g with
  | nil => intro c; simp
  | cons e rest ih =>
    intro c
    rw [List.foldl_cons, ih, absorbEvent_HasApprovals]
    simp [Bool.or_assoc]

/-- What `finalizeChange` returns for an entry with at least one event. -/
theorem finalizeChange_eq (L : StdLib) (clock : Time) (c : ChangeDetail)
    (first last : StoredEvent)
    (hfirst : (sortSlice eventLess c.Events).head? = some first)
    (hlast : (sortSlice eventLess c.Events).getLast? = some last) :
    finalizeChange L clock c =
      (let events := sortSlice eventLess c.Events
       let st := events.foldl (scanHealth L first.Time.UTC last.Time.UTC)
         ⟨"unknown", "unknown", "unknown", none⟩
       { Change :=
          { c.Change with
            StartedAt := first.Time.UTC
            CompletedAt := last.Time.UTC
            EventCount := (events.length : Int)
            EvidenceLastUpdatedAt := last.Time.UTC
            EvidenceWindowSeconds := evidenceWindowSeconds
            EvidenceMayBeIncomplete :=
              decide (clock.nanos - last.Time.UTC.nanos < evidenceWindowSeconds * 1000000000)
            HealthAtOperationStart := st.startHealth
            HealthAfterDeploy :=
              if st.endHealth = "unknown" then st.lastHealth else st.endHealth
            PostDeployDegradation :=
              ⟨EqualFold st.startHealth "healthy" && st.firstDegradedAfterStart.isSome,
                st.firstDegradedAfterStart⟩ }
         Events := events }) := by
  unfold finalizeChange
  simp only [hfirst, hlast]

/-! ## Change aggregation: shape of a change -/

theorem timeOrderedOrSame_of_key_le (a b : StoredEvent) (h : eventKey a ≤ eventKey b) :
    timeOrderedOrSame a b := by
  have hle : eventKey a ≤ eventKey b ↔
      a.Time.nanos < b.Time.nanos ∨ a.Time.nanos = b.Time.nanos ∧ a.ID ≤ b.ID :=
    Prod.Lex.le_iff _ _
  rw [hle] at h
  unfold timeOrderedOrSame Time.Before Time.Equal
  simpa using h

theorem nanos_le_of_key_le (a b : StoredEvent) (h : eventKey a ≤ eventKey b) :
    a.Time.nanos ≤ b.Time.nanos := by
  have hle : eventKey a ≤ eventKey b ↔
      a.Time.nanos < b.Time.nanos ∨ a.Time.nanos = b.Time.nanos ∧ a.ID ≤ b.ID :=
    Prod.Lex.le_iff _ _
  rw [hle] at h
  rcases h with h | h
  · exact le_of_lt h
  · exact le_of_eq h.1

/-- Every entry of the result of `buildChangesByID` is the finalized
accumulation of the non-empty group `g` of its id, whose sorted form begins with
`first` and ends with `last`. -/
theorem change_shape (L : StdLib) (clock : Time) (events : List StoredEvent)
    (id : String) (c : ChangeDetail) (h : (id, c) ∈ buildChangesByID L clock events) :
    ∃ (e0 : StoredEvent) (rest : List StoredEvent) (first last : StoredEvent),
      group L id events = e0 :: rest ∧
      (sortSlice eventLess (e0 :: rest)).head? = some first ∧
      (sortSlice eventLess (e0 :: rest)).getLast? = some last ∧
      c.Events = sortSlice eventLess (e0 :: rest) ∧
      c.Change.StartedAt = first.Time.UTC ∧
      c.Change.CompletedAt = last.Time.UTC ∧
      c.Change.EventCount = ((sortSlice eventLess (e0 :: rest)).length : Int) ∧
      c.Change.ResultStatus =
        (e0 :: rest).foldl (fun s e => mergeResultStatus s (inferResultStatus L e)) "unknown" ∧
      c.Change.HealthStatus =
        (e0 :: rest).foldl (fun s e => mergeHealthStatus s (inferHealthStatus L e)) "unknown" ∧
      c.Change.HasApprovals =
        (e0 :: rest).any (fun e => decide ((approvalsFromData L e.Data).length > 0)) ∧
      c.Change.HealthAtOperationStart =
        ((sortSlice eventLess (e0 :: rest)).foldl (scanHealth L first.Time.UTC last.Time.UTC)
          ⟨"unknown", "unknown", "unknown", none⟩).startHealth ∧
      c.Change.HealthAfterDeploy =
        (let st := (sortSlice eventLess (e0 :: rest)).foldl
            (scanHealth L first.Time.UTC last.Time.UTC) ⟨"unknown", "unknown", "unknown", none⟩
         if st.endHealth = "unknown" then st.lastHealth else st.endHealth) ∧
      c.Change.PostDeployDegradation =
        (let st := (sortSlice eventLess (e0 :: rest)).foldl
            (scanHealth L first.Time.UTC last.Time.UTC) ⟨"unknown", "unknown", "unknown", none⟩
         ⟨EqualFold st.startHealth "healthy" && st.firstDegradedAfterStart.isSome,
           st.firstDegradedAfterStart⟩) := by
  obtain ⟨e0, rest, hg, hc⟩ := (mem_buildChangesByID L clock events id c).1 h
  have hev : ((e0 :: rest).foldl (absorbEvent L) (freshDetail L e0)).Events = e0 :: rest := by
    rw [foldl_absorbEvent_Events]
    rfl
  have hne : sortSlice eventLess (e0 :: rest) ≠ [] := by
    intro h0
    have := (sortSlice_perm eventLess (e0 :: rest)).length_eq
    rw [h0] at this
    simp at this
  obtain ⟨first, hfirst⟩ : ∃ first, (sortSlice eventLess (e0 :: rest)).head? = some first := by
    cases hs : sortSlice eventLess (e0 :: rest) with
    | nil => exact absurd hs hne
    | cons a t => exact ⟨a, rfl⟩
  obtain ⟨last, hlast⟩ : ∃ last, (sortSlice eventLess (e0 :: rest)).getLast? = some last := by
    cases hl : (sortSlice eventLess (e0 :: rest)).getLast? with
    | none => exact absurd (List.getLast?_eq_none_iff.1 hl) hne
    | some a => exact ⟨a, rfl⟩
  have hfin := finalizeChange_eq L clock
    ((e0 :: rest).foldl (absorbEvent L) (freshDetail L e0)) first last
    (by rw [hev]; exact hfirst) (by rw [hev]; exact hlast)
  rw [hev] at hfin
  rw [← hc] at hfin
  refine ⟨e0, rest, first, last, hg, hfirst, hlast, ?_, ?_, ?_, ?_, ?_, ?_, ?_, ?_, ?_, ?_⟩
  · rw [hfin]
  · rw [hfin]
  · rw [hfin]
  · rw [hfin]
  · rw [hfin]
    simp only []
    rw [foldl_absorbEvent_ResultStatus]
    rfl
  · rw [hfin]
    simp only []
    rw [foldl_absorbEvent_HealthStatus]
    rfl
  · rw [hfin]
    simp only []
    rw [foldl_absorbEvent_HasApprovals]
    rfl
  · rw [hfin]
  · rw [hfin]
  · rw [hfin]

theorem sampleChange_mem :
    (sampleChangeID, sampleChange) ∈ buildChangesByID refLib ⟨5000, 0⟩ sampleOperation := by
  apply (mem_buildChangesByID refLib ⟨5000, 0⟩ sampleOperation sampleChangeID sampleChange).2
  refine ⟨syncStarted, [healthDegraded, syncFinished], ?_, rfl⟩
  exact List.filter_eq_self.2 (by decide)

theorem change_events_perm (L : StdLib) (clock : Time) (events : List StoredEvent)
    (id : String) (c : ChangeDetail) (h : (id, c) ∈ buildChangesByID L clock events) :
    c.Events.Perm (group L id events) := by
  obtain ⟨e0, rest, first, last, hg, _, _, hev, _⟩ := change_shape L clock events id c h
  rw [hev, hg]
  exact sortSlice_perm eventLess (e0 :: rest)

theorem head_le_of_sorted (l : List StoredEvent) (first : StoredEvent)
    (hs : l.Pairwise (fun a b => eventKey a ≤ eventKey b)) (hf : l.head? = some first) :
    first ∈ l ∧ ∀ e ∈ l, eventKey first ≤ eventKey e := by
  cases l with
  | nil => simp at hf
  | cons a t =>
    simp only [List.head?_cons, Option.some.injEq] at hf
    subst hf
    rw [List.pairwise_cons] at hs
    refine ⟨List.mem_cons_self _ _, ?_⟩
    intro e he
    rcases List.mem_cons.1 he with h1 | h1
    · rw [h1]
    · exact hs.1 e h1

theorem le_last_of_sorted (l : List StoredEvent) (last : StoredEvent)
    (hs : l.Pairwise (fun a b => eventKey a ≤ eventKey b)) (hl : l.getLast? = some last) :
    last ∈ l ∧ ∀ e ∈ l, eventKey e ≤ eventKey last := by
  obtain ⟨front, hfront⟩ := List.getLast?_eq_some_iff.1 hl
  subst hfront
  rw [List.pairwise_append] at hs
  refine ⟨by simp, ?_⟩
  intro e he
  rcases List.mem_append.1 he with h1 | h1
  · exact hs.2.2 e h1 last (List.mem_singleton_self _)
  · rw [List.mem_singleton.1 h1]

/-- C6: every change that `buildChangesByID` produces, for every list of events,
has `started_at` not after `completed_at`; `started_at` is the time of one of
its events and no event of the change is earlier, `completed_at` is the time of
one of its events and none is later; `event_count` is the length of its event
list; the list is in (time ASC, id ASC) order and holds exactly the events of
the input that have the id of the change. -/
theorem change_invariants (L : StdLib) (clock : Time) (events : List StoredEvent)
    (id : String) (c : ChangeDetail) (h : (id, c) ∈ buildChangesByID L clock events) :
    c.Change.StartedAt.nanos ≤ c.Change.CompletedAt.nanos ∧
      (∃ e ∈ c.Events, c.Change.StartedAt = e.Time.UTC) ∧
      (∀ e ∈ c.Events, c.Change.StartedAt.nanos ≤ e.Time.nanos) ∧
      (∃ e ∈ c.Events, c.Change.CompletedAt = e.Time.UTC) ∧
      (∀ e ∈ c.Events, e.Time.nanos ≤ c.Change.CompletedAt.nanos) ∧
      c.Change.EventCount = (c.Events.length : Int) ∧
      c.Events.Pairwise timeOrderedOrSame ∧
      c.Events.Perm (group L id events) ∧
      c.Events ≠ [] := by
  obtain ⟨e0, rest, first, last, hg, hfirst, hlast, hev, hst, hco, hcnt, _⟩ :=
    change_shape L clock events id c h
  have hsorted := sortSlice_sorted eventKey eventLess eventLess_iff_key (e0 :: rest)
  have hf := head_le_of_sorted _ first hsorted hfirst
  have hl := le_last_of_sorted _ last hsorted hlast
  rw [← hev] at hsorted hf hl hcnt
  refine ⟨?_, ⟨first, hf.1, hst⟩, ?_, ⟨last, hl.1, hco⟩, ?_, hcnt, ?_, ?_, ?_⟩
  · rw [hst, hco]
    exact nanos_le_of_key_le first last (hf.2 last hl.1)
  · intro e he
    rw [hst]
    exact nanos_le_of_key_le first e (hf.2 e he)
  · intro e he
    rw [hco]
    exact nanos_le_of_key_le e last (hl.2 e he)
  · exact List.Pairwise.imp (fun {a b} hab => timeOrderedOrSame_of_key_le a b hab) hsorted
  · rw [hev, hg]
    exact sortSlice_perm eventLess (e0 :: rest)
  · intro h0
    rw [h0] at hf
    simp at hf

/-- C6, an instance: the change of the sample operation. -/
theorem change_invariants_witness :
    sampleChange.Change.StartedAt.nanos ≤ sampleChange.Change.CompletedAt.nanos ∧
      (∃ e ∈ sampleChange.Events, sampleChange.Change.StartedAt = e.Time.UTC) ∧
      (∀ e ∈ sampleChange.Events, sampleChange.Change.StartedAt.nanos ≤ e.Time.nanos) ∧
      (∃ e ∈ sampleChange.Events, sampleChange.Change.CompletedAt = e.Time.UTC) ∧
      (∀ e ∈ sampleChange.Events, e.Time.nanos ≤ sampleChange.Change.CompletedAt.nanos) ∧
      sampleChange.Change.EventCount = (sampleChange.Events.length : Int) ∧
      sampleChange.Events.Pairwise timeOrderedOrSame ∧
      sampleChange.Events.Perm (group refLib sampleChangeID sampleOperation) ∧
      sampleChange.Events ≠ [] :=
  change_invariants refLib ⟨5000, 0⟩ sampleOperation sampleChangeID sampleChange
    sampleChange_mem

/-- The summary of the sample change. -/
theorem sampleChange_summary :
    sampleChange.Change.ID = sampleChangeID ∧
      sampleChange.Change.StartedAt = ⟨1000, 0⟩ ∧
      sampleChange.Change.CompletedAt = ⟨3000, 0⟩ ∧
      sampleChange.Change.EventCount = 3 ∧
      sampleChange.Change.ResultStatus = "succeeded" ∧
      sampleChange.Change.HealthStatus = "degraded" ∧
      sampleChange.Change.HealthAtOperationStart = "healthy" ∧
      sampleChange.Change.HealthAfterDeploy = "degraded" ∧
      sampleChange.Change.PostDeployDegradation.Observed = true ∧
      sampleChange.Change.PostDeployDegradation.FirstTimestamp = some ⟨2000, 0⟩ ∧
      sampleChange.Events.map (fun e => e.ID) = ["evt-start", "evt-mid", "evt-end"] := by
  decide

/-! ## Result status -/

theorem inferResultStatus_eq (L : StdLib) (e : StoredEvent) :
    inferResultStatus L e =
      if containsAny (resultBucket L e) failureWords = true then "failed"
      else if containsAny (resultBucket L e) successWords = true then "succeeded"
      else "unknown" := by
  have h1 : containsAny (resultBucket L e) failureWords =
      (Contains (resultBucket L e) "fail" || Contains (resultBucket L e) "error" ||
        Contains (resultBucket L e) "degrad" || Contains (resultBucket L e) "abort") := by
    simp [containsAny, failureWords, Bool.or_assoc]
  have h2 : containsAny (resultBucket L e) successWords =
      (Contains (resultBucket L e) "success" || Contains (resultBucket L e) "succeed" ||
        Contains (resultBucket L e) "healthy" || Contains (resultBucket L e) "complete") := by
    simp [containsAny, successWords, Bool.or_assoc]
  rw [h1, h2]
  rfl

theorem inferResultStatus_failed (L : StdLib) (e : StoredEvent) :
    inferResultStatus L e = "failed" ↔ containsAny (resultBucket L e) failureWords = true := by
  rw [inferResultStatus_eq]
  cases containsAny (resultBucket L e) failureWords <;>
    cases containsAny (resultBucket L e) successWords <;> decide

theorem inferResultStatus_succeeded (L : StdLib) (e : StoredEvent) :
    inferResultStatus L e = "succeeded" ↔
      containsAny (resultBucket L e) failureWords = false ∧
        containsAny (resultBucket L e) successWords = true := by
  rw [inferResultStatus_eq]
  cases containsAny (resultBucket L e) failureWords <;>
    cases containsAny (resultBucket L e) successWords <;> decide

theorem mergeResultStatus_failed (a b : String) :
    mergeResultStatus a b = "failed" ↔ a = "failed" ∨ b = "failed" := by
  unfold mergeResultStatus
  split
  · rename_i h
    simp [h]
  · rename_i h
    simp only [h, iff_false]
    split <;> decide

theorem mergeResultStatus_succeeded (a b : String) :
    mergeResultStatus a b = "succeeded" ↔
      ¬(a = "failed" ∨ b = "failed") ∧ (a = "succeeded" ∨ b = "succeeded") := by
  unfold mergeResultStatus
  split
  · rename_i h
    simp only [h, not_true_eq_false, false_and, iff_false]
    decide
  · rename_i h
    simp only [h, not_false_eq_true, true_and]
    split
    · rename_i h2
      simp [h2]
    · rename_i h2
      simp only [h2, iff_false]
      decide

theorem mergeResultStatus_range (a b : String) :
    mergeResultStatus a b = "failed" ∨ mergeResultStatus a b = "succeeded" ∨
      mergeResultStatus a b = "unknown" := by
  unfold mergeResultStatus
  split
  · exact Or.inl rfl
  · split
    · exact Or.inr (Or.inl rfl)
    · exact Or.inr (Or.inr rfl)

theorem foldl_mergeResultStatus_failed {α : Type} (f : α → String) (g : List α) :
    ∀ s : String, g.foldl (fun s e => mergeResultStatus s (f e)) s = "failed" ↔
      s = "failed" ∨ ∃ e ∈ g, f e = "failed" := by
  induction g with
  | nil => intro s; simp
  | cons e rest ih =>
    intro s
    rw [List.foldl_cons, ih, mergeResultStatus_failed]
    simp only [List.mem_cons, exists_eq_or_imp]
    tauto

theorem foldl_mergeResultStatus_succeeded {α : Type} (f : α → String) (g : List α) :
    ∀ s : String, g.foldl (fun s e => mergeResultStatus s (f e)) s = "succeeded" ↔
      ¬(s = "failed" ∨ ∃ e ∈ g, f e = "failed") ∧
        (s = "succeeded" ∨ ∃ e ∈ g, f e = "succeeded") := by
  induction g with
  | nil =>
    intro s
    simp only [List.foldl_nil, List.not_mem_nil, false_and, exists_false, or_false]
    constructor
    · intro h
      subst h
      exact ⟨by decide, rfl⟩
    · exact fun h => h.2
  | cons e rest ih =>
    intro s
    have hP : (∃ x ∈ e :: rest, f x = "failed") ↔
        f e = "failed" ∨ ∃ x ∈ rest, f x = "failed" := by simp
    have hQ : (∃ x ∈ e :: rest, f x = "succeeded") ↔
        f e = "succeeded" ∨ ∃ x ∈ rest, f x = "succeeded" := by simp
    rw [List.foldl_cons, ih, mergeResultStatus_failed, mergeResultStatus_succeeded, hP, hQ]
    generalize (∃ x ∈ rest, f x = "failed") = P
    generalize (∃ x ∈ rest, f x = "succeeded") = Q
    tauto

theorem foldl_mergeResultStatus_range {α : Type} (f : α → String) (g : List α) :
    ∀ s : String, (s = "failed" ∨ s = "succeeded" ∨ s = "unknown") →
      (g.foldl (fun s e => mergeResultStatus s (f e)) s = "failed" ∨
        g.foldl (fun s e => mergeResultStatus s (f e)) s = "succeeded" ∨
        g.foldl (fun s e => mergeResultStatus s (f e)) s = "unknown") := by
  induction g with
  | nil => intro s hs; exact hs
  | cons e rest ih =>
    intro s _
    rw [List.foldl_cons]
    exact ih _ (mergeResultStatus_range s (f e))

theorem group_append (L : StdLib) (id : String) (xs ys : List StoredEvent) :
    group L id (xs ++ ys) = group L id xs ++ group L id ys := by
  simp [group, List.filter_append]

/-- C8: for every change that `buildChangesByID` produces, `result_status` is
`failed` exactly when the lower-cased bucket (event type and data status) of one
of its events contains fail, error, degrad or abort; otherwise it is `succeeded`
exactly when the bucket of one of its events contains success, succeed, healthy
or complete; otherwise it is `unknown`.  A change that is failed is failed in
the result for every longer input, whatever events are appended. -/
theorem result_status_rule (L : StdLib) (clock : Time) (events : List StoredEvent)
    (id : String) (c : ChangeDetail) (h : (id, c) ∈ buildChangesByID L clock events) :
    (c.Change.ResultStatus = "failed" ↔
        ∃ e ∈ c.Events, containsAny (resultBucket L e) failureWords = true) ∧
      (c.Change.ResultStatus = "succeeded" ↔
        (¬∃ e ∈ c.Events, containsAny (resultBucket L e) failureWords = true) ∧
          ∃ e ∈ c.Events, containsAny (resultBucket L e) successWords = true) ∧
      (c.Change.ResultStatus = "unknown" ↔
        (¬∃ e ∈ c.Events, containsAny (resultBucket L e) failureWords = true) ∧
          ¬∃ e ∈ c.Events, containsAny (resultBucket L e) successWords = true) ∧
      (c.Change.ResultStatus = "failed" →
        ∀ (more : List StoredEvent) (clock2 : Time) (c2 : ChangeDetail),
          (id, c2) ∈ buildChangesByID L clock2 (events ++ more) →
            c2.Change.ResultStatus = "failed") := by
  obtain ⟨e0, rest, first, last, hg, _, _, hev, _, _, _, hres, _⟩ :=
    change_shape L clock events id c h
  have hmem : ∀ e, e ∈ c.Events ↔ e ∈ e0 :: rest := by
    intro e
    rw [hev]
    exact (sortSlice_perm eventLess (e0 :: rest)).mem_iff
  have hF : c.Change.ResultStatus = "failed" ↔
      ∃ e ∈ c.Events, containsAny (resultBucket L e) failureWords = true := by
    rw [hres, foldl_mergeResultStatus_failed]
    simp only [hmem, inferResultStatus_failed, (by decide : ¬("unknown" = "failed")), false_or]
  have hS : c.Change.ResultStatus = "succeeded" ↔
      (¬∃ e ∈ c.Events, containsAny (resultBucket L e) failureWords = true) ∧
        ∃ e ∈ c.Events, containsAny (resultBucket L e) successWords = true := by
    rw [hres, foldl_mergeResultStatus_succeeded]
    simp only [hmem, inferResultStatus_failed, inferResultStatus_succeeded,
      (by decide : ¬("unknown" = "failed")), (by decide : ¬("unknown" = "succeeded")), false_or]
    constructor
    · rintro ⟨h1, e, he, _, h3⟩
      exact ⟨h1, e, he, h3⟩
    · rintro ⟨h1, e, he, h3⟩
      refine ⟨h1, e, he, ?_, h3⟩
      cases hb : containsAny (resultBucket L e) failureWords
      · rfl
      · exact absurd ⟨e, he, hb⟩ h1
  have hR := foldl_mergeResultStatus_range (inferResultStatus L) (e0 :: rest) "unknown"
    (Or.inr (Or.inr rfl))
  rw [← hres] at hR
  refine ⟨hF, hS, ?_, ?_⟩
  · constructor
    · intro hu
      constructor
      · intro hx
        have := hF.2 hx
        rw [hu] at this
        exact absurd this (by decide)
      · intro hx
        by_cases hf : ∃ e ∈ c.Events, containsAny (resultBucket L e) failureWords = true
        · have := hF.2 hf
          rw [hu] at this
          exact absurd this (by decide)
        · have := hS.2 ⟨hf, hx⟩
          rw [hu] at this
          exact absurd this (by decide)
    · rintro ⟨h1, h2⟩
      rcases hR with h3 | h3 | h3
      · exact absurd (hF.1 h3) h1
      · exact absurd (hS.1 h3).2 h2
      · exact h3
  · intro hfail more clock2 c2 h2
    obtain ⟨e0', rest', _, _, hg2, _, _, _, _, _, _, hres2, _⟩ :=
      change_shape L clock2 (events ++ more) id c2 h2
    rw [hres2, foldl_mergeResultStatus_failed]
    right
    rw [hres, foldl_mergeResultStatus_failed] at hfail
    rcases hfail with hfail | ⟨e, he, hfe⟩
    · exact absurd hfail (by decide)
    · refine ⟨e, ?_, hfe⟩
      rw [← hg2, group_append]
      rw [← hg] at he
      exact List.mem_append_left _ he

/-- C8, an instance: the change of the sample operation. -/
theorem result_status_rule_witness :
    (sampleChange.Change.ResultStatus = "failed" ↔
        ∃ e ∈ sampleChange.Events, containsAny (resultBucket refLib e) failureWords = true) ∧
      (sampleChange.Change.ResultStatus = "succeeded" ↔
        (¬∃ e ∈ sampleChange.Events, containsAny (resultBucket refLib e) failureWords = true) ∧
          ∃ e ∈ sampleChange.Events, containsAny (resultBucket refLib e) successWords = true) ∧
      (sampleChange.Change.ResultStatus = "unknown" ↔
        (¬∃ e ∈ sampleChange.Events, containsAny (resultBucket refLib e) failureWords = true) ∧
          ¬∃ e ∈ sampleChange.Events,
            containsAny (resultBucket refLib e) successWords = true) ∧
      (sampleChange.Change.ResultStatus = "failed" →
        ∀ (more : List StoredEvent) (clock2 : Time) (c2 : ChangeDetail),
          (sampleChangeID, c2) ∈ buildChangesByID refLib clock2 (sampleOperation ++ more) →
            c2.Change.ResultStatus = "failed") :=
  result_status_rule refLib ⟨5000, 0⟩ sampleOperation sampleChangeID sampleChange
    sampleChange_mem

/-! ## Health status -/

theorem mergeHealthStatus_degraded (a b : String) :
    mergeHealthStatus a b = "degraded" ↔ a = "degraded" ∨ b = "degraded" := by
  unfold mergeHealthStatus
  by_cases h1 : b = "degraded"
  · simp [h1]
  · by_cases h2 : a = "degraded"
    · subst h2
      simp [h1]
    · simp only [h1, h2, if_false, or_self, iff_false]
      split
      · decide
      · split
        · decide
        · split
          · decide
          · exact h2

theorem mergeHealthStatus_progressing (a b : String) :
    mergeHealthStatus a b = "progressing" ↔
      ¬(a = "degraded" ∨ b = "degraded") ∧ (a = "progressing" ∨ b = "progressing") := by
  unfold mergeHealthStatus
  by_cases h1 : b = "degraded"
  · subst h1
    simp
  · by_cases h2 : a = "degraded"
    · subst h2
      simp [h1]
    · simp only [h1, h2, if_false, or_self, not_false_eq_true, true_and, ne_eq, and_true]
      by_cases h3 : b = "progressing"
      · simp [h3]
      · simp only [h3, if_false, or_false]
        split
        · rename_i h4
          rw [h4.2]
          decide
        · split
          · rename_i h4
            rw [h4.2]
            decide
          · rfl

theorem mergeHealthStatus_settled (a b : String) (ha : a = "healthy" ∨ a = "missing")
    (hb1 : b ≠ "degraded") (hb2 : b ≠ "progressing") : mergeHealthStatus a b = a := by
  unfold mergeHealthStatus
  have hu : a ≠ "unknown" := by
    rcases ha with h | h <;> rw [h] <;> decide
  simp [hb1, hb2, hu]

theorem mergeHealthStatus_unknown (b : String)
    (hb1 : b ≠ "degraded") (hb2 : b ≠ "progressing") :
    mergeHealthStatus "unknown" b =
      if b = "healthy" ∨ b = "missing" then b else "unknown" := by
  unfold mergeHealthStatus
  simp only [hb1, hb2, if_false, false_and, and_true]
  by_cases h3 : b = "healthy"
  · simp [h3]
  · by_cases h4 : b = "missing"
    · simp [h4]
    · simp [h3, h4]

theorem foldl_mergeHealthStatus_degraded {α : Type} (f : α → String) (g : List α) :
    ∀ s : String, g.foldl (fun s e => mergeHealthStatus s (f e)) s = "degraded" ↔
      s = "degraded" ∨ ∃ e ∈ g, f e = "degraded" := by
  induction g with
  | nil => intro s; simp
  | cons e rest ih =>
    intro s
    have hP : (∃ x ∈ e :: rest, f x = "degraded") ↔
        f e = "degraded" ∨ ∃ x ∈ rest, f x = "degraded" := by simp
    rw [List.foldl_cons, ih, mergeHealthStatus_degraded, hP]
    generalize (∃ x ∈ rest, f x = "degraded") = P
    tauto

theorem foldl_mergeHealthStatus_progressing {α : Type} (f : α → String) (g : List α) :
    ∀ s : String, g.foldl (fun s e => mergeHealthStatus s (f e)) s = "progressing" ↔
      ¬(s = "degraded" ∨ ∃ e ∈ g, f e = "degraded") ∧
        (s = "progressing" ∨ ∃ e ∈ g, f e = "progressing") := by
  induction g with
  | nil =>
    intro s
    simp only [List.foldl_nil, List.not_mem_nil, false_and, exists_false, or_false]
    constructor
    · intro h
      subst h
      exact ⟨by decide, rfl⟩
    · exact fun h => h.2
  | cons e rest ih =>
    intro s
    have hP : (∃ x ∈ e :: rest, f x = "degraded") ↔
        f e = "degraded" ∨ ∃ x ∈ rest, f x = "degraded" := by simp
    have hQ : (∃ x ∈ e :: rest, f x = "progressing") ↔
        f e = "progressing" ∨ ∃ x ∈ rest, f x = "progressing" := by simp
    rw [List.foldl_cons, ih, mergeHealthStatus_degraded, mergeHealthStatus_progressing, hP, hQ]
    generalize (∃ x ∈ rest, f x = "degraded") = P
    generalize (∃ x ∈ rest, f x = "progressing") = Q
    tauto

theorem foldl_mergeHealthStatus_settled {α : Type} (f : α → String) (g : List α)
    (hg : ∀ e ∈ g, f e ≠ "degraded" ∧ f e ≠ "progressing") :
    ∀ s : String, (s = "healthy" ∨ s = "missing") →
      g.foldl (fun s e => mergeHealthStatus s (f e)) s = s := by
  induction g with
  | nil => intro s _; rfl
  | cons e rest ih =>
    intro s hs
    have he := hg e (List.mem_cons_self _ _)
    rw [List.foldl_cons, mergeHealthStatus_settled s (f e) hs he.1 he.2]
    exact ih (fun x hx => hg x (List.mem_cons_of_mem _ hx)) s hs

theorem foldl_mergeHealthStatus_first {α : Type} (f : α → String) (g : List α)
    (hg : ∀ e ∈ g, f e ≠ "degraded" ∧ f e ≠ "progressing") :
    g.foldl (fun s e => mergeHealthStatus s (f e)) "unknown" =
      ((g.map f).find? (fun h => decide (h = "healthy") || decide (h = "missing"))).getD
        "unknown" := by
  induction g with
  | nil => rfl
  | cons e rest ih =>
    have he := hg e (List.mem_cons_self _ _)
    have hrest : ∀ x ∈ rest, f x ≠ "degraded" ∧ f x ≠ "progressing" :=
      fun x hx => hg x (List.mem_cons_of_mem _ hx)
    rw [List.foldl_cons, mergeHealthStatus_unknown (f e) he.1 he.2, List.map_cons,
      List.find?_cons]
    by_cases hs : f e = "healthy" ∨ f e = "missing"
    · have hb : (decide (f e = "healthy") || decide (f e = "missing")) = true := by
        simpa using hs
      rw [if_pos hs, hb]
      simp only [Option.getD_some]
      exact foldl_mergeHealthStatus_settled f rest hrest (f e) hs
    · have hb : (decide (f e = "healthy") || decide (f e = "missing")) = false := by
        simpa using hs
      rw [if_neg hs, hb]
      exact ih hrest

/-- C9 (as amended): for every change that `buildChangesByID` produces,
`health_status` is `degraded` exactly when one of its events reports degraded;
it is `progressing` exactly when none reports degraded and one reports
progressing; and when none reports degraded or progressing it is the health
reported by the first event of the change, in the order of the input, that
reports healthy or missing, and `unknown` when no event reports either. -/
theorem health_status_rule (L : StdLib) (clock : Time) (events : List StoredEvent)
    (id : String) (c : ChangeDetail) (h : (id, c) ∈ buildChangesByID L clock events) :
    (c.Change.HealthStatus = "degraded" ↔
        ∃ e ∈ c.Events, inferHealthStatus L e = "degraded") ∧
      (c.Change.HealthStatus = "progressing" ↔
        (¬∃ e ∈ c.Events, inferHealthStatus L e = "degraded") ∧
          ∃ e ∈ c.Events, inferHealthStatus L e = "progressing") ∧
      ((¬∃ e ∈ c.Events, inferHealthStatus L e = "degraded") →
        (¬∃ e ∈ c.Events, inferHealthStatus L e = "progressing") →
          c.Change.HealthStatus = firstSettledHealth L (group L id events)) := by
  obtain ⟨e0, rest, first, last, hg, _, _, hev, _, _, _, _, hhs, _⟩ :=
    change_shape L clock events id c h
  have hmem : ∀ e, e ∈ c.Events ↔ e ∈ e0 :: rest := by
    intro e
    rw [hev]
    exact (sortSlice_perm eventLess (e0 :: rest)).mem_iff
  refine ⟨?_, ?_, ?_⟩
  · rw [hhs, foldl_mergeHealthStatus_degraded]
    simp only [hmem, (by decide : ¬("unknown" = "degraded")), false_or]
  · rw [hhs, foldl_mergeHealthStatus_progressing]
    simp only [hmem, (by decide : ¬("unknown" = "degraded")),
      (by decide : ¬("unknown" = "progressing")), false_or]
  · intro h1 h2
    rw [hhs, hg]
    unfold firstSettledHealth
    apply foldl_mergeHealthStatus_first
    intro e he
    constructor
    · intro hd
      exact h1 ⟨e, (hmem e).2 he, hd⟩
    · intro hp
      exact h2 ⟨e, (hmem e).2 he, hp⟩

/-- C9, an instance: the change of the sample operation. -/
theorem health_status_rule_witness :
    (sampleChange.Change.HealthStatus = "degraded" ↔
        ∃ e ∈ sampleChange.Events, inferHealthStatus refLib e = "degraded") ∧
      (sampleChange.Change.HealthStatus = "progressing" ↔
        (¬∃ e ∈ sampleChange.Events, inferHealthStatus refLib e = "degraded") ∧
          ∃ e ∈ sampleChange.Events, inferHealthStatus refLib e = "progressing") ∧
      ((¬∃ e ∈ sampleChange.Events, inferHealthStatus refLib e = "degraded") →
        (¬∃ e ∈ sampleChange.Events, inferHealthStatus refLib e = "progressing") →
          sampleChange.Change.HealthStatus =
            firstSettledHealth refLib (group refLib sampleChangeID sampleOperation)) :=
  health_status_rule refLib ⟨5000, 0⟩ sampleOperation sampleChangeID sampleChange
    sampleChange_mem

/-- C9, as stated, fails: in the change built from an event that reports
`Missing` followed by an event that reports `Healthy`, an event reports healthy
and none reports degraded or progressing, yet `health_status` is `missing`. -/
theorem health_status_missing_before_healthy :
    ("chg_payments-api:prod-eu:eu-1:argo:op-2", missingThenHealthy) ∈
        buildChangesByID refLib ⟨5000, 0⟩ [reportsMissing, reportsHealthy] ∧
      (∃ e ∈ missingThenHealthy.Events, inferHealthStatus refLib e = "healthy") ∧
      (¬∃ e ∈ missingThenHealthy.Events, inferHealthStatus refLib e = "degraded") ∧
      (¬∃ e ∈ missingThenHealthy.Events, inferHealthStatus refLib e = "progressing") ∧
      missingThenHealthy.Change.HealthStatus = "missing" := by
  refine ⟨?_, by decide, by decide, by decide, by decide⟩
  apply (mem_buildChangesByID refLib ⟨5000, 0⟩ [reportsMissing, reportsHealthy] _ _).2
  refine ⟨reportsMissing, [reportsHealthy], ?_, rfl⟩
  exact List.filter_eq_self.2 (by decide)

/-! ## Post-deploy degradation -/

theorem inferHealthStatus_range (L : StdLib) (e : StoredEvent) :
    inferHealthStatus L e = "healthy" ∨ inferHealthStatus L e = "degraded" ∨
      inferHealthStatus L e = "progressing" ∨ inferHealthStatus L e = "missing" ∨
      inferHealthStatus L e = "unknown" := by
  unfold inferHealthStatus
  simp only []
  split_ifs <;> simp

theorem EqualFold_healthy (x : String)
    (hx : x = "healthy" ∨ x = "degraded" ∨ x = "progressing" ∨ x = "missing" ∨ x = "unknown") :
    EqualFold x "healthy" = true ↔ x = "healthy" := by
  rcases hx with h | h | h | h | h <;> subst h <;> decide

theorem scanHealth_first (L : StdLib) (startedAt completedAt : Time) (st : HealthScan)
    (e : StoredEvent) :
    (scanHealth L startedAt completedAt st e).firstDegradedAfterStart =
      match st.firstDegradedAfterStart with
      | some t => some t
      | none => if degradedAfter L startedAt e = true then some e.Time.UTC else none := by
  unfold scanHealth degradedAfter
  by_cases hu : inferHealthStatus L e = "unknown"
  · have hd : ¬ inferHealthStatus L e = "degraded" := by
      rw [hu]
      decide
    simp only [hu, if_true]
    cases st.firstDegradedAfterStart <;> simp
  · simp only [hu, if_false]
    cases hf : st.firstDegradedAfterStart with
    | some t => simp [apply_ite HealthScan.firstDegradedAfterStart, hf]
    | none =>
      by_cases hp : (e.Time.After startedAt && decide (inferHealthStatus L e = "degraded")) = true
      · simp [apply_ite HealthScan.firstDegradedAfterStart, hf, hp]
      · simp [apply_ite HealthScan.firstDegradedAfterStart, hf, hp]

theorem scanHealth_start_range (L : StdLib) (startedAt completedAt : Time) (st : HealthScan)
    (e : StoredEvent)
    (hst : st.startHealth = "healthy" ∨ st.startHealth = "degraded" ∨
      st.startHealth = "progressing" ∨ st.startHealth = "missing" ∨ st.startHealth = "unknown") :
    (scanHealth L startedAt completedAt st e).startHealth = "healthy" ∨
      (scanHealth L startedAt completedAt st e).startHealth = "degraded" ∨
      (scanHealth L startedAt completedAt st e).startHealth = "progressing" ∨
      (scanHealth L startedAt completedAt st e).startHealth = "missing" ∨
      (scanHealth L startedAt completedAt st e).startHealth = "unknown" := by
  unfold scanHealth
  by_cases hu : inferHealthStatus L e = "unknown"
  · simp only [hu, if_true]
    exact hst
  · simp only [hu, if_false, apply_ite HealthScan.startHealth, ite_self]
    split
    · exact inferHealthStatus_range L e
    · exact hst

theorem foldl_scanHealth_first (L : StdLib) (startedAt completedAt : Time)
    (l : List StoredEvent) :
    ∀ st : HealthScan,
      (l.foldl (scanHealth L startedAt completedAt) st).firstDegradedAfterStart =
        match st.firstDegradedAfterStart with
        | some t => some t
        | none => (l.find? (degradedAfter L startedAt)).map (fun e => e.Time.UTC) := by
  induction l with
  | nil => intro st; cases h : st.firstDegradedAfterStart <;> simp [h]
  | cons e rest ih =>
    intro st
    rw [List.foldl_cons, ih, scanHealth_first, List.find?_cons]
    cases st.firstDegradedAfterStart with
    | some t => rfl
    | none =>
      by_cases hp : degradedAfter L startedAt e = true
      · simp [hp]
      · simp [hp]

theorem foldl_scanHealth_start_range (L : StdLib) (startedAt completedAt : Time)
    (l : List StoredEvent) :
    ∀ st : HealthScan,
      (st.startHealth = "healthy" ∨ st.startHealth = "degraded" ∨
        st.startHealth = "progressing" ∨ st.startHealth = "missing" ∨
        st.startHealth = "unknown") →
      ((l.foldl (scanHealth L startedAt completedAt) st).startHealth = "healthy" ∨
        (l.foldl (scanHealth L startedAt completedAt) st).startHealth = "degraded" ∨
        (l.foldl (scanHealth L startedAt completedAt) st).startHealth = "progressing" ∨
        (l.foldl (scanHealth L startedAt completedAt) st).startHealth = "missing" ∨
        (l.foldl (scanHealth L startedAt completedAt) st).startHealth = "unknown") := by
  induction l with
  | nil => intro st hst; exact hst
  | cons e rest ih =>
    intro st hst
    rw [List.foldl_cons]
    exact ih _ (scanHealth_start_range L startedAt completedAt st e hst)

theorem find?_first_of_sorted (p : StoredEvent → Bool) (l : List StoredEvent) (x : StoredEvent)
    (hs : l.Pairwise (fun a b => eventKey a ≤ eventKey b)) (hf : l.find? p = some x) :
    x ∈ l ∧ p x = true ∧ ∀ y ∈ l, p y = true → eventKey x ≤ eventKey y := by
  induction l with
  | nil => simp at hf
  | cons a t ih =>
    rw [List.pairwise_cons] at hs
    rw [List.find?_cons] at hf
    by_cases hpa : p a = true
    · rw [hpa] at hf
      simp only [Option.some.injEq] at hf
      subst hf
      refine ⟨List.mem_cons_self _ _, hpa, ?_⟩
      intro y hy _
      rcases List.mem_cons.1 hy with h1 | h1
      · rw [h1]
      · exact hs.1 y h1
    · have hpa2 : p a = false := by simpa using hpa
      rw [hpa2] at hf
      obtain ⟨h1, h2, h3⟩ := ih hs.2 hf
      refine ⟨List.mem_cons_of_mem _ h1, h2, ?_⟩
      intro y hy hpy
      rcases List.mem_cons.1 hy with h4 | h4
      · rw [h4] at hpy
        exact absurd hpy hpa
      · exact h3 y h4 hpy

/-- C10: for every change that `buildChangesByID` produces,
`post_deploy_degradation.observed` is true exactly when
`health_at_operation_start` is `healthy` and the change has an event, later than
`started_at`, whose health is degraded; and when it is true, `first_timestamp`
is the time of such an event than which no other such event is earlier. -/
theorem post_deploy_degradation_rule (L : StdLib) (clock : Time) (events : List StoredEvent)
    (id : String) (c : ChangeDetail) (h : (id, c) ∈ buildChangesByID L clock events) :
    (c.Change.PostDeployDegradation.Observed = true ↔
        c.Change.HealthAtOperationStart = "healthy" ∧
          ∃ e ∈ c.Events, e.Time.After c.Change.StartedAt = true ∧
            inferHealthStatus L e = "degraded") ∧
      (c.Change.PostDeployDegradation.Observed = true →
        ∃ e ∈ c.Events, e.Time.After c.Change.StartedAt = true ∧
          inferHealthStatus L e = "degraded" ∧
          c.Change.PostDeployDegradation.FirstTimestamp = some e.Time.UTC ∧
          ∀ e2 ∈ c.Events, e2.Time.After c.Change.StartedAt = true →
            inferHealthStatus L e2 = "degraded" → e.Time.nanos ≤ e2.Time.nanos) := by
  obtain ⟨e0, rest, first, last, hg, _, _, hev, hst, _, _, _, _, _, hstart, _, hpdd⟩ :=
    change_shape L clock events id c h
  have hsorted := sortSlice_sorted eventKey eventLess eventLess_iff_key (e0 :: rest)
  rw [← hev] at hsorted hstart hpdd
  rw [← hst] at hstart hpdd
  have hfirst := foldl_scanHealth_first L c.Change.StartedAt last.Time.UTC c.Events
    ⟨"unknown", "unknown", "unknown", none⟩
  simp only [] at hfirst
  have hrange := foldl_scanHealth_start_range L c.Change.StartedAt last.Time.UTC c.Events
    ⟨"unknown", "unknown", "unknown", none⟩ (Or.inr (Or.inr (Or.inr (Or.inr rfl))))
  rw [← hstart] at hrange
  have hobs : c.Change.PostDeployDegradation.Observed =
      (EqualFold c.Change.HealthAtOperationStart "healthy" &&
        ((c.Events.find? (degradedAfter L c.Change.StartedAt)).map
          (fun e => e.Time.UTC)).isSome) := by
    rw [hpdd]
    simp only []
    rw [hfirst, ← hstart]
  have hts : c.Change.PostDeployDegradation.FirstTimestamp =
      (c.Events.find? (degradedAfter L c.Change.StartedAt)).map (fun e => e.Time.UTC) := by
    rw [hpdd]
    simp only []
    rw [hfirst]
  have hda : ∀ e, degradedAfter L c.Change.StartedAt e = true ↔
      e.Time.After c.Change.StartedAt = true ∧ inferHealthStatus L e = "degraded" := by
    intro e
    simp [degradedAfter]
  constructor
  · rw [hobs, Bool.and_eq_true, EqualFold_healthy _ hrange]
    apply and_congr_right
    intro _
    rw [Option.isSome_map', List.find?_isSome]
    simp only [hda]
  · intro ho
    rw [hobs, Bool.and_eq_true] at ho
    cases hfind : c.Events.find? (degradedAfter L c.Change.StartedAt) with
    | none =>
      rw [hfind] at ho
      simp at ho
    | some x =>
      obtain ⟨h1, h2, h3⟩ := find?_first_of_sorted _ c.Events x hsorted hfind
      refine ⟨x, h1, ((hda x).1 h2).1, ((hda x).1 h2).2, ?_, ?_⟩
      · rw [hts, hfind]
        rfl
      · intro e2 he2 ha hd
        exact nanos_le_of_key_le x e2 (h3 e2 he2 ((hda e2).2 ⟨ha, hd⟩))

/-- C10, an instance: the change of the sample operation. -/
theorem post_deploy_degradation_rule_witness :
    (sampleChange.Change.PostDeployDegradation.Observed = true ↔
        sampleChange.Change.HealthAtOperationStart = "healthy" ∧
          ∃ e ∈ sampleChange.Events, e.Time.After sampleChange.Change.StartedAt = true ∧
            inferHealthStatus refLib e = "degraded") ∧
      (sampleChange.Change.PostDeployDegradation.Observed = true →
        ∃ e ∈ sampleChange.Events, e.Time.After sampleChange.Change.StartedAt = true ∧
          inferHealthStatus refLib e = "degraded" ∧
          sampleChange.Change.PostDeployDegradation.FirstTimestamp = some e.Time.UTC ∧
          ∀ e2 ∈ sampleChange.Events, e2.Time.After sampleChange.Change.StartedAt = true →
            inferHealthStatus refLib e2 = "degraded" → e.Time.nanos ≤ e2.Time.nanos) :=
  post_deploy_degradation_rule refLib ⟨5000, 0⟩ sampleOperation sampleChangeID sampleChange
    sampleChange_mem

/-! ## Change identity -/

theorem firstExtension_eq_find (ext : GoMap JVal) (keys : List String) :
    firstExtension ext keys =
      ((keys.map (ExtensionString ext)).find? (fun v => decide (v ≠ ""))).getD "" := by
  induction keys with
  | nil => rfl
  | cons k rest ih =>
    rw [List.map_cons, List.find?_cons]
    unfold firstExtension ExtensionString
    cases hk : ext.get? k with
    | none => simpa using ih
    | some v =>
      cases v with
      | str sv =>
        by_cases hb : TrimSpace sv = ""
        · simpa [hb] using ih
        · simp [hb]
      | null => simpa using ih
      | bool b => simpa using ih
      | num q => simpa using ih
      | arr xs => simpa using ih
      | obj kvs => simpa using ih

theorem changeID_of_reference (L : StdLib) (e : StoredEvent)
    (href : firstExtension e.Extensions referenceKeys ≠ "") :
    changeID L e =
      "chg_" ++ L.sha256Hex (subjectKey L e ++ ":" ++
        normalizePrimaryProvider L e.Source e.Extensions ++ ":" ++
        firstExtension e.Extensions referenceKeys) := by
  unfold changeID deriveChangeIdentity
  unfold referenceKeys at href
  simp only [href, ne_eq, not_false_eq_true, if_true]
  rfl

theorem mem_change_of_mem (L : StdLib) (clock : Time) (events : List StoredEvent)
    (e : StoredEvent) (he : e ∈ events) :
    ∃ c, (changeID L e, c) ∈ buildChangesByID L clock events ∧
      ∀ e2 ∈ events, changeID L e2 = changeID L e → e2 ∈ c.Events := by
  have hmem : e ∈ group L (changeID L e) events := by
    simp [group, he]
  cases hg : group L (changeID L e) events with
  | nil =>
    rw [hg] at hmem
    cases hmem
  | cons e0 rest =>
    have hin := (mem_buildChangesByID L clock events (changeID L e)
      (finalizeChange L clock ((e0 :: rest).foldl (absorbEvent L) (freshDetail L e0)))).2
      ⟨e0, rest, hg, rfl⟩
    refine ⟨_, hin, ?_⟩
    intro e2 he2 hid
    have hperm := change_events_perm L clock events (changeID L e) _ hin
    rw [hperm.mem_iff]
    simp [group, he2, hid]

/-- C7 (as amended): for every event whose reference, the first non-blank of
the extensions primary_reference, operation_id, history_id, deploy_id,
pipeline_id, run_id, job_id, is not empty, `deriveChangeIdentity` returns the id
`chg_` followed by the hash of the lower-cased `subject:namespace:cluster`, the
provider and the reference joined by `:`; so an event with the same lower-cased
subject triple, the same provider and the same reference has the same change id,
and in every input that holds both events they are in the event list of one
change. -/
theorem change_identity_rule (L : StdLib) (e1 e2 : StoredEvent)
    (href : firstExtension e1.Extensions referenceKeys ≠ "")
    (hsub : subjectKey L e1 = subjectKey L e2)
    (hprov : normalizePrimaryProvider L e1.Source e1.Extensions =
      normalizePrimaryProvider L e2.Source e2.Extensions)
    (hrefeq : firstExtension e1.Extensions referenceKeys =
      firstExtension e2.Extensions referenceKeys) :
    (deriveChangeIdentity L e1).1 =
        "chg_" ++ L.sha256Hex (subjectKey L e1 ++ ":" ++
          normalizePrimaryProvider L e1.Source e1.Extensions ++ ":" ++
          firstExtension e1.Extensions referenceKeys) ∧
      firstExtension e1.Extensions referenceKeys =
        ((referenceKeys.map (ExtensionString e1.Extensions)).find?
          (fun v => decide (v ≠ ""))).getD "" ∧
      (deriveChangeIdentity L e1).1 = (deriveChangeIdentity L e2).1 ∧
      ∀ (clock : Time) (events : List StoredEvent), e1 ∈ events → e2 ∈ events →
        ∃ c, ((deriveChangeIdentity L e1).1, c) ∈ buildChangesByID L clock events ∧
          e1 ∈ c.Events ∧ e2 ∈ c.Events := by
  have h1 := changeID_of_reference L e1 href
  have h2 := changeID_of_reference L e2 (by rw [← hrefeq]; exact href)
  have hid : changeID L e2 = changeID L e1 := by
    rw [h1, h2, hsub, hprov, hrefeq]
  refine ⟨h1, firstExtension_eq_find _ _, hid.symm, ?_⟩
  intro clock events he1 he2
  obtain ⟨c, hc, hall⟩ := mem_change_of_mem L clock events e1 he1
  exact ⟨c, hc, hall e1 he1 rfl, hall e2 he2 hid⟩

/-- C7, an instance: the first and the last event of the sample operation. -/
theorem change_identity_rule_witness :
    (deriveChangeIdentity refLib syncStarted).1 =
        "chg_" ++ refLib.sha256Hex (subjectKey refLib syncStarted ++ ":" ++
          normalizePrimaryProvider refLib syncStarted.Source syncStarted.Extensions ++ ":" ++
          firstExtension syncStarted.Extensions referenceKeys) ∧
      firstExtension syncStarted.Extensions referenceKeys =
        ((referenceKeys.map (ExtensionString syncStarted.Extensions)).find?
          (fun v => decide (v ≠ ""))).getD "" ∧
      (deriveChangeIdentity refLib syncStarted).1 = (deriveChangeIdentity refLib syncFinished).1 ∧
      ∀ (clock : Time) (events : List StoredEvent), syncStarted ∈ events →
        syncFinished ∈ events →
        ∃ c, ((deriveChangeIdentity refLib syncStarted).1, c) ∈
            buildChangesByID refLib clock events ∧
          syncStarted ∈ c.Events ∧ syncFinished ∈ c.Events :=
  change_identity_rule refLib syncStarted syncFinished (by decide) (by decide) (by decide)
    (by decide)

/-- C7, as stated, fails: two events that carry none of the reference
extensions, with the same subject triple, the same provider and the same (empty)
reference, differ in revision only and receive different change ids, neither of
which is the hash of subject triple, provider and reference; `buildChangesByID`
puts them in two changes. -/
theorem change_identity_without_reference :
    subjectKey refLib unreferenced1 = subjectKey refLib unreferenced2 ∧
      normalizePrimaryProvider refLib unreferenced1.Source unreferenced1.Extensions =
        normalizePrimaryProvider refLib unreferenced2.Source unreferenced2.Extensions ∧
      firstExtension unreferenced1.Extensions referenceKeys =
        firstExtension unreferenced2.Extensions referenceKeys ∧
      (deriveChangeIdentity refLib unreferenced1).1 ≠
        (deriveChangeIdentity refLib unreferenced2).1 ∧
      (deriveChangeIdentity refLib unreferenced1).1 ≠
        "chg_" ++ refLib.sha256Hex (subjectKey refLib unreferenced1 ++ ":" ++
          normalizePrimaryProvider refLib unreferenced1.Source unreferenced1.Extensions ++ ":" ++
          firstExtension unreferenced1.Extensions referenceKeys) ∧
      (buildChangesByID refLib ⟨5000, 0⟩ [unreferenced1, unreferenced2]).keys =
        ["chg_payments-api:prod-eu:eu-1:jenkins:rev-1:0@0",
          "chg_payments-api:prod-eu:eu-1:jenkins:rev-2:0@0"] := by
  decide

/-! ## Order of the input -/

/-- C5, as stated, fails.  Two events with one change id, in the two possible
orders, give the change a different subject, target cluster, namespace, primary
provider, revision, initiator, external_change_id, ticket_id,
approval_reference and health_status; and two events with the same id and time,
in the two possible orders, give a different health_at_operation_start. -/
theorem aggregation_depends_on_order :
    [mixedCaseEvent, lowerCaseEvent].Perm [lowerCaseEvent, mixedCaseEvent] ∧
      inputOrderFields refLib ⟨5000, 0⟩ [mixedCaseEvent, lowerCaseEvent]
          "chg_payments:prod:eu-1:x:y:z" =
        some ["Payments", "EU-1", "Prod", "x:y", "rev-a", "alice", "CHG-1", "T-1", "AP-1",
          "missing"] ∧
      inputOrderFields refLib ⟨5000, 0⟩ [lowerCaseEvent, mixedCaseEvent]
          "chg_payments:prod:eu-1:x:y:z" =
        some ["payments", "eu-1", "prod", "x", "rev-b", "bob", "CHG-2", "T-2", "AP-2",
          "healthy"] ∧
      [sameIdHealthy, sameIdDegraded].Perm [sameIdDegraded, sameIdHealthy] ∧
      ((buildChangesByID refLib ⟨5000, 0⟩ [sameIdHealthy, sameIdDegraded]).get?
          "chg_payments-api:::argo:op-3").map (fun c => c.Change.HealthAtOperationStart) =
        some "degraded" ∧
      ((buildChangesByID refLib ⟨5000, 0⟩ [sameIdDegraded, sameIdHealthy]).get?
          "chg_payments-api:::argo:op-3").map (fun c => c.Change.HealthAtOperationStart) =
        some "healthy" := by
  refine ⟨List.Perm.swap _ _ _, by decide, by decide, List.Perm.swap _ _ _, by decide,
    by decide⟩

theorem foldl_mergeResultStatus_perm {α : Type} (f : α → String) (g g2 : List α)
    (hp : g.Perm g2) :
    g.foldl (fun s e => mergeResultStatus s (f e)) "unknown" =
      g2.foldl (fun s e => mergeResultStatus s (f e)) "unknown" := by
  have hmem : ∀ v : String, (∃ e ∈ g, f e = v) ↔ ∃ e ∈ g2, f e = v := by
    intro v
    constructor
    · rintro ⟨e, he, hv⟩
      exact ⟨e, hp.mem_iff.1 he, hv⟩
    · rintro ⟨e, he, hv⟩
      exact ⟨e, hp.mem_iff.2 he, hv⟩
  have hF := foldl_mergeResultStatus_failed f g "unknown"
  have hF2 := foldl_mergeResultStatus_failed f g2 "unknown"
  have hS := foldl_mergeResultStatus_succeeded f g "unknown"
  have hS2 := foldl_mergeResultStatus_succeeded f g2 "unknown"
  rw [hmem] at hF
  rw [hmem "failed", hmem "succeeded"] at hS
  rcases foldl_mergeResultStatus_range f g "unknown" (Or.inr (Or.inr rfl)) with h | h | h
  · rw [h, hF2.2 (hF.1 h)]
  · rw [h, hS2.2 (hS.1 h)]
  · rcases foldl_mergeResultStatus_range f g2 "unknown" (Or.inr (Or.inr rfl)) with h2 | h2 | h2
    · have := hF.2 (hF2.1 h2)
      rw [h] at this
      exact absurd this (by decide)
    · have := hS.2 (hS2.1 h2)
      rw [h] at this
      exact absurd this (by decide)
    · rw [h, h2]

theorem any_eq_of_perm {α : Type} (p : α → Bool) (g g2 : List α) (hp : g.Perm g2) :
    g.any p = g2.any p := by
  rw [Bool.eq_iff_iff, List.any_eq_true, List.any_eq_true]
  constructor
  · rintro ⟨e, he, hv⟩
    exact ⟨e, hp.mem_iff.1 he, hv⟩
  · rintro ⟨e, he, hv⟩
    exact ⟨e, hp.mem_iff.2 he, hv⟩

theorem nodup_eventKey_of_nodup_ids (l : List StoredEvent)
    (h : (l.map (fun e => e.ID)).Nodup) : (l.map eventKey).Nodup := by
  have h2 : l.map (fun e => e.ID) = (l.map eventKey).map (fun k => (ofLex k).2) := by
    rw [List.map_map]
    rfl
  rw [h2] at h
  exact List.Nodup.of_map _ h

/-- Entries of one change id built from an input and from a permutation of it
agree on the derived summary. -/
theorem sameDerivedSummary_of_perm (L : StdLib) (clock : Time) (events events2 : List StoredEvent)
    (hperm : events.Perm events2) (hnd : (events.map (fun e => e.ID)).Nodup)
    (id : String) (c c2 : ChangeDetail)
    (h : (id, c) ∈ buildChangesByID L clock events)
    (h2 : (id, c2) ∈ buildChangesByID L clock events2) : sameDerivedSummary c c2 := by
  obtain ⟨e0, rest, first, last, hg, hfirst, hlast, hev, hst, hco, hcnt, hres, _, happ,
    hstart, hafter, hpdd⟩ := change_shape L clock events id c h
  obtain ⟨e0', rest', first', last', hg', hfirst', hlast', hev', hst', hco', hcnt', hres', _,
    happ', hstart', hafter', hpdd'⟩ := change_shape L clock events2 id c2 h2
  have hgp : (e0 :: rest).Perm (e0' :: rest') := by
    rw [← hg, ← hg']
    exact hperm.filter _
  have hgnd : ((e0 :: rest).map eventKey).Nodup := by
    apply nodup_eventKey_of_nodup_ids
    rw [← hg]
    exact List.Nodup.sublist (List.Sublist.map _ (List.filter_sublist _)) hnd
  have hsort : sortSlice eventLess (e0 :: rest) = sortSlice eventLess (e0' :: rest') :=
    sortSlice_eq_of_perm eventKey eventLess eventLess_iff_key _ _ hgp hgnd
  rw [← hsort] at hfirst' hlast' hev' hcnt' hstart' hafter' hpdd'
  have hf : first' = first := by
    rw [hfirst] at hfirst'
    exact (Option.some.inj hfirst').symm
  have hl : last' = last := by
    rw [hlast] at hlast'
    exact (Option.some.inj hlast').symm
  subst hf hl
  refine ⟨?_, ?_, ?_, ?_, ?_, ?_, ?_, ?_, ?_⟩
  · rw [happ, happ']
    exact (any_eq_of_perm _ _ _ hgp).symm
  · rw [hres, hres']
    exact (foldl_mergeResultStatus_perm _ _ _ hgp).symm
  · rw [hstart, hstart']
  · rw [hafter, hafter']
  · rw [hpdd, hpdd']
  · rw [hst, hst']
  · rw [hco, hco']
  · rw [hcnt, hcnt']
  · rw [hev, hev']

theorem isSome_get?_iff_mem {V : Type} (m : GoMap V) (k : String) :
    (m.get? k).isSome = true ↔ ∃ v, (k, v) ∈ m := by
  constructor
  · intro h
    cases hg : m.get? k with
    | none => rw [hg] at h; cases h
    | some v => exact ⟨v, GoMap.mem_of_get?_eq_some m k v hg⟩
  · rintro ⟨v, hv⟩
    cases hg : m.get? k with
    | none => exact absurd hv (fun hv => (GoMap.get?_eq_none_iff m k).1 hg _ hv rfl)
    | some v => rfl

theorem mem_buildChangesByID_of_perm (L : StdLib) (clock : Time)
    (events events2 : List StoredEvent) (hperm : events.Perm events2) (id : String)
    (c : ChangeDetail) (h : (id, c) ∈ buildChangesByID L clock events) :
    ∃ c2, (id, c2) ∈ buildChangesByID L clock events2 := by
  obtain ⟨e0, rest, hg, _⟩ := (mem_buildChangesByID L clock events id c).1 h
  have hgp : (group L id events).Perm (group L id events2) := hperm.filter _
  cases hg2 : group L id events2 with
  | nil =>
    rw [hg, hg2] at hgp
    exact absurd hgp.length_eq (by simp)
  | cons e0' rest' =>
    exact ⟨_, (mem_buildChangesByID L clock events2 id _).2 ⟨e0', rest', hg2, rfl⟩⟩

theorem absorbEvent_ID (L : StdLib) (cur : ChangeDetail) (e : StoredEvent) :
    (absorbEvent L cur e).Change.ID = cur.Change.ID := by
  simp only [absorbEvent, apply_ite Change.ID, ite_self]

theorem foldl_absorbEvent_ID (L : StdLib) (g : List StoredEvent) :
    ∀ c : ChangeDetail, (g.foldl (absorbEvent L) c).Change.ID = c.Change.ID := by
  induction g with
  | nil => intro c; rfl
  | cons e rest ih =>
    intro c
    rw [List.foldl_cons, ih, absorbEvent_ID]

theorem finalizeChange_ID (L : StdLib) (clock : Time) (c : ChangeDetail) :
    (finalizeChange L clock c).Change.ID = c.Change.ID := by
  unfold finalizeChange
  cases h1 : (sortSlice eventLess c.Events).head? <;>
    cases h2 : (sortSlice eventLess c.Events).getLast? <;> simp only [h1, h2]

theorem change_ID (L : StdLib) (clock : Time) (events : List StoredEvent) (id : String)
    (c : ChangeDetail) (h : (id, c) ∈ buildChangesByID L clock events) : c.Change.ID = id := by
  obtain ⟨e0, rest, hg, hc⟩ := (mem_buildChangesByID L clock events id c).1 h
  rw [hc, finalizeChange_ID, foldl_absorbEvent_ID]
  have he0 : e0 ∈ group L id events := by
    rw [hg]
    exact List.mem_cons_self _ _
  have := (List.mem_filter.1 he0).2
  simpa [changeID] using this

theorem changeLess_iff_key (a b : Change) :
    changeLess a b = true ↔ changeKey a < changeKey b := by
  unfold changeKey
  rw [Prod.Lex.lt_iff]
  unfold changeLess Time.Equal Time.After
  by_cases h : a.CompletedAt.nanos = b.CompletedAt.nanos
  · simp [h, strLt_iff]
  · simp only [h, decide_False, Bool.false_eq_true, if_false, decide_eq_true_eq, neg_lt_neg_iff,
      neg_inj, false_and, or_false]

theorem changeKeys_nodup (L : StdLib) (clock : Time) (events : List StoredEvent) :
    (((buildChangesByID L clock events).values.map ChangeDetail.Change).map changeKey).Nodup := by
  have hkeys := buildChangesByID_nodup L clock events
  have h1 : (((buildChangesByID L clock events).values.map ChangeDetail.Change).map changeKey).map
      (fun k => (ofLex k).2) = (buildChangesByID L clock events).keys := by
    unfold GoMap.values GoMap.keys
    simp only [List.map_map]
    apply List.map_congr_left
    intro p hp
    exact change_ID L clock events p.1 p.2 hp
  rw [← h1] at hkeys
  exact List.Nodup.of_map _ hkeys

theorem mem_changeKeys (L : StdLib) (clock : Time) (events : List StoredEvent)
    (x : Lex (Int × String)) :
    x ∈ ((buildChangesByID L clock events).values.map ChangeDetail.Change).map changeKey ↔
      ∃ id c, (id, c) ∈ buildChangesByID L clock events ∧ changeKey c.Change = x := by
  simp only [GoMap.values, List.map_map, List.mem_map, Function.comp_apply, Prod.exists]

theorem changeKeys_subset_of_perm (L : StdLib) (clock : Time)
    (events events2 : List StoredEvent) (hperm : events.Perm events2)
    (hnd : (events.map (fun e => e.ID)).Nodup) (x : Lex (Int × String))
    (hx : x ∈ ((buildChangesByID L clock events).values.map ChangeDetail.Change).map changeKey) :
    x ∈ ((buildChangesByID L clock events2).values.map ChangeDetail.Change).map changeKey := by
  rw [mem_changeKeys] at hx ⊢
  obtain ⟨id, c, hc, hk⟩ := hx
  obtain ⟨c2, hc2⟩ := mem_buildChangesByID_of_perm L clock events events2 hperm id c hc
  have hs := sameDerivedSummary_of_perm L clock events events2 hperm hnd id c c2 hc hc2
  refine ⟨id, c2, hc2, ?_⟩
  rw [← hk]
  unfold changeKey
  rw [hs.2.2.2.2.2.2.1, change_ID L clock events id c hc, change_ID L clock events2 id c2 hc2]

/-- C5 (as amended): for every list of events with pairwise distinct ids and
every permutation of it, the clock being held fixed, `buildChangesByID` returns
the same set of change ids and, for each id, the same has_approvals,
result_status, health_at_operation_start, health_after_deploy,
post_deploy_degradation, started_at, completed_at, event_count and event list;
and `buildChanges` returns the change ids in the same order. -/
theorem aggregation_order_independent (L : StdLib) (clock : Time)
    (events events2 : List StoredEvent) (hperm : events.Perm events2)
    (hnd : (events.map (fun e => e.ID)).Nodup) :
    (∀ id, ((buildChangesByID L clock events).get? id).isSome =
        ((buildChangesByID L clock events2).get? id).isSome) ∧
      (∀ id c c2, (id, c) ∈ buildChangesByID L clock events →
        (id, c2) ∈ buildChangesByID L clock events2 → sameDerivedSummary c c2) ∧
      (buildChanges L clock events).map (fun c => c.ID) =
        (buildChanges L clock events2).map (fun c => c.ID) := by
  have hnd2 : (events2.map (fun e => e.ID)).Nodup := (hperm.map _).nodup_iff.1 hnd
  refine ⟨?_, ?_, ?_⟩
  · intro id
    rw [Bool.eq_iff_iff, isSome_get?_iff_mem, isSome_get?_iff_mem]
    constructor
    · rintro ⟨c, hc⟩
      exact mem_buildChangesByID_of_perm L clock events events2 hperm id c hc
    · rintro ⟨c, hc⟩
      exact mem_buildChangesByID_of_perm L clock events2 events hperm.symm id c hc
  · intro id c c2 hc hc2
    exact sameDerivedSummary_of_perm L clock events events2 hperm hnd id c c2 hc hc2
  · have hA := changeKeys_nodup L clock events
    have hB := changeKeys_nodup L clock events2
    have hAB : (((buildChangesByID L clock events).values.map ChangeDetail.Change).map
        changeKey).Perm
        (((buildChangesByID L clock events2).values.map ChangeDetail.Change).map changeKey) := by
      rw [List.perm_ext_iff_of_nodup hA hB]
      intro x
      exact ⟨changeKeys_subset_of_perm L clock events events2 hperm hnd x,
        changeKeys_subset_of_perm L clock events2 events hperm.symm hnd2 x⟩
    have hsA := sortSlice_sorted_strict changeKey changeLess changeLess_iff_key _ hA
    have hsB := sortSlice_sorted_strict changeKey changeLess changeLess_iff_key _ hB
    have hpA := (sortSlice_perm changeLess
      ((buildChangesByID L clock events).values.map ChangeDetail.Change)).map changeKey
    have hpB := (sortSlice_perm changeLess
      ((buildChangesByID L clock events2).values.map ChangeDetail.Change)).map changeKey
    have hkeys : (buildChanges L clock events).map changeKey =
        (buildChanges L clock events2).map changeKey := by
      unfold buildChanges
      apply List.eq_of_perm_of_sorted (r := fun a b : Lex (Int × String) => a < b)
      · exact (hpA.trans hAB).trans hpB.symm
      · exact List.pairwise_map.2 hsA
      · exact List.pairwise_map.2 hsB
    have hid : ∀ l : List Change, l.map (fun c => c.ID) =
        (l.map changeKey).map (fun k => (ofLex k).2) := by
      intro l
      rw [List.map_map]
      rfl
    rw [hid, hid, hkeys]

/-- C5, an instance: the sample operation and the same events in another order. -/
theorem aggregation_order_independent_witness :
    (∀ id, ((buildChangesByID refLib ⟨5000, 0⟩ sampleOperation).get? id).isSome =
        ((buildChangesByID refLib ⟨5000, 0⟩
          [syncFinished, syncStarted, healthDegraded]).get? id).isSome) ∧
      (∀ id c c2, (id, c) ∈ buildChangesByID refLib ⟨5000, 0⟩ sampleOperation →
        (id, c2) ∈ buildChangesByID refLib ⟨5000, 0⟩
          [syncFinished, syncStarted, healthDegraded] → sameDerivedSummary c c2) ∧
      (buildChanges refLib ⟨5000, 0⟩ sampleOperation).map (fun c => c.ID) =
        (buildChanges refLib ⟨5000, 0⟩
          [syncFinished, syncStarted, healthDegraded]).map (fun c => c.ID) :=
  aggregation_order_independent refLib ⟨5000, 0⟩ sampleOperation
    [syncFinished, syncStarted, healthDegraded]
    (List.Perm.trans (List.Perm.cons syncStarted (List.Perm.swap syncFinished healthDegraded []))
      (List.Perm.swap syncFinished syncStarted [healthDegraded]))
    (by decide)

/-! ## Validation, immutability and the stored hash -/

theorem string_length_eq_zero (s : String) : s.length = 0 ↔ s = "" := by
  cases s with
  | mk l =>
    cases l with
    | nil => exact ⟨fun _ => rfl, fun _ => rfl⟩
    | cons a t =>
      constructor
      · intro h
        simp [String.length] at h
      · intro h
        have := congrArg String.length h
        simp [String.length] at this

theorem validateStoredEvent_eq_none_iff (e : StoredEvent) :
    validateStoredEvent e = none ↔
      ¬(e.ID = "" ∨ e.Source = "" ∨ e.EventType = "" ∨ e.Data = "" ∨ e.Data = "null" ∨
        e.Time.IsZero = true) := by
  unfold validateStoredEvent
  simp only [string_length_eq_zero]
  by_cases h1 : e.ID = "" ∨ e.Source = "" ∨ e.EventType = ""
  · rw [if_pos h1]
    refine ⟨fun h => (by cases h), fun h => absurd ?_ h⟩
    rcases h1 with h | h | h
    · exact Or.inl h
    · exact Or.inr (Or.inl h)
    · exact Or.inr (Or.inr (Or.inl h))
  · rw [if_neg h1]
    by_cases h2 : e.Data = "" ∨ e.Data = "null"
    · rw [if_pos h2]
      refine ⟨fun h => (by cases h), fun h => absurd ?_ h⟩
      rcases h2 with h | h
      · exact Or.inr (Or.inr (Or.inr (Or.inl h)))
      · exact Or.inr (Or.inr (Or.inr (Or.inr (Or.inl h))))
    · rw [if_neg h2]
      by_cases h3 : e.Time.IsZero = true
      · rw [if_pos h3]
        refine ⟨fun h => (by cases h), fun h => absurd ?_ h⟩
        exact Or.inr (Or.inr (Or.inr (Or.inr (Or.inr h3))))
      · rw [if_neg h3]
        refine ⟨fun _ => ?_, fun _ => rfl⟩
        tauto

theorem validateStoredEvent_error (e : StoredEvent) (err : Error)
    (h : validateStoredEvent e = some err) : err = Error.ErrInvalidInput := by
  unfold validateStoredEvent at h
  split at h
  · cases h; rfl
  · split at h
    · cases h; rfl
    · split at h
      · cases h; rfl
      · cases h

theorem withIntegrityHash_error (L : StdLib) (e : StoredEvent) (err : Error)
    (h : withIntegrityHash L e = Except.error err) : err = Error.ErrMarshal := by
  unfold withIntegrityHash at h
  split at h
  · split at h
    · cases h; rfl
    · cases h
  · cases h

/-- The result of `IngestEvent`, case by case. -/
theorem IngestEvent_result (L : StdLib) (clock : Time) (m : MemoryRepository) (e : StoredEvent) :
    (validateStoredEvent e ≠ none ∧
        IngestEvent L clock m e = (Except.error Error.ErrInvalidInput, m)) ∨
      (validateStoredEvent e = none ∧
        IngestEvent L clock m e = (Except.error Error.ErrMarshal, m)) ∨
      (validateStoredEvent e = none ∧
        IngestEvent L clock m e = (Except.error Error.ErrConflict, m)) ∨
      (∃ e1 existing, validateStoredEvent e = none ∧ withIntegrityHash L e = Except.ok e1 ∧
        m.events.get? e.ID = some existing ∧ existing.IntegrityHash = e1.IntegrityHash ∧
        IngestEvent L clock m e =
          (Except.ok (IngestStatus.IngestDuplicate, existing.IngestedAt), m)) ∨
      (∃ e1, validateStoredEvent e = none ∧ withIntegrityHash L e = Except.ok e1 ∧
        m.events.get? e.ID = none ∧
        IngestEvent L clock m e =
          (Except.ok (IngestStatus.IngestAccepted, clock.UTC),
            { m with events := m.events.set e.ID (stamped clock e1) })) := by
  cases hv : validateStoredEvent e with
  | some err =>
    left
    have := validateStoredEvent_error e err hv
    subst this
    exact ⟨by simp, by simp [IngestEvent, hv]⟩
  | none =>
    right
    cases hh : withIntegrityHash L e with
    | error err =>
      left
      have := withIntegrityHash_error L e err hh
      subst this
      exact ⟨rfl, by simp [IngestEvent, hv, hh]⟩
    | ok e1 =>
      right
      cases hg : m.events.get? e.ID with
      | some existing =>
        by_cases hs : existing.IntegrityHash = e1.IntegrityHash
        · right
          left
          exact ⟨e1, existing, rfl, rfl, rfl, hs,
            IngestEvent_duplicate L clock m e e1 existing hv hh hg hs⟩
        · left
          exact ⟨rfl, IngestEvent_conflict L clock m e e1 existing hv hh hg (Ne.symm hs)⟩
      | none =>
        right
        right
        exact ⟨e1, rfl, rfl, rfl, IngestEvent_fresh L clock m e e1 hv hh hg⟩

/-- C16: `IngestEvent` returns `ErrInvalidInput` exactly when the id, source or
type of the event is empty, or its data is empty or the text `null`, or its time
is zero, and then the repository is unchanged; an accepted event is stored with
the time it arrived with, which is not zero. -/
theorem ingest_invalid_iff (L : StdLib) (clock : Time) (m : MemoryRepository) (e : StoredEvent) :
    ((IngestEvent L clock m e).1 = Except.error Error.ErrInvalidInput ↔
        (e.ID = "" ∨ e.Source = "" ∨ e.EventType = "" ∨ e.Data = "" ∨ e.Data = "null" ∨
          e.Time.IsZero = true)) ∧
      ((IngestEvent L clock m e).1 = Except.error Error.ErrInvalidInput →
        (IngestEvent L clock m e).2 = m) ∧
      (∀ t, (IngestEvent L clock m e).1 = Except.ok (IngestStatus.IngestAccepted, t) →
        ∃ stored, GetEvent (IngestEvent L clock m e).2 e.ID = Except.ok stored ∧
          stored.Time = e.Time ∧ e.Time.IsZero = false) := by
  have hiff := validateStoredEvent_eq_none_iff e
  rcases IngestEvent_result L clock m e with ⟨hv, h⟩ | ⟨hv, h⟩ | ⟨hv, h⟩ |
    ⟨e1, ex, hv, _, _, _, h⟩ | ⟨e1, hv, hh, _, h⟩
  · rw [h]
    refine ⟨⟨fun _ => ?_, fun _ => rfl⟩, fun _ => rfl, ?_⟩
    · by_contra hc
      exact hv (hiff.2 hc)
    · intro t ht
      cases ht
  · rw [h]
    refine ⟨⟨fun hc => ?_, fun hc => absurd hc (hiff.1 hv)⟩, fun _ => rfl, ?_⟩
    · cases hc
    · intro t ht
      cases ht
  · rw [h]
    refine ⟨⟨fun hc => ?_, fun hc => absurd hc (hiff.1 hv)⟩, fun _ => rfl, ?_⟩
    · cases hc
    · intro t ht
      cases ht
  · rw [h]
    refine ⟨⟨fun hc => ?_, fun hc => absurd hc (hiff.1 hv)⟩, fun _ => rfl, ?_⟩
    · cases hc
    · intro t ht
      cases ht
  · rw [h]
    refine ⟨⟨fun hc => ?_, fun hc => absurd hc (hiff.1 hv)⟩, fun hc => ?_, ?_⟩
    · cases hc
    · cases hc
    · intro t _
      refine ⟨stamped clock e1, ?_, ?_, ?_⟩
      · simp [GetEvent, GoMap.get?_set_self]
      · rw [(stamped_fields clock e1).2.2.2.2.1, (withIntegrityHash_fields L e e1 hh).2.2.2.2.1]
      · have := hiff.1 hv
        cases hz : e.Time.IsZero
        · rfl
        · exact absurd (Or.inr (Or.inr (Or.inr (Or.inr (Or.inr hz))))) this

theorem applyOp_get? (L : StdLib) (m : MemoryRepository) (op : RepoOp) (i : String)
    (s : StoredEvent) (h : m.events.get? i = some s) :
    (applyOp L m op).events.get? i = some s := by
  cases op with
  | ingestEvent clock e =>
    simp only [applyOp]
    rcases IngestEvent_state L clock m e with h1 | ⟨e1, _, _, hnew, h1⟩
    · rw [h1]; exact h
    · rw [h1]
      have hne : e.ID ≠ i := by
        intro hi
        rw [hi, h] at hnew
        cases hnew
      simp only []
      rw [GoMap.get?_set_of_ne _ _ _ _ hne]
      exact h
  | createExport c1 c2 f flt => exact h
  | setExportCompleted clock id uri =>
    simp only [applyOp, SetExportCompleted]
    split <;> exact h
  | setExportFailed clock id msg =>
    simp only [applyOp, SetExportFailed]
    split <;> exact h
  | getEvent _ => exact h
  | queryTimeline _ => exact h
  | listSubjects => exact h
  | eventsByExtension _ _ _ => exact h
  | getExport _ => exact h
  | deleteEvent _ => exact h

theorem runOps_get? (L : StdLib) (ops : List RepoOp) :
    ∀ (m : MemoryRepository) (i : String) (s : StoredEvent),
      m.events.get? i = some s → (runOps L m ops).events.get? i = some s := by
  induction ops with
  | nil => intro m i s h; exact h
  | cons op rest ih =>
    intro m i s h
    exact ih (applyOp L m op) i s (applyOp_get? L m op i s h)

/-- C17: an event that `GetEvent` returns for an id is returned unchanged, every
field of it, after every sequence of repository operations; this holds in
particular from the call of `IngestEvent` that accepted the event on; and
`DeleteEvent` returns `ErrAppendOnly` in every state for every id. -/
theorem stored_events_immutable (L : StdLib) (m : MemoryRepository) :
    (∀ (i : String) (s : StoredEvent) (ops : List RepoOp),
        GetEvent m i = Except.ok s → GetEvent (runOps L m ops) i = Except.ok s) ∧
      (∀ (clock t : Time) (e : StoredEvent),
        (IngestEvent L clock m e).1 = Except.ok (IngestStatus.IngestAccepted, t) →
        ∃ stored, GetEvent (IngestEvent L clock m e).2 e.ID = Except.ok stored ∧
          ∀ ops : List RepoOp,
            GetEvent (runOps L (IngestEvent L clock m e).2 ops) e.ID = Except.ok stored) ∧
      (∀ (m2 : MemoryRepository) (id : String), DeleteEvent m2 id = Error.ErrAppendOnly) := by
  have hgen : ∀ (m1 : MemoryRepository) (i : String) (s : StoredEvent) (ops : List RepoOp),
      GetEvent m1 i = Except.ok s → GetEvent (runOps L m1 ops) i = Except.ok s := by
    intro m1 i s ops h
    unfold GetEvent at h ⊢
    cases hg : m1.events.get? i with
    | none => rw [hg] at h; cases h
    | some s1 =>
      rw [hg] at h
      cases h
      rw [runOps_get? L ops m1 i s hg]
  refine ⟨hgen m, ?_, fun _ _ => rfl⟩
  intro clock t e hacc
  rcases IngestEvent_result L clock m e with ⟨_, h⟩ | ⟨_, h⟩ | ⟨_, h⟩ |
    ⟨e1, ex, _, _, _, _, h⟩ | ⟨e1, _, _, _, h⟩
  · rw [h] at hacc; cases hacc
  · rw [h] at hacc; cases hacc
  · rw [h] at hacc; cases hacc
  · rw [h] at hacc; cases hacc
  · have hget : GetEvent (IngestEvent L clock m e).2 e.ID = Except.ok (stamped clock e1) := by
      rw [h]
      simp [GetEvent, GoMap.get?_set_self]
    exact ⟨stamped clock e1, hget, fun ops => hgen _ _ _ ops hget⟩

theorem ComputeIntegrityHash_congr (L : StdLib) (a b : StoredEvent) (h1 : a.ID = b.ID)
    (h2 : a.Source = b.Source) (h3 : a.EventType = b.EventType) (h4 : a.Subject = b.Subject)
    (h5 : a.Time = b.Time) (h6 : a.Extensions = b.Extensions) (h7 : a.Data = b.Data) :
    ComputeIntegrityHash L a = ComputeIntegrityHash L b := by
  unfold ComputeIntegrityHash
  rw [h1, h2, h3, h4, h5, h6, h7]

theorem ComputeIntegrityHash_stamped (L : StdLib) (clock : Time) (e e1 : StoredEvent)
    (hh : withIntegrityHash L e = Except.ok e1) :
    ComputeIntegrityHash L (stamped clock e1) = ComputeIntegrityHash L e := by
  have hf := withIntegrityHash_fields L e e1 hh
  have hs := stamped_fields clock e1
  apply ComputeIntegrityHash_congr
  · rw [hs.1, hf.1]
  · rw [hs.2.1, hf.2.1]
  · rw [hs.2.2.1, hf.2.2.1]
  · rw [hs.2.2.2.1, hf.2.2.2.1]
  · rw [hs.2.2.2.2.1, hf.2.2.2.2.1]
  · rw [hs.2.2.2.2.2.1, hf.2.2.2.2.2.1]
  · rw [hs.2.2.2.2.2.2.1, hf.2.2.2.2.2.2.1]

theorem withIntegrityHash_hash (L : StdLib) (e e1 : StoredEvent)
    (hh : withIntegrityHash L e = Except.ok e1) :
    (e.IntegrityHash = "" ∧ ComputeIntegrityHash L e = some e1.IntegrityHash) ∨
      (e.IntegrityHash ≠ "" ∧ e1.IntegrityHash = e.IntegrityHash) := by
  unfold withIntegrityHash at hh
  split at hh
  · rename_i h0
    left
    split at hh
    · cases hh
    · rename_i h hc
      cases hh
      exact ⟨h0, hc⟩
  · rename_i h0
    right
    cases hh
    exact ⟨h0, rfl⟩

/-- C18 (as amended): when every stored event carries the hash of its own
content and the input arrives with an empty integrity_hash field, or with a
field equal to `ComputeIntegrityHash` of the input, every event stored after
`IngestEvent` carries the hash of its own content; the event stored for an
accepted input with an empty field has `ComputeIntegrityHash` of the input as
its hash. -/
theorem ingest_keeps_own_hash (L : StdLib) (clock : Time) (m : MemoryRepository) (e : StoredEvent)
    (hinv : ∀ s ∈ m.events.values, carriesOwnHash L s)
    (hin : e.IntegrityHash = "" ∨ ComputeIntegrityHash L e = some e.IntegrityHash) :
    (∀ s ∈ (IngestEvent L clock m e).2.events.values, carriesOwnHash L s) ∧
      (∀ t, e.IntegrityHash = "" →
        (IngestEvent L clock m e).1 = Except.ok (IngestStatus.IngestAccepted, t) →
        ∃ stored, GetEvent (IngestEvent L clock m e).2 e.ID = Except.ok stored ∧
          ComputeIntegrityHash L e = some stored.IntegrityHash) := by
  constructor
  · rcases IngestEvent_state L clock m e with h1 | ⟨e1, _, hh, _, h1⟩
    · rw [h1]; exact hinv
    · rw [h1]
      intro s hs
      simp only [GoMap.values, List.mem_map] at hs
      obtain ⟨p, hp, hps⟩ := hs
      rcases GoMap.mem_set _ _ _ _ hp with hp1 | hp1
      · subst hp1
        simp only at hps
        subst hps
        unfold carriesOwnHash
        rw [ComputeIntegrityHash_stamped L clock e e1 hh, (stamped_fields clock e1).2.2.2.2.2.2.2]
        rcases withIntegrityHash_hash L e e1 hh with ⟨_, h3⟩ | ⟨h2, h3⟩
        · exact h3
        · rcases hin with h4 | h4
          · exact absurd h4 h2
          · rw [h4, h3]
      · apply hinv
        simp only [GoMap.values, List.mem_map]
        exact ⟨p, hp1, hps⟩
  · intro t hempty hacc
    rcases IngestEvent_result L clock m e with ⟨_, h⟩ | ⟨_, h⟩ | ⟨_, h⟩ |
      ⟨e1, ex, _, _, _, _, h⟩ | ⟨e1, _, hh, _, h⟩
    · rw [h] at hacc; cases hacc
    · rw [h] at hacc; cases hacc
    · rw [h] at hacc; cases hacc
    · rw [h] at hacc; cases hacc
    · refine ⟨stamped clock e1, ?_, ?_⟩
      · rw [h]
        simp [GetEvent, GoMap.get?_set_self]
      · rw [(stamped_fields clock e1).2.2.2.2.2.2.2]
        rcases withIntegrityHash_hash L e e1 hh with ⟨_, h3⟩ | ⟨h2, _⟩
        · exact h3
        · exact absurd hempty h2

/-- C18, an instance: the sample event, with an empty hash field, submitted to
the empty repository. -/
theorem ingest_keeps_own_hash_witness :
    (∀ s ∈ (IngestEvent refLib ⟨7, 0⟩ NewMemoryRepository sampleEvent).2.events.values,
        carriesOwnHash refLib s) ∧
      (∀ t, sampleEvent.IntegrityHash = "" →
        (IngestEvent refLib ⟨7, 0⟩ NewMemoryRepository sampleEvent).1 =
          Except.ok (IngestStatus.IngestAccepted, t) →
        ∃ stored, GetEvent (IngestEvent refLib ⟨7, 0⟩ NewMemoryRepository sampleEvent).2
            sampleEvent.ID = Except.ok stored ∧
          ComputeIntegrityHash refLib sampleEvent = some stored.IntegrityHash) :=
  ingest_keeps_own_hash refLib ⟨7, 0⟩ NewMemoryRepository sampleEvent
    (by intro s hs; cases hs) (Or.inl rfl)

/-- C18, as stated, fails: an input that arrives with a non-empty
integrity_hash field that is not the hash of its content is accepted, and the
stored event carries the field as it arrived. -/
theorem ingest_stores_forged_hash :
    (IngestEvent refLib ⟨7, 0⟩ NewMemoryRepository forgedHashEvent).1 =
        Except.ok (IngestStatus.IngestAccepted, ⟨7, 0⟩) ∧
      (IngestEvent refLib ⟨7, 0⟩ NewMemoryRepository forgedHashEvent).2.events.values.map
          (fun s => (s.IntegrityHash, ComputeIntegrityHash refLib s)) =
        [("forged", some
          "1.0|e1|git|push|payments-api|63906926400000000000@0|cluster=eu-1;namespace=prod-eu;|\x7b\"repo\":\"o/p\"\x7d")] := by
  decide

/-- C19 (as amended): the timestamp that `IngestEvent` returns with `duplicate`
is the ingested_at stored with the event, and the repository is unchanged; when
the event was accepted with a zero ingested_at, that timestamp is also the one
the accepting call returned, whatever operations came between. -/
theorem duplicate_returns_stored_time (L : StdLib) (m : MemoryRepository) :
    (∀ (clock t : Time) (e : StoredEvent),
        (IngestEvent L clock m e).1 = Except.ok (IngestStatus.IngestDuplicate, t) →
        ∃ stored, GetEvent m e.ID = Except.ok stored ∧ t = stored.IngestedAt ∧
          (IngestEvent L clock m e).2 = m) ∧
      (∀ (clock0 t0 : Time) (e0 : StoredEvent) (ops : List RepoOp) (clock t : Time)
          (e : StoredEvent),
        (IngestEvent L clock0 m e0).1 = Except.ok (IngestStatus.IngestAccepted, t0) →
        e0.IngestedAt.IsZero = true → e.ID = e0.ID →
        (IngestEvent L clock (runOps L (IngestEvent L clock0 m e0).2 ops) e).1 =
          Except.ok (IngestStatus.IngestDuplicate, t) →
        t = t0) := by
  have hdup : ∀ (m1 : MemoryRepository) (clock t : Time) (e : StoredEvent),
      (IngestEvent L clock m1 e).1 = Except.ok (IngestStatus.IngestDuplicate, t) →
      ∃ stored, m1.events.get? e.ID = some stored ∧ t = stored.IngestedAt ∧
        (IngestEvent L clock m1 e).2 = m1 := by
    intro m1 clock t e hd
    rcases IngestEvent_result L clock m1 e with ⟨_, h⟩ | ⟨_, h⟩ | ⟨_, h⟩ |
      ⟨e1, ex, _, _, hg, _, h⟩ | ⟨e1, _, _, _, h⟩
    · rw [h] at hd; cases hd
    · rw [h] at hd; cases hd
    · rw [h] at hd; cases hd
    · rw [h] at hd ⊢
      cases hd
      exact ⟨ex, hg, rfl, rfl⟩
    · rw [h] at hd; cases hd
  constructor
  · intro clock t e hd
    obtain ⟨stored, hg, ht, hm⟩ := hdup m clock t e hd
    exact ⟨stored, by simp [GetEvent, hg], ht, hm⟩
  · intro clock0 t0 e0 ops clock t e hacc hzero hid hd
    obtain ⟨stored, hg, ht, _⟩ := hdup _ clock t e hd
    rcases IngestEvent_result L clock0 m e0 with ⟨_, h⟩ | ⟨_, h⟩ | ⟨_, h⟩ |
      ⟨e1, ex, _, _, _, _, h⟩ | ⟨e1, _, hh, _, h⟩
    · rw [h] at hacc; cases hacc
    · rw [h] at hacc; cases hacc
    · rw [h] at hacc; cases hacc
    · rw [h] at hacc; cases hacc
    · rw [h] at hacc hg
      cases hacc
      have hstore : (GoMap.set m.events e0.ID (stamped clock0 e1)).get? e0.ID =
          some (stamped clock0 e1) := GoMap.get?_set_self _ _ _
      have hkeep := runOps_get? L ops
        { m with events := m.events.set e0.ID (stamped clock0 e1) } e0.ID _ hstore
      rw [hid, hkeep] at hg
      cases hg
      rw [ht]
      have hz : e1.IngestedAt.IsZero = true := by
        rw [(withIntegrityHash_fields L e0 e1 hh).2.2.2.2.2.2.2]
        exact hzero
      simp [stamped, hz]

/-- C19, as stated, fails: an event that arrives with ingested_at already set
is accepted with the wall-clock time 7 as the returned timestamp and stored with
its own ingested_at 5; the duplicate call returns 5. -/
theorem duplicate_time_differs_from_accepted :
    (IngestEvent refLib ⟨7, 0⟩ NewMemoryRepository presetIngestedAt).1 =
        Except.ok (IngestStatus.IngestAccepted, ⟨7, 0⟩) ∧
      (IngestEvent refLib ⟨8, 0⟩
          (IngestEvent refLib ⟨7, 0⟩ NewMemoryRepository presetIngestedAt).2
          presetIngestedAt).1 =
        Except.ok (IngestStatus.IngestDuplicate, ⟨5, 0⟩) := by
  decide

/-! ## Health after deploy -/

theorem foldl_last_of_filter {σ : Type} (step : σ → StoredEvent → σ) (proj : σ → String)
    (p : StoredEvent → Bool) (val : StoredEvent → String)
    (hstep : ∀ st e, proj (step st e) = if p e = true then val e else proj st)
    (l : List StoredEvent) :
    ∀ st : σ, proj (l.foldl step st) =
      match (l.filter p).getLast? with
      | some e => val e
      | none => proj st := by
  induction l with
  | nil => intro st; rfl
  | cons e rest ih =>
    intro st
    rw [List.foldl_cons, ih, hstep, List.filter_cons]
    by_cases hp : p e = true
    · rw [if_pos hp, if_pos hp, List.getLast?_cons]
      cases (rest.filter p).getLast? <;> rfl
    · rw [if_neg hp, if_neg hp]

theorem scanHealth_end (L : StdLib) (startedAt completedAt : Time) (st : HealthScan)
    (e : StoredEvent) :
    (scanHealth L startedAt completedAt st e).endHealth =
      if reportsAtEnd L completedAt e = true then inferHealthStatus L e else st.endHealth := by
  unfold scanHealth reportsAtEnd reportsHealth
  by_cases hu : inferHealthStatus L e = "unknown"
  · simp [hu]
  · simp only [hu, if_false, apply_ite HealthScan.endHealth, ite_self, ne_eq, not_false_eq_true,
      decide_True, Bool.true_and]

theorem scanHealth_last (L : StdLib) (startedAt completedAt : Time) (st : HealthScan)
    (e : StoredEvent) :
    (scanHealth L startedAt completedAt st e).lastHealth =
      if reportsHealth L e = true then inferHealthStatus L e else st.lastHealth := by
  unfold scanHealth reportsHealth
  by_cases hu : inferHealthStatus L e = "unknown"
  · simp [hu]
  · simp [hu]

theorem getLast?_filter_of_sorted (l : List StoredEvent) (p : StoredEvent → Bool)
    (x y : StoredEvent) (hl : l.getLast? = some x) (hy : y ∈ l) (hpy : p y = true)
    (hmono : ∀ a b, eventKey a ≤ eventKey b → p a = true → p b = true)
    (hs : l.Pairwise (fun a b => eventKey a ≤ eventKey b)) :
    (l.filter p).getLast? = some x := by
  obtain ⟨front, hfront⟩ := List.getLast?_eq_some_iff.1 hl
  subst hfront
  have hpx : p x = true := by
    rcases List.mem_append.1 hy with h1 | h1
    · have := (List.pairwise_append.1 hs).2.2 y h1 x (List.mem_singleton_self _)
      exact hmono y x this hpy
    · rw [List.mem_singleton.1 h1] at hpy
      exact hpy
  rw [List.filter_append]
  simp [hpx]

/-- The value that the loop of `finalizeChange` leaves for `health_after_deploy`. -/
theorem health_after_deploy_eq (L : StdLib) (clock : Time) (events : List StoredEvent)
    (id : String) (c : ChangeDetail) (h : (id, c) ∈ buildChangesByID L clock events) :
    c.Change.HealthAfterDeploy =
      lastReport L (c.Events.filter (reportsAtEnd L c.Change.CompletedAt))
        (lastReport L (c.Events.filter (reportsHealth L)) "unknown") := by
  obtain ⟨e0, rest, first, last, _, _, _, hev, _, hco, _, _, _, _, _, hafter, _⟩ :=
    change_shape L clock events id c h
  rw [← hev, ← hco] at hafter
  have hend := foldl_last_of_filter (scanHealth L first.Time.UTC c.Change.CompletedAt)
    HealthScan.endHealth (reportsAtEnd L c.Change.CompletedAt) (inferHealthStatus L)
    (scanHealth_end L first.Time.UTC c.Change.CompletedAt) c.Events
    ⟨"unknown", "unknown", "unknown", none⟩
  have hlast := foldl_last_of_filter (scanHealth L first.Time.UTC c.Change.CompletedAt)
    HealthScan.lastHealth (reportsHealth L) (inferHealthStatus L)
    (scanHealth_last L first.Time.UTC c.Change.CompletedAt) c.Events
    ⟨"unknown", "unknown", "unknown", none⟩
  rw [hafter]
  simp only []
  rw [hend, hlast]
  unfold lastReport
  cases hg : (c.Events.filter (reportsAtEnd L c.Change.CompletedAt)).getLast? with
  | none => simp
  | some x =>
    have hx := List.mem_of_mem_getLast? (Option.mem_def.2 hg)
    have hpx := (List.mem_filter.1 hx).2
    have hne : inferHealthStatus L x ≠ "unknown" := by
      simp only [reportsAtEnd, reportsHealth, Bool.and_eq_true, decide_eq_true_eq] at hpx
      exact hpx.1
    simp [hne]

/-- C11 (as amended): for every change that `buildChangesByID` produces,
health_after_deploy is the health of the latest health-reporting event, in
(time, id) order, whose time is not before completed_at; if there is no such
event it is the health of the last health-reporting event of the change, and
`unknown` if the change has none.  In each case it is the health of the last
health-reporting event of the change. -/
theorem health_after_deploy_rule (L : StdLib) (clock : Time) (events : List StoredEvent)
    (id : String) (c : ChangeDetail) (h : (id, c) ∈ buildChangesByID L clock events) :
    c.Change.HealthAfterDeploy =
        lastReport L (c.Events.filter (reportsAtEnd L c.Change.CompletedAt))
          (lastReport L (c.Events.filter (reportsHealth L)) "unknown") ∧
      c.Change.HealthAfterDeploy = lastReport L (c.Events.filter (reportsHealth L)) "unknown" := by
  have h1 := health_after_deploy_eq L clock events id c h
  refine ⟨h1, ?_⟩
  rw [h1]
  obtain ⟨e0, rest, first, last, _, _, _, hev, _, _, _⟩ := change_shape L clock events id c h
  have hsorted := sortSlice_sorted eventKey eventLess eventLess_iff_key (e0 :: rest)
  rw [← hev] at hsorted
  have hfs : (c.Events.filter (reportsHealth L)).Pairwise
      (fun a b => eventKey a ≤ eventKey b) :=
    List.Pairwise.sublist (List.filter_sublist _) hsorted
  have hff : c.Events.filter (reportsAtEnd L c.Change.CompletedAt) =
      (c.Events.filter (reportsHealth L)).filter
        (fun e => !e.Time.Before c.Change.CompletedAt) := by
    rw [List.filter_filter]
    congr 1
    funext e
    simp only [reportsAtEnd, Bool.and_comm]
  unfold lastReport
  cases hg : (c.Events.filter (reportsAtEnd L c.Change.CompletedAt)).getLast? with
  | none => rfl
  | some y =>
    simp only []
    have hy := List.mem_of_mem_getLast? (Option.mem_def.2 hg)
    rw [hff] at hy hg
    have hy2 := List.mem_filter.1 hy
    cases hl : (c.Events.filter (reportsHealth L)).getLast? with
    | none =>
      rw [List.getLast?_eq_none_iff.1 hl] at hy2
      cases hy2.1
    | some x =>
      have := getLast?_filter_of_sorted _ (fun e => !e.Time.Before c.Change.CompletedAt)
        x y hl hy2.1 hy2.2 ?_ hfs
      · rw [this] at hg
        cases hg
        rfl
      · intro a b hab hpa
        have hn := nanos_le_of_key_le a b hab
        simp only [Time.Before, Bool.not_eq_true', decide_eq_false_iff_not, not_lt] at hpa ⊢
        exact le_trans hpa hn

/-- C11, an instance: the change of the sample operation. -/
theorem health_after_deploy_rule_witness :
    sampleChange.Change.HealthAfterDeploy =
        lastReport refLib
          (sampleChange.Events.filter (reportsAtEnd refLib sampleChange.Change.CompletedAt))
          (lastReport refLib (sampleChange.Events.filter (reportsHealth refLib)) "unknown") ∧
      sampleChange.Change.HealthAfterDeploy =
        lastReport refLib (sampleChange.Events.filter (reportsHealth refLib)) "unknown" :=
  health_after_deploy_rule refLib ⟨5000, 0⟩ sampleOperation sampleChangeID sampleChange
    sampleChange_mem

/-- C11, as stated, fails: in the change of two health-reporting events at the
same time, both not before completed_at, the earliest of them in (time, id)
order reports `healthy`, yet health_after_deploy is `degraded`, the health of
the latest. -/
theorem health_after_deploy_takes_latest :
    ("chg_payments-api:::argo:op-4", tiedChange) ∈
        buildChangesByID refLib ⟨5000, 0⟩ [tieHealthy, tieDegraded] ∧
      tiedChange.Events.map (fun e => e.ID) = ["evt-1", "evt-2"] ∧
      ((tiedChange.Events.filter (reportsAtEnd refLib tiedChange.Change.CompletedAt)).head?.map
        (inferHealthStatus refLib)) = some "healthy" ∧
      tiedChange.Change.HealthAfterDeploy = "degraded" := by
  refine ⟨?_, by decide, by decide, by decide⟩
  apply (mem_buildChangesByID refLib ⟨5000, 0⟩ [tieHealthy, tieDegraded] _ _).2
  refine ⟨tieHealthy, [tieDegraded], ?_, rfl⟩
  exact List.filter_eq_self.2 (by decide)

/-! ## The canonical form of an event -/

theorem insertKey_eq_orderedInsert (k : String) (l : List String) :
    insertKey k l = List.orderedInsert (fun a b => a ≤ b) k l := by
  induction l with
  | nil => rfl
  | cons a t ih => simp only [insertKey, List.orderedInsert, ih, strLe_iff]

theorem sortStrings_eq_insertionSort (l : List String) :
    sortStrings l = l.insertionSort (fun a b => a ≤ b) := by
  induction l with
  | nil => rfl
  | cons a t ih => simp only [sortStrings, List.insertionSort, ih, insertKey_eq_orderedInsert]

theorem sortStrings_sorted (l : List String) :
    (sortStrings l).Pairwise (fun a b => a ≤ b) := by
  rw [sortStrings_eq_insertionSort]
  exact List.sorted_insertionSort _ l

theorem mem_sortStrings (l : List String) (k : String) : k ∈ sortStrings l ↔ k ∈ l := by
  rw [sortStrings_eq_insertionSort]
  exact (List.perm_insertionSort _ l).mem_iff

theorem GoMap.mem_keys_iff {V : Type} (m : GoMap V) (k : String) :
    k ∈ m.keys ↔ m.get? k ≠ none := by
  rw [Ne, GoMap.get?_eq_none_iff]
  simp only [GoMap.keys, List.mem_map]
  constructor
  · rintro ⟨p, hp, hpk⟩ h
    exact h p hp hpk
  · intro h
    by_contra hc
    apply h
    intro p hp hpk
    exact hc ⟨p, hp, hpk⟩

theorem GoMap.get?_eq_none_of_forall_lt {V : Type} (m : GoMap V) (k : String)
    (h : ∀ a ∈ m.keys, k < a) : m.get? k = none := by
  by_contra hc
  have := h k ((GoMap.mem_keys_iff m k).2 hc)
  exact lt_irrefl _ this

/-- Two maps whose keys are listed in ascending order and that hold the same
value under every key are the same list. -/
theorem GoMap.eq_of_sorted_of_get? {V : Type} :
    ∀ (m1 m2 : GoMap V), m1.keys.Pairwise (fun a b => a < b) →
      m2.keys.Pairwise (fun a b => a < b) → (∀ k, m1.get? k = m2.get? k) → m1 = m2 := by
  intro m1
  induction m1 with
  | nil =>
    intro m2 _ _ h
    cases m2 with
    | nil => rfl
    | cons p r2 =>
      obtain ⟨k2, v2⟩ := p
      have := h k2
      simp [GoMap.get?] at this
  | cons p r1 ih =>
    obtain ⟨k1, v1⟩ := p
    intro m2 h1 h2 h
    cases m2 with
    | nil =>
      have := h k1
      simp [GoMap.get?] at this
    | cons q r2 =>
      obtain ⟨k2, v2⟩ := q
      simp only [GoMap.keys, List.map_cons, List.pairwise_cons] at h1 h2
      have hn1 : GoMap.get? r1 k1 = none := GoMap.get?_eq_none_of_forall_lt r1 k1 h1.1
      have hn2 : GoMap.get? r2 k2 = none := GoMap.get?_eq_none_of_forall_lt r2 k2 h2.1
      have hk : k1 = k2 := by
        rcases lt_trichotomy k1 k2 with hlt | heq | hgt
        · exfalso
          have hne : k2 ≠ k1 := ne_of_gt hlt
          have h3 : GoMap.get? r2 k1 = none :=
            GoMap.get?_eq_none_of_forall_lt r2 k1 (fun a ha => lt_trans hlt (h2.1 a ha))
          have := h k1
          simp [GoMap.get?, hne, h3] at this
        · exact heq
        · exfalso
          have hne : k1 ≠ k2 := ne_of_gt hgt
          have h3 : GoMap.get? r1 k2 = none :=
            GoMap.get?_eq_none_of_forall_lt r1 k2 (fun a ha => lt_trans hgt (h1.1 a ha))
          have := h k2
          simp [GoMap.get?, hne, h3] at this
      subst hk
      have hv : v1 = v2 := by
        have := h k1
        simpa [GoMap.get?] using this
      subst hv
      have hr : r1 = r2 := by
        apply ih r2 h1.2 h2.2
        intro k
        by_cases hkk : k1 = k
        · subst hkk
          rw [hn1, hn2]
        · have := h k
          simpa [GoMap.get?, hkk] using this
      rw [hr]

/-- The loop of `sortedExtensions`, entered with the keys `done` already
copied: it keeps the keys of `out` ascending and copies the values of `ext`. -/
theorem sortedExtensions_loop (ext : GoMap JVal) :
    ∀ (ks done : List String) (out : GoMap JVal),
      (done ++ ks).Pairwise (fun a b => a ≤ b) →
      out.keys.Pairwise (fun a b => a < b) →
      (∀ k, out.get? k = if k ∈ done then ext.get? k else none) →
      (ks.foldl (fun out k => match ext.get? k with
          | some v => out.set k v
          | none => out) out).keys.Pairwise (fun a b => a < b) ∧
        ∀ k, (ks.foldl (fun out k => match ext.get? k with
          | some v => out.set k v
          | none => out) out).get? k = if k ∈ done ++ ks then ext.get? k else none := by
  intro ks
  induction ks with
  | nil =>
    intro done out _ h2 h3
    simp only [List.foldl_nil, List.append_nil]
    exact ⟨h2, h3⟩
  | cons k rest ih =>
    intro done out h1 h2 h3
    rw [List.foldl_cons]
    have hassoc : done ++ k :: rest = (done ++ [k]) ++ rest := by simp
    rw [hassoc] at h1 ⊢
    apply ih (done ++ [k]) _ h1
    · cases hg : ext.get? k with
      | none => exact h2
      | some v =>
        simp only []
        rw [GoMap.keys_set]
        split
        · rename_i hnone
          rw [Option.isNone_iff_eq_none] at hnone
          rw [List.pairwise_append]
          refine ⟨h2, List.pairwise_singleton _ _, ?_⟩
          intro a ha b hb
          rw [List.mem_singleton] at hb
          subst hb
          have hane : out.get? a ≠ none := (GoMap.mem_keys_iff out a).1 ha
          have hadone : a ∈ done := by
            by_contra hc
            apply hane
            rw [h3 a, if_neg hc]
          have hle : a ≤ b :=
            (List.pairwise_append.1 (List.pairwise_append.1 h1).1).2.2 a hadone b
              (List.mem_singleton_self _)
          have hne : a ≠ b := by
            intro hab
            rw [hab] at hane
            exact hane hnone
          exact lt_of_le_of_ne hle hne
        · exact h2
    · intro k2
      by_cases hk : k = k2
      · subst hk
        have hmem : k ∈ done ++ [k] := by simp
        rw [if_pos hmem]
        cases hg : ext.get? k with
        | none =>
          simp only []
          rw [h3 k, hg]
          simp
        | some v =>
          simp only []
          exact GoMap.get?_set_self out k v
      · have hmem : k2 ∈ done ++ [k] ↔ k2 ∈ done := by
          simp only [List.mem_append, List.mem_singleton]
          constructor
          · rintro (h | h)
            · exact h
            · exact absurd h.symm hk
          · exact Or.inl
        have hout : (match ext.get? k with
            | some v => out.set k v
            | none => out).get? k2 = out.get? k2 := by
          cases hg : ext.get? k with
          | none => rfl
          | some v => exact GoMap.get?_set_of_ne out k k2 v hk
        rw [hout, h3 k2]
        by_cases hd : k2 ∈ done
        · rw [if_pos hd, if_pos (hmem.2 hd)]
        · rw [if_neg hd, if_neg (fun h => hd (hmem.1 h))]

/-- The map that `sortedExtensions` builds lists its keys in ascending order
and is the same mapping as its argument. -/
theorem sortedExtensions_spec (ext : GoMap JVal) :
    (sortedExtensions ext).keys.Pairwise (fun a b => a < b) ∧
      ∀ k, (sortedExtensions ext).get? k = ext.get? k := by
  have h := sortedExtensions_loop ext (sortStrings ext.keys) [] []
    (by simpa using sortStrings_sorted ext.keys) (by simp [GoMap.keys])
    (by intro k; simp [GoMap.get?])
  refine ⟨h.1, ?_⟩
  intro k
  have h2 := h.2 k
  simp only [List.nil_append, mem_sortStrings] at h2
  unfold sortedExtensions
  rw [h2]
  by_cases hk : k ∈ GoMap.keys ext
  · rw [if_pos hk]
  · rw [if_neg hk]
    by_contra hc
    exact hk ((GoMap.mem_keys_iff ext k).2 (fun h => hc h.symm))

theorem sortedExtensions_congr (ext1 ext2 : GoMap JVal)
    (h : ∀ k, ext1.get? k = ext2.get? k) : sortedExtensions ext1 = sortedExtensions ext2 := by
  apply GoMap.eq_of_sorted_of_get? _ _ (sortedExtensions_spec ext1).1
    (sortedExtensions_spec ext2).1
  intro k
  rw [(sortedExtensions_spec ext1).2, (sortedExtensions_spec ext2).2, h]

theorem ComputeIntegrityHash_eq (L : StdLib) (e : StoredEvent) :
    ComputeIntegrityHash L e = (L.jsonMarshalCanon (canon L e)).map L.sha256Hex := by
  unfold ComputeIntegrityHash canon
  simp only []
  cases L.jsonMarshalCanon _ <;> rfl

/-- C14: two events with equal id, source, type, subject and data, the same
instant in time (whatever the zone) and extensions that are the same mapping
from keys to values have the same canonical struct, the same encoding and the
same integrity hash; the extensions that are encoded list their keys in
ascending order and are the mapping of the event. -/
theorem integrity_hash_canonical (L : StdLib) (e1 e2 : StoredEvent)
    (hid : e1.ID = e2.ID) (hsource : e1.Source = e2.Source)
    (htype : e1.EventType = e2.EventType) (hsubject : e1.Subject = e2.Subject)
    (hdata : e1.Data = e2.Data) (htime : e1.Time.Equal e2.Time = true)
    (hext : ∀ k, e1.Extensions.get? k = e2.Extensions.get? k) :
    canon L e1 = canon L e2 ∧
      L.jsonMarshalCanon (canon L e1) = L.jsonMarshalCanon (canon L e2) ∧
      ComputeIntegrityHash L e1 = ComputeIntegrityHash L e2 ∧
      (canon L e1).Extensions.keys.Pairwise (fun a b => strLt a b = true) ∧
      ∀ k, (canon L e1).Extensions.get? k = e1.Extensions.get? k := by
  have hc : canon L e1 = canon L e2 := by
    have hutc : e1.Time.UTC = e2.Time.UTC := by
      simp only [Time.Equal, decide_eq_true_eq] at htime
      simp only [Time.UTC, htime]
    simp only [canon, hid, hsource, htype, hsubject, hdata, hutc,
      sortedExtensions_congr _ _ hext]
  refine ⟨hc, by rw [hc], ?_, ?_, ?_⟩
  · rw [ComputeIntegrityHash_eq, ComputeIntegrityHash_eq, hc]
  · have := (sortedExtensions_spec e1.Extensions).1
    simpa only [canon, strLt_iff] using this
  · exact (sortedExtensions_spec e1.Extensions).2

/-- C14, an instance: the sample event, and the same event in another zone
with its extensions entered in the other order. -/
theorem integrity_hash_canonical_witness :
    sampleEvent.Time ≠ reorderedEvent.Time ∧
      sampleEvent.Extensions.keys ≠ reorderedEvent.Extensions.keys ∧
      (canon refLib sampleEvent = canon refLib reorderedEvent ∧
        refLib.jsonMarshalCanon (canon refLib sampleEvent) =
          refLib.jsonMarshalCanon (canon refLib reorderedEvent) ∧
        ComputeIntegrityHash refLib sampleEvent = ComputeIntegrityHash refLib reorderedEvent ∧
        (canon refLib sampleEvent).Extensions.keys.Pairwise (fun a b => strLt a b = true) ∧
        ∀ k, (canon refLib sampleEvent).Extensions.get? k = sampleEvent.Extensions.get? k) :=
  ⟨by decide, by decide,
    integrity_hash_canonical refLib sampleEvent reorderedEvent rfl rfl rfl rfl rfl (by decide)
      (by
        intro k
        simp only [sampleEvent, reorderedEvent, GoMap.get?]
        by_cases h1 : "cluster" = k
        · subst h1
          simp
        · by_cases h2 : "namespace" = k
          · subst h2
            simp
          · simp [h1, h2])⟩

/-- Two events that differ in id, source, type or subject, in the RFC 3339 text
of their instant in UTC, in the value that their extensions hold under some
key, or in one byte of their data, have different canonical structs:
`ComputeIntegrityHash` hands different values to `json.Marshal`. -/
theorem canon_distinct (L : StdLib) (e1 e2 : StoredEvent)
    (hdiff : e1.ID ≠ e2.ID ∨ e1.Source ≠ e2.Source ∨ e1.EventType ≠ e2.EventType ∨
      e1.Subject ≠ e2.Subject ∨
      L.formatRFC3339Nano e1.Time.UTC ≠ L.formatRFC3339Nano e2.Time.UTC ∨
      (∃ k, e1.Extensions.get? k ≠ e2.Extensions.get? k) ∨ e1.Data ≠ e2.Data) :
    canon L e1 ≠ canon L e2 := by
  intro hc
  have h1 : e1.ID = e2.ID := congrArg Canon.ID hc
  have h2 : e1.Source = e2.Source := congrArg Canon.Source hc
  have h3 : e1.EventType = e2.EventType := congrArg Canon.EventType hc
  have h4 : e1.Subject = e2.Subject := congrArg Canon.Subject hc
  have h5 : L.formatRFC3339Nano e1.Time.UTC = L.formatRFC3339Nano e2.Time.UTC :=
    congrArg Canon.Time hc
  have h6 : sortedExtensions e1.Extensions = sortedExtensions e2.Extensions :=
    congrArg Canon.Extensions hc
  have h7 : e1.Data = e2.Data := congrArg Canon.Data hc
  rcases hdiff with h | h | h | h | h | h | h
  · exact h h1
  · exact h h2
  · exact h h3
  · exact h h4
  · exact h h5
  · obtain ⟨k, hk⟩ := h
    apply hk
    rw [← (sortedExtensions_spec e1.Extensions).2, ← (sortedExtensions_spec e2.Extensions).2, h6]
  · exact h h7

/-- C15, as stated, fails: the sample event and the event whose body has a
blank after the colon differ in their data, agree in every other field, and
have the same encoding and the same integrity hash, because the encoder
writes the body in its compacted form. -/
theorem spaced_body_same_hash :
    sampleEvent.Data ≠ spacedBodyEvent.Data ∧
      canon refLib sampleEvent ≠ canon refLib spacedBodyEvent ∧
      (refLib.jsonMarshalCanon (canon refLib sampleEvent)).isSome = true ∧
      refLib.jsonMarshalCanon (canon refLib sampleEvent) =
        refLib.jsonMarshalCanon (canon refLib spacedBodyEvent) ∧
      (ComputeIntegrityHash refLib sampleEvent).isSome = true ∧
      ComputeIntegrityHash refLib sampleEvent = ComputeIntegrityHash refLib spacedBodyEvent := by
  refine ⟨by decide, ?_, by decide, by decide, by decide, by decide⟩
  intro h
  have := congrArg Canon.Data h
  revert this
  decide

/-! ## The evidence pack -/

theorem nodup_eventKey_of_nodup_ID (events : List StoredEvent)
    (hnd : (events.map (fun e => e.ID)).Nodup) : (events.map eventKey).Nodup := by
  have h : events.map (fun e => e.ID) = (events.map eventKey).map (fun k => (ofLex k).2) := by
    rw [List.map_map]
    rfl
  rw [h] at hnd
  exact List.Nodup.of_map _ hnd

theorem sortedEvents_eq_of_perm (events1 events2 : List StoredEvent)
    (hperm : events1.Perm events2) (hnd : (events1.map (fun e => e.ID)).Nodup) :
    sortedEvents events1 = sortedEvents events2 :=
  sortSlice_eq_of_perm eventKey eventLess eventLess_iff_key events1 events2 hperm
    (nodup_eventKey_of_nodup_ID events1 hnd)

/-- The deterministic hash of a pack that `CreateEvidencePack` returns is the
hash of the encoding of `canonical` on the sorted events. -/
theorem CreateEvidencePack_deterministic (L : StdLib) (mkdirAll writeFile : Bool)
    (now1 now2 : Time) (baseDir jobID : String) (events : List StoredEvent) (d : String)
    (h : (CreateEvidencePack L mkdirAll writeFile now1 now2 baseDir jobID events).map
      (fun r => r.2.Deterministic) = some d) :
    (L.jsonMarshalCanonical (canonical L (sortedEvents events))).map L.sha256Hex = some d := by
  unfold CreateEvidencePack at h
  cases hm : mkdirAll
  · simp [hm] at h
  · simp only [hm, Bool.not_true, Bool.false_eq_true, if_false] at h
    cases h1 : L.jsonMarshalEvents (sortedEvents events) with
    | none => simp [h1] at h
    | some itemsJSON =>
      simp only [h1] at h
      cases h2 : L.jsonMarshalCanonical (canonical L (sortedEvents events)) with
      | none => simp [h2] at h
      | some canonicalJSON =>
        simp only [h2] at h
        split at h
        · simp at h
        · cases hw : writeFile
          · simp [hw] at h
          · simp only [hw, if_true, Option.map_some'] at h
            simpa using h

/-- C13: for two lists that hold the same events, with distinct ids, in any
two orders, and for any two job ids, directories and readings of the clock,
the packs that `CreateEvidencePack` returns carry the same
deterministic_hash_sha256: it is the hash of the encoding of the map
`canonical` built from the events in sorted order. -/
theorem deterministic_hash_stable (L : StdLib) (mkdirAll1 writeFile1 mkdirAll2 writeFile2 : Bool)
    (now1 now2 now3 now4 : Time) (baseDir1 jobID1 baseDir2 jobID2 : String)
    (events1 events2 : List StoredEvent) (d1 d2 : String)
    (hperm : events1.Perm events2) (hnd : (events1.map (fun e => e.ID)).Nodup)
    (h1 : (CreateEvidencePack L mkdirAll1 writeFile1 now1 now2 baseDir1 jobID1 events1).map
      (fun r => r.2.Deterministic) = some d1)
    (h2 : (CreateEvidencePack L mkdirAll2 writeFile2 now3 now4 baseDir2 jobID2 events2).map
      (fun r => r.2.Deterministic) = some d2) :
    d1 = d2 ∧
      (L.jsonMarshalCanonical (canonical L (sortedEvents events1))).map L.sha256Hex = some d1 := by
  have e1 := CreateEvidencePack_deterministic L _ _ _ _ _ _ _ _ h1
  have e2 := CreateEvidencePack_deterministic L _ _ _ _ _ _ _ _ h2
  rw [← sortedEvents_eq_of_perm events1 events2 hperm hnd, e1] at e2
  exact ⟨Option.some.inj e2, e1⟩

set_option maxRecDepth 8192 in
/-- C13, an instance: the first two sample events in the two orders, packed
for two jobs, in two directories, at two times. -/
theorem deterministic_hash_stable_witness :
    (CreateEvidencePack refLib true true ⟨7, 0⟩ ⟨8, 0⟩ "/tmp" "exp_1"
        [sampleEvent2, sampleEvent]).map (fun r => r.1) = some "/tmp/exp_1.json" ∧
      (CreateEvidencePack refLib true true ⟨9, 3600⟩ ⟨10, 0⟩ "/var" "exp_2"
        [sampleEvent, sampleEvent2]).map (fun r => r.1) = some "/var/exp_2.json" ∧
      (samplePackHash = samplePackHash ∧
        (refLib.jsonMarshalCanonical (canonical refLib
          (sortedEvents [sampleEvent2, sampleEvent]))).map refLib.sha256Hex =
            some samplePackHash) :=
  ⟨by decide, by decide,
    deterministic_hash_stable refLib true true true true ⟨7, 0⟩ ⟨8, 0⟩ ⟨9, 3600⟩ ⟨10, 0⟩
      "/tmp" "exp_1" "/var" "exp_2" [sampleEvent2, sampleEvent] [sampleEvent, sampleEvent2]
      samplePackHash samplePackHash (List.Perm.swap sampleEvent sampleEvent2 []) (by decide)
      (by decide) (by decide)⟩

/-! ## The pages of the list of changes -/

theorem decodeCursor_empty (L : StdLib) : decodeCursor L "" = Except.ok (Time.zero, "") := by
  unfold decodeCursor
  rw [if_pos (by decide)]

theorem decodeChangeCursor_empty (L : StdLib) :
    decodeChangeCursor L "" = Except.ok (Time.zero, "") := by
  unfold decodeChangeCursor
  rw [if_pos (by decide)]

theorem QueryTimeline_ok (L : StdLib) (m : MemoryRepository) (q : TimelineQuery)
    (ts : Time) (id : String) (hc : decodeCursor L q.Cursor = Except.ok (ts, id)) :
    ∃ r, QueryTimeline L m q = Except.ok r := by
  rw [QueryTimeline_eq L m q ts id hc]
  simp only []
  split
  · split
    · exact ⟨_, rfl⟩
    · exact ⟨_, rfl⟩
  · exact ⟨_, rfl⟩

/-- The call `eventsForChangeQuery` returns events of the repository. -/
theorem eventsForChangeQuery_ok (L : StdLib) (m : MemoryRepository) (q : ChangeQuery) :
    ∃ events, eventsForChangeQuery L m q = Except.ok events ∧
      ∀ e ∈ events, e ∈ m.events.values := by
  unfold eventsForChangeQuery
  generalize htq : TimelineQuery.mk q.Subject.App q.Subject.Cluster q.Subject.Environment
    q.From.UTC q.To.UTC "" "" "" "" true 500 "" = tq
  have hcur : tq.Cursor = "" := by rw [← htq]
  have hdec : decodeCursor L tq.Cursor = Except.ok (Time.zero, "") := by
    rw [hcur]
    exact decodeCursor_empty L
  obtain ⟨r, hr⟩ := QueryTimeline_ok L m tq Time.zero "" hdec
  obtain ⟨ts, id, hsub⟩ := QueryTimeline_items_sublist L m tq r hr
  have hmem : ∀ e ∈ r.Items, e ∈ m.events.values := by
    intro e he
    have h1 := hsub.subset he
    have h2 := (sortSlice_perm eventLess _).mem_iff.1 h1
    exact (List.mem_filter.1 h2).1
  rw [hr]
  simp only []
  split
  · refine ⟨_, rfl, ?_⟩
    intro e he
    unfold filterEventsByQuery at he
    simp only [] at he
    split at he
    · exact hmem e he
    · exact hmem e (List.mem_filter.1 he).1
  · exact ⟨_, rfl, hmem⟩

theorem changePage_ok (L : StdLib) (changes : List Change) (limit : Nat) :
    (if changes.length > limit then
        match (changes.take limit).getLast? with
        | some last =>
          Except.ok ⟨changes.take limit, encodeChangeCursor L last.CompletedAt last.ID⟩
        | none => Except.ok ⟨changes.take limit, ""⟩
      else Except.ok ⟨changes, ""⟩ : Except Error ChangeListResult) =
      Except.ok (changePage L changes limit) := by
  unfold changePage
  split
  · cases (changes.take limit).getLast? <;> rfl
  · rfl

theorem ListChanges_eq (L : StdLib) (clock : Time) (m : MemoryRepository) (q : ChangeQuery)
    (ts : Time) (id : String) (hc : decodeChangeCursor L q.Cursor = Except.ok (ts, id)) :
    ListChanges L clock m q =
      Except.ok (changePage L (cursorApplied (changeList L clock m q) ts id)
        (changeLimit q.Limit)) := by
  obtain ⟨events, hev, _⟩ := eventsForChangeQuery_ok L m q
  have hcl : changeList L clock m q = filterChanges L (buildChanges L clock events) q := by
    unfold changeList
    rw [hev]
  rw [hcl]
  unfold ListChanges
  simp only [hev, hc]
  exact changePage_ok L _ _

theorem ListChanges_error (L : StdLib) (clock : Time) (m : MemoryRepository) (q : ChangeQuery)
    (err : Error) (hc : decodeChangeCursor L q.Cursor = Except.error err) :
    ListChanges L clock m q = Except.error Error.ErrInvalidChangeCursor := by
  obtain ⟨events, hev, _⟩ := eventsForChangeQuery_ok L m q
  unfold ListChanges
  simp only [hev, hc]

theorem changeLimit_pos (limit : Int) : 0 < changeLimit limit := by
  unfold changeLimit
  split
  · decide
  · split
    · decide
    · omega

theorem changeList_sorted (L : StdLib) (clock : Time) (m : MemoryRepository) (q : ChangeQuery) :
    (changeList L clock m q).Pairwise (fun a b => changeKey a < changeKey b) := by
  unfold changeList
  split
  · exact List.Pairwise.nil
  · rename_i events _
    exact List.Pairwise.sublist (List.filter_sublist _)
      (sortSlice_sorted_strict changeKey changeLess changeLess_iff_key _
        (changeKeys_nodup L clock events))

theorem changeList_completed_ne_zero (L : StdLib) (clock : Time) (m : MemoryRepository)
    (q : ChangeQuery) (hinv : RepoInv m) (c : Change) (hc : c ∈ changeList L clock m q) :
    c.CompletedAt.nanos ≠ 0 := by
  obtain ⟨events, hev, hmem⟩ := eventsForChangeQuery_ok L m q
  unfold changeList at hc
  rw [hev] at hc
  simp only [filterChanges] at hc
  have h1 := (List.mem_filter.1 hc).1
  have h2 := (sortSlice_perm changeLess _).mem_iff.1 h1
  simp only [GoMap.values, List.map_map, List.mem_map, Function.comp_apply] at h2
  obtain ⟨p, hp, hpc⟩ := h2
  obtain ⟨e0, rest, first, last, hg, _, hlast, _, _, hco, _⟩ :=
    change_shape L clock events p.1 p.2 hp
  have hl1 : last ∈ sortSlice eventLess (e0 :: rest) :=
    List.mem_of_mem_getLast? (Option.mem_def.2 hlast)
  have hl2 : last ∈ e0 :: rest := (sortSlice_perm eventLess _).mem_iff.1 hl1
  rw [← hg] at hl2
  have hl3 : last ∈ events := (List.mem_filter.1 hl2).1
  have hl4 := RepoInv.time_ne_zero m hinv last (hmem last hl3)
  rw [← hpc, hco]
  exact hl4

theorem afterChangeCursor_iff (x c : Change) :
    (c.CompletedAt.Before x.CompletedAt.UTC ||
      (c.CompletedAt.Equal x.CompletedAt.UTC && strLt x.ID c.ID)) = true ↔
      changeKey x < changeKey c := by
  unfold changeKey
  rw [Prod.Lex.lt_iff]
  simp only [Time.Before, Time.Equal, Time.UTC, Bool.or_eq_true, Bool.and_eq_true,
    decide_eq_true_eq, strLt_iff, neg_lt_neg_iff, neg_inj]
  constructor
  · rintro (h | ⟨h1, h2⟩)
    · exact Or.inl h
    · exact Or.inr ⟨h1.symm, h2⟩
  · rintro (h | ⟨h1, h2⟩)
    · exact Or.inl h
    · exact Or.inr ⟨h1.symm, h2⟩

theorem filter_key_gt_of_sorted {α κ : Type} [LinearOrder κ] (key : α → κ) (P T : List α)
    (x : α) (hs : (P ++ x :: T).Pairwise (fun a b => key a < key b)) :
    (P ++ x :: T).filter (fun e => decide (key x < key e)) = T := by
  rw [List.pairwise_append] at hs
  obtain ⟨_, hxT, hPx⟩ := hs
  rw [List.pairwise_cons] at hxT
  rw [List.filter_append]
  have h1 : P.filter (fun e => decide (key x < key e)) = [] := by
    rw [List.filter_eq_nil_iff]
    intro a ha
    have := hPx a ha x (List.mem_cons_self _ _)
    simpa using le_of_lt this
  have h2 : T.filter (fun e => decide (key x < key e)) = T := by
    rw [List.filter_eq_self]
    intro a ha
    simpa using hxT.1 a ha
  rw [h1, List.filter_cons]
  simp [h2]

/-- The changes that follow the change `x` of the list are those that pass
the cursor of `x`. -/
theorem changes_after (S P T : List Change) (x : Change)
    (hsorted : S.Pairwise (fun a b => changeKey a < changeKey b))
    (hS : S = P ++ x :: T) (hx : x.CompletedAt.nanos ≠ 0) :
    cursorApplied S x.CompletedAt.UTC x.ID = T := by
  unfold cursorApplied
  have hz : (!x.CompletedAt.UTC.IsZero) = true := by simp [Time.IsZero, Time.UTC, hx]
  rw [if_pos hz]
  unfold applyChangeCursor
  have hfun : (fun c : Change => c.CompletedAt.Before x.CompletedAt.UTC ||
      (c.CompletedAt.Equal x.CompletedAt.UTC && strLt x.ID c.ID)) =
      (fun c => decide (changeKey x < changeKey c)) := by
    funext c
    rw [Bool.eq_iff_iff, afterChangeCursor_iff]
    simp
  rw [hfun, hS]
  rw [hS] at hsorted
  exact filter_key_gt_of_sorted changeKey P T x hsorted

theorem encodeChangeCursor_ne_empty (L : StdLib) (x : Change) (hx : x.CompletedAt.nanos ≠ 0)
    (hcodec : decodeChangeCursor L (encodeChangeCursor L x.CompletedAt x.ID) =
      Except.ok (x.CompletedAt.UTC, x.ID)) :
    encodeChangeCursor L x.CompletedAt x.ID ≠ "" := by
  intro h
  rw [h, decodeChangeCursor_empty] at hcodec
  injection hcodec with h3
  injection h3 with h4 h5
  apply hx
  have h6 : (Time.zero).nanos = (x.CompletedAt.UTC).nanos := by rw [h4]
  simpa [Time.zero, Time.UTC] using h6.symm

/-! ## The time of the call enters one field of a change only -/

theorem finalizeChange_clockFree (L : StdLib) (clock1 clock2 : Time) (c : ChangeDetail) :
    clockFree (finalizeChange L clock1 c).Change = clockFree (finalizeChange L clock2 c).Change := by
  unfold finalizeChange clockFree
  cases h1 : (sortSlice eventLess c.Events).head? <;>
    cases h2 : (sortSlice eventLess c.Events).getLast? <;> simp only [h1, h2]

theorem orderedInsert_map {α : Type} (less : α → α → Bool) (f : α → α)
    (hf : ∀ a b, less (f a) (f b) = less a b) (x : α) (xs : List α) :
    (List.orderedInsert (fun a b => less b a = false) x xs).map f =
      List.orderedInsert (fun a b => less b a = false) (f x) (xs.map f) := by
  induction xs with
  | nil => rfl
  | cons y ys ih =>
    simp only [List.orderedInsert, List.map_cons, hf]
    split
    · rfl
    · simp only [List.map_cons, ih]

theorem sortSlice_map {α : Type} (less : α → α → Bool) (f : α → α)
    (hf : ∀ a b, less (f a) (f b) = less a b) (xs : List α) :
    (sortSlice less xs).map f = sortSlice less (xs.map f) := by
  unfold sortSlice
  induction xs with
  | nil => rfl
  | cons y ys ih =>
    simp only [List.insertionSort, List.map_cons]
    rw [orderedInsert_map less f hf, ih]

theorem buildChanges_clockFree (L : StdLib) (clock1 clock2 : Time) (events : List StoredEvent) :
    (buildChanges L clock1 events).map clockFree = (buildChanges L clock2 events).map clockFree := by
  unfold buildChanges
  rw [sortSlice_map changeLess clockFree (fun _ _ => rfl),
    sortSlice_map changeLess clockFree (fun _ _ => rfl)]
  congr 1
  unfold buildChangesByID GoMap.values
  simp only [List.map_map]
  apply List.map_congr_left
  intro p _
  exact finalizeChange_clockFree L clock1 clock2 p.2

theorem filter_map_clockFree (p : Change → Bool) (hp : ∀ c, p (clockFree c) = p c)
    (xs ys : List Change) (h : xs.map clockFree = ys.map clockFree) :
    (xs.filter p).map clockFree = (ys.filter p).map clockFree := by
  have hcomp : (p ∘ clockFree) = p := funext hp
  have h1 : ∀ zs : List Change, (zs.filter p).map clockFree = (zs.map clockFree).filter p := by
    intro zs
    rw [List.filter_map, hcomp]
  rw [h1, h1, h]

theorem changeList_clockFree (L : StdLib) (clock1 clock2 : Time) (m : MemoryRepository)
    (q : ChangeQuery) :
    (changeList L clock1 m q).map clockFree = (changeList L clock2 m q).map clockFree := by
  unfold changeList
  cases eventsForChangeQuery L m q with
  | error _ => rfl
  | ok events =>
    exact filter_map_clockFree (changeFilter L q) (fun _ => rfl) _ _
      (buildChanges_clockFree L clock1 clock2 events)

theorem cursorApplied_clockFree (xs ys : List Change) (ts : Time) (id : String)
    (h : xs.map clockFree = ys.map clockFree) :
    (cursorApplied xs ts id).map clockFree = (cursorApplied ys ts id).map clockFree := by
  unfold cursorApplied applyChangeCursor
  split
  · exact filter_map_clockFree
      (fun c => c.CompletedAt.Before ts || (c.CompletedAt.Equal ts && strLt id c.ID))
      (fun _ => rfl) _ _ h
  · exact h

theorem changePage_clockFree (L : StdLib) (xs ys : List Change) (limit : Nat)
    (h : xs.map clockFree = ys.map clockFree) :
    (changePage L xs limit).Items.map clockFree = (changePage L ys limit).Items.map clockFree ∧
      (changePage L xs limit).NextCursor = (changePage L ys limit).NextCursor := by
  have hlen : xs.length = ys.length := by
    have := congrArg List.length h
    simpa using this
  have htake : (xs.take limit).map clockFree = (ys.take limit).map clockFree := by
    rw [List.map_take, List.map_take, h]
  have hlast : (xs.take limit).getLast?.map clockFree = (ys.take limit).getLast?.map clockFree := by
    rw [← List.getLast?_map, ← List.getLast?_map, htake]
  unfold changePage
  rw [hlen]
  split
  · cases hx : (xs.take limit).getLast? with
    | none =>
      cases hy : (ys.take limit).getLast? with
      | none => exact ⟨htake, rfl⟩
      | some b => rw [hx, hy] at hlast; cases hlast
    | some a =>
      cases hy : (ys.take limit).getLast? with
      | none => rw [hx, hy] at hlast; cases hlast
      | some b =>
        rw [hx, hy] at hlast
        have hab : clockFree a = clockFree b := Option.some.inj hlast
        have h1 : a.CompletedAt = b.CompletedAt := by
          have := congrArg (fun c : Change => c.CompletedAt) hab
          exact this
        have h2 : a.ID = b.ID := by
          have := congrArg (fun c : Change => c.ID) hab
          exact this
        refine ⟨htake, ?_⟩
        simp only [h1, h2]
  · exact ⟨h, rfl⟩

theorem changePage_short (L : StdLib) (T : List Change) (limit : Nat)
    (h : ¬ T.length > limit) : changePage L T limit = ⟨T, ""⟩ := by
  unfold changePage
  rw [if_neg h]

theorem changePage_long (L : StdLib) (T : List Change) (limit : Nat) (hpos : 0 < limit)
    (h : T.length > limit) :
    ∃ front last, T = front ++ last :: T.drop limit ∧ T.take limit = front ++ [last] ∧
      changePage L T limit =
        ⟨T.take limit, encodeChangeCursor L last.CompletedAt last.ID⟩ := by
  have hne : T.take limit ≠ [] := by
    intro h0
    rcases List.take_eq_nil_iff.1 h0 with h1 | h1
    · omega
    · rw [h1] at h
      simp at h
  cases hlast : (T.take limit).getLast? with
  | none => exact absurd (List.getLast?_eq_none_iff.1 hlast) hne
  | some last =>
    obtain ⟨front, hfront⟩ := List.getLast?_eq_some_iff.1 hlast
    refine ⟨front, last, ?_, hfront, ?_⟩
    · conv_lhs => rw [← List.take_append_drop limit T, hfront]
      simp
    · unfold changePage
      rw [if_pos h, hlast]

/-- The client loop, entered with a cursor that leaves the changes `T` of the
list: it returns `T`, up to the field that depends on the time of each call. -/
theorem collectChangePages_suffix (L : StdLib) (clock0 : Time) (m : MemoryRepository)
    (q : ChangeQuery) (hinv : RepoInv m) (hcodec : ChangeCursorRoundTrips L clock0 m q) :
    ∀ (clocks : List Time) (T P : List Change) (c : String) (ts : Time) (id : String),
      T.length < clocks.length →
      changeList L clock0 m q = P ++ T →
      decodeChangeCursor L c = Except.ok (ts, id) →
      cursorApplied (changeList L clock0 m q) ts id = T →
      ∃ pages, collectChangePages L m { q with Cursor := c } clocks = some pages ∧
        pages.map clockFree = T.map clockFree ∧
        ((∀ t ∈ clocks, t = clock0) → pages = T) := by
  intro clocks
  induction clocks with
  | nil =>
    intro T P c ts id hlen
    simp at hlen
  | cons clock rest ih =>
    intro T P c ts id hlen hS hc hitems
    have hq : ListChanges L clock m { q with Cursor := c } =
        Except.ok (changePage L (cursorApplied (changeList L clock m q) ts id)
          (changeLimit q.Limit)) :=
      ListChanges_eq L clock m { q with Cursor := c } ts id hc
    have hX : (cursorApplied (changeList L clock m q) ts id).map clockFree =
        T.map clockFree := by
      rw [← hitems]
      exact cursorApplied_clockFree _ _ ts id (changeList_clockFree L clock clock0 m q)
    obtain ⟨hpi, hpc⟩ := changePage_clockFree L _ _ (changeLimit q.Limit) hX
    have hlim := changeLimit_pos q.Limit
    simp only [List.length_cons] at hlen
    by_cases hgt : T.length > changeLimit q.Limit
    · obtain ⟨front, last, hTsplit, htake, hpT⟩ :=
        changePage_long L T (changeLimit q.Limit) hlim hgt
      have hS2 : changeList L clock0 m q =
          (P ++ front) ++ last :: T.drop (changeLimit q.Limit) := by
        rw [hS]
        conv_lhs => rw [hTsplit]
        simp
      have hlastmem : last ∈ changeList L clock0 m q := by
        rw [hS2]
        simp
      have hx := changeList_completed_ne_zero L clock0 m q hinv last hlastmem
      have hne := encodeChangeCursor_ne_empty L last hx (hcodec last hlastmem)
      have hnext := changes_after (changeList L clock0 m q) (P ++ front)
        (T.drop (changeLimit q.Limit)) last (changeList_sorted L clock0 m q) hS2 hx
      obtain ⟨pages, hcol, hfree, hexact⟩ := ih (T.drop (changeLimit q.Limit))
        (P ++ front ++ [last]) (encodeChangeCursor L last.CompletedAt last.ID)
        last.CompletedAt.UTC last.ID
        (by rw [List.length_drop]; omega)
        (by rw [hS2]; simp)
        (hcodec last hlastmem) hnext
      rw [hpT] at hpi hpc
      simp only [] at hpi hpc
      refine ⟨(changePage L (cursorApplied (changeList L clock m q) ts id)
        (changeLimit q.Limit)).Items ++ pages, ?_, ?_, ?_⟩
      · unfold collectChangePages
        rw [hq]
        simp only [hpc, hne, if_false]
        have hq2 : ({ ({ q with Cursor := c } : ChangeQuery) with
            Cursor := encodeChangeCursor L last.CompletedAt last.ID } : ChangeQuery) =
            { q with Cursor := encodeChangeCursor L last.CompletedAt last.ID } := rfl
        rw [hq2, hcol]
      · rw [List.map_append, hpi, hfree, ← List.map_append, List.take_append_drop]
      · intro hall
        have hc0 : clock = clock0 := hall clock (List.mem_cons_self _ _)
        have hrest := hexact (fun t ht => hall t (List.mem_cons_of_mem _ ht))
        rw [hc0, hitems, hpT, hrest]
        exact List.take_append_drop _ _
    · have hpT := changePage_short L T (changeLimit q.Limit) hgt
      rw [hpT] at hpi hpc
      simp only [] at hpi hpc
      refine ⟨(changePage L (cursorApplied (changeList L clock m q) ts id)
        (changeLimit q.Limit)).Items, ?_, hpi, ?_⟩
      · unfold collectChangePages
        rw [hq]
        simp only [hpc, if_true]
      · intro hall
        have hc0 : clock = clock0 := hall clock (List.mem_cons_self _ _)
        rw [hc0, hitems, hpT]

theorem changeOrdered_of_key_lt (a b : Change) (h : changeKey a < changeKey b) :
    changeOrdered a b := by
  unfold changeKey at h
  rw [Prod.Lex.lt_iff] at h
  unfold changeOrdered
  rcases h with h | ⟨h1, h2⟩
  · exact Or.inl (neg_lt_neg_iff.1 h)
  · refine Or.inr ⟨(neg_inj.1 h1), ?_⟩
    exact (strLt_iff _ _).2 h2

/-- The pages of `ListChanges` are its change list: for every repository state,
every change query with an empty cursor, whatever its limit and its filters, and
every sequence of call times, when the library decodes the cursors of the
listed changes to what was encoded, the loop that calls `ListChanges` and
follows `NextCursor` until it is empty ends after at most one call more than
there are changes, and the concatenated pages are the list `changeList`, each
change once, in (completed_at DESC, id ASC) order.  The pages equal the list up
to the field evidence_may_be_incomplete, which is computed from the time of
each call, and equal it in that field too when the calls are made at one
time. -/
theorem changeList_pages (L : StdLib) (clock0 : Time) (m : MemoryRepository)
    (q : ChangeQuery) (hreach : Reachable L m) (hcodec : ChangeCursorRoundTrips L clock0 m q)
    (hcur : q.Cursor = "") :
    (changeList L clock0 m q).Pairwise changeOrdered ∧
      ((changeList L clock0 m q).map (fun c => c.ID)).Nodup ∧
      (∀ clocks : List Time, (changeList L clock0 m q).length < clocks.length →
        ∃ pages, collectChangePages L m q clocks = some pages ∧
          pages.map clockFree = (changeList L clock0 m q).map clockFree ∧
          pages.map (fun c => c.ID) = (changeList L clock0 m q).map (fun c => c.ID) ∧
          ((∀ t ∈ clocks, t = clock0) → pages = changeList L clock0 m q)) := by
  have hinv := RepoInv_of_reachable L m hreach
  have hsorted := changeList_sorted L clock0 m q
  refine ⟨List.Pairwise.imp (fun {a b} hab => changeOrdered_of_key_lt a b hab) hsorted, ?_, ?_⟩
  · unfold changeList
    cases hev : eventsForChangeQuery L m q with
    | error _ => simp
    | ok events =>
      simp only []
      have hsub : (filterChanges L (buildChanges L clock0 events) q).Sublist
          (buildChanges L clock0 events) := List.filter_sublist _
      have hids : ((buildChanges L clock0 events).map (fun c => c.ID)).Nodup := by
        have hperm := sortSlice_perm changeLess
          ((buildChangesByID L clock0 events).values.map ChangeDetail.Change)
        have hkeys := buildChangesByID_nodup L clock0 events
        have h2 : ((buildChangesByID L clock0 events).values.map ChangeDetail.Change).map
            (fun c => c.ID) = (buildChangesByID L clock0 events).keys := by
          unfold GoMap.values GoMap.keys
          simp only [List.map_map]
          apply List.map_congr_left
          intro p hp
          exact change_ID L clock0 events p.1 p.2 hp
        unfold buildChanges
        rw [(hperm.map (fun c => c.ID)).nodup_iff, h2]
        exact hkeys
      exact List.Nodup.sublist (List.Sublist.map _ hsub) hids
  · intro clocks hlen
    have hq : q = { q with Cursor := "" } := by
      cases q
      simp only at hcur
      subst hcur
      rfl
    have hz : cursorApplied (changeList L clock0 m q) Time.zero "" = changeList L clock0 m q := by
      unfold cursorApplied
      rw [if_neg (by decide)]
    obtain ⟨pages, hcol, hfree, hexact⟩ := collectChangePages_suffix L clock0 m q hinv hcodec
      clocks (changeList L clock0 m q) [] "" Time.zero "" hlen (by simp)
      (decodeChangeCursor_empty L) hz
    rw [← hq] at hcol
    refine ⟨pages, hcol, hfree, ?_, hexact⟩
    have h1 := congrArg (List.map (fun c : Change => c.ID)) hfree
    simp only [List.map_map] at h1
    exact h1

/-- The pages of the sample changes, by id, read at three different times. -/
theorem sample_change_pages :
    (changeList refLib ⟨5000, 0⟩ changeRepo changeQuery).map (fun c => c.ID) =
        ["chg_payments-api:prod-eu:eu-1:argo:op-2", "chg_payments-api:prod-eu:eu-1:argo:op-1"] ∧
      (collectChangePages refLib changeRepo changeQuery
          [⟨5000, 0⟩, ⟨900000000000, 0⟩, ⟨900000000001, 0⟩]).map
          (List.map (fun c => (c.ID, c.EvidenceMayBeIncomplete))) =
        some [("chg_payments-api:prod-eu:eu-1:argo:op-2", true),
          ("chg_payments-api:prod-eu:eu-1:argo:op-1", false)] ∧
      (collectChangePages refLib changeRepo changeQuery [⟨5000, 0⟩]).map
          (List.map (fun c => c.ID)) = none := by
  decide

/-! ## Source events of an application -/

theorem TrimSpace_idem (s : String) : TrimSpace (TrimSpace s) = TrimSpace s := by
  unfold TrimSpace
  simp only []
  generalize ha : s.data.dropWhile isSpace = a
  have haa : a.dropWhile isSpace = a := by
    rw [← ha]
    exact List.dropWhile_idempotent _ _
  have hsplit : a = (a.reverse.dropWhile isSpace).reverse ++
      (a.reverse.takeWhile isSpace).reverse := by
    rw [← List.reverse_append, List.takeWhile_append_dropWhile, List.reverse_reverse]
  generalize hb : a.reverse.dropWhile isSpace = b at hsplit
  have hbb : b.dropWhile isSpace = b := by
    rw [← hb]
    exact List.dropWhile_idempotent _ _
  have hr : b.reverse.dropWhile isSpace = b.reverse := by
    cases hrev : b.reverse with
    | nil => rfl
    | cons x r =>
      rw [hrev] at hsplit
      have hx : ¬ isSpace x = true := by
        intro hx
        rw [hsplit] at haa
        simp only [List.cons_append, List.dropWhile_cons, hx, if_true] at haa
        have hlen := congrArg List.length haa
        have hle := (List.dropWhile_suffix (l := r ++ (a.reverse.takeWhile isSpace).reverse)
          isSpace).length_le
        simp only [List.length_cons] at hlen
        omega
      exact List.dropWhile_cons_of_neg hx
  rw [hr, List.reverse_reverse, hbb]

theorem historyEvent_type (L : StdLib) (clock : Time) (app : Application) (h : RevisionHistory)
    (ev : SourceEvent) (hev : historyEvent L clock app h = some ev) :
    ev.EventType = "argo.deployment.recorded" := by
  unfold historyEvent at hev
  simp only [] at hev
  split at hev <;> split at hev
  · cases hev
  · injection hev with hev
    rw [← hev]
  · cases hev
  · injection hev with hev
    rw [← hev]

theorem operationEvents_type (L : StdLib) (clock : Time) (app : Application) (ev : SourceEvent)
    (hev : ev ∈ operationEvents L clock app) :
    ev.EventType = "argo.sync.started" ∨ ev.EventType = "argo.sync.finished" := by
  unfold operationEvents at hev
  cases hop : app.OperationState with
  | none =>
    rw [hop] at hev
    cases hev
  | some op =>
    rw [hop] at hev
    simp only [] at hev
    by_cases h1 : op.Phase = "Running" ∨ op.Phase = "Terminating"
    · rw [if_pos h1] at hev
      by_cases h2 : (!op.StartedAt.UTC.IsZero) = true
      · rw [if_pos h2, List.mem_singleton] at hev
        rw [hev]
        exact Or.inl rfl
      · rw [if_neg h2] at hev
        cases hev
    · rw [if_neg h1] at hev
      by_cases h3 : op.Phase = "Succeeded" ∨ op.Phase = "Failed" ∨ op.Phase = "Error"
      · rw [if_pos h3, List.mem_singleton] at hev
        rw [hev]
        exact Or.inr rfl
      · rw [if_neg h3] at hev
        cases hev

theorem operationEvents_terminal (L : StdLib) (clock : Time) (app : Application)
    (op : OperationState) (hop : app.OperationState = some op)
    (hphase : op.Phase = "Succeeded" ∨ op.Phase = "Failed" ∨ op.Phase = "Error") :
    ∃ ev, operationEvents L clock app = [ev] ∧ ev.EventType = "argo.sync.finished" ∧
      ev.Result = TrimSpace op.Phase ∧ ev.Revision = TrimSpace (appRevision app) := by
  have hnr : ¬ (op.Phase = "Running" ∨ op.Phase = "Terminating") := by
    rcases hphase with h | h | h <;> rw [h] <;> decide
  unfold operationEvents
  rw [hop]
  simp only []
  rw [if_neg hnr, if_pos hphase]
  exact ⟨_, rfl, rfl, rfl, rfl⟩

theorem healthEvents_type (L : StdLib) (clock : Time) (app : Application) (ev : SourceEvent)
    (hev : ev ∈ healthEvents L clock app) : ev.EventType = "argo.health.changed" := by
  unfold healthEvents at hev
  simp only [] at hev
  split at hev
  · rw [List.mem_singleton] at hev
    rw [hev]
  · cases hev

theorem terminalOperationWindow_terminal (app : Application) (op : OperationState)
    (hop : app.OperationState = some op)
    (hphase : op.Phase = "Succeeded" ∨ op.Phase = "Failed" ∨ op.Phase = "Error")
    (hne : TrimSpace (appRevision app) ≠ "") :
    terminalOperationWindow app (appRevision app) =
      (TrimSpace (appRevision app), op.StartedAt.UTC,
        (if (timeFromMeta op.FinishedAt).IsZero then op.StartedAt.UTC
          else timeFromMeta op.FinishedAt), true) := by
  unfold terminalOperationWindow
  rw [hop]
  simp only []
  rw [if_pos hphase, if_neg hne]

theorem operationEnd_nanos (op : OperationState) :
    (if (timeFromMeta op.FinishedAt).IsZero then op.StartedAt.UTC
      else timeFromMeta op.FinishedAt).nanos = (operationEnd op).nanos := by
  unfold operationEnd
  split <;> rfl

/-- The loop over the history skips an entry of the revision of a terminal
operation whose time lies in the window of the operation. -/
theorem historyEvent_suppressed (L : StdLib) (clock : Time) (app : Application)
    (op : OperationState) (h : RevisionHistory) (hop : app.OperationState = some op)
    (hphase : op.Phase = "Succeeded" ∨ op.Phase = "Failed" ∨ op.Phase = "Error")
    (hrev : TrimSpace h.Revision = TrimSpace (appRevision app))
    (hne : TrimSpace (appRevision app) ≠ "")
    (hlo : op.StartedAt.nanos - jitter ≤ (historyOccurredAt clock h app).nanos)
    (hhi : (historyOccurredAt clock h app).nanos ≤ (operationEnd op).nanos + jitter) :
    historyEvent L clock app h = none := by
  have hne2 : TrimSpace h.Revision ≠ "" := by rw [hrev]; exact hne
  unfold historyEvent
  simp only []
  rw [terminalOperationWindow_terminal app op hop hphase hne, if_neg hne2]
  have hend := operationEnd_nanos op
  generalize (if (timeFromMeta op.FinishedAt).IsZero then op.StartedAt.UTC
    else timeFromMeta op.FinishedAt) = fin at hend ⊢
  have hsame : sameRevisionWindow (TrimSpace h.Revision) (TrimSpace (appRevision app))
      (historyOccurredAt clock h app) op.StartedAt.UTC fin = true := by
    unfold sameRevisionWindow
    rw [TrimSpace_idem, TrimSpace_idem]
    rw [if_neg (by
      intro hc
      rcases hc with hc | hc
      · exact hne2 hc
      · exact hne hc), if_neg (by
      intro hc
      exact hc hrev)]
    split
    · rfl
    · simp only [Time.Before, Time.After, Time.Add, Time.UTC, Bool.and_eq_true,
        Bool.not_eq_true', decide_eq_false_iff_not, not_lt]
      constructor
      · have : op.StartedAt.nanos + -jitter = op.StartedAt.nanos - jitter := by ring
        rw [this]
        exact hlo
      · rw [hend]
        exact hhi
  simp only [hsame, Bool.and_self, if_true]

theorem filterMap_eraseIdx_of_none {α β : Type} (f : α → Option β) :
    ∀ (l : List α) (i : Nat) (x : α), l.get? i = some x → f x = none →
      l.filterMap f = (l.eraseIdx i).filterMap f := by
  intro l
  induction l with
  | nil => intro i x h; simp at h
  | cons y ys ih =>
    intro i x h hx
    cases i with
    | zero =>
      simp only [List.get?_cons_zero, Option.some.injEq] at h
      subst h
      simp [List.filterMap_cons, hx]
    | succ j =>
      simp only [List.get?_cons_succ] at h
      simp only [List.eraseIdx_cons_succ, List.filterMap_cons]
      rw [ih j x h hx]

theorem toSourceEvents_recorded (L : StdLib) (now : Nat → Time) (app : Application) :
    (toSourceEvents L now app).filter (fun se => decide (se.EventType = "argo.deployment.recorded")) =
      app.History.enum.filterMap (fun p => historyEvent L (now p.1) app p.2) := by
  unfold toSourceEvents
  rw [List.filter_append, List.filter_append]
  have h1 : (app.History.enum.filterMap (fun p => historyEvent L (now p.1) app p.2)).filter
      (fun se => decide (se.EventType = "argo.deployment.recorded")) =
      app.History.enum.filterMap (fun p => historyEvent L (now p.1) app p.2) := by
    rw [List.filter_eq_self]
    intro se hse
    obtain ⟨p, _, hp⟩ := List.mem_filterMap.1 hse
    simp [historyEvent_type L _ app p.2 se hp]
  have h2 : (operationEvents L (now app.History.length) app).filter
      (fun se => decide (se.EventType = "argo.deployment.recorded")) = [] := by
    rw [List.filter_eq_nil_iff]
    intro se hse
    rcases operationEvents_type L _ app se hse with h | h <;> rw [h] <;> decide
  have h3 : (healthEvents L (now (app.History.length + 1)) app).filter
      (fun se => decide (se.EventType = "argo.deployment.recorded")) = [] := by
    rw [List.filter_eq_nil_iff]
    intro se hse
    rw [healthEvents_type L _ app se hse]
    decide
  rw [h1, h2, h3]
  simp

/-- C20: for an application whose operation state has the phase Succeeded,
Failed or Error, and the history entry `h` at position `i` whose trimmed
revision is the non-empty trimmed revision of the application and whose
occurrence time lies between started_at minus two minutes and the end of the
operation (finished_at, or started_at when there is none) plus two minutes,
bounds included: the round of `h` emits nothing, the deployment.recorded
events that `toSourceEvents` returns are those of the other history entries,
and it returns exactly one sync.finished event, which carries the phase and
the revision of the operation. -/
theorem terminal_operation_suppresses_history (L : StdLib) (now : Nat → Time) (app : Application)
    (op : OperationState) (i : Nat) (h : RevisionHistory)
    (hop : app.OperationState = some op)
    (hphase : op.Phase = "Succeeded" ∨ op.Phase = "Failed" ∨ op.Phase = "Error")
    (hentry : app.History.get? i = some h)
    (hrev : TrimSpace h.Revision = TrimSpace (appRevision app))
    (hne : TrimSpace (appRevision app) ≠ "")
    (hlo : op.StartedAt.nanos - jitter ≤ (historyOccurredAt (now i) h app).nanos)
    (hhi : (historyOccurredAt (now i) h app).nanos ≤ (operationEnd op).nanos + jitter) :
    historyEvent L (now i) app h = none ∧
      (toSourceEvents L now app).filter
          (fun se => decide (se.EventType = "argo.deployment.recorded")) =
        (app.History.enum.eraseIdx i).filterMap (fun p => historyEvent L (now p.1) app p.2) ∧
      ∃ ev, (toSourceEvents L now app).filter
          (fun se => decide (se.EventType = "argo.sync.finished")) = [ev] ∧
        ev.Result = TrimSpace op.Phase ∧ ev.Revision = TrimSpace (appRevision app) := by
  have hsup := historyEvent_suppressed L (now i) app op h hop hphase hrev hne hlo hhi
  refine ⟨hsup, ?_, ?_⟩
  · rw [toSourceEvents_recorded]
    have hget : app.History.enum.get? i = some (i, h) := by
      rw [List.get?_eq_getElem?, List.getElem?_enum, ← List.get?_eq_getElem?, hentry]
      rfl
    have hnone : (fun p : Nat × RevisionHistory => historyEvent L (now p.1) app p.2) (i, h) =
        none := by
      simp only []
      exact hsup
    exact filterMap_eraseIdx_of_none _ app.History.enum i (i, h) hget hnone
  · obtain ⟨ev, hev, htype, hres, hrevision⟩ :=
      operationEvents_terminal L (now app.History.length) app op hop hphase
    refine ⟨ev, ?_, hres, hrevision⟩
    unfold toSourceEvents
    rw [List.filter_append, List.filter_append, hev]
    have h1 : (app.History.enum.filterMap (fun p => historyEvent L (now p.1) app p.2)).filter
        (fun se => decide (se.EventType = "argo.sync.finished")) = [] := by
      rw [List.filter_eq_nil_iff]
      intro se hse
      obtain ⟨p, _, hp⟩ := List.mem_filterMap.1 hse
      rw [historyEvent_type L _ app p.2 se hp]
      decide
    have h3 : (healthEvents L (now (app.History.length + 1)) app).filter
        (fun se => decide (se.EventType = "argo.sync.finished")) = [] := by
      rw [List.filter_eq_nil_iff]
      intro se hse
      rw [healthEvents_type L _ app se hse]
      decide
    rw [h1, h3]
    simp [htype]

/-- C20, an instance: the application of the test of the repository. -/
theorem terminal_operation_suppresses_history_witness :
    historyEvent refLib ⟨5, 0⟩ testApplication testHistory = none ∧
      (toSourceEvents refLib (fun _ => ⟨5, 0⟩) testApplication).filter
          (fun se => decide (se.EventType = "argo.deployment.recorded")) =
        (testApplication.History.enum.eraseIdx 0).filterMap
          (fun p => historyEvent refLib ⟨5, 0⟩ testApplication p.2) ∧
      ∃ ev, (toSourceEvents refLib (fun _ => ⟨5, 0⟩) testApplication).filter
          (fun se => decide (se.EventType = "argo.sync.finished")) = [ev] ∧
        ev.Result = TrimSpace testOperation.Phase ∧
        ev.Revision = TrimSpace (appRevision testApplication) :=
  terminal_operation_suppresses_history refLib (fun _ => ⟨5, 0⟩) testApplication testOperation 0
    testHistory rfl (Or.inl rfl) rfl (by decide) (by decide) (by decide) (by decide)

/-- The source events of the test application: the finished operation and the
health, and no event for the history entry. -/
theorem test_application_events :
    (toSourceEvents refLib (fun _ => ⟨5, 0⟩) testApplication).map
        (fun se => (se.ID, se.EventType, se.Result, se.HistoryID, se.Occurred.nanos)) =
      [("uid-1:op:abc123:1771243080123456789:finish", "argo.sync.finished", "Succeeded", 0,
          63906839940987654321),
        ("uid-1:health:healthy:1771243200", "argo.health.changed", "", 0,
          63906840000000000000)] := by
  decide

/-! ## The checkpoint of the collector -/

theorem cursorOf_advanceCheckpoint (appCursors : GoMap AppCheckpoint) (se : SourceEvent) :
    cursorOf (advanceCheckpoint appCursors se) (sourceAppKey se) =
      advancedCursor (cursorOf appCursors (sourceAppKey se)) se := by
  unfold advanceCheckpoint
  conv_lhs => unfold cursorOf
  rw [GoMap.get?_set_self]
  rfl

theorem advancedCursor_LastHistoryID (c : AppCheckpoint) (se : SourceEvent) :
    (advancedCursor c se).LastHistoryID =
      if (TrimSpace se.EventType = "argo.deployment.recorded" ∨
          TrimSpace se.EventType = "argo.sync.finished") ∧ se.HistoryID > 0 ∧
          se.HistoryID > c.LastHistoryID then se.HistoryID
      else c.LastHistoryID := by
  unfold advancedCursor
  by_cases h1 : TrimSpace se.EventType = "argo.deployment.recorded" ∨
      TrimSpace se.EventType = "argo.sync.finished"
  · rw [if_pos h1]
    by_cases h2 : se.HistoryID > 0
    · rw [if_pos h2]
      by_cases h3 : se.HistoryID > c.LastHistoryID
      · simp only [h1, h2, h3, and_self, if_true, apply_ite AppCheckpoint.LastHistoryID, ite_self]
      · simp only [h1, h2, h3, and_false, if_false, and_self, apply_ite AppCheckpoint.LastHistoryID,
          ite_self]
    · simp only [h2, if_false, false_and, and_false, apply_ite AppCheckpoint.LastHistoryID,
        ite_self]
  · simp only [h1, if_false, false_and, apply_ite AppCheckpoint.LastHistoryID, ite_self]

theorem advancedCursor_LastHistoryAt (c : AppCheckpoint) (se : SourceEvent) :
    (advancedCursor c se).LastHistoryAt =
      if (TrimSpace se.EventType = "argo.deployment.recorded" ∨
          TrimSpace se.EventType = "argo.sync.finished") ∧ se.HistoryID > 0 ∧
          se.Occurred.After c.LastHistoryAt = true then se.Occurred.UTC
      else c.LastHistoryAt := by
  unfold advancedCursor
  by_cases h1 : TrimSpace se.EventType = "argo.deployment.recorded" ∨
      TrimSpace se.EventType = "argo.sync.finished"
  · rw [if_pos h1]
    by_cases h2 : se.HistoryID > 0
    · rw [if_pos h2]
      have hat : (if se.HistoryID > c.LastHistoryID then
          ({ c with LastHistoryID := se.HistoryID } : AppCheckpoint) else c).LastHistoryAt =
          c.LastHistoryAt := by
        split <;> rfl
      simp only [hat]
      by_cases h3 : se.Occurred.After c.LastHistoryAt = true
      · simp only [h1, h2, h3, and_self, if_true]
      · simp only [h1, h2, h3, and_false, if_false, and_self, Bool.false_eq_true]
        exact hat
    · simp only [h2, if_false, false_and, and_false, apply_ite AppCheckpoint.LastHistoryAt,
        ite_self]
  · simp only [h1, if_false, false_and, apply_ite AppCheckpoint.LastHistoryAt, ite_self]

/-- C22: for every map of cursors and every source event, `advanceCheckpoint`
leaves last_history_id and last_history_at of the application of the event as
they are or replaces them by a strictly greater value, the history id or the
time of the event, and it replaces them only for an event of class
deployment.recorded or sync.finished with a positive history id; the entries of
all other applications are unchanged. -/
theorem checkpoint_never_decreases (appCursors : GoMap AppCheckpoint) (se : SourceEvent) :
    (cursorOf appCursors (sourceAppKey se)).LastHistoryID ≤
        (cursorOf (advanceCheckpoint appCursors se) (sourceAppKey se)).LastHistoryID ∧
      (cursorOf appCursors (sourceAppKey se)).LastHistoryAt.nanos ≤
        (cursorOf (advanceCheckpoint appCursors se) (sourceAppKey se)).LastHistoryAt.nanos ∧
      ((cursorOf (advanceCheckpoint appCursors se) (sourceAppKey se)).LastHistoryID ≠
          (cursorOf appCursors (sourceAppKey se)).LastHistoryID →
        (cursorOf (advanceCheckpoint appCursors se) (sourceAppKey se)).LastHistoryID =
            se.HistoryID ∧
          (cursorOf appCursors (sourceAppKey se)).LastHistoryID < se.HistoryID ∧
          0 < se.HistoryID ∧
          (TrimSpace se.EventType = "argo.deployment.recorded" ∨
            TrimSpace se.EventType = "argo.sync.finished")) ∧
      ((cursorOf (advanceCheckpoint appCursors se) (sourceAppKey se)).LastHistoryAt ≠
          (cursorOf appCursors (sourceAppKey se)).LastHistoryAt →
        (cursorOf (advanceCheckpoint appCursors se) (sourceAppKey se)).LastHistoryAt =
            se.Occurred.UTC ∧
          (cursorOf appCursors (sourceAppKey se)).LastHistoryAt.nanos < se.Occurred.nanos ∧
          0 < se.HistoryID ∧
          (TrimSpace se.EventType = "argo.deployment.recorded" ∨
            TrimSpace se.EventType = "argo.sync.finished")) ∧
      (∀ k, k ≠ sourceAppKey se →
        (advanceCheckpoint appCursors se).get? k = appCursors.get? k ∧
          cursorOf (advanceCheckpoint appCursors se) k = cursorOf appCursors k) := by
  rw [cursorOf_advanceCheckpoint, advancedCursor_LastHistoryID, advancedCursor_LastHistoryAt]
  generalize cursorOf appCursors (sourceAppKey se) = old
  have hother : ∀ k, k ≠ sourceAppKey se →
      (advanceCheckpoint appCursors se).get? k = appCursors.get? k := by
    intro k hk
    unfold advanceCheckpoint
    exact GoMap.get?_set_of_ne _ _ _ _ (Ne.symm hk)
  refine ⟨?_, ?_, ?_, ?_, ?_⟩
  · split
    · rename_i h
      exact le_of_lt h.2.2
    · exact le_refl _
  · split
    · rename_i h
      have := h.2.2
      simp only [Time.After, decide_eq_true_eq] at this
      exact le_of_lt this
    · exact le_refl _
  · intro hne
    split at hne
    · rename_i h
      rw [if_pos h]
      exact ⟨rfl, h.2.2, h.2.1, h.1⟩
    · exact absurd rfl hne
  · intro hne
    split at hne
    · rename_i h
      rw [if_pos h]
      have := h.2.2
      simp only [Time.After, decide_eq_true_eq] at this
      exact ⟨rfl, this, h.2.1, h.1⟩
    · exact absurd rfl hne
  · intro k hk
    refine ⟨hother k hk, ?_⟩
    unfold cursorOf
    rw [hother k hk]

theorem EqualFold_self (s : String) : EqualFold s s = true := by
  unfold EqualFold
  simp

/-- After the checkpoint advanced on `se1`, an event `se2` of the same
application, class, history id, operation key and health that did not occur
later is not processed. -/
theorem shouldProcess_after_advance (appCursors : GoMap AppCheckpoint) (se1 se2 : SourceEvent)
    (hclass : TrimSpace se1.EventType = "argo.deployment.recorded" ∨
      TrimSpace se1.EventType = "argo.sync.finished" ∨
      TrimSpace se1.EventType = "argo.sync.started" ∨
      TrimSpace se1.EventType = "argo.health.changed")
    (htype : se2.EventType = se1.EventType) (huid : se2.AppUID = se1.AppUID)
    (happ : se2.App = se1.App) (hhist : se2.HistoryID = se1.HistoryID)
    (hkey : se2.OperationKey = se1.OperationKey) (hhealth : se2.HealthStatus = se1.HealthStatus)
    (hocc : se1.HistoryID > 0 → se2.Occurred.nanos ≤ se1.Occurred.nanos) :
    shouldProcess (advanceCheckpoint appCursors se1) se2 = false := by
  have hk : sourceAppKey se2 = sourceAppKey se1 := by
    unfold sourceAppKey
    rw [huid, happ]
  unfold shouldProcess
  by_cases hblank : TrimSpace se2.ID = "" ∨ TrimSpace se2.EventType = ""
  · rw [if_pos hblank]
  · rw [if_neg hblank]
    simp only []
    rw [hk, cursorOf_advanceCheckpoint, htype, hhist, hkey, hhealth]
    generalize cursorOf appCursors (sourceAppKey se1) = old
    have hID := advancedCursor_LastHistoryID old se1
    have hAt := advancedCursor_LastHistoryAt old se1
    have hhistory : (TrimSpace se1.EventType = "argo.deployment.recorded" ∨
        TrimSpace se1.EventType = "argo.sync.finished") → se1.HistoryID > 0 →
        ¬ se1.HistoryID > (advancedCursor old se1).LastHistoryID ∧
        ¬ (se1.HistoryID = (advancedCursor old se1).LastHistoryID ∧
          se2.Occurred.After (advancedCursor old se1).LastHistoryAt = true) := by
      intro hc hpos
      have hocc := hocc hpos
      rw [hID, hAt]
      constructor
      · by_cases h3 : se1.HistoryID > old.LastHistoryID
        · rw [if_pos ⟨hc, hpos, h3⟩]
          exact lt_irrefl _
        · rw [if_neg (fun h => h3 h.2.2)]
          exact h3
      · rintro ⟨h4, h5⟩
        by_cases h6 : se1.Occurred.After old.LastHistoryAt = true
        · rw [if_pos ⟨hc, hpos, h6⟩] at h5
          simp only [Time.After, Time.UTC, decide_eq_true_eq] at h5
          omega
        · rw [if_neg (fun h => h6 h.2.2)] at h5
          simp only [Time.After, decide_eq_true_eq] at h5 h6
          omega
    have hterminal : (TrimSpace se1.EventType = "argo.deployment.recorded" ∨
        TrimSpace se1.EventType = "argo.sync.finished") → ¬ se1.HistoryID > 0 →
        ¬ TrimSpace se1.OperationKey = "" →
        TrimSpace se1.OperationKey = TrimSpace (advancedCursor old se1).LastTerminalKey := by
      intro hc hpos hkey
      unfold advancedCursor
      rw [if_pos hc, if_neg hpos, if_pos hkey]
      simp only [TrimSpace_idem]
    by_cases h1 : TrimSpace se1.EventType = "argo.deployment.recorded"
    · rw [if_pos h1]
      by_cases h2 : se1.HistoryID > 0
      · rw [if_pos h2]
        obtain ⟨h3, h4⟩ := hhistory (Or.inl h1) h2
        rw [if_neg h3, if_neg h4]
      · rw [if_neg h2]
        by_cases h3 : TrimSpace se1.OperationKey = ""
        · rw [if_pos h3]
        · rw [if_neg h3]
          have := hterminal (Or.inl h1) h2 h3
          simp [this]
    · rw [if_neg h1]
      by_cases h1b : TrimSpace se1.EventType = "argo.sync.finished"
      · rw [if_pos h1b]
        by_cases h2 : se1.HistoryID > 0
        · rw [if_pos h2]
          obtain ⟨h3, h4⟩ := hhistory (Or.inr h1b) h2
          rw [if_neg h3, if_neg h4]
        · rw [if_neg h2]
          by_cases h3 : TrimSpace se1.OperationKey = ""
          · rw [if_pos h3]
          · rw [if_neg h3]
            have := hterminal (Or.inr h1b) h2 h3
            simp [this]
      · rw [if_neg h1b]
        have hnot : ¬ (TrimSpace se1.EventType = "argo.deployment.recorded" ∨
            TrimSpace se1.EventType = "argo.sync.finished") := by
          rintro (h | h)
          · exact h1 h
          · exact h1b h
        by_cases h1c : TrimSpace se1.EventType = "argo.sync.started"
        · rw [if_pos h1c]
          by_cases h3 : TrimSpace se1.OperationKey = ""
          · rw [if_pos h3]
          · rw [if_neg h3]
            have : TrimSpace se1.OperationKey =
                TrimSpace (advancedCursor old se1).LastStartKey := by
              unfold advancedCursor
              rw [if_neg hnot, if_pos h1c, if_pos h3]
              simp only [TrimSpace_idem]
            simp [this]
        · rw [if_neg h1c]
          have h1d : TrimSpace se1.EventType = "argo.health.changed" := by
            rcases hclass with h | h | h | h
            · exact absurd h h1
            · exact absurd h h1b
            · exact absurd h h1c
            · exact h
          rw [if_pos h1d]
          by_cases h3 : TrimSpace se1.HealthStatus = ""
          · rw [if_pos h3]
          · rw [if_neg h3]
            have : TrimSpace (advancedCursor old se1).LastHealth = TrimSpace se1.HealthStatus := by
              unfold advancedCursor
              rw [if_neg hnot, if_neg h1c, if_pos h1d, if_pos h3]
              simp only [TrimSpace_idem]
            rw [this, EqualFold_self]
            rfl

/-- The event that `handleAppEvent` builds from an object depends on the clock
in its id only, and in its time when the object carries none. -/
theorem observedEvent_clocks (L : StdLib) (a1 a2 b1 b2 : Time) (payload : GoMap JVal)
    (se1 : SourceEvent) (h : observedEvent L a1 a2 payload = some se1) :
    ∃ se2, observedEvent L b1 b2 payload = some se2 ∧
      se1.EventType = "argo.sync.finished" ∧ se2.EventType = se1.EventType ∧
      se2.AppUID = se1.AppUID ∧ se2.App = se1.App ∧ se2.HistoryID = se1.HistoryID ∧
      se2.OperationKey = se1.OperationKey ∧ se2.HealthStatus = se1.HealthStatus ∧
      ((recordedTime L payload).isSome = true → se2.Occurred = se1.Occurred) := by
  unfold observedEvent at h ⊢
  unfold recordedTime
  cases hl : lastHistory payload with
  | none =>
    rw [hl] at h
    cases h
  | some hist =>
    rw [hl] at h
    simp only [] at h ⊢
    injection h with h
    subst h
    refine ⟨_, rfl, rfl, rfl, rfl, rfl, rfl, rfl, rfl, ?_⟩
    intro hsome
    simp only []
    split
    · rfl
    · rename_i hz
      rw [if_neg hz] at hsome
      cases hf : nestedString payload ["status", "operationState", "finishedAt"] with
      | none =>
        rw [hf] at hsome
        cases hsome
      | some finishedAtStr =>
        rw [hf] at hsome
        simp only [] at hsome ⊢
        cases hp : L.parseRFC3339 finishedAtStr with
        | none =>
          rw [hp] at hsome
          cases hsome
        | some t => rfl

theorem processSourceEvent_skipped (L : StdLib) (normalize : SourceEvent → Option StoredEvent)
    (clock : Time) (st : CollectorState) (se : SourceEvent)
    (h : shouldProcess st.appCursors se = false) :
    processSourceEvent L normalize clock st se = st := by
  unfold processSourceEvent
  rw [h]
  rfl

theorem processSourceEvent_skipped_mk (L : StdLib)
    (normalize : SourceEvent → Option StoredEvent) (clock : Time)
    (appCursors : GoMap AppCheckpoint) (sink : MemoryRepository) (se : SourceEvent)
    (h : shouldProcess appCursors se = false) :
    processSourceEvent L normalize clock ⟨appCursors, sink⟩ se = ⟨appCursors, sink⟩ := by
  unfold processSourceEvent
  simp only [h]
  rfl

theorem processSourceEvent_ingested (L : StdLib) (normalize : SourceEvent → Option StoredEvent)
    (clock : Time) (st : CollectorState) (se : SourceEvent) (e : StoredEvent)
    (r : IngestStatus × Time) (hs : shouldProcess st.appCursors se = true)
    (hn : normalize se = some e) (hi : (IngestEvent L clock st.Sink e).1 = Except.ok r) :
    processSourceEvent L normalize clock st se =
      ⟨advanceCheckpoint st.appCursors se, (IngestEvent L clock st.Sink e).2⟩ := by
  unfold processSourceEvent
  rw [hs]
  simp only [Bool.not_true, Bool.false_eq_true, if_false, hn, hi]

/-- C21, what the code does: after `advanceCheckpoint(se)` the call
`shouldProcess(se)` returns false, for every map of cursors and every source event of class
deployment.recorded, sync.finished, sync.started or health.changed; hence
handling the same source event again, any number of times, after it was
ingested leaves the cursors and the repository as they are; and handling the
same application object again, at any later times, after its event was
ingested leaves them as they are when the object has no positive history id or
carries a time of its own (`deployedAt` of its last history entry, or
`finishedAt` of its operation state). -/
theorem reobservation_is_noop (L : StdLib) (normalize : SourceEvent → Option StoredEvent) :
    (∀ (appCursors : GoMap AppCheckpoint) (se : SourceEvent), knownClass se →
        shouldProcess (advanceCheckpoint appCursors se) se = false) ∧
      (∀ (clock : Time) (st : CollectorState) (se : SourceEvent) (e : StoredEvent)
          (r : IngestStatus × Time),
        knownClass se → shouldProcess st.appCursors se = true → normalize se = some e →
        (IngestEvent L clock st.Sink e).1 = Except.ok r →
        ∀ clocks : List Time,
          clocks.foldl (fun s c => processSourceEvent L normalize c s se)
              (processSourceEvent L normalize clock st se) =
            processSourceEvent L normalize clock st se) ∧
      (∀ (now1 now2 clock : Time) (st : CollectorState) (payload : GoMap JVal)
          (se : SourceEvent) (e : StoredEvent) (r : IngestStatus × Time),
        observedEvent L now1 now2 payload = some se →
        shouldProcess st.appCursors se = true → normalize se = some e →
        (IngestEvent L clock st.Sink e).1 = Except.ok r →
        (se.HistoryID ≤ 0 ∨ (recordedTime L payload).isSome = true) →
        ∃ st1, handleAppEvent L normalize now1 now2 clock st payload = some st1 ∧
          st1.appCursors = advanceCheckpoint st.appCursors se ∧
          ∀ later : List (Time × Time × Time),
            observeRepeat L normalize payload later st1 = some st1) := by
  refine ⟨?_, ?_, ?_⟩
  · intro appCursors se hclass
    exact shouldProcess_after_advance appCursors se se hclass rfl rfl rfl rfl rfl rfl
      (fun _ => le_refl _)
  · intro clock st se e r hclass hs hn hi clocks
    rw [processSourceEvent_ingested L normalize clock st se e r hs hn hi]
    induction clocks with
    | nil => rfl
    | cons c rest ih =>
      rw [List.foldl_cons, processSourceEvent_skipped_mk L normalize c _ _ se
        (shouldProcess_after_advance st.appCursors se se hclass rfl rfl rfl rfl rfl rfl
          (fun _ => le_refl _))]
      exact ih
  · intro now1 now2 clock st payload se e r hobs hs hn hi hstable
    refine ⟨⟨advanceCheckpoint st.appCursors se, (IngestEvent L clock st.Sink e).2⟩, ?_, rfl, ?_⟩
    · unfold handleAppEvent
      rw [hobs]
      simp only []
      rw [processSourceEvent_ingested L normalize clock st se e r hs hn hi]
    · intro later
      induction later with
      | nil => rfl
      | cons t rest ih =>
        obtain ⟨b1, b2, b3⟩ := t
        obtain ⟨se2, hobs2, hfin, htype, huid, happ, hhist, hkey, hhealth, hocc⟩ :=
          observedEvent_clocks L now1 now2 b1 b2 payload se hobs
        have hclass : knownClass se := by
          unfold knownClass
          right
          left
          rw [hfin]
          decide
        have hskip : shouldProcess (advanceCheckpoint st.appCursors se) se2 = false := by
          apply shouldProcess_after_advance st.appCursors se se2 hclass htype huid happ hhist
            hkey hhealth
          intro hpos
          rcases hstable with h | h
          · omega
          · rw [hocc h]
        unfold observeRepeat
        unfold handleAppEvent
        rw [hobs2]
        simp only []
        rw [processSourceEvent_skipped_mk L normalize b3 _ _ se2 hskip]
        exact ih

/-- The test of the repository: the object is ingested once, whenever and
however often it is observed afterwards. -/
theorem test_object_deduplicated :
    (observeRepeat refLib testNormalize testObject
        [(⟨63906842300000000000, 0⟩, ⟨63906842300000000001, 0⟩, ⟨63906842300000000002, 0⟩),
          (⟨63906842400000000000, 0⟩, ⟨63906842400000000001, 0⟩, ⟨63906842400000000002, 0⟩),
          (⟨63906842500000000000, 0⟩, ⟨63906842500000000001, 0⟩, ⟨63906842500000000002, 0⟩)]
        freshCollector).map (fun st => st.Sink.events.keys) =
      some ["evt_from_uid-1-1771245500000000001"] := by
  decide

/-- C21, as stated, fails: an object with history entry 100 and no time of its
own is given the time of each observation; every later observation is processed
again and stores one more event. -/
theorem clockless_object_ingested_again :
    (recordedTime refLib clocklessObject).isSome = false ∧
      (observeRepeat refLib testNormalize clocklessObject
          [(⟨63906842300000000000, 0⟩, ⟨63906842300000000001, 0⟩, ⟨63906842300000000002, 0⟩)]
          freshCollector).map (fun st => st.Sink.events.keys) =
        some ["evt_from_uid-1-1771245500000000001"] ∧
      (observeRepeat refLib testNormalize clocklessObject
          [(⟨63906842300000000000, 0⟩, ⟨63906842300000000001, 0⟩, ⟨63906842300000000002, 0⟩),
            (⟨63906842400000000000, 0⟩, ⟨63906842400000000001, 0⟩, ⟨63906842400000000002, 0⟩),
            (⟨63906842500000000000, 0⟩, ⟨63906842500000000001, 0⟩, ⟨63906842500000000002, 0⟩)]
          freshCollector).map (fun st => st.Sink.events.keys) =
        some ["evt_from_uid-1-1771245500000000001", "evt_from_uid-1-1771245600000000001",
          "evt_from_uid-1-1771245700000000001"] := by
  decide

/-! ## Subjects -/

theorem splitNFrom_zero (sep : Char) (l : List Char) :
    ∀ cur : List Char, splitNFrom sep 0 cur l = [String.mk (cur ++ l)] := by
  induction l with
  | nil => intro cur; simp [splitNFrom]
  | cons ch rest ih =>
    intro cur
    unfold splitNFrom
    rw [if_neg (by simp), ih]
    simp

theorem splitNFrom_of_not_mem (sep : Char) (k : Nat) (l : List Char) :
    ∀ cur : List Char, sep ∉ l → splitNFrom sep k cur l = [String.mk (cur ++ l)] := by
  induction l with
  | nil => intro cur _; simp [splitNFrom]
  | cons ch rest ih =>
    intro cur hsep
    have h1 : ch ≠ sep := fun h => hsep (by simp [h])
    have h2 : sep ∉ rest := fun h => hsep (List.mem_cons_of_mem _ h)
    unfold splitNFrom
    rw [if_neg (fun h => h1 h.1), ih _ h2]
    simp

theorem splitNFrom_cut (sep : Char) (k : Nat) (p r : List Char) :
    ∀ cur : List Char, sep ∉ p →
      splitNFrom sep (k + 1) cur (p ++ sep :: r) =
        String.mk (cur ++ p) :: splitNFrom sep k [] r := by
  induction p with
  | nil =>
    intro cur _
    simp only [List.nil_append, List.append_nil]
    conv_lhs => unfold splitNFrom
    rw [if_pos ⟨rfl, Nat.succ_pos k⟩]
    simp
  | cons ch rest ih =>
    intro cur hsep
    have h1 : ch ≠ sep := fun h => hsep (by simp [h])
    have h2 : sep ∉ rest := fun h => hsep (List.mem_cons_of_mem _ h)
    simp only [List.cons_append]
    conv_lhs => unfold splitNFrom
    rw [if_neg (fun h => h1 h.1), ih _ h2]
    simp

/-- A text has no separator, or a first one. -/
theorem first_separator (sep : Char) (l : List Char) :
    sep ∉ l ∨ ∃ p r, l = p ++ sep :: r ∧ sep ∉ p := by
  induction l with
  | nil => exact Or.inl (by simp)
  | cons ch rest ih =>
    by_cases h : ch = sep
    · exact Or.inr ⟨[], rest, by simp [h], by simp⟩
    · rcases ih with h1 | ⟨p, r, h1, h2⟩
      · left
        intro hm
        rcases List.mem_cons.1 hm with h3 | h3
        · exact h h3.symm
        · exact h1 h3
      · right
        refine ⟨ch :: p, r, by simp [h1], ?_⟩
        intro hm
        rcases List.mem_cons.1 hm with h3 | h3
        · exact h h3.symm
        · exact h2 h3

theorem string_mk_append (a b : List Char) : String.mk a ++ String.mk b = String.mk (a ++ b) :=
  rfl

/-- What `ParseSubject` returns: nothing for a text with fewer than two colons,
and else the text before the first colon, the text between the first two, and
all the text after the second. -/
theorem ParseSubject_cases (s : String) :
    (s.data.count (Char.ofNat 58) < 2 ∧ ParseSubject s = none) ∨
      ∃ p1 p2 r : List Char, s.data = p1 ++ Char.ofNat 58 :: (p2 ++ Char.ofNat 58 :: r) ∧
        Char.ofNat 58 ∉ p1 ∧ Char.ofNat 58 ∉ p2 ∧
        ParseSubject s = some ⟨String.mk p1, String.mk p2, String.mk r⟩ := by
  unfold ParseSubject splitN
  rcases first_separator (Char.ofNat 58) s.data with h | ⟨p1, r1, h1, hp1⟩
  · left
    rw [splitNFrom_of_not_mem _ _ _ _ h]
    refine ⟨?_, rfl⟩
    rw [List.count_eq_zero.2 h]
    decide
  · rcases first_separator (Char.ofNat 58) r1 with h | ⟨p2, r, h2, hp2⟩
    · left
      rw [h1, splitNFrom_cut _ 1 _ _ _ hp1, splitNFrom_of_not_mem _ _ _ _ h]
      refine ⟨?_, rfl⟩
      rw [List.count_append, List.count_cons_self, List.count_eq_zero.2 hp1,
        List.count_eq_zero.2 h]
      decide
    · right
      refine ⟨p1, p2, r, by rw [h1, h2], hp1, hp2, ?_⟩
      rw [h1, h2, splitNFrom_cut _ 1 _ _ _ hp1, splitNFrom_cut _ 0 _ _ _ hp2, splitNFrom_zero]
      rfl

theorem subject_text_data (a e c : String) :
    (a ++ ":" ++ e ++ ":" ++ c).data =
      a.data ++ Char.ofNat 58 :: (e.data ++ Char.ofNat 58 :: c.data) := by
  simp only [String.data_append]
  change a.data ++ [Char.ofNat 58] ++ e.data ++ [Char.ofNat 58] ++ c.data = _
  simp

theorem ParseSubject_of_parts (a e c : String) (ha : Char.ofNat 58 ∉ a.data)
    (he : Char.ofNat 58 ∉ e.data) :
    ParseSubject (a ++ ":" ++ e ++ ":" ++ c) = some ⟨a, e, c⟩ := by
  unfold ParseSubject splitN
  rw [subject_text_data, splitNFrom_cut _ 1 _ _ _ ha, splitNFrom_cut _ 0 _ _ _ he,
    splitNFrom_zero]
  rfl

/-- C25 (as amended): `ParseSubject` rejects exactly the texts with fewer than
two colons; on every other text it succeeds and returns the text before the
first colon as app, the text between the first two colons as environment, and
all the text after the second colon as cluster.  It does not ask that a
component be non-empty, and the cluster may hold further colons. -/
theorem parse_subject_rule (s : String) :
    (ParseSubject s = none ↔ s.data.count (Char.ofNat 58) < 2) ∧
      (∀ a e c : String, ParseSubject s = some ⟨a, e, c⟩ ↔
        (s = a ++ ":" ++ e ++ ":" ++ c ∧ Char.ofNat 58 ∉ a.data ∧ Char.ofNat 58 ∉ e.data)) := by
  have hback : ∀ a e c : String,
      (s = a ++ ":" ++ e ++ ":" ++ c ∧ Char.ofNat 58 ∉ a.data ∧ Char.ofNat 58 ∉ e.data) →
        ParseSubject s = some ⟨a, e, c⟩ := by
    rintro a e c ⟨hs, ha, he⟩
    rw [hs]
    exact ParseSubject_of_parts a e c ha he
  rcases ParseSubject_cases s with ⟨hcount, hnone⟩ | ⟨p1, p2, r, hdata, hp1, hp2, hsome⟩
  · refine ⟨⟨fun _ => hcount, fun _ => hnone⟩, ?_⟩
    intro a e c
    constructor
    · intro h
      rw [hnone] at h
      cases h
    · intro h
      have := hback a e c h
      rw [hnone] at this
      cases this
  · have hcount : ¬ s.data.count (Char.ofNat 58) < 2 := by
      rw [hdata, List.count_append, List.count_cons_self, List.count_append,
        List.count_cons_self]
      omega
    refine ⟨⟨fun h => ?_, fun h => absurd h hcount⟩, ?_⟩
    · rw [hsome] at h
      cases h
    · intro a e c
      refine ⟨fun h => ?_, hback a e c⟩
      rw [hsome] at h
      injection h with h
      injection h with h1 h2 h3
      subst h1 h2 h3
      refine ⟨?_, hp1, hp2⟩
      apply String.ext
      rw [subject_text_data]
      exact hdata

/-- C25, as stated, fails: texts with an empty environment, with three empty
components and with a colon in the cluster are accepted. -/
theorem parse_subject_accepts_empty_parts :
    (ParseSubject "a::c").map (fun p => (p.App, p.Environment, p.Cluster)) =
        some ("a", "", "c") ∧
      (ParseSubject "::").map (fun p => (p.App, p.Environment, p.Cluster)) =
        some ("", "", "") ∧
      (ParseSubject "a:b:c:d").map (fun p => (p.App, p.Environment, p.Cluster)) =
        some ("a", "b", "c:d") ∧
      (ParseSubject "a:b").map (fun p => (p.App, p.Environment, p.Cluster)) = none := by
  decide

/-! ## Export jobs -/

theorem SetExportCompleted_found (clock : Time) (m : MemoryRepository) (id uri : String)
    (job : ExportJob) (h : m.exports.get? id = some job) :
    SetExportCompleted clock m id uri =
      (none, ⟨m.events, m.exports.set id
        ⟨job.ID, "completed", job.Format, job.Filter, uri, job.Error, job.CreatedAt,
          some clock.UTC⟩⟩) := by
  unfold SetExportCompleted
  rw [h]

theorem SetExportFailed_found (clock : Time) (m : MemoryRepository) (id message : String)
    (job : ExportJob) (h : m.exports.get? id = some job) :
    SetExportFailed clock m id message =
      (none, ⟨m.events, m.exports.set id
        ⟨job.ID, "failed", job.Format, job.Filter, job.ArtifactURI, message, job.CreatedAt,
          some clock.UTC⟩⟩) := by
  unfold SetExportFailed
  rw [h]

theorem CreateExport_get? (clock1 clock2 : Time) (m : MemoryRepository) (format : String)
    (filter : GoMap JVal) :
    (CreateExport clock1 clock2 m format filter).2.exports.get?
        (CreateExport clock1 clock2 m format filter).1.ID =
      some (CreateExport clock1 clock2 m format filter).1 ∧
    (CreateExport clock1 clock2 m format filter).1.Status = "pending" ∧
    (CreateExport clock1 clock2 m format filter).1.Filter = filter := by
  unfold CreateExport
  exact ⟨GoMap.get?_set_self _ _ _, rfl, rfl⟩

/-- C23 (as amended): `SetExportCompleted` and `SetExportFailed` write their
status, their text (artifact_uri or error) and completed_at into the job
whatever its status was, so a job that is completed or failed is overwritten by
a later call; they return `ErrNotFound` for an unknown id, never write
`pending`, and leave every other job and the events as they are.
`Service.CreateExport` makes exactly one such call on the job it creates: the
job ends as the created job with the one call applied, completed when the
service returns it and failed when the service returns an error. -/
theorem export_status_written_by_each_call (L : StdLib) (errorText : ExportError → String) :
    (∀ (clock : Time) (m : MemoryRepository) (id text : String) (job : ExportJob),
        m.exports.get? id = some job →
        (SetExportCompleted clock m id text).1 = none ∧
          GetExport (SetExportCompleted clock m id text).2 id = Except.ok
            { job with Status := "completed", ArtifactURI := text,
                       CompletedAt := some clock.UTC } ∧
          (SetExportFailed clock m id text).1 = none ∧
          GetExport (SetExportFailed clock m id text).2 id = Except.ok
            { job with Status := "failed", Error := text, CompletedAt := some clock.UTC }) ∧
      (∀ (clock : Time) (m : MemoryRepository) (id text : String),
        m.exports.get? id = none →
        SetExportCompleted clock m id text = (some Error.ErrNotFound, m) ∧
          SetExportFailed clock m id text = (some Error.ErrNotFound, m)) ∧
      (∀ (clock : Time) (m : MemoryRepository) (id text other : String), other ≠ id →
        (SetExportCompleted clock m id text).2.exports.get? other = m.exports.get? other ∧
          (SetExportFailed clock m id text).2.exports.get? other = m.exports.get? other ∧
          (SetExportCompleted clock m id text).2.events = m.events ∧
          (SetExportFailed clock m id text).2.events = m.events) ∧
      (∀ (mkdirAll writeFile : Bool) (clock1 clock2 now1 now2 clock3 : Time)
          (baseDir format : String) (m : MemoryRepository) (filter : GoMap JVal),
        (∃ path, (Service.CreateExport L errorText mkdirAll writeFile clock1 clock2 now1 now2
              clock3 baseDir m format filter) =
            (Except.ok { (CreateExport clock1 clock2 m format filter).1 with
                Status := "completed", ArtifactURI := path, CompletedAt := some clock3.UTC },
              (SetExportCompleted clock3 (CreateExport clock1 clock2 m format filter).2
                (CreateExport clock1 clock2 m format filter).1.ID path).2)) ∨
        (∃ err, (Service.CreateExport L errorText mkdirAll writeFile clock1 clock2 now1 now2
              clock3 baseDir m format filter) =
            (Except.error err,
              (SetExportFailed clock3 (CreateExport clock1 clock2 m format filter).2
                (CreateExport clock1 clock2 m format filter).1.ID (errorText err)).2) ∧
          GetExport (SetExportFailed clock3 (CreateExport clock1 clock2 m format filter).2
                (CreateExport clock1 clock2 m format filter).1.ID (errorText err)).2
              (CreateExport clock1 clock2 m format filter).1.ID =
            Except.ok { (CreateExport clock1 clock2 m format filter).1 with
              Status := "failed", Error := errorText err, CompletedAt := some clock3.UTC })) := by
  refine ⟨?_, ?_, ?_, ?_⟩
  · intro clock m id text job h
    rw [SetExportCompleted_found clock m id text job h, SetExportFailed_found clock m id text job h]
    refine ⟨rfl, ?_, rfl, ?_⟩ <;> simp only [GetExport, GoMap.get?_set_self]
  · intro clock m id text h
    unfold SetExportCompleted SetExportFailed
    rw [h]
    exact ⟨rfl, rfl⟩
  · intro clock m id text other hne
    unfold SetExportCompleted SetExportFailed
    cases h : m.exports.get? id with
    | none => exact ⟨rfl, rfl, rfl, rfl⟩
    | some job =>
      exact ⟨GoMap.get?_set_of_ne _ _ _ _ (Ne.symm hne), GoMap.get?_set_of_ne _ _ _ _ (Ne.symm hne),
        rfl, rfl⟩
  · intro mkdirAll writeFile clock1 clock2 now1 now2 clock3 baseDir format m filter
    obtain ⟨hget, _, _⟩ := CreateExport_get? clock1 clock2 m format filter
    generalize hcr : CreateExport clock1 clock2 m format filter = created at hget ⊢
    have hfailed : ∀ err, GetExport (SetExportFailed clock3 created.2 created.1.ID
        (errorText err)).2 created.1.ID = Except.ok { created.1 with
          Status := "failed", Error := errorText err, CompletedAt := some clock3.UTC } := by
      intro err
      rw [SetExportFailed_found clock3 created.2 created.1.ID _ created.1 hget]
      simp only [GetExport, GoMap.get?_set_self]
    unfold Service.CreateExport
    rw [hcr]
    simp only []
    cases hitems : exportItemsForJob L created.2 created.1.Filter with
    | error err =>
      right
      exact ⟨err, rfl, hfailed err⟩
    | ok items =>
      simp only []
      cases hpack : CreateEvidencePack L mkdirAll writeFile now1 now2 baseDir created.1.ID
          items with
      | none =>
        right
        exact ⟨ExportError.exporter, rfl, hfailed ExportError.exporter⟩
      | some packed =>
        left
        refine ⟨packed.1, ?_⟩
        simp only []
        rw [SetExportCompleted_found clock3 created.2 created.1.ID packed.1 created.1 hget]
        simp only [GetExport, GoMap.get?_set_self]

/-- C23, as stated, fails: `SetExportFailed` on a job that is completed
changes its status, its error and its completed_at. -/
theorem completed_export_overwritten :
    (GetExport pendingExport.2 pendingExport.1.ID).toOption.map
        (fun j => (j.Status, j.ArtifactURI, j.Error, j.CompletedAt)) =
        some ("pending", "", "", none) ∧
      (GetExport completedExport pendingExport.1.ID).toOption.map
        (fun j => (j.Status, j.ArtifactURI, j.Error, j.CompletedAt)) =
        some ("completed", "/tmp/pack.json", "", some ⟨8, 0⟩) ∧
      (GetExport overwrittenExport pendingExport.1.ID).toOption.map
        (fun j => (j.Status, j.ArtifactURI, j.Error, j.CompletedAt)) =
        some ("failed", "/tmp/pack.json", "late", some ⟨9, 0⟩) := by
  decide

/-! ## Lookups by extension -/

theorem EventsByExtension_invalid (m : MemoryRepository) (key value : String) (limit : Int)
    (h : key = "" ∨ value = "") :
    EventsByExtension m key value limit = Except.error Error.ErrInvalidInput := by
  unfold EventsByExtension
  rw [if_pos h]

theorem EventsByExtension_ok (m : MemoryRepository) (key value : String) (limit : Int)
    (hk : key ≠ "") (hv : value ≠ "") :
    EventsByExtension m key value limit = Except.ok
      ((sortStoredEvents (m.events.values.filter
        (fun e => decide (ExtensionString e.Extensions key = value)))).take
          (if limit ≤ 0 then 100 else limit).toNat) := by
  unfold EventsByExtension
  rw [if_neg (not_or.2 ⟨hk, hv⟩)]
  simp only []
  generalize sortStoredEvents (m.events.values.filter
    (fun e => decide (ExtensionString e.Extensions key = value))) = out
  generalize hlim : (if limit ≤ 0 then (100 : Int) else limit) = lim
  have hpos : 0 < lim := by
    rw [← hlim]
    split <;> omega
  by_cases hlen : (out.length : Int) > lim
  · rw [if_pos hlen]
  · rw [if_neg hlen, List.take_of_length_le (by omega)]

theorem isValidExtensionKey_iff (key : String) :
    isValidExtensionKey key = true ↔
      key ≠ "" ∧ ∀ c ∈ key.data, isExtensionKeyChar c = true := by
  have hsize : key.utf8ByteSize > 0 ↔ key ≠ "" := by
    obtain ⟨cs⟩ := key
    cases cs with
    | nil => simp [String.utf8ByteSize, String.utf8ByteSize.go]
    | cons c rest =>
      have := Char.utf8Size_pos c
      have hne : String.mk (c :: rest) ≠ "" := by
        intro h
        have := congrArg String.data h
        simp at this
      simp only [String.utf8ByteSize, String.utf8ByteSize.go, gt_iff_lt, ne_eq, hne,
        not_false_eq_true, iff_true]
      omega
  unfold isValidExtensionKey
  by_cases hall : key.data.all isExtensionKeyChar = true
  · rw [if_pos hall, decide_eq_true_eq, hsize]
    exact ⟨fun h => ⟨h, List.all_eq_true.1 hall⟩, fun h => h.1⟩
  · rw [if_neg hall]
    constructor
    · intro h
      cases h
    · intro h
      exact absurd (List.all_eq_true.2 h.2) hall

theorem sqlExtensionArguments_iff (key value : String) :
    sqlExtensionArguments key value = some Error.ErrInvalidInput ↔
      key = "" ∨ value = "" ∨ ∃ c ∈ key.data, isExtensionKeyChar c = false := by
  unfold sqlExtensionArguments
  by_cases h : key = "" ∨ value = ""
  · rw [if_pos h]
    simp only [true_iff]
    rcases h with h | h
    · exact Or.inl h
    · exact Or.inr (Or.inl h)
  · rw [if_neg h]
    have hk : key ≠ "" := fun hk => h (Or.inl hk)
    have hv : value ≠ "" := fun hv => h (Or.inr hv)
    by_cases hvalid : isValidExtensionKey key = true
    · rw [hvalid]
      have hgoal : (if (!true) = true then some Error.ErrInvalidInput
          else (none : Option Error)) = none := rfl
      rw [hgoal]
      refine ⟨fun h0 => (by cases h0), ?_⟩
      rintro (h1 | h1 | ⟨c, hc, hbad⟩)
      · exact absurd h1 hk
      · exact absurd h1 hv
      · have := ((isValidExtensionKey_iff key).1 hvalid).2 c hc
        rw [hbad] at this
        cases this
    · have hno : ¬ ∀ c ∈ key.data, isExtensionKeyChar c = true :=
        fun hall => hvalid ((isValidExtensionKey_iff key).2 ⟨hk, hall⟩)
      simp only [Bool.not_eq_true] at hvalid
      rw [hvalid]
      simp only [Bool.not_false, if_true, true_iff]
      push_neg at hno
      obtain ⟨c, hc, hbad⟩ := hno
      exact Or.inr (Or.inr ⟨c, hc, by simpa using hbad⟩)

theorem sqlExtensionArguments_none (key value : String) :
    sqlExtensionArguments key value = none ↔
      key ≠ "" ∧ value ≠ "" ∧ ∀ c ∈ key.data, isExtensionKeyChar c = true := by
  have h1 := sqlExtensionArguments_iff key value
  have h2 : sqlExtensionArguments key value = none ∨
      sqlExtensionArguments key value = some Error.ErrInvalidInput := by
    unfold sqlExtensionArguments
    split
    · exact Or.inr rfl
    · split
      · exact Or.inr rfl
      · exact Or.inl rfl
  constructor
  · intro hn
    have hnot : ¬ (key = "" ∨ value = "" ∨ ∃ c ∈ key.data, isExtensionKeyChar c = false) := by
      intro hbad
      have := h1.2 hbad
      rw [hn] at this
      cases this
    refine ⟨fun h => hnot (Or.inl h), fun h => hnot (Or.inr (Or.inl h)), ?_⟩
    intro c hc
    by_contra hcc
    exact hnot (Or.inr (Or.inr ⟨c, hc, by simpa using hcc⟩))
  · rintro ⟨hk, hv, hall⟩
    rcases h2 with h2 | h2
    · exact h2
    · rcases h1.1 h2 with h | h | ⟨c, hc, hbad⟩
      · exact absurd h hk
      · exact absurd h hv
      · have := hall c hc
        rw [hbad] at this
        cases this

/-- C24, what the code does: the in-memory `EventsByExtension` returns
`ErrInvalidInput` exactly when the key or the value is empty, and for every other
key, whatever its characters, the stored events whose extension (trimmed) equals
the value, ordered by (time ASC, id ASC) and cut to the limit (100 when the limit
is not positive).  The relational repository rejects, before it queries, an empty
key, an empty value and a key with a character outside `[A-Za-z0-9_-]`, and
nothing else. -/
theorem events_by_extension_rule (L : StdLib) (m : MemoryRepository) (key value : String)
    (limit : Int) (hreach : Reachable L m) :
    (EventsByExtension m key value limit = Except.error Error.ErrInvalidInput ↔
        key = "" ∨ value = "") ∧
      (key ≠ "" → value ≠ "" →
        ∃ items, EventsByExtension m key value limit = Except.ok items ∧
          items = (sortStoredEvents (m.events.values.filter
            (fun e => decide (ExtensionString e.Extensions key = value)))).take
              (if limit ≤ 0 then 100 else limit).toNat ∧
          items.Chain' timeOrdered ∧
          (∀ e ∈ items, e ∈ m.events.values ∧ ExtensionString e.Extensions key = value) ∧
          (items.length : Int) ≤ (if limit ≤ 0 then 100 else limit)) ∧
      (sqlExtensionArguments key value = some Error.ErrInvalidInput ↔
        key = "" ∨ value = "" ∨ ∃ c ∈ key.data, isExtensionKeyChar c = false) ∧
      (sqlExtensionArguments key value = none ↔
        key ≠ "" ∧ value ≠ "" ∧ ∀ c ∈ key.data, isExtensionKeyChar c = true) := by
  have hinv := RepoInv_of_reachable L m hreach
  refine ⟨?_, ?_, sqlExtensionArguments_iff key value, sqlExtensionArguments_none key value⟩
  · constructor
    · intro h
      by_contra hne
      rw [not_or] at hne
      rw [EventsByExtension_ok m key value limit hne.1 hne.2] at h
      cases h
    · exact EventsByExtension_invalid m key value limit
  · intro hk hv
    refine ⟨_, EventsByExtension_ok m key value limit hk hv, rfl, ?_, ?_, ?_⟩
    · have hnd : ((m.events.values.filter
          (fun e => decide (ExtensionString e.Extensions key = value))).map eventKey).Nodup :=
        List.Nodup.sublist (List.Sublist.map eventKey (List.filter_sublist _))
          (RepoInv.nodup_eventKey m hinv)
      have hs := sortSlice_sorted_strict eventKey eventLess eventLess_iff_key _ hnd
      have hs2 := List.Pairwise.sublist (List.take_sublist
        (if limit ≤ 0 then 100 else limit).toNat _) hs
      exact List.Pairwise.chain'
        (List.Pairwise.imp (fun {a b} hab => timeOrdered_of_key_lt a b hab) hs2)
    · intro e he
      have he1 := List.mem_of_mem_take he
      have he2 : e ∈ m.events.values.filter
          (fun e => decide (ExtensionString e.Extensions key = value)) :=
        (sortSlice_perm eventLess _).subset he1
      rw [List.mem_filter, decide_eq_true_eq] at he2
      exact he2
    · have hle := List.length_take_le (if limit ≤ 0 then 100 else limit).toNat
        (sortStoredEvents (m.events.values.filter
          (fun e => decide (ExtensionString e.Extensions key = value))))
      have hpos : 0 < (if limit ≤ 0 then (100 : Int) else limit) := by
        split <;> omega
      omega

/-- C24, an instance: the lookup of `cluster` in the repository that holds
the three sample events. -/
theorem events_by_extension_rule_witness :
    (EventsByExtension sampleRepo "cluster" "eu-1" 2 = Except.error Error.ErrInvalidInput ↔
        "cluster" = "" ∨ "eu-1" = "") ∧
      ("cluster" ≠ "" → "eu-1" ≠ "" →
        ∃ items, EventsByExtension sampleRepo "cluster" "eu-1" 2 = Except.ok items ∧
          items = (sortStoredEvents (sampleRepo.events.values.filter
            (fun e => decide (ExtensionString e.Extensions "cluster" = "eu-1")))).take
              (if (2 : Int) ≤ 0 then (100 : Int) else 2).toNat ∧
          items.Chain' timeOrdered ∧
          (∀ e ∈ items, e ∈ sampleRepo.events.values ∧
            ExtensionString e.Extensions "cluster" = "eu-1") ∧
          (items.length : Int) ≤ (if (2 : Int) ≤ 0 then (100 : Int) else 2)) ∧
      (sqlExtensionArguments "cluster" "eu-1" = some Error.ErrInvalidInput ↔
        "cluster" = "" ∨ "eu-1" = "" ∨ ∃ c ∈ "cluster".data, isExtensionKeyChar c = false) ∧
      (sqlExtensionArguments "cluster" "eu-1" = none ↔
        "cluster" ≠ "" ∧ "eu-1" ≠ "" ∧ ∀ c ∈ "cluster".data, isExtensionKeyChar c = true) :=
  events_by_extension_rule refLib sampleRepo "cluster" "eu-1" 2
    (Reachable.ingest _ _ _ (Reachable.ingest _ _ _ (Reachable.ingest _ _ _ Reachable.init)))

/-- C24 fails on the in-memory repository: the key `commit.sha` has a dot in
it; the in-memory `EventsByExtension` accepts it and returns the event that
carries it, while the relational repository rejects the same arguments with
`ErrInvalidInput`. -/
theorem memory_accepts_key_sql_rejects :
    isExtensionKeyChar '.' = false ∧
      (EventsByExtension dottedRepo "commit.sha" "abc123" 10).toOption.map
          (fun items => items.map (fun e => e.ID)) = some ["evt-dot"] ∧
      sqlExtensionArguments "commit.sha" "abc123" = some Error.ErrInvalidInput := by
  decide

/-! ## Subjects -/

theorem listSubjectsStep_seen (st : GoMap Unit × List SubjectInfo) (e : StoredEvent) (u : Unit)
    (h : st.1.get? (subjectInfoKey (subjectOf e)) = some u) : listSubjectsStep st e = st := by
  unfold listSubjectsStep
  simp only []
  have hk : e.Subject ++ ":" ++ ExtensionString e.Extensions "cluster" ++ ":" ++
      ExtensionString e.Extensions "namespace" = subjectInfoKey (subjectOf e) := rfl
  rw [hk, h]

theorem listSubjectsStep_new (st : GoMap Unit × List SubjectInfo) (e : StoredEvent)
    (h : st.1.get? (subjectInfoKey (subjectOf e)) = none) :
    listSubjectsStep st e =
      (st.1.set (subjectInfoKey (subjectOf e)) (), st.2 ++ [subjectOf e]) := by
  unfold listSubjectsStep
  simp only []
  have hk : e.Subject ++ ":" ++ ExtensionString e.Extensions "cluster" ++ ":" ++
      ExtensionString e.Extensions "namespace" = subjectInfoKey (subjectOf e) := rfl
  rw [hk, h]
  rfl

/-- The invariant of the loop of `ListSubjects`: `seen` holds the keys of the
triples of `out`, and no two triples of `out` have the same key. -/
theorem listSubjects_loop (es : List StoredEvent) :
    ∀ st : GoMap Unit × List SubjectInfo,
      (∀ k, k ∈ st.1.keys ↔ k ∈ st.2.map subjectInfoKey) →
      (st.2.map subjectInfoKey).Nodup →
      (∀ k, k ∈ (es.foldl listSubjectsStep st).1.keys ↔
          k ∈ (es.foldl listSubjectsStep st).2.map subjectInfoKey) ∧
        ((es.foldl listSubjectsStep st).2.map subjectInfoKey).Nodup ∧
        (∀ s ∈ (es.foldl listSubjectsStep st).2, s ∈ st.2 ∨ ∃ e ∈ es, subjectOf e = s) ∧
        (∀ s ∈ st.2, s ∈ (es.foldl listSubjectsStep st).2) ∧
        (∀ e ∈ es, subjectInfoKey (subjectOf e) ∈
          (es.foldl listSubjectsStep st).2.map subjectInfoKey) := by
  induction es with
  | nil =>
    intro st hkeys hnd
    exact ⟨hkeys, hnd, fun s hs => Or.inl hs, fun s hs => hs, fun e he => absurd he (by simp)⟩
  | cons e rest ih =>
    intro st hkeys hnd
    rw [List.foldl_cons]
    cases hget : st.1.get? (subjectInfoKey (subjectOf e)) with
    | some u =>
      rw [listSubjectsStep_seen st e u hget]
      obtain ⟨h1, h2, h3, h4, h5⟩ := ih st hkeys hnd
      refine ⟨h1, h2, ?_, h4, ?_⟩
      · intro s hs
        rcases h3 s hs with h | ⟨e1, he1, hs1⟩
        · exact Or.inl h
        · exact Or.inr ⟨e1, List.mem_cons_of_mem _ he1, hs1⟩
      · intro e1 he1
        rcases List.mem_cons.1 he1 with h | h
        · subst h
          have hmem : subjectInfoKey (subjectOf e1) ∈ st.1.keys := by
            rw [GoMap.mem_keys_iff, hget]
            simp
          have hin := (hkeys _).1 hmem
          obtain ⟨s, hs, hsk⟩ := List.mem_map.1 hin
          exact List.mem_map.2 ⟨s, h4 s hs, hsk⟩
        · exact h5 e1 h
    | none =>
      rw [listSubjectsStep_new st e hget]
      have hnotin : subjectInfoKey (subjectOf e) ∉ st.2.map subjectInfoKey := by
        intro hin
        have := (GoMap.mem_keys_iff st.1 _).1 ((hkeys _).2 hin)
        exact this hget
      have hkeys2 : ∀ k, k ∈ (st.1.set (subjectInfoKey (subjectOf e)) ()).keys ↔
          k ∈ (st.2 ++ [subjectOf e]).map subjectInfoKey := by
        intro k
        rw [GoMap.keys_set, hget]
        simp only [Option.isNone_none, if_true, List.mem_append, List.mem_singleton,
          List.map_append, List.map_cons, List.map_nil]
        rw [hkeys k]
      have hnd2 : ((st.2 ++ [subjectOf e]).map subjectInfoKey).Nodup := by
        rw [List.map_append, List.nodup_append]
        refine ⟨hnd, by simp, ?_⟩
        intro a ha hb
        simp only [List.map_cons, List.map_nil, List.mem_singleton] at hb
        subst hb
        exact hnotin ha
      obtain ⟨h1, h2, h3, h4, h5⟩ := ih (st.1.set (subjectInfoKey (subjectOf e)) (),
        st.2 ++ [subjectOf e]) hkeys2 hnd2
      refine ⟨h1, h2, ?_, ?_, ?_⟩
      · intro s hs
        rcases h3 s hs with h | ⟨e1, he1, hs1⟩
        · rcases List.mem_append.1 h with h | h
          · exact Or.inl h
          · rw [List.mem_singleton] at h
            exact Or.inr ⟨e, List.mem_cons_self _ _, h.symm⟩
        · exact Or.inr ⟨e1, List.mem_cons_of_mem _ he1, hs1⟩
      · intro s hs
        exact h4 s (List.mem_append_left _ hs)
      · intro e1 he1
        rcases List.mem_cons.1 he1 with h | h
        · subst h
          exact List.mem_map.2 ⟨subjectOf e1,
            h4 _ (List.mem_append_right _ (List.mem_singleton_self _)), rfl⟩
        · exact h5 e1 h

theorem subjectLess_iff (a b : SubjectInfo) :
    strLt (subjectInfoKey a) (subjectInfoKey b) = true ↔ subjectInfoKey a < subjectInfoKey b :=
  strLt_iff _ _

/-- C26, what the code does: `ListSubjects` returns triples of stored events
only, no two of them with the same text `subject:cluster:namespace`, in the
ascending order of that text, and for every stored event a triple of the same
text.  So the triples are the distinct triples of the stored events when no two
different triples of stored events have the same text; a stored event whose
triple differs from another one of the same text may be left out. -/
theorem list_subjects_rule (m : MemoryRepository) :
    (∀ s ∈ ListSubjects m, ∃ e ∈ m.events.values, subjectOf e = s) ∧
      (∀ e ∈ m.events.values, ∃ s ∈ ListSubjects m,
        subjectInfoKey s = subjectInfoKey (subjectOf e)) ∧
      ((ListSubjects m).map subjectInfoKey).Nodup ∧
      (ListSubjects m).Nodup ∧
      (ListSubjects m).Pairwise (fun a b => subjectInfoKey a < subjectInfoKey b) ∧
      ((∀ e1 ∈ m.events.values, ∀ e2 ∈ m.events.values,
          subjectInfoKey (subjectOf e1) = subjectInfoKey (subjectOf e2) →
            subjectOf e1 = subjectOf e2) →
        ∀ e ∈ m.events.values, subjectOf e ∈ ListSubjects m) := by
  obtain ⟨_, h2, h3, _, h5⟩ := listSubjects_loop m.events.values ([], [])
    (fun k => by simp [GoMap.keys]) (by simp)
  have hperm := sortSlice_perm (fun a b => strLt (subjectInfoKey a) (subjectInfoKey b))
    (m.events.values.foldl listSubjectsStep ([], [])).2
  have hfrom : ∀ s ∈ ListSubjects m, ∃ e ∈ m.events.values, subjectOf e = s := by
    intro s hs
    rcases h3 s (hperm.subset hs) with h | h
    · simp at h
    · exact h
  have hcover : ∀ e ∈ m.events.values, ∃ s ∈ ListSubjects m,
      subjectInfoKey s = subjectInfoKey (subjectOf e) := by
    intro e he
    obtain ⟨s, hs, hsk⟩ := List.mem_map.1 (h5 e he)
    exact ⟨s, hperm.symm.subset hs, hsk⟩
  have hnd : ((ListSubjects m).map subjectInfoKey).Nodup :=
    ((hperm.map subjectInfoKey).nodup_iff).2 h2
  refine ⟨hfrom, hcover, hnd, List.Nodup.of_map _ hnd, ?_, ?_⟩
  · exact sortSlice_sorted_strict subjectInfoKey _ subjectLess_iff _ h2
  · intro hinj e he
    obtain ⟨s, hs, hsk⟩ := hcover e he
    obtain ⟨e2, he2, hse2⟩ := hfrom s hs
    have := hinj e2 he2 e he (by rw [hse2]; exact hsk)
    rw [← this, hse2]
    exact hs

/-- C26 fails: two stored events carry the different triples (`a:b`, `c`, ``)
and (`a`, `b:c`, ``), which have the same text `a:b:c:`; `ListSubjects` returns
the first triple only. -/
theorem list_subjects_drops_triple :
    colonRepo.events.values.map subjectOf = [⟨"a:b", "c", ""⟩, ⟨"a", "b:c", ""⟩] ∧
      ListSubjects colonRepo = [⟨"a:b", "c", ""⟩] ∧
      subjectOf colonInCluster ∉ ListSubjects colonRepo := by
  decide

/-! ## Supporting observations -/

theorem timelineFilter_supporting (L : StdLib) (q : TimelineQuery) (e : StoredEvent) :
    timelineFilter L { q with IncludeSupporting := false } e =
      (timelineFilter L { q with IncludeSupporting := true } e && !isSupporting L e) := by
  unfold timelineFilter isSupporting
  simp only [Bool.not_true, Bool.not_false, Bool.false_and, Bool.true_and, Bool.false_eq_true,
    if_false]
  split_ifs <;> simp_all

theorem matching_supporting (L : StdLib) (m : MemoryRepository) (q : TimelineQuery) :
    matching L m { q with IncludeSupporting := false } =
      (matching L m { q with IncludeSupporting := true }).filter
        (fun e => !isSupporting L e) := by
  unfold matching
  rw [List.filter_filter]
  congr 1
  funext e
  rw [timelineFilter_supporting L q e, Bool.and_comm]

theorem collectPages_all (L : StdLib) (m : MemoryRepository) (q : TimelineQuery)
    (hinv : RepoInv m) (hcodec : CursorRoundTrips L m) (hcur : q.Cursor = "") (fuel : Nat)
    (hfuel : (matching L m q).length < fuel) :
    collectPages L m q fuel = some (sortStoredEvents (matching L m q)) := by
  have hperm := sortSlice_perm eventLess (matching L m q)
  obtain ⟨n, rfl⟩ : ∃ n, fuel = n + 1 := ⟨fuel - 1, by omega⟩
  have hq : q = { q with Cursor := "" } := by
    cases q
    simp only at hcur
    subst hcur
    rfl
  have hitems : sortStoredEvents (m.events.values.filter
      (fun e => timelineFilter L q e && afterCursor Time.zero "" e)) =
      sortStoredEvents (matching L m q) := by
    simp only [afterCursor_zero, Bool.and_true]
    rfl
  have hlen : (sortStoredEvents (matching L m q)).length ≤ n := by
    show (sortSlice eventLess (matching L m q)).length ≤ n
    rw [hperm.length_eq]
    omega
  have := collectPages_suffix L m q hinv hcodec n (sortStoredEvents (matching L m q)) []
    "" Time.zero "" hlen (by simp) (decodeCursor_empty L) hitems
  rw [← hq] at this
  exact this

theorem QueryTimeline_whole (L : StdLib) (m : MemoryRepository) (q : TimelineQuery)
    (hcur : q.Cursor = "") (hlen : (matching L m q).length ≤ timelineLimit q.Limit) :
    QueryTimeline L m q = Except.ok ⟨sortStoredEvents (matching L m q), ""⟩ := by
  have hdec : decodeCursor L q.Cursor = Except.ok (Time.zero, "") := by
    rw [hcur]
    exact decodeCursor_empty L
  rw [QueryTimeline_eq L m q Time.zero "" hdec]
  simp only [afterCursor_zero, Bool.and_true]
  have hl : (sortStoredEvents (List.filter (fun e => timelineFilter L q e) m.events.values)).length
      = (matching L m q).length := (sortSlice_perm eventLess _).length_eq
  rw [if_neg (by omega)]
  rfl

theorem sorted_matching_supporting (L : StdLib) (m : MemoryRepository) (q : TimelineQuery)
    (hinv : RepoInv m) :
    sortStoredEvents (matching L m { q with IncludeSupporting := false }) =
      (sortStoredEvents (matching L m { q with IncludeSupporting := true })).filter
        (fun e => !isSupporting L e) := by
  rw [matching_supporting]
  have hnd : ((matching L m { q with IncludeSupporting := true }).map eventKey).Nodup :=
    List.Nodup.sublist (List.Sublist.map eventKey (List.filter_sublist _))
      (RepoInv.nodup_eventKey m hinv)
  exact sortSlice_filter eventKey eventLess eventLess_iff_key _ _ hnd

/-- C27 (as amended): in every repository state and for every query, no event
that `QueryTimeline` returns with `IncludeSupporting = false` is a supporting
observation.  The events that the query matches with `IncludeSupporting = true`
are those it matches with `false` and, in addition, exactly the matching events
that are supporting observations; so are, in (time, id) order, the pages taken
together when no cursor is given, and the one page when the matching events do
not exceed the limit. -/
theorem supporting_excluded_unless_included (L : StdLib) (m : MemoryRepository)
    (q : TimelineQuery) (hreach : Reachable L m) :
    (∀ r, QueryTimeline L m { q with IncludeSupporting := false } = Except.ok r →
        ∀ e ∈ r.Items, isSupporting L e = false) ∧
      matching L m { q with IncludeSupporting := false } =
        (matching L m { q with IncludeSupporting := true }).filter
          (fun e => !isSupporting L e) ∧
      (matching L m { q with IncludeSupporting := true }).Perm
        ((matching L m { q with IncludeSupporting := true }).filter (fun e => isSupporting L e)
          ++ matching L m { q with IncludeSupporting := false }) ∧
      sortStoredEvents (matching L m { q with IncludeSupporting := false }) =
        (sortStoredEvents (matching L m { q with IncludeSupporting := true })).filter
          (fun e => !isSupporting L e) ∧
      (q.Cursor = "" → CursorRoundTrips L m →
        ∀ fuel, (matching L m { q with IncludeSupporting := true }).length < fuel →
          collectPages L m { q with IncludeSupporting := true } fuel =
            some (sortStoredEvents (matching L m { q with IncludeSupporting := true })) ∧
          collectPages L m { q with IncludeSupporting := false } fuel =
            some ((sortStoredEvents (matching L m { q with IncludeSupporting := true })).filter
              (fun e => !isSupporting L e))) ∧
      (q.Cursor = "" →
        (matching L m { q with IncludeSupporting := true }).length ≤ timelineLimit q.Limit →
          QueryTimeline L m { q with IncludeSupporting := true } = Except.ok
            ⟨sortStoredEvents (matching L m { q with IncludeSupporting := true }), ""⟩ ∧
          QueryTimeline L m { q with IncludeSupporting := false } = Except.ok
            ⟨(sortStoredEvents (matching L m { q with IncludeSupporting := true })).filter
              (fun e => !isSupporting L e), ""⟩) := by
  have hinv := RepoInv_of_reachable L m hreach
  have hT := matching_supporting L m q
  have hS := sorted_matching_supporting L m q hinv
  have hlenF : (matching L m { q with IncludeSupporting := false }).length ≤
      (matching L m { q with IncludeSupporting := true }).length := by
    rw [hT]
    exact List.length_filter_le _ _
  refine ⟨?_, hT, ?_, hS, ?_, ?_⟩
  · intro r hr e he
    obtain ⟨ts, id, hsub⟩ := QueryTimeline_items_sublist L m _ r hr
    have h1 := (sortSlice_perm eventLess _).subset (hsub.subset he)
    rw [List.mem_filter, Bool.and_eq_true, timelineFilter_supporting L q e,
      Bool.and_eq_true] at h1
    simpa using h1.2.1.2
  · rw [hT]
    exact (List.filter_append_perm (fun e => isSupporting L e) _).symm
  · intro hcur hcodec fuel hfuel
    refine ⟨collectPages_all L m { q with IncludeSupporting := true } hinv hcodec hcur fuel
      hfuel, ?_⟩
    rw [← hS]
    exact collectPages_all L m { q with IncludeSupporting := false } hinv hcodec hcur fuel
      (lt_of_le_of_lt hlenF hfuel)
  · intro hcur hlen
    refine ⟨QueryTimeline_whole L m { q with IncludeSupporting := true } hcur hlen, ?_⟩
    rw [← hS]
    exact QueryTimeline_whole L m { q with IncludeSupporting := false } hcur
      (le_trans hlenF hlen)

/-- C27, an instance: the query of the test, one event per page, on the
repository of the test with the early observation added. -/
theorem supporting_excluded_unless_included_witness :
    (∀ r, QueryTimeline refLib earlySupportingRepo
          { supportingQuery true 1 with IncludeSupporting := false } = Except.ok r →
        ∀ e ∈ r.Items, isSupporting refLib e = false) ∧
      matching refLib earlySupportingRepo
          { supportingQuery true 1 with IncludeSupporting := false } =
        (matching refLib earlySupportingRepo
          { supportingQuery true 1 with IncludeSupporting := true }).filter
            (fun e => !isSupporting refLib e) ∧
      (matching refLib earlySupportingRepo
          { supportingQuery true 1 with IncludeSupporting := true }).Perm
        ((matching refLib earlySupportingRepo
            { supportingQuery true 1 with IncludeSupporting := true }).filter
              (fun e => isSupporting refLib e)
          ++ matching refLib earlySupportingRepo
            { supportingQuery true 1 with IncludeSupporting := false }) ∧
      sortStoredEvents (matching refLib earlySupportingRepo
          { supportingQuery true 1 with IncludeSupporting := false }) =
        (sortStoredEvents (matching refLib earlySupportingRepo
          { supportingQuery true 1 with IncludeSupporting := true })).filter
            (fun e => !isSupporting refLib e) ∧
      ((supportingQuery true 1).Cursor = "" → CursorRoundTrips refLib earlySupportingRepo →
        ∀ fuel, (matching refLib earlySupportingRepo
            { supportingQuery true 1 with IncludeSupporting := true }).length < fuel →
          collectPages refLib earlySupportingRepo
              { supportingQuery true 1 with IncludeSupporting := true } fuel =
            some (sortStoredEvents (matching refLib earlySupportingRepo
              { supportingQuery true 1 with IncludeSupporting := true })) ∧
          collectPages refLib earlySupportingRepo
              { supportingQuery true 1 with IncludeSupporting := false } fuel =
            some ((sortStoredEvents (matching refLib earlySupportingRepo
              { supportingQuery true 1 with IncludeSupporting := true })).filter
                (fun e => !isSupporting refLib e))) ∧
      ((supportingQuery true 1).Cursor = "" →
        (matching refLib earlySupportingRepo
            { supportingQuery true 1 with IncludeSupporting := true }).length ≤
          timelineLimit (supportingQuery true 1).Limit →
          QueryTimeline refLib earlySupportingRepo
              { supportingQuery true 1 with IncludeSupporting := true } = Except.ok
            ⟨sortStoredEvents (matching refLib earlySupportingRepo
              { supportingQuery true 1 with IncludeSupporting := true }), ""⟩ ∧
          QueryTimeline refLib earlySupportingRepo
              { supportingQuery true 1 with IncludeSupporting := false } = Except.ok
            ⟨(sortStoredEvents (matching refLib earlySupportingRepo
              { supportingQuery true 1 with IncludeSupporting := true })).filter
                (fun e => !isSupporting refLib e), ""⟩) :=
  supporting_excluded_unless_included refLib earlySupportingRepo (supportingQuery true 1)
    (Reachable.ingest _ _ _ (Reachable.ingest _ _ _ (Reachable.ingest _ _ _ Reachable.init)))

/-- The pages of the test's query, by id: the repository of the test, ten
events per page and all pages of one event, without and with the supporting
observations. -/
theorem supporting_pages :
    ((QueryTimeline refLib supportingRepo (supportingQuery false 10)).toOption.map
        (fun r => r.Items.map (fun e => e.ID)) = some ["evt-primary"]) ∧
      ((QueryTimeline refLib supportingRepo (supportingQuery true 10)).toOption.map
        (fun r => r.Items.map (fun e => e.ID)) = some ["evt-primary", "evt-supporting"]) ∧
      ((collectPages refLib earlySupportingRepo (supportingQuery false 1) 4).map
        (List.map (fun e => e.ID)) = some ["evt-primary"]) ∧
      ((collectPages refLib earlySupportingRepo (supportingQuery true 1) 4).map
        (List.map (fun e => e.ID)) = some ["evt-early", "evt-primary", "evt-supporting"]) := by
  decide

/-- C27, as stated, fails for a page that the limit cuts.  With one event per
page, the query of the test returns `evt-primary` without and with
`IncludeSupporting`: the matching supporting observation `evt-supporting` is not
returned in addition.  With a supporting observation before the primary event,
the page with `IncludeSupporting` is that observation alone, and the event
returned without `IncludeSupporting` is not in it. -/
theorem supporting_page_cut_by_limit :
    ((QueryTimeline refLib supportingRepo (supportingQuery false 1)).toOption.map
        (fun r => r.Items.map (fun e => e.ID)) = some ["evt-primary"]) ∧
      ((QueryTimeline refLib supportingRepo (supportingQuery true 1)).toOption.map
        (fun r => r.Items.map (fun e => e.ID)) = some ["evt-primary"]) ∧
      ((matching refLib supportingRepo (supportingQuery true 1)).map
        (fun e => (e.ID, isSupporting refLib e)) =
          [("evt-primary", false), ("evt-supporting", true)]) ∧
      ((QueryTimeline refLib earlySupportingRepo (supportingQuery false 1)).toOption.map
        (fun r => r.Items.map (fun e => e.ID)) = some ["evt-primary"]) ∧
      ((QueryTimeline refLib earlySupportingRepo (supportingQuery true 1)).toOption.map
        (fun r => r.Items.map (fun e => e.ID)) = some ["evt-early"]) := by
  decide

/-! ## The result of the evidence pack and of the change view -/

theorem packStep_merge (bad good : Bool) (r : String)
    (hr : r = "failed" ∨ r = "succeeded" ∨ r = "unknown") :
    (if bad = true then "failed"
      else if (decide (r ≠ "failed") && good) = true then "succeeded" else r) =
      mergeResultStatus r
        (if bad = true then "failed" else if good = true then "succeeded" else "unknown") := by
  rcases hr with h | h | h <;> subst h <;> cases bad <;> cases good <;> decide

theorem derivePrimaryChangeStep_result (L : StdLib) (st : exportChangeView × String)
    (e : StoredEvent) (hr : st.2 = "failed" ∨ st.2 = "succeeded" ∨ st.2 = "unknown") :
    (derivePrimaryChangeStep L st e).2 = mergeResultStatus st.2 (packOutcome L e) := by
  unfold derivePrimaryChangeStep packOutcome packBucket
  simp only []
  exact packStep_merge _ _ _ hr

theorem foldl_derivePrimaryChangeStep_result (L : StdLib) (g : List StoredEvent) :
    ∀ st : exportChangeView × String,
      (st.2 = "failed" ∨ st.2 = "succeeded" ∨ st.2 = "unknown") →
      (g.foldl (derivePrimaryChangeStep L) st).2 =
        g.foldl (fun s e => mergeResultStatus s (packOutcome L e)) st.2 := by
  induction g with
  | nil => intro st _; rfl
  | cons e rest ih =>
    intro st hr
    rw [List.foldl_cons, List.foldl_cons, ih _ (by
      rw [derivePrimaryChangeStep_result L st e hr]
      exact mergeResultStatus_range _ _), derivePrimaryChangeStep_result L st e hr]

theorem derivePrimaryChange_Result (L : StdLib) (e0 : StoredEvent) (rest : List StoredEvent) :
    (derivePrimaryChange L (e0 :: rest)).Result =
      (e0 :: rest).foldl (fun s e => mergeResultStatus s (packOutcome L e)) "unknown" := by
  rw [← foldl_derivePrimaryChangeStep_result L (e0 :: rest)
    (⟨"", e0.Subject, ExtensionString e0.Extensions "cluster",
      ExtensionString e0.Extensions "namespace", "", "", "", "", "", []⟩, "unknown")
    (Or.inr (Or.inr rfl))]
  unfold derivePrimaryChange
  simp only []
  split <;> rfl

theorem mem_buildChanges (L : StdLib) (clock : Time) (events : List StoredEvent) (c : Change) :
    c ∈ buildChanges L clock events ↔
      ∃ id d, (id, d) ∈ buildChangesByID L clock events ∧ d.Change = c := by
  unfold buildChanges
  rw [(sortSlice_perm changeLess _).mem_iff]
  simp only [GoMap.values, List.map_map, List.mem_map, Function.comp_apply, Prod.exists]

theorem group_of_one_change (L : StdLib) (events : List StoredEvent) (id : String)
    (hone : ∀ e ∈ events, changeID L e = id) : group L id events = events := by
  unfold group
  rw [List.filter_eq_self]
  intro e he
  rw [decide_eq_true_eq]
  exact hone e he

theorem id_of_one_change (L : StdLib) (clock : Time) (events : List StoredEvent)
    (id id2 : String) (d : ChangeDetail) (hone : ∀ e ∈ events, changeID L e = id)
    (h : (id2, d) ∈ buildChangesByID L clock events) : id2 = id := by
  obtain ⟨e0, rest, hg, _⟩ := (mem_buildChangesByID L clock events id2 d).1 h
  have he0 : e0 ∈ group L id2 events := by
    rw [hg]
    exact List.mem_cons_self _ _
  have h1 := List.mem_filter.1 he0
  rw [decide_eq_true_eq] at h1
  rw [← h1.2]
  exact hone e0 h1.1

/-- C28, what the code does: for a non-empty list of events of one change,
`buildChanges` returns a change of that id whose `result_status` is the merge of
`inferResultStatus` over the events, and the `result` of `derivePrimaryChange`,
on the events as given and as sorted for the pack, is the same merge of what the
pack's own loop reads off each event (it does not know the word `healthy` and
reads `phase` before `result`).  The two agree when the two readings agree on
every event. -/
theorem pack_result_rule (L : StdLib) (clock : Time) (events : List StoredEvent) (id : String)
    (hne : events ≠ []) (hone : ∀ e ∈ events, changeID L e = id) :
    (∃ c, c ∈ buildChanges L clock events) ∧
      (∀ c ∈ buildChanges L clock events,
        c.ID = id ∧
          c.ResultStatus =
            events.foldl (fun s e => mergeResultStatus s (inferResultStatus L e)) "unknown") ∧
      (derivePrimaryChange L events).Result =
        events.foldl (fun s e => mergeResultStatus s (packOutcome L e)) "unknown" ∧
      (derivePrimaryChange L (sortedEvents events)).Result =
        events.foldl (fun s e => mergeResultStatus s (packOutcome L e)) "unknown" ∧
      ((∀ e ∈ events, packOutcome L e = inferResultStatus L e) →
        ∀ c ∈ buildChanges L clock events,
          (derivePrimaryChange L events).Result = c.ResultStatus ∧
            (derivePrimaryChange L (sortedEvents events)).Result = c.ResultStatus) := by
  have hgroup := group_of_one_change L events id hone
  have hall : ∀ c ∈ buildChanges L clock events,
      c.ID = id ∧ c.ResultStatus =
        events.foldl (fun s e => mergeResultStatus s (inferResultStatus L e)) "unknown" := by
    intro c hc
    obtain ⟨id2, d, hd, hdc⟩ := (mem_buildChanges L clock events c).1 hc
    have hid := id_of_one_change L clock events id id2 d hone hd
    subst hid
    obtain ⟨e0, rest, first, last, hg, _, _, _, _, _, _, hres, _⟩ :=
      change_shape L clock events id2 d hd
    rw [← hdc]
    refine ⟨change_ID L clock events id2 d hd, ?_⟩
    rw [hres, ← hg, hgroup]
  have hpack : (derivePrimaryChange L events).Result =
      events.foldl (fun s e => mergeResultStatus s (packOutcome L e)) "unknown" := by
    cases events with
    | nil => exact absurd rfl hne
    | cons e0 rest => exact derivePrimaryChange_Result L e0 rest
  have hsorted : (derivePrimaryChange L (sortedEvents events)).Result =
      events.foldl (fun s e => mergeResultStatus s (packOutcome L e)) "unknown" := by
    have hperm : (sortedEvents events).Perm events := sortSlice_perm eventLess events
    cases hs : sortedEvents events with
    | nil =>
      rw [hs] at hperm
      exact absurd hperm.symm.eq_nil hne
    | cons e0 rest =>
      rw [derivePrimaryChange_Result L e0 rest, ← hs]
      exact foldl_mergeResultStatus_perm (packOutcome L) _ _ hperm
  refine ⟨?_, hall, hpack, hsorted, ?_⟩
  · cases hev : events with
    | nil => exact absurd hev hne
    | cons e0 rest =>
      rw [← hev]
      exact ⟨_, (mem_buildChanges L clock events _).2 ⟨id, _,
        (mem_buildChangesByID L clock events id _).2 ⟨e0, rest, by rw [hgroup, hev], rfl⟩, rfl⟩⟩
  · intro hsame c hc
    have hfold : events.foldl (fun s e => mergeResultStatus s (packOutcome L e)) "unknown" =
        events.foldl (fun s e => mergeResultStatus s (inferResultStatus L e)) "unknown" := by
      apply List.foldl_ext
      intro s e he
      rw [hsame e he]
    rw [hpack, hsorted, (hall c hc).2, hfold]
    exact ⟨rfl, rfl⟩

/-- C28, an instance: the sample operation, on which the two readings agree. -/
theorem pack_result_rule_witness :
    (∃ c, c ∈ buildChanges refLib ⟨5000, 0⟩ sampleOperation) ∧
      (∀ c ∈ buildChanges refLib ⟨5000, 0⟩ sampleOperation,
        c.ID = sampleChangeID ∧
          c.ResultStatus =
            sampleOperation.foldl
              (fun s e => mergeResultStatus s (inferResultStatus refLib e)) "unknown") ∧
      (derivePrimaryChange refLib sampleOperation).Result =
        sampleOperation.foldl
          (fun s e => mergeResultStatus s (packOutcome refLib e)) "unknown" ∧
      (derivePrimaryChange refLib (sortedEvents sampleOperation)).Result =
        sampleOperation.foldl
          (fun s e => mergeResultStatus s (packOutcome refLib e)) "unknown" ∧
      ((∀ e ∈ sampleOperation, packOutcome refLib e = inferResultStatus refLib e) →
        ∀ c ∈ buildChanges refLib ⟨5000, 0⟩ sampleOperation,
          (derivePrimaryChange refLib sampleOperation).Result = c.ResultStatus ∧
            (derivePrimaryChange refLib (sortedEvents sampleOperation)).Result =
              c.ResultStatus) :=
  pack_result_rule refLib ⟨5000, 0⟩ sampleOperation sampleChangeID
    (List.cons_ne_nil _ _) (by decide)

/-- C28 fails: for the one event `healthyReport`, whose status is `Healthy`,
the change view says `succeeded` and the evidence pack says `unknown`; for the
one event `mixedReport`, whose result is `failed` and whose phase is
`Succeeded`, the change view says `failed` and the evidence pack says
`succeeded`. -/
theorem pack_result_differs_from_change :
    (buildChanges refLib ⟨9000, 0⟩ [healthyReport]).map
        (fun c => (c.EventCount, c.ResultStatus)) = [(1, "succeeded")] ∧
      (derivePrimaryChange refLib (sortedEvents [healthyReport])).Result = "unknown" ∧
      (buildChanges refLib ⟨9000, 0⟩ [mixedReport]).map
        (fun c => (c.EventCount, c.ResultStatus)) = [(1, "failed")] ∧
      (derivePrimaryChange refLib (sortedEvents [mixedReport])).Result = "succeeded" := by
  decide

/-! ## The events that a change query aggregates -/

theorem QueryTimeline_first_page (L : StdLib) (m : MemoryRepository) (tq : TimelineQuery)
    (hcur : tq.Cursor = "") :
    ∃ c, QueryTimeline L m tq =
      Except.ok ⟨(sortStoredEvents (matching L m tq)).take (timelineLimit tq.Limit), c⟩ := by
  have hdec : decodeCursor L tq.Cursor = Except.ok (Time.zero, "") := by
    rw [hcur]
    exact decodeCursor_empty L
  rw [QueryTimeline_eq L m tq Time.zero "" hdec]
  simp only [afterCursor_zero, Bool.and_true]
  have hm : List.filter (fun e => timelineFilter L tq e) m.events.values = matching L m tq := rfl
  rw [hm]
  by_cases hlen : (sortStoredEvents (matching L m tq)).length > timelineLimit tq.Limit
  · rw [if_pos hlen]
    cases ((sortStoredEvents (matching L m tq)).take (timelineLimit tq.Limit)).getLast? with
    | none => exact ⟨_, rfl⟩
    | some last => exact ⟨_, rfl⟩
  · rw [if_neg hlen, List.take_of_length_le (by omega)]
    exact ⟨_, rfl⟩

theorem eventsForChangeQuery_eq (L : StdLib) (m : MemoryRepository) (q : ChangeQuery) :
    eventsForChangeQuery L m q =
      Except.ok (if TrimSpace q.Q ≠ "" then filterEventsByQuery L (eventsRead L m q) q.Q
        else eventsRead L m q) := by
  obtain ⟨c, hc⟩ := QueryTimeline_first_page L m (changeTimelineQuery q) rfl
  have hlim : timelineLimit (changeTimelineQuery q).Limit = 500 := by
    show timelineLimit 500 = 500
    decide
  rw [hlim] at hc
  unfold eventsForChangeQuery
  have hq : QueryTimeline L m
      { Subject := q.Subject.App, Namespace := q.Subject.Environment,
        Cluster := q.Subject.Cluster, From := q.From.UTC, To := q.To.UTC,
        IncludeSupporting := true, Limit := 500, Source := "", EventType := "",
        CorrelationKey := "", CorrelationValue := "", Cursor := "" } =
      Except.ok ⟨(sortStoredEvents (matching L m (changeTimelineQuery q))).take 500, c⟩ := hc
  rw [hq]
  simp only []
  split <;> rfl

theorem filterEventsByQuery_eq (L : StdLib) (events : List StoredEvent) (q : String) :
    filterEventsByQuery L events q = events.filter (searchMatches L q) := by
  unfold filterEventsByQuery searchMatches
  simp only []
  by_cases h : L.toLower (TrimSpace q) = ""
  · rw [if_pos h]
    simp [h]
  · rw [if_neg h]
    simp [h]

theorem eventsRead_nodup (L : StdLib) (m : MemoryRepository) (q : ChangeQuery)
    (hinv : RepoInv m) : ((eventsRead L m q).map eventKey).Nodup := by
  have h1 : ((matching L m (changeTimelineQuery q)).map eventKey).Nodup :=
    List.Nodup.sublist (List.Sublist.map eventKey (List.filter_sublist _))
      (RepoInv.nodup_eventKey m hinv)
  have h2 : ((sortStoredEvents (matching L m (changeTimelineQuery q))).map eventKey).Nodup :=
    ((sortSlice_perm eventLess _).map eventKey).nodup_iff.2 h1
  exact List.Nodup.sublist (List.Sublist.map eventKey (List.take_sublist _ _)) h2

theorem changePage_items_sublist (L : StdLib) (changes : List Change) (limit : Nat) :
    (changePage L changes limit).Items.Sublist changes := by
  unfold changePage
  split
  · cases (changes.take limit).getLast? with
    | none => exact List.take_sublist _ _
    | some last => exact List.take_sublist _ _
  · exact List.Sublist.refl _

theorem cursorApplied_sublist (changes : List Change) (ts : Time) (id : String) :
    (cursorApplied changes ts id).Sublist changes := by
  unfold cursorApplied applyChangeCursor
  split
  · exact List.filter_sublist _
  · exact List.Sublist.refl _

theorem ListChanges_items_mem (L : StdLib) (clock : Time) (m : MemoryRepository)
    (q : ChangeQuery) (r : ChangeListResult) (h : ListChanges L clock m q = Except.ok r)
    (c : Change) (hc : c ∈ r.Items) : c ∈ changeList L clock m q := by
  cases hdec : decodeChangeCursor L q.Cursor with
  | error err =>
    rw [ListChanges_error L clock m q err hdec] at h
    cases h
  | ok p =>
    obtain ⟨ts, id⟩ := p
    rw [ListChanges_eq L clock m q ts id hdec] at h
    cases h
    exact (cursorApplied_sublist _ ts id).subset ((changePage_items_sublist L _ _).subset hc)

theorem group_filter (L : StdLib) (id : String) (events : List StoredEvent)
    (p : StoredEvent → Bool) : group L id (events.filter p) = (group L id events).filter p := by
  unfold group
  rw [List.filter_filter, List.filter_filter]
  congr 1
  funext e
  exact Bool.and_comm _ _

theorem detail_unique (L : StdLib) (clock : Time) (events : List StoredEvent) (id : String)
    (d1 d2 : ChangeDetail) (h1 : (id, d1) ∈ buildChangesByID L clock events)
    (h2 : (id, d2) ∈ buildChangesByID L clock events) : d1 = d2 := by
  have hnd := buildChangesByID_nodup L clock events
  have g1 := GoMap.get?_of_mem_of_nodup _ id d1 hnd h1
  have g2 := GoMap.get?_of_mem_of_nodup _ id d2 hnd h2
  rw [g1] at g2
  exact Option.some.inj g2

/-- What the search text does to one change: the entry of `buildChangesByID`
for the events that match has, as its events, the matching events of the entry
for all the events, and it is that entry when all its events match. -/
theorem searched_detail (L : StdLib) (clock : Time) (events : List StoredEvent)
    (p : StoredEvent → Bool) (hnd : (events.map eventKey).Nodup) (id : String)
    (d : ChangeDetail) (h : (id, d) ∈ buildChangesByID L clock (events.filter p)) :
    ∃ d0, (id, d0) ∈ buildChangesByID L clock events ∧
      d.Events = d0.Events.filter p ∧
      d.Change.EventCount = ((d0.Events.filter p).length : Int) ∧
      ((∀ e ∈ d0.Events, p e = true) → d = d0) := by
  obtain ⟨e0, rest, hg, hd⟩ := (mem_buildChangesByID L clock (events.filter p) id d).1 h
  obtain ⟨e1, rest1, _, _, hg1, _, _, hev1, _, _, hcount1, _⟩ :=
    change_shape L clock (events.filter p) id d h
  rw [group_filter] at hg hg1
  cases hG : group L id events with
  | nil =>
    rw [hG] at hg
    cases hg
  | cons g0 grest =>
    have hd0 : (id, finalizeChange L clock
        ((g0 :: grest).foldl (absorbEvent L) (freshDetail L g0))) ∈
        buildChangesByID L clock events :=
      (mem_buildChangesByID L clock events id _).2 ⟨g0, grest, hG, rfl⟩
    obtain ⟨e2, rest2, _, _, hg2, _, _, hev2, _⟩ := change_shape L clock events id _ hd0
    have hgnd : ((group L id events).map eventKey).Nodup :=
      List.Nodup.sublist (List.Sublist.map eventKey (List.filter_sublist _)) hnd
    have hev : d.Events = (finalizeChange L clock
        ((g0 :: grest).foldl (absorbEvent L) (freshDetail L g0))).Events.filter p := by
      rw [hev1, hev2, ← hg1, ← hg2]
      exact sortSlice_filter eventKey eventLess eventLess_iff_key _ p hgnd
    refine ⟨_, hd0, hev, ?_, ?_⟩
    · rw [hcount1, ← hev, hev1]
    · intro hall
      have hfull : (group L id events).filter p = group L id events := by
        rw [List.filter_eq_self]
        intro e he
        apply hall
        rw [hev2, ← hg2]
        exact (sortSlice_perm eventLess _).mem_iff.2 he
      rw [hfull, hG] at hg
      cases hg
      exact hd

/-- C30 (as amended): a change that `ListChanges` returns for a non-blank search
text `q` is aggregated from the events that match `q` only.  It is the entry of
`buildChangesByID` for the matching events that were read; the query without `q`
aggregates an entry of the same id from all the events read, and every change of
that id that it lists is that entry; the events of the returned change are the
matching events of that entry and its event_count is their number; and the
returned change is the change of that entry, with the same summary, when every
event of the entry matches `q`. -/
theorem search_aggregates_matching_events (L : StdLib) (clock : Time) (m : MemoryRepository)
    (q : ChangeQuery) (hreach : Reachable L m) (hq : TrimSpace q.Q ≠ "") :
    eventsForChangeQuery L m q =
        Except.ok ((eventsRead L m q).filter (searchMatches L q.Q)) ∧
      eventsForChangeQuery L m { q with Q := "" } = Except.ok (eventsRead L m q) ∧
      ∀ r, ListChanges L clock m q = Except.ok r → ∀ c ∈ r.Items,
        ∃ d d0, (c.ID, d) ∈ buildChangesByID L clock
              ((eventsRead L m q).filter (searchMatches L q.Q)) ∧
          d.Change = c ∧
          (c.ID, d0) ∈ buildChangesByID L clock (eventsRead L m q) ∧
          (∀ c0 ∈ changeList L clock m { q with Q := "" }, c0.ID = c.ID → c0 = d0.Change) ∧
          d.Events = d0.Events.filter (searchMatches L q.Q) ∧
          c.EventCount = ((d0.Events.filter (searchMatches L q.Q)).length : Int) ∧
          ((∀ e ∈ d0.Events, searchMatches L q.Q e = true) → c = d0.Change) := by
  have hinv := RepoInv_of_reachable L m hreach
  have hev : eventsForChangeQuery L m q =
      Except.ok ((eventsRead L m q).filter (searchMatches L q.Q)) := by
    rw [eventsForChangeQuery_eq, if_pos hq, filterEventsByQuery_eq]
  have hev0 : eventsForChangeQuery L m { q with Q := "" } = Except.ok (eventsRead L m q) := by
    rw [eventsForChangeQuery_eq]
    have hblank : ¬ (TrimSpace "" ≠ "") := by decide
    rw [if_neg hblank]
    rfl
  refine ⟨hev, hev0, ?_⟩
  intro r hr c hc
  have hcl := ListChanges_items_mem L clock m q r hr c hc
  unfold changeList at hcl
  rw [hev] at hcl
  simp only [filterChanges] at hcl
  obtain ⟨id, d, hd, hdc⟩ := (mem_buildChanges L clock _ c).1 (List.mem_filter.1 hcl).1
  have hid : c.ID = id := by
    rw [← hdc]
    exact change_ID L clock _ id d hd
  subst hid
  obtain ⟨d0, hd0, hevents, hcount, hsame⟩ :=
    searched_detail L clock (eventsRead L m q) (searchMatches L q.Q)
      (eventsRead_nodup L m q hinv) c.ID d hd
  refine ⟨d, d0, hd, hdc, hd0, ?_, hevents, ?_, ?_⟩
  · intro c0 hc0 hid0
    unfold changeList at hc0
    rw [hev0] at hc0
    simp only [filterChanges] at hc0
    obtain ⟨id1, d1, hd1, hdc1⟩ := (mem_buildChanges L clock _ c0).1 (List.mem_filter.1 hc0).1
    have h1 : c0.ID = id1 := by
      rw [← hdc1]
      exact change_ID L clock _ id1 d1 hd1
    rw [← h1, hid0] at hd1
    rw [← hdc1, detail_unique L clock _ c.ID d1 d0 hd1 hd0]
  · rw [← hdc]
    exact hcount
  · intro hall
    rw [← hdc, hsame hall]

/-- C30, an instance: the sample repository and the search text `evt-mid`. -/
theorem search_aggregates_matching_events_witness :
    eventsForChangeQuery refLib changeRepo searchQuery =
        Except.ok ((eventsRead refLib changeRepo searchQuery).filter
          (searchMatches refLib searchQuery.Q)) ∧
      eventsForChangeQuery refLib changeRepo { searchQuery with Q := "" } =
        Except.ok (eventsRead refLib changeRepo searchQuery) ∧
      ∀ r, ListChanges refLib ⟨5000, 0⟩ changeRepo searchQuery = Except.ok r → ∀ c ∈ r.Items,
        ∃ d d0, (c.ID, d) ∈ buildChangesByID refLib ⟨5000, 0⟩
              ((eventsRead refLib changeRepo searchQuery).filter
                (searchMatches refLib searchQuery.Q)) ∧
          d.Change = c ∧
          (c.ID, d0) ∈ buildChangesByID refLib ⟨5000, 0⟩
            (eventsRead refLib changeRepo searchQuery) ∧
          (∀ c0 ∈ changeList refLib ⟨5000, 0⟩ changeRepo { searchQuery with Q := "" },
            c0.ID = c.ID → c0 = d0.Change) ∧
          d.Events = d0.Events.filter (searchMatches refLib searchQuery.Q) ∧
          c.EventCount =
            ((d0.Events.filter (searchMatches refLib searchQuery.Q)).length : Int) ∧
          ((∀ e ∈ d0.Events, searchMatches refLib searchQuery.Q e = true) →
            c = d0.Change) :=
  search_aggregates_matching_events refLib ⟨5000, 0⟩ changeRepo searchQuery
    (Reachable.ingest _ _ _ (Reachable.ingest _ _ _ (Reachable.ingest _ _ _
      (Reachable.ingest _ _ _ Reachable.init))))
    (by decide)

/-- C30, as stated, fails: in the sample repository the change of operation
`op-1` has three events, of which only `evt-mid` matches the search text
`evt-mid`.  The query without the text lists the change with event_count 3,
result_status `succeeded`, started at 1000 and completed at 3000; the query with
the text lists the change of the same id with event_count 1, result_status
`unknown`, started and completed at 2000. -/
theorem search_changes_summary :
    (ListChanges refLib ⟨5000, 0⟩ changeRepo { searchQuery with Q := "" }).toOption.map
        (fun r => r.Items.map (fun c =>
          (c.ID, c.EventCount, c.ResultStatus, c.StartedAt.nanos, c.CompletedAt.nanos))) =
        some [("chg_payments-api:prod-eu:eu-1:argo:op-2", 1, "succeeded", 4000, 4000),
          ("chg_payments-api:prod-eu:eu-1:argo:op-1", 3, "succeeded", 1000, 3000)] ∧
      (ListChanges refLib ⟨5000, 0⟩ changeRepo searchQuery).toOption.map
        (fun r => r.Items.map (fun c =>
          (c.ID, c.EventCount, c.ResultStatus, c.StartedAt.nanos, c.CompletedAt.nanos))) =
        some [("chg_payments-api:prod-eu:eu-1:argo:op-1", 1, "unknown", 2000, 2000)] := by
  constructor <;> decide

/-! ## The events counted by the changes -/

theorem sum_indicator (ks : List String) (hnd : ks.Nodup) (a : String) (ha : a ∈ ks) :
    (ks.map (fun k => if a = k then (1 : Int) else 0)).sum = 1 := by
  induction ks with
  | nil => simp at ha
  | cons k rest ih =>
    rw [List.nodup_cons] at hnd
    rw [List.map_cons, List.sum_cons]
    by_cases hk : a = k
    · subst hk
      rw [if_pos rfl]
      have hz : (rest.map (fun k => if a = k then (1 : Int) else 0)).sum = 0 := by
        apply List.sum_eq_zero
        intro x hx
        obtain ⟨k, hk, rfl⟩ := List.mem_map.1 hx
        rw [if_neg]
        intro h
        subst h
        exact hnd.1 hk
      rw [hz]
      rfl
    · rw [if_neg hk, zero_add]
      rcases List.mem_cons.1 ha with h | h
      · exact absurd h hk
      · exact ih hnd.2 h

/-- The groups of a list under a key function partition it: their sizes add up
to its length. -/
theorem sum_group_lengths {α : Type} (f : α → String) (ks : List String) (hnd : ks.Nodup)
    (xs : List α) (hcover : ∀ x ∈ xs, f x ∈ ks) :
    (ks.map (fun k => ((xs.filter (fun x => decide (f x = k))).length : Int))).sum =
      (xs.length : Int) := by
  induction xs with
  | nil => simp
  | cons x rest ih =>
    have hstep : ∀ k, (((x :: rest).filter (fun x => decide (f x = k))).length : Int) =
        (if f x = k then (1 : Int) else 0) +
          ((rest.filter (fun x => decide (f x = k))).length : Int) := by
      intro k
      by_cases h : f x = k
      · rw [List.filter_cons_of_pos (by simpa using h), if_pos h]
        simp only [List.length_cons]
        push_cast
        ring
      · rw [List.filter_cons_of_neg (by simpa using h), if_neg h, zero_add]
    simp only [hstep]
    rw [List.sum_map_add, sum_indicator ks hnd (f x) (hcover x (List.mem_cons_self _ _)),
      ih (fun y hy => hcover y (List.mem_cons_of_mem _ hy))]
    simp only [List.length_cons]
    push_cast
    ring

theorem changeID_mem_keys (L : StdLib) (clock : Time) (events : List StoredEvent)
    (e : StoredEvent) (he : e ∈ events) :
    changeID L e ∈ (buildChangesByID L clock events).keys := by
  have hmem : e ∈ group L (changeID L e) events := by
    unfold group
    rw [List.mem_filter]
    exact ⟨he, by simp⟩
  cases hg : group L (changeID L e) events with
  | nil =>
    rw [hg] at hmem
    cases hmem
  | cons e0 rest =>
    have := (mem_buildChangesByID L clock events (changeID L e) _).2 ⟨e0, rest, hg, rfl⟩
    unfold GoMap.keys
    exact List.mem_map.2 ⟨_, this, rfl⟩

theorem keys_subset_changeIDs (L : StdLib) (clock : Time) (events : List StoredEvent) :
    (buildChangesByID L clock events).keys ⊆ events.map (changeID L) := by
  intro k hk
  unfold GoMap.keys at hk
  obtain ⟨p, hp, rfl⟩ := List.mem_map.1 hk
  obtain ⟨e0, rest, hg, _⟩ := (mem_buildChangesByID L clock events p.1 p.2).1 hp
  have he0 : e0 ∈ group L p.1 events := by
    rw [hg]
    exact List.mem_cons_self _ _
  have h1 := List.mem_filter.1 he0
  rw [decide_eq_true_eq] at h1
  exact List.mem_map.2 ⟨e0, h1.1, h1.2⟩

/-- The event counts of the changes that `buildChanges` derives add up to the
number of events it was given. -/
theorem sum_event_count (L : StdLib) (clock : Time) (events : List StoredEvent) :
    ((buildChanges L clock events).map (fun c => c.EventCount)).sum = (events.length : Int) := by
  have hperm := sortSlice_perm changeLess
    ((buildChangesByID L clock events).values.map ChangeDetail.Change)
  unfold buildChanges
  rw [(hperm.map (fun c => c.EventCount)).sum_eq]
  have hmap : ((buildChangesByID L clock events).values.map ChangeDetail.Change).map
      (fun c => c.EventCount) =
      (buildChangesByID L clock events).keys.map
        (fun k => ((events.filter (fun e => decide (changeID L e = k))).length : Int)) := by
    unfold GoMap.values GoMap.keys
    simp only [List.map_map]
    apply List.map_congr_left
    intro p hp
    obtain ⟨e0, rest, _, _, hg, _, _, _, _, _, hcount, _⟩ :=
      change_shape L clock events p.1 p.2 hp
    simp only [Function.comp_apply]
    rw [hcount, (sortSlice_perm eventLess (e0 :: rest)).length_eq, ← hg]
    rfl
  rw [hmap]
  exact sum_group_lengths (changeID L) _ (buildChangesByID_nodup L clock events) events
    (fun e he => changeID_mem_keys L clock events e he)

theorem buildChanges_length_le (L : StdLib) (clock : Time) (events : List StoredEvent) :
    (buildChanges L clock events).length ≤ events.length := by
  have hperm := sortSlice_perm changeLess
    ((buildChangesByID L clock events).values.map ChangeDetail.Change)
  unfold buildChanges
  rw [hperm.length_eq]
  have h1 : ((buildChangesByID L clock events).values.map ChangeDetail.Change).length =
      (buildChangesByID L clock events).keys.length := by
    simp [GoMap.values, GoMap.keys]
  rw [h1]
  have hsub := List.subperm_of_subset (buildChangesByID_nodup L clock events)
    (keys_subset_changeIDs L clock events)
  have := hsub.length_le
  simpa using this

theorem changeFilter_unfiltered (L : StdLib) (q : ChangeQuery) (hlower : L.toLower "" = "")
    (hplain : Unfiltered q) (c : Change) : changeFilter L q c = true := by
  obtain ⟨_, h1, h2, h3, h4, h5, h6, h7, h8⟩ := hplain
  have ht : TrimSpace "" = "" := by decide
  unfold changeFilter
  simp only [h1, h2, h3, h4, h5, h6, h7, h8, ht, hlower]
  simp

theorem changeList_unfiltered (L : StdLib) (clock : Time) (m : MemoryRepository)
    (q : ChangeQuery) (hlower : L.toLower "" = "") (hplain : Unfiltered q) :
    changeList L clock m q = buildChanges L clock (eventsRead L m q) := by
  unfold changeList
  have hblank : ¬ (TrimSpace q.Q ≠ "") := by
    rw [hplain.1]
    decide
  rw [eventsForChangeQuery_eq, if_neg hblank]
  simp only [filterChanges]
  rw [List.filter_eq_self]
  intro c _
  exact changeFilter_unfiltered L q hlower hplain c

theorem eventsRead_length (L : StdLib) (m : MemoryRepository) (q : ChangeQuery) :
    (eventsRead L m q).length = min 500 (matching L m (changeTimelineQuery q)).length := by
  unfold eventsRead
  rw [List.length_take]
  have := (sortSlice_perm eventLess (matching L m (changeTimelineQuery q))).length_eq
  unfold sortStoredEvents
  rw [this]

/-- C29 (as amended): for every repository state and every change query
without search text, filters or cursor, the event_count values of all changes
obtained from `ListChanges`, following `NextCursor` to the end, add up to the
number of events that `eventsForChangeQuery` read, which is the number of stored
events that pass the timeline filter of the query (subject triple and inclusive
range) or 500, whichever is smaller; so they add up to the number of matching
stored events when there are at most 500 of them. -/
theorem event_counts_sum_to_events_read (L : StdLib) (clock0 : Time) (m : MemoryRepository)
    (q : ChangeQuery) (hreach : Reachable L m) (hcodec : ChangeCursorRoundTrips L clock0 m q)
    (hlower : L.toLower "" = "") (hplain : Unfiltered q) (hcur : q.Cursor = "") :
    ∀ clocks : List Time, (changeList L clock0 m q).length < clocks.length →
      ∃ pages, collectChangePages L m q clocks = some pages ∧
        (pages.map (fun c => c.EventCount)).sum = ((eventsRead L m q).length : Int) ∧
        (eventsRead L m q).length = min 500 (matching L m (changeTimelineQuery q)).length ∧
        ((matching L m (changeTimelineQuery q)).length ≤ 500 →
          (pages.map (fun c => c.EventCount)).sum =
            ((matching L m (changeTimelineQuery q)).length : Int)) := by
  intro clocks hlen
  have hinv := RepoInv_of_reachable L m hreach
  have hq : q = { q with Cursor := "" } := by
    cases q
    simp only at hcur
    subst hcur
    rfl
  have hz : cursorApplied (changeList L clock0 m q) Time.zero "" = changeList L clock0 m q := by
    unfold cursorApplied
    rw [if_neg (by decide)]
  obtain ⟨pages, hcol, hfree, _⟩ := collectChangePages_suffix L clock0 m q hinv hcodec
    clocks (changeList L clock0 m q) [] "" Time.zero "" hlen (by simp)
    (decodeChangeCursor_empty L) hz
  rw [← hq] at hcol
  have hcounts : pages.map (fun c => c.EventCount) =
      (changeList L clock0 m q).map (fun c => c.EventCount) := by
    have h1 := congrArg (List.map (fun c : Change => c.EventCount)) hfree
    simp only [List.map_map] at h1
    exact h1
  have hsum : (pages.map (fun c => c.EventCount)).sum = ((eventsRead L m q).length : Int) := by
    rw [hcounts, changeList_unfiltered L clock0 m q hlower hplain]
    exact sum_event_count L clock0 _
  have hlenread := eventsRead_length L m q
  refine ⟨pages, hcol, hsum, hlenread, ?_⟩
  intro hle
  rw [hsum, hlenread, min_eq_right hle]

/-- C29, an instance: the two changes of the sample repository, read one per
page at three calls, have four events. -/
theorem event_counts_sum_to_events_read_witness :
    ∃ pages, collectChangePages refLib changeRepo changeQuery
        [⟨5000, 0⟩, ⟨5000, 0⟩, ⟨5000, 0⟩] = some pages ∧
      (pages.map (fun c => c.EventCount)).sum =
        ((eventsRead refLib changeRepo changeQuery).length : Int) ∧
      (eventsRead refLib changeRepo changeQuery).length =
        min 500 (matching refLib changeRepo (changeTimelineQuery changeQuery)).length ∧
      ((matching refLib changeRepo (changeTimelineQuery changeQuery)).length ≤ 500 →
        (pages.map (fun c => c.EventCount)).sum =
          ((matching refLib changeRepo (changeTimelineQuery changeQuery)).length : Int)) :=
  event_counts_sum_to_events_read refLib ⟨5000, 0⟩ changeRepo changeQuery
    (Reachable.ingest _ _ _ (Reachable.ingest _ _ _ (Reachable.ingest _ _ _
      (Reachable.ingest _ _ _ Reachable.init))))
    (by unfold ChangeCursorRoundTrips; decide) (by decide)
    (by unfold Unfiltered; decide) (by rfl)
    [⟨5000, 0⟩, ⟨5000, 0⟩, ⟨5000, 0⟩] (by decide)

/-- The sample: the pages of the sample repository count its four events. -/
theorem sample_event_counts :
    (collectChangePages refLib changeRepo changeQuery
        [⟨5000, 0⟩, ⟨5000, 0⟩, ⟨5000, 0⟩]).map (List.map (fun c => c.EventCount)) =
        some [1, 3] ∧
      (matching refLib changeRepo (changeTimelineQuery changeQuery)).length = 4 := by
  decide

theorem burstEvent_ID_injective (i j : Nat) (h : (burstEvent i).ID = (burstEvent j).ID) :
    i = j := by
  have h1 : List.replicate (i + 1) 'e' = List.replicate (j + 1) 'e' :=
    congrArg String.data h
  have h2 := congrArg List.length h1
  simp only [List.length_replicate] at h2
  omega

theorem burstEvent_valid (i : Nat) : validateStoredEvent (burstEvent i) = none := by
  have hid : (burstEvent i).ID ≠ "" := by
    intro h
    have h1 : List.replicate (i + 1) 'e' = [] := congrArg String.data h
    have h2 := congrArg List.length h1
    simp at h2
  have htime : (burstEvent i).Time.IsZero = false := by
    unfold Time.IsZero
    rw [decide_eq_false_iff_not]
    show ¬ ((i : Int) + 1 = 0)
    omega
  unfold validateStoredEvent
  rw [if_neg, if_neg, if_neg]
  · rw [htime]
    decide
  · show ¬ ("\x7b\"status\":\"Succeeded\"\x7d".length = 0 ∨
      "\x7b\"status\":\"Succeeded\"\x7d" = "null")
    decide
  · intro h
    rcases h with h | h | h
    · exact hid h
    · have h2 : "argocd" = "" := h
      exact absurd h2 (by decide)
    · have h2 : "argo.sync.finished" = "" := h
      exact absurd h2 (by decide)

theorem burstEvent_hash (i : Nat) :
    ∃ e1, withIntegrityHash refLib (burstEvent i) = Except.ok e1 := by
  have hdata : (readObject (compact "\x7b\"status\":\"Succeeded\"\x7d")).isSome = true := by
    decide
  unfold withIntegrityHash
  have hempty : (burstEvent i).IntegrityHash = "" := rfl
  rw [if_pos hempty]
  unfold ComputeIntegrityHash
  simp only []
  have hm : ∃ b, refLib.jsonMarshalCanon
      { SpecVersion := "1.0", ID := (burstEvent i).ID, Source := (burstEvent i).Source,
        EventType := (burstEvent i).EventType, Subject := (burstEvent i).Subject,
        Time := refLib.formatRFC3339Nano (burstEvent i).Time.UTC,
        Extensions := sortedExtensions (burstEvent i).Extensions,
        Data := (burstEvent i).Data } = some b := by
    show ∃ b, (if (readObject (compact "\x7b\"status\":\"Succeeded\"\x7d")).isSome = true
      then some _ else none) = some b
    rw [if_pos hdata]
    exact ⟨_, rfl⟩
  obtain ⟨b, hb⟩ := hm
  rw [hb]
  exact ⟨_, rfl⟩

theorem burstRepo_succ (n : Nat) :
    burstRepo (n + 1) = (IngestEvent refLib ⟨7, 0⟩ (burstRepo n) (burstEvent n)).2 := by
  unfold burstRepo
  rw [List.range_succ, List.foldl_append]
  rfl

/-- The repository of the burst holds one event for each event ingested, each
of the subject and with the extensions of the burst. -/
theorem burstRepo_events (n : Nat) :
    (burstRepo n).events.length = n ∧
      ∀ p ∈ (burstRepo n).events, (∃ i, i < n ∧ p.1 = (burstEvent i).ID) ∧
        p.2.Subject = "payments-api" ∧ p.2.Extensions = (burstEvent 0).Extensions := by
  induction n with
  | zero =>
    refine ⟨rfl, ?_⟩
    intro p hp
    cases hp
  | succ n ih =>
    obtain ⟨hlen, hall⟩ := ih
    obtain ⟨e1, hhash⟩ := burstEvent_hash n
    have hnew : (burstRepo n).events.get? (burstEvent n).ID = none := by
      rw [GoMap.get?_eq_none_iff]
      intro p hp hid
      obtain ⟨⟨i, hi, hpi⟩, _⟩ := hall p hp
      rw [hpi] at hid
      have := burstEvent_ID_injective i n hid
      omega
    have hfields := withIntegrityHash_fields refLib (burstEvent n) e1 hhash
    have hstamp := stamped_fields ⟨7, 0⟩ e1
    rw [burstRepo_succ, IngestEvent_fresh refLib ⟨7, 0⟩ (burstRepo n) (burstEvent n) e1
      (burstEvent_valid n) hhash hnew]
    simp only []
    rw [GoMap.set_of_get?_eq_none _ _ _ hnew]
    refine ⟨by rw [List.length_append, hlen]; rfl, ?_⟩
    intro p hp
    rcases List.mem_append.1 hp with h | h
    · obtain ⟨⟨i, hi, hpi⟩, h2⟩ := hall p h
      exact ⟨⟨i, by omega, hpi⟩, h2⟩
    · rw [List.mem_singleton] at h
      subst h
      refine ⟨⟨n, by omega, rfl⟩, ?_, ?_⟩
      · show (stamped ⟨7, 0⟩ e1).Subject = "payments-api"
        rw [hstamp.2.2.2.1, hfields.2.2.2.1]
        rfl
      · show (stamped ⟨7, 0⟩ e1).Extensions = (burstEvent 0).Extensions
        rw [hstamp.2.2.2.2.2.1, hfields.2.2.2.2.2.1]
        rfl

theorem burstRepo_reachable (n : Nat) : Reachable refLib (burstRepo n) := by
  induction n with
  | zero => exact Reachable.init
  | succ n ih =>
    rw [burstRepo_succ]
    exact Reachable.ingest _ _ _ ih

theorem burst_timelineFilter (e : StoredEvent) (hs : e.Subject = "payments-api")
    (hx : e.Extensions = (burstEvent 0).Extensions) :
    timelineFilter refLib (changeTimelineQuery burstQuery) e = true := by
  have hc : ExtensionString e.Extensions "cluster" = "eu-1" := by
    rw [hx]
    decide
  have hn : ExtensionString e.Extensions "namespace" = "prod-eu" := by
    rw [hx]
    decide
  have hfrom : (changeTimelineQuery burstQuery).From.IsZero = true := by decide
  have hto : (changeTimelineQuery burstQuery).To.IsZero = true := by decide
  have hsub : (changeTimelineQuery burstQuery).Subject = "payments-api" := rfl
  have hcl : (changeTimelineQuery burstQuery).Cluster = "eu-1" := rfl
  have hns : (changeTimelineQuery burstQuery).Namespace = "prod-eu" := rfl
  have hsrc : (changeTimelineQuery burstQuery).Source = "" := rfl
  have hty : (changeTimelineQuery burstQuery).EventType = "" := rfl
  have hck : (changeTimelineQuery burstQuery).CorrelationKey = "" := rfl
  have hinc : (changeTimelineQuery burstQuery).IncludeSupporting = true := rfl
  unfold timelineFilter
  rw [hfrom, hto, hsub, hcl, hns, hsrc, hty, hck, hinc, hs, hc, hn]
  simp

theorem burst_matching (n : Nat) :
    (matching refLib (burstRepo n) (changeTimelineQuery burstQuery)).length = n := by
  obtain ⟨hlen, hall⟩ := burstRepo_events n
  unfold matching
  rw [List.filter_eq_self.2]
  · simp [GoMap.values, hlen]
  · intro e he
    unfold GoMap.values at he
    obtain ⟨p, hp, rfl⟩ := List.mem_map.1 he
    exact burst_timelineFilter p.2 (hall p hp).2.1 (hall p hp).2.2

theorem changeList_length_le (L : StdLib) (clock : Time) (m : MemoryRepository)
    (q : ChangeQuery) : (changeList L clock m q).length ≤ 500 := by
  have hread : (eventsRead L m q).length ≤ 500 := by
    rw [eventsRead_length]
    exact min_le_left _ _
  unfold changeList
  rw [eventsForChangeQuery_eq]
  simp only [filterChanges]
  refine le_trans (List.length_filter_le _ _) (le_trans (buildChanges_length_le L clock _) ?_)
  split
  · rw [filterEventsByQuery_eq]
    exact le_trans (List.length_filter_le _ _) hread
  · exact hread

/-- With the largest limit and no cursor, `ListChanges` returns all its changes
in one page. -/
theorem ListChanges_whole (L : StdLib) (clock : Time) (m : MemoryRepository) (q : ChangeQuery)
    (hlim : q.Limit = 500) (hcur : q.Cursor = "") :
    ListChanges L clock m q = Except.ok ⟨changeList L clock m q, ""⟩ := by
  have hdec : decodeChangeCursor L q.Cursor = Except.ok (Time.zero, "") := by
    rw [hcur]
    exact decodeChangeCursor_empty L
  have hz : cursorApplied (changeList L clock m q) Time.zero "" = changeList L clock m q := by
    unfold cursorApplied
    rw [if_neg (by decide)]
  have hl : changeLimit q.Limit = 500 := by
    rw [hlim]
    decide
  rw [ListChanges_eq L clock m q Time.zero "" hdec, hz, hl,
    changePage_short L _ 500 (by have := changeList_length_le L clock m q; omega)]

theorem collectChangePages_last (L : StdLib) (m : MemoryRepository) (q : ChangeQuery)
    (clock : Time) (clocks : List Time) (items : List Change)
    (h : ListChanges L clock m q = Except.ok ⟨items, ""⟩) :
    collectChangePages L m q (clock :: clocks) = some items := by
  unfold collectChangePages
  rw [h]
  simp only []
  rw [if_pos trivial]

/-- C29, as stated, fails: after 501 events of the operation `op-1` of one
subject were ingested, all 501 stored events match the subject triple of the
query, which has no range, no search text and no filter; `ListChanges` returns
all its changes in one page, without a next cursor, and their event_count values
add up to 500. -/
theorem burst_event_left_out :
    (matching refLib (burstRepo 501) (changeTimelineQuery burstQuery)).length = 501 ∧
      ∃ pages, collectChangePages refLib (burstRepo 501) burstQuery [⟨5000, 0⟩] = some pages ∧
        ListChanges refLib ⟨5000, 0⟩ (burstRepo 501) burstQuery = Except.ok ⟨pages, ""⟩ ∧
        (pages.map (fun c => c.EventCount)).sum = 500 := by
  have hmatch := burst_matching 501
  have hwhole := ListChanges_whole refLib ⟨5000, 0⟩ (burstRepo 501) burstQuery rfl rfl
  refine ⟨hmatch, changeList refLib ⟨5000, 0⟩ (burstRepo 501) burstQuery, ?_, hwhole, ?_⟩
  · exact collectChangePages_last refLib (burstRepo 501) burstQuery ⟨5000, 0⟩ [] _ hwhole
  · rw [changeList_unfiltered refLib ⟨5000, 0⟩ (burstRepo 501) burstQuery (by decide)
      (by unfold Unfiltered; decide), sum_event_count, eventsRead_length, hmatch]
    rfl

/-! ## The changes that the pages hold -/

theorem buildChanges_ids_nodup (L : StdLib) (clock : Time) (events : List StoredEvent) :
    ((buildChanges L clock events).map (fun c => c.ID)).Nodup := by
  have hperm := sortSlice_perm changeLess
    ((buildChangesByID L clock events).values.map ChangeDetail.Change)
  have hkeys := buildChangesByID_nodup L clock events
  have h2 : ((buildChangesByID L clock events).values.map ChangeDetail.Change).map
      (fun c => c.ID) = (buildChangesByID L clock events).keys := by
    unfold GoMap.values GoMap.keys
    simp only [List.map_map]
    apply List.map_congr_left
    intro p hp
    exact change_ID L clock events p.1 p.2 hp
  unfold buildChanges
  rw [(hperm.map (fun c => c.ID)).nodup_iff, h2]
  exact hkeys

theorem buildChanges_length_of_nodup (L : StdLib) (clock : Time) (events : List StoredEvent)
    (hnd : (events.map (changeID L)).Nodup) :
    (buildChanges L clock events).length = events.length := by
  apply le_antisymm (buildChanges_length_le L clock events)
  have hperm := sortSlice_perm changeLess
    ((buildChangesByID L clock events).values.map ChangeDetail.Change)
  unfold buildChanges
  rw [hperm.length_eq]
  have h1 : ((buildChangesByID L clock events).values.map ChangeDetail.Change).length =
      (buildChangesByID L clock events).keys.length := by
    simp [GoMap.values, GoMap.keys]
  rw [h1]
  have hsub : events.map (changeID L) ⊆ (buildChangesByID L clock events).keys := by
    intro k hk
    obtain ⟨e, he, rfl⟩ := List.mem_map.1 hk
    exact changeID_mem_keys L clock events e he
  have := (List.subperm_of_subset hnd hsub).length_le
  simpa using this

theorem changeID_congr (L : StdLib) (e1 e2 : StoredEvent) (h : eventCore e1 = eventCore e2) :
    changeID L e1 = changeID L e2 := by
  unfold eventCore at h
  simp only [Prod.mk.injEq] at h
  obtain ⟨_, h2, h3, h4, h5⟩ := h
  unfold changeID deriveChangeIdentity
  rw [h2, h3, h4, h5]

theorem timelineFilter_congr (L : StdLib) (q : TimelineQuery) (e1 e2 : StoredEvent)
    (h : eventCore e1 = eventCore e2) : timelineFilter L q e1 = timelineFilter L q e2 := by
  unfold eventCore at h
  simp only [Prod.mk.injEq] at h
  obtain ⟨h1, h2, h3, h4, h5⟩ := h
  unfold timelineFilter
  rw [h1, h2, h3, h4, h5]

theorem spreadOperation_data (i : Nat) :
    (spreadOperation i).data = 'o' :: List.replicate i 'o' := by
  unfold spreadOperation
  rw [List.replicate_succ]

theorem spreadOperation_trimmed (i : Nat) :
    TrimSpace (spreadOperation i) = spreadOperation i ∧ spreadOperation i ≠ "" := by
  have hsp : isSpace 'o' = false := by decide
  have hd : ∀ n, (List.replicate (n + 1) 'o').dropWhile isSpace = List.replicate (n + 1) 'o' := by
    intro n
    rw [List.replicate_succ, List.dropWhile_cons_of_neg (by rw [hsp]; decide)]
  constructor
  · unfold TrimSpace spreadOperation
    simp only []
    rw [hd, List.reverse_replicate, hd, List.reverse_replicate]
  · intro h
    have h1 := congrArg String.data h
    rw [spreadOperation_data] at h1
    cases h1

theorem spreadOperation_injective (i j : Nat) (h : spreadOperation i = spreadOperation j) :
    i = j := by
  have h1 : List.replicate (i + 1) 'o' = List.replicate (j + 1) 'o' := congrArg String.data h
  have h2 := congrArg List.length h1
  simp only [List.length_replicate] at h2
  omega

theorem changeID_spread (e : StoredEvent) (op : String) (hsub : e.Subject = "payments-api")
    (hsrc : e.Source = "argocd") (hext : e.Extensions = spreadExtensions op)
    (htrim : TrimSpace op = op) (hne : op ≠ "") :
    changeID refLib e = "chg_payments-api:prod-eu:eu-1:argo:" ++ op := by
  have hc : ExtensionString (spreadExtensions op) "cluster" = "eu-1" := rfl
  have hn : ExtensionString (spreadExtensions op) "namespace" = "prod-eu" := rfl
  have hprov : normalizePrimaryProvider refLib "argocd" (spreadExtensions op) = "argo" := rfl
  have href : firstExtension (spreadExtensions op)
      ["primary_reference", "operation_id", "history_id", "deploy_id", "pipeline_id", "run_id",
        "job_id"] = op := by
    have h1 : (spreadExtensions op).get? "primary_reference" = none := rfl
    have h2 : (spreadExtensions op).get? "operation_id" = some (JVal.str op) := rfl
    unfold firstExtension
    rw [h1]
    simp only []
    unfold firstExtension
    rw [h2]
    simp only []
    rw [htrim, if_pos hne]
  have hsid : refLib.toLower ("payments-api" ++ ":" ++ "prod-eu" ++ ":" ++ "eu-1") =
      "payments-api:prod-eu:eu-1" := by decide
  unfold changeID deriveChangeIdentity
  simp only []
  rw [hsub, hsrc, hext, hc, hn, hprov, href, if_pos hne, hsid]
  show "chg_" ++ ("payments-api:prod-eu:eu-1" ++ ":" ++ "argo" ++ ":" ++ op) =
    "chg_payments-api:prod-eu:eu-1:argo:" ++ op
  rw [← String.append_assoc]
  congr 1

theorem spreadEvent_changeID (i : Nat) :
    changeID refLib (spreadEvent i) =
      "chg_payments-api:prod-eu:eu-1:argo:" ++ spreadOperation i :=
  changeID_spread (spreadEvent i) (spreadOperation i) rfl rfl rfl
    (spreadOperation_trimmed i).1 (spreadOperation_trimmed i).2

theorem spreadEvent_ID_injective (i j : Nat) (h : (spreadEvent i).ID = (spreadEvent j).ID) :
    i = j := by
  have h1 : List.replicate (i + 1) 'e' = List.replicate (j + 1) 'e' :=
    congrArg String.data h
  have h2 := congrArg List.length h1
  simp only [List.length_replicate] at h2
  omega

theorem spreadEvent_valid (i : Nat) : validateStoredEvent (spreadEvent i) = none := by
  have hid : (spreadEvent i).ID ≠ "" := by
    intro h
    have h1 : List.replicate (i + 1) 'e' = [] := congrArg String.data h
    have h2 := congrArg List.length h1
    simp at h2
  have htime : (spreadEvent i).Time.IsZero = false := by
    unfold Time.IsZero
    rw [decide_eq_false_iff_not]
    show ¬ ((i : Int) + 1 = 0)
    omega
  unfold validateStoredEvent
  rw [if_neg, if_neg, if_neg]
  · rw [htime]
    decide
  · show ¬ ("\x7b\"status\":\"Succeeded\"\x7d".length = 0 ∨
      "\x7b\"status\":\"Succeeded\"\x7d" = "null")
    decide
  · intro h
    rcases h with h | h | h
    · exact hid h
    · have h2 : "argocd" = "" := h
      exact absurd h2 (by decide)
    · have h2 : "argo.sync.finished" = "" := h
      exact absurd h2 (by decide)

theorem spreadEvent_hash (i : Nat) :
    ∃ e1, withIntegrityHash refLib (spreadEvent i) = Except.ok e1 := by
  have hdata : (readObject (compact "\x7b\"status\":\"Succeeded\"\x7d")).isSome = true := by
    decide
  unfold withIntegrityHash
  have hempty : (spreadEvent i).IntegrityHash = "" := rfl
  rw [if_pos hempty]
  unfold ComputeIntegrityHash
  simp only []
  have hm : ∃ b, refLib.jsonMarshalCanon
      { SpecVersion := "1.0", ID := (spreadEvent i).ID, Source := (spreadEvent i).Source,
        EventType := (spreadEvent i).EventType, Subject := (spreadEvent i).Subject,
        Time := refLib.formatRFC3339Nano (spreadEvent i).Time.UTC,
        Extensions := sortedExtensions (spreadEvent i).Extensions,
        Data := (spreadEvent i).Data } = some b := by
    show ∃ b, (if (readObject (compact "\x7b\"status\":\"Succeeded\"\x7d")).isSome = true
      then some _ else none) = some b
    rw [if_pos hdata]
    exact ⟨_, rfl⟩
  obtain ⟨b, hb⟩ := hm
  rw [hb]
  exact ⟨_, rfl⟩

theorem spreadRepo_succ (n : Nat) :
    spreadRepo (n + 1) = (IngestEvent refLib ⟨7, 0⟩ (spreadRepo n) (spreadEvent n)).2 := by
  unfold spreadRepo
  rw [List.range_succ, List.foldl_append]
  rfl

/-- The repository of the run holds, in the order of their ingestion, one event
for each event ingested, with the fields of that event. -/
theorem spreadRepo_events (n : Nat) :
    (spreadRepo n).events.map (fun p => (p.1, eventCore p.2)) =
      (List.range n).map (fun i => ((spreadEvent i).ID, eventCore (spreadEvent i))) := by
  induction n with
  | zero => rfl
  | succ n ih =>
    obtain ⟨e1, hhash⟩ := spreadEvent_hash n
    have hkeys : (spreadRepo n).events.map Prod.fst =
        (List.range n).map (fun i => (spreadEvent i).ID) := by
      have := congrArg (List.map Prod.fst) ih
      simpa [List.map_map, Function.comp_def] using this
    have hnew : (spreadRepo n).events.get? (spreadEvent n).ID = none := by
      rw [GoMap.get?_eq_none_iff]
      intro p hp hid
      have hmem : p.1 ∈ (spreadRepo n).events.map Prod.fst := List.mem_map.2 ⟨p, hp, rfl⟩
      rw [hkeys] at hmem
      obtain ⟨i, hi, hpi⟩ := List.mem_map.1 hmem
      rw [← hpi] at hid
      have := spreadEvent_ID_injective i n hid
      rw [List.mem_range] at hi
      omega
    have hfields := withIntegrityHash_fields refLib (spreadEvent n) e1 hhash
    have hstamp := stamped_fields ⟨7, 0⟩ e1
    have hcore : eventCore (stamped ⟨7, 0⟩ e1) = eventCore (spreadEvent n) := by
      unfold eventCore
      rw [hstamp.2.2.1, hstamp.2.1, hstamp.2.2.2.1, hstamp.2.2.2.2.1, hstamp.2.2.2.2.2.1,
        hfields.2.2.1, hfields.2.1, hfields.2.2.2.1, hfields.2.2.2.2.1, hfields.2.2.2.2.2.1]
    rw [spreadRepo_succ, IngestEvent_fresh refLib ⟨7, 0⟩ (spreadRepo n) (spreadEvent n) e1
      (spreadEvent_valid n) hhash hnew]
    simp only []
    rw [GoMap.set_of_get?_eq_none _ _ _ hnew, List.map_append, ih, List.range_succ,
      List.map_append]
    simp only [List.map_cons, List.map_nil, hcore]

theorem spreadRepo_reachable (n : Nat) : Reachable refLib (spreadRepo n) := by
  induction n with
  | zero => exact Reachable.init
  | succ n ih =>
    rw [spreadRepo_succ]
    exact Reachable.ingest _ _ _ ih

theorem spreadEvent_matches (i : Nat) :
    timelineFilter refLib (changeTimelineQuery burstQuery) (spreadEvent i) = true := by
  have hc : ExtensionString (spreadEvent i).Extensions "cluster" = "eu-1" := rfl
  have hn : ExtensionString (spreadEvent i).Extensions "namespace" = "prod-eu" := rfl
  have hs : (spreadEvent i).Subject = "payments-api" := rfl
  have hfrom : (changeTimelineQuery burstQuery).From.IsZero = true := by decide
  have hto : (changeTimelineQuery burstQuery).To.IsZero = true := by decide
  have hsub : (changeTimelineQuery burstQuery).Subject = "payments-api" := rfl
  have hcl : (changeTimelineQuery burstQuery).Cluster = "eu-1" := rfl
  have hns : (changeTimelineQuery burstQuery).Namespace = "prod-eu" := rfl
  have hsrc : (changeTimelineQuery burstQuery).Source = "" := rfl
  have hty : (changeTimelineQuery burstQuery).EventType = "" := rfl
  have hck : (changeTimelineQuery burstQuery).CorrelationKey = "" := rfl
  have hinc : (changeTimelineQuery burstQuery).IncludeSupporting = true := rfl
  unfold timelineFilter
  rw [hfrom, hto, hsub, hcl, hns, hsrc, hty, hck, hinc, hs, hc, hn]
  simp

/-- Every stored event of the run has the fields of one of its events. -/
theorem spreadRepo_mem (n : Nat) (e : StoredEvent) (he : e ∈ (spreadRepo n).events.values) :
    ∃ i, i < n ∧ eventCore e = eventCore (spreadEvent i) := by
  unfold GoMap.values at he
  obtain ⟨p, hp, rfl⟩ := List.mem_map.1 he
  have hmem : (p.1, eventCore p.2) ∈ (spreadRepo n).events.map (fun p => (p.1, eventCore p.2)) :=
    List.mem_map.2 ⟨p, hp, rfl⟩
  rw [spreadRepo_events] at hmem
  obtain ⟨i, hi, hpi⟩ := List.mem_map.1 hmem
  rw [List.mem_range] at hi
  exact ⟨i, hi, (congrArg Prod.snd hpi).symm⟩

theorem spread_matching (n : Nat) :
    matching refLib (spreadRepo n) (changeTimelineQuery burstQuery) =
      (spreadRepo n).events.values := by
  unfold matching
  rw [List.filter_eq_self]
  intro e he
  obtain ⟨i, _, hcore⟩ := spreadRepo_mem n e he
  rw [timelineFilter_congr refLib _ e (spreadEvent i) hcore]
  exact spreadEvent_matches i

theorem spread_values_length (n : Nat) : (spreadRepo n).events.values.length = n := by
  have := congrArg List.length (spreadRepo_events n)
  simpa [GoMap.values] using this

theorem spread_changeIDs (n : Nat) :
    (spreadRepo n).events.values.map (changeID refLib) =
      (List.range n).map (fun i => "chg_payments-api:prod-eu:eu-1:argo:" ++ spreadOperation i) := by
  have h := congrArg (List.map (fun x : String × String × String × String × Time × GoMap JVal =>
    changeID refLib (eventOfCore x.2))) (spreadRepo_events n)
  simp only [List.map_map, GoMap.values] at h ⊢
  have hl : List.map (changeID refLib ∘ Prod.snd) (spreadRepo n).events =
      List.map ((fun x : String × String × String × String × Time × GoMap JVal =>
        changeID refLib (eventOfCore x.2)) ∘ fun p => (p.1, eventCore p.2))
        (spreadRepo n).events := by
    apply List.map_congr_left
    intro p _
    exact changeID_congr refLib _ _ rfl
  rw [hl, h]
  apply List.map_congr_left
  intro i _
  simp only [Function.comp_apply]
  rw [changeID_congr refLib (eventOfCore (eventCore (spreadEvent i))) (spreadEvent i) rfl]
  exact spreadEvent_changeID i

theorem spread_changeIDs_nodup (n : Nat) :
    ((spreadRepo n).events.values.map (changeID refLib)).Nodup := by
  rw [spread_changeIDs]
  apply List.Nodup.map _ (List.nodup_range n)
  intro i j h
  have h1 := congrArg String.data h
  simp only [String.data_append] at h1
  have h2 := List.append_cancel_left h1
  exact spreadOperation_injective i j (String.ext h2)

/-- C12 (as amended): for every repository state, every change query with an
empty cursor, whatever its limit and its filters, and every sequence of call
times, when the library decodes the cursors of the listed changes to what was
encoded: the loop that calls `ListChanges` and follows `NextCursor` until it is
empty ends after at most one call more than there are changes, and the
concatenated pages hold every change of the list `changeList` exactly once, in
(completed_at DESC, id ASC) order, up to the field evidence_may_be_incomplete
when the calls are made at different times.  That list is the sorted, filtered
list of the changes aggregated from the events that were read: the matching
events, cut to the first 500 in (time, id) order, and of these the ones that
match the search text.  It is aggregated from all matching events when there
are at most 500 of them. -/
theorem change_pages_complete (L : StdLib) (clock0 : Time) (m : MemoryRepository)
    (q : ChangeQuery) (hreach : Reachable L m) (hcodec : ChangeCursorRoundTrips L clock0 m q)
    (hcur : q.Cursor = "") :
    changeList L clock0 m q =
        filterChanges L (buildChanges L clock0
          (if TrimSpace q.Q ≠ "" then filterEventsByQuery L (eventsRead L m q) q.Q
            else eventsRead L m q)) q ∧
      eventsRead L m q = (sortStoredEvents (matching L m (changeTimelineQuery q))).take 500 ∧
      ((matching L m (changeTimelineQuery q)).length ≤ 500 →
        eventsRead L m q = sortStoredEvents (matching L m (changeTimelineQuery q))) ∧
      (changeList L clock0 m q).Pairwise changeOrdered ∧
      ((changeList L clock0 m q).map (fun c => c.ID)).Nodup ∧
      (∀ clocks : List Time, (changeList L clock0 m q).length < clocks.length →
        ∃ pages, collectChangePages L m q clocks = some pages ∧
          pages.map clockFree = (changeList L clock0 m q).map clockFree ∧
          pages.map (fun c => c.ID) = (changeList L clock0 m q).map (fun c => c.ID) ∧
          ((∀ t ∈ clocks, t = clock0) → pages = changeList L clock0 m q)) := by
  obtain ⟨h1, h2, h3⟩ := changeList_pages L clock0 m q hreach hcodec hcur
  refine ⟨?_, rfl, ?_, h1, h2, h3⟩
  · unfold changeList
    rw [eventsForChangeQuery_eq]
  · intro hle
    unfold eventsRead
    rw [List.take_of_length_le]
    have := (sortSlice_perm eventLess (matching L m (changeTimelineQuery q))).length_eq
    unfold sortStoredEvents
    omega

/-- C12, an instance: the two changes of the sample repository are read one
per page. -/
theorem change_pages_complete_witness :
    changeList refLib ⟨5000, 0⟩ changeRepo changeQuery =
        filterChanges refLib (buildChanges refLib ⟨5000, 0⟩
          (if TrimSpace changeQuery.Q ≠ "" then
            filterEventsByQuery refLib (eventsRead refLib changeRepo changeQuery) changeQuery.Q
            else eventsRead refLib changeRepo changeQuery)) changeQuery ∧
      eventsRead refLib changeRepo changeQuery =
        (sortStoredEvents (matching refLib changeRepo (changeTimelineQuery changeQuery))).take
          500 ∧
      ((matching refLib changeRepo (changeTimelineQuery changeQuery)).length ≤ 500 →
        eventsRead refLib changeRepo changeQuery =
          sortStoredEvents (matching refLib changeRepo (changeTimelineQuery changeQuery))) ∧
      (changeList refLib ⟨5000, 0⟩ changeRepo changeQuery).Pairwise changeOrdered ∧
      ((changeList refLib ⟨5000, 0⟩ changeRepo changeQuery).map (fun c => c.ID)).Nodup ∧
      (∀ clocks : List Time,
        (changeList refLib ⟨5000, 0⟩ changeRepo changeQuery).length < clocks.length →
        ∃ pages, collectChangePages refLib changeRepo changeQuery clocks = some pages ∧
          pages.map clockFree =
            (changeList refLib ⟨5000, 0⟩ changeRepo changeQuery).map clockFree ∧
          pages.map (fun c => c.ID) =
            (changeList refLib ⟨5000, 0⟩ changeRepo changeQuery).map (fun c => c.ID) ∧
          ((∀ t ∈ clocks, t = ⟨5000, 0⟩) →
            pages = changeList refLib ⟨5000, 0⟩ changeRepo changeQuery)) :=
  change_pages_complete refLib ⟨5000, 0⟩ changeRepo changeQuery
    (Reachable.ingest _ _ _ (Reachable.ingest _ _ _ (Reachable.ingest _ _ _
      (Reachable.ingest _ _ _ Reachable.init))))
    (by unfold ChangeCursorRoundTrips; decide) (by rfl)

/-- C12, as stated, fails: after 501 events of 501 operations of one subject
were ingested, all 501 stored events match the query, which has no range, no
search text and no filter, and they aggregate to 501 changes of 501 different
ids.  `ListChanges` with the largest limit returns one page of 500 changes and
no next cursor: a change of the full list is on no page. -/
theorem change_beyond_read_on_no_page :
    (matching refLib (spreadRepo 501) (changeTimelineQuery burstQuery)).length = 501 ∧
      (buildChanges refLib ⟨5000, 0⟩
        (matching refLib (spreadRepo 501) (changeTimelineQuery burstQuery))).length = 501 ∧
      ∃ pages, collectChangePages refLib (spreadRepo 501) burstQuery [⟨5000, 0⟩] = some pages ∧
        ListChanges refLib ⟨5000, 0⟩ (spreadRepo 501) burstQuery = Except.ok ⟨pages, ""⟩ ∧
        pages.length = 500 ∧
        ∃ c ∈ buildChanges refLib ⟨5000, 0⟩
            (matching refLib (spreadRepo 501) (changeTimelineQuery burstQuery)),
          c.ID ∉ pages.map (fun p => p.ID) := by
  have hmatch := spread_matching 501
  have hlen : (matching refLib (spreadRepo 501) (changeTimelineQuery burstQuery)).length =
      501 := by
    rw [hmatch]
    exact spread_values_length 501
  have hnd : ((matching refLib (spreadRepo 501) (changeTimelineQuery burstQuery)).map
      (changeID refLib)).Nodup := by
    rw [hmatch]
    exact spread_changeIDs_nodup 501
  have hfull : (buildChanges refLib ⟨5000, 0⟩
      (matching refLib (spreadRepo 501) (changeTimelineQuery burstQuery))).length = 501 := by
    rw [buildChanges_length_of_nodup refLib _ _ hnd, hlen]
  have hreadnd : ((eventsRead refLib (spreadRepo 501) burstQuery).map (changeID refLib)).Nodup := by
    unfold eventsRead
    have h1 := ((sortSlice_perm eventLess
      (matching refLib (spreadRepo 501) (changeTimelineQuery burstQuery))).map
        (changeID refLib)).nodup_iff.2 hnd
    exact List.Nodup.sublist (List.Sublist.map _ (List.take_sublist _ _)) h1
  have hwhole := ListChanges_whole refLib ⟨5000, 0⟩ (spreadRepo 501) burstQuery rfl rfl
  have hpages : (changeList refLib ⟨5000, 0⟩ (spreadRepo 501) burstQuery).length = 500 := by
    rw [changeList_unfiltered refLib ⟨5000, 0⟩ (spreadRepo 501) burstQuery (by decide)
      (by unfold Unfiltered; decide), buildChanges_length_of_nodup refLib _ _ hreadnd,
      eventsRead_length, hlen]
    rfl
  refine ⟨hlen, hfull, changeList refLib ⟨5000, 0⟩ (spreadRepo 501) burstQuery,
    collectChangePages_last refLib (spreadRepo 501) burstQuery ⟨5000, 0⟩ [] _ hwhole,
    hwhole, hpages, ?_⟩
  by_contra hall
  push_neg at hall
  have hsub : (buildChanges refLib ⟨5000, 0⟩
      (matching refLib (spreadRepo 501) (changeTimelineQuery burstQuery))).map (fun c => c.ID) ⊆
      (changeList refLib ⟨5000, 0⟩ (spreadRepo 501) burstQuery).map (fun p => p.ID) := by
    intro id hid
    obtain ⟨c, hc, rfl⟩ := List.mem_map.1 hid
    exact hall c hc
  have hle := (List.subperm_of_subset (buildChanges_ids_nodup refLib ⟨5000, 0⟩ _) hsub).length_le
  rw [List.length_map, List.length_map, hfull, hpages] at hle
  omega

/-! ## Distinct events, distinct encodings -/

theorem unary_prefix (n : Nat) :
    ∀ (m : Nat) (a b : List Char),
      List.replicate n 'x' ++ '|' :: a = List.replicate m 'x' ++ '|' :: b → n = m ∧ a = b := by
  induction n with
  | zero =>
    intro m a b h
    cases m with
    | zero =>
      simp only [List.replicate_zero, List.nil_append, List.cons.injEq, true_and] at h
      exact ⟨rfl, h⟩
    | succ m =>
      rw [List.replicate_succ] at h
      simp only [List.replicate_zero, List.nil_append, List.cons_append, List.cons.injEq] at h
      exact absurd h.1 (by decide)
  | succ n ih =>
    intro m a b h
    cases m with
    | zero =>
      rw [List.replicate_succ] at h
      simp only [List.replicate_zero, List.nil_append, List.cons_append, List.cons.injEq] at h
      exact absurd h.1 (by decide)
    | succ m =>
      rw [List.replicate_succ, List.replicate_succ] at h
      simp only [List.cons_append, List.cons.injEq, true_and] at h
      obtain ⟨h1, h2⟩ := ih m a b h
      exact ⟨by rw [h1], h2⟩

theorem frame_inj (s t : String) (r1 r2 : List Char) (h : frame s ++ r1 = frame t ++ r2) :
    s = t ∧ r1 = r2 := by
  unfold frame at h
  rw [List.append_assoc, List.append_assoc, List.cons_append, List.cons_append] at h
  obtain ⟨hlen, hrest⟩ := unary_prefix _ _ _ _ h
  obtain ⟨h1, h2⟩ := List.append_inj hrest hlen
  exact ⟨String.ext h1, h2⟩

theorem frames_inj : ∀ l1 l2 : List String, frames l1 = frames l2 → l1 = l2 := by
  intro l1
  induction l1 with
  | nil =>
    intro l2 h
    cases l2 with
    | nil => rfl
    | cons t rest =>
      have := congrArg List.length h
      simp only [frames, frame, List.length_append, List.length_replicate, List.length_cons,
        List.length_nil] at this
      omega
  | cons s rest ih =>
    intro l2 h
    cases l2 with
    | nil =>
      have := congrArg List.length h
      simp only [frames, frame, List.length_append, List.length_replicate, List.length_cons,
        List.length_nil] at this
      omega
    | cons t rest2 =>
      obtain ⟨h1, h2⟩ := frame_inj s t _ _ h
      rw [h1, ih rest2 h2]

theorem flatPairs_inj : ∀ (m1 m2 : GoMap JVal) (l : List String),
    flatPairs m1 = some l → flatPairs m2 = some l → m1 = m2 := by
  intro m1
  induction m1 with
  | nil =>
    intro m2 l h1 h2
    simp only [flatPairs, Option.some.injEq] at h1
    subst h1
    cases m2 with
    | nil => rfl
    | cons p rest =>
      obtain ⟨k, v⟩ := p
      cases v <;> simp only [flatPairs] at h2 <;> try cases h2
      split at h2 <;> cases h2
  | cons p rest ih =>
    intro m2 l h1 h2
    obtain ⟨k, v⟩ := p
    cases v <;> simp only [flatPairs] at h1 <;> try cases h1
    rename_i s
    cases hr : flatPairs rest with
    | none =>
      rw [hr] at h1
      cases h1
    | some ps =>
      rw [hr] at h1
      simp only [Option.some.injEq] at h1
      subst h1
      cases m2 with
      | nil =>
        simp only [flatPairs] at h2
        cases h2
      | cons p2 rest2 =>
        obtain ⟨k2, v2⟩ := p2
        cases v2 <;> simp only [flatPairs] at h2 <;> try cases h2
        rename_i s2
        cases hr2 : flatPairs rest2 with
        | none =>
          rw [hr2] at h2
          cases h2
        | some ps2 =>
          rw [hr2] at h2
          simp only [Option.some.injEq, List.cons.injEq] at h2
          obtain ⟨hk, hs, hps⟩ := h2
          subst hk hs hps
          rw [ih rest2 ps2 hr hr2]

/-- The framing encoder tells two canonical structs apart unless they agree in
every field, the bodies compared in their compacted form. -/
theorem frameLib_injective : MarshalInjective frameLib compact := by
  intro c1 c2 b h1 h2
  have e1 : frameMarshal c1 = some b := h1
  have e2 : frameMarshal c2 = some b := h2
  unfold frameMarshal at e1 e2
  cases hp1 : flatPairs c1.Extensions with
  | none =>
    rw [hp1] at e1
    cases e1
  | some ps1 =>
    cases hp2 : flatPairs c2.Extensions with
    | none =>
      rw [hp2] at e2
      cases e2
    | some ps2 =>
      rw [hp1] at e1
      rw [hp2] at e2
      simp only [Option.some.injEq] at e1 e2
      rw [← e2] at e1
      have hf := frames_inj _ _ (congrArg String.data e1)
      simp only [List.cons.injEq] at hf
      obtain ⟨f1, f2, f3, f4, f5, f6, f7, f8⟩ := hf
      subst f8
      have hext := flatPairs_inj _ _ _ hp1 hp2
      exact ⟨f1, f2, f3, f4, f5, f6, fun k => by rw [hext], f7⟩

/-- The framing encoder reads the body in its compacted form only. -/
theorem frameLib_writes : MarshalWrites frameLib compact := by
  intro c d h
  show frameMarshal { c with Data := d } = frameMarshal c
  unfold frameMarshal
  simp only [h]

/-- C15 (as amended): when the encoder tells canonical structs apart up to the
form in which it writes the body, two events that differ in id, source, type or
subject, in the RFC 3339 text of their instant in UTC, in the value that their
extensions hold under some key, or in their data as the encoder writes it, have
different canonical structs and different canonical encodings, and their
integrity hashes, the SHA-256 values of the encodings, differ unless the two
encodings collide under SHA-256.  An event that agrees with the first in all of
these, whatever the bytes of its data, has the same canonical encoding and the
same integrity hash, when the encoder reads the body in its written form
only. -/
theorem canonical_encoding_distinct (L : StdLib) (written : String → String)
    (e1 e2 : StoredEvent) (hinj : MarshalInjective L written)
    (hdiff : e1.ID ≠ e2.ID ∨ e1.Source ≠ e2.Source ∨ e1.EventType ≠ e2.EventType ∨
      e1.Subject ≠ e2.Subject ∨
      L.formatRFC3339Nano e1.Time.UTC ≠ L.formatRFC3339Nano e2.Time.UTC ∨
      (∃ k, e1.Extensions.get? k ≠ e2.Extensions.get? k) ∨
      written e1.Data ≠ written e2.Data) :
    canon L e1 ≠ canon L e2 ∧
      (∀ b1 b2 : String, L.jsonMarshalCanon (canon L e1) = some b1 →
        L.jsonMarshalCanon (canon L e2) = some b2 →
        b1 ≠ b2 ∧
          ComputeIntegrityHash L e1 = some (L.sha256Hex b1) ∧
          ComputeIntegrityHash L e2 = some (L.sha256Hex b2) ∧
          (ComputeIntegrityHash L e1 ≠ ComputeIntegrityHash L e2 ∨
            L.sha256Hex b1 = L.sha256Hex b2)) ∧
      (MarshalWrites L written → ∀ e3 : StoredEvent,
        e3.ID = e1.ID → e3.Source = e1.Source → e3.EventType = e1.EventType →
        e3.Subject = e1.Subject →
        L.formatRFC3339Nano e3.Time.UTC = L.formatRFC3339Nano e1.Time.UTC →
        (∀ k, e3.Extensions.get? k = e1.Extensions.get? k) →
        written e3.Data = written e1.Data →
        L.jsonMarshalCanon (canon L e3) = L.jsonMarshalCanon (canon L e1) ∧
          ComputeIntegrityHash L e3 = ComputeIntegrityHash L e1) := by
  refine ⟨?_, ?_, ?_⟩
  · have hbytes : written e1.Data ≠ written e2.Data → e1.Data ≠ e2.Data :=
      fun h hd => h (by rw [hd])
    exact canon_distinct L e1 e2
      (hdiff.imp_right (Or.imp_right (Or.imp_right (Or.imp_right (Or.imp_right
        (Or.imp_right hbytes))))))
  · intro b1 b2 h1 h2
    have hc1 : ComputeIntegrityHash L e1 = some (L.sha256Hex b1) := by
      rw [ComputeIntegrityHash_eq, h1]
      rfl
    have hc2 : ComputeIntegrityHash L e2 = some (L.sha256Hex b2) := by
      rw [ComputeIntegrityHash_eq, h2]
      rfl
    refine ⟨?_, hc1, hc2, ?_⟩
    · intro hb
      rw [← hb] at h2
      obtain ⟨_, g1, g2, g3, g4, g5, g6, g7⟩ := hinj (canon L e1) (canon L e2) b1 h1 h2
      rcases hdiff with h | h | h | h | h | h | h
      · exact h g1
      · exact h g2
      · exact h g3
      · exact h g4
      · exact h g5
      · obtain ⟨k, hk⟩ := h
        apply hk
        have := g6 k
        unfold canon at this
        simp only [] at this
        rw [(sortedExtensions_spec e1.Extensions).2, (sortedExtensions_spec e2.Extensions).2]
          at this
        exact this
      · exact h g7
    · by_cases hs : L.sha256Hex b1 = L.sha256Hex b2
      · exact Or.inr hs
      · left
        rw [hc1, hc2]
        intro h
        exact hs (Option.some.inj h)
  · intro hwrites e3 a1 a2 a3 a4 a5 a6 a7
    have hcanon : canon L e3 = { canon L e1 with Data := e3.Data } := by
      unfold canon
      simp only [a1, a2, a3, a4, a5, sortedExtensions_congr e3.Extensions e1.Extensions a6]
    have hm : L.jsonMarshalCanon (canon L e3) = L.jsonMarshalCanon (canon L e1) := by
      rw [hcanon]
      exact hwrites (canon L e1) e3.Data a7
    exact ⟨hm, by rw [ComputeIntegrityHash_eq, ComputeIntegrityHash_eq, hm]⟩

/-- C15, an instance: under the library with the framing encoder, the sample
event and the event with another body have different encodings and hashes, and
the event whose body has a blank after the colon has the encoding and the hash
of the sample event. -/
theorem canonical_encoding_distinct_witness :
    compact sampleEvent.Data ≠ compact otherBodyEvent.Data ∧
      (frameLib.jsonMarshalCanon (canon frameLib sampleEvent)).isSome = true ∧
      (frameLib.jsonMarshalCanon (canon frameLib otherBodyEvent)).isSome = true ∧
      canon frameLib sampleEvent ≠ canon frameLib otherBodyEvent ∧
      (∀ b1 b2 : String, frameLib.jsonMarshalCanon (canon frameLib sampleEvent) = some b1 →
        frameLib.jsonMarshalCanon (canon frameLib otherBodyEvent) = some b2 →
        b1 ≠ b2 ∧
          ComputeIntegrityHash frameLib sampleEvent = some (frameLib.sha256Hex b1) ∧
          ComputeIntegrityHash frameLib otherBodyEvent = some (frameLib.sha256Hex b2) ∧
          (ComputeIntegrityHash frameLib sampleEvent ≠
              ComputeIntegrityHash frameLib otherBodyEvent ∨
            frameLib.sha256Hex b1 = frameLib.sha256Hex b2)) ∧
      spacedBodyEvent.Data ≠ sampleEvent.Data ∧
      frameLib.jsonMarshalCanon (canon frameLib spacedBodyEvent) =
        frameLib.jsonMarshalCanon (canon frameLib sampleEvent) ∧
      ComputeIntegrityHash frameLib spacedBodyEvent =
        ComputeIntegrityHash frameLib sampleEvent :=
  have h := canonical_encoding_distinct frameLib compact sampleEvent otherBodyEvent
    frameLib_injective (Or.inr (Or.inr (Or.inr (Or.inr (Or.inr (Or.inr (by decide)))))))
  have hsame := h.2.2 frameLib_writes spacedBodyEvent rfl rfl rfl rfl rfl (fun _ => rfl)
    (by decide)
  ⟨by decide, by decide, by decide, h.1, h.2.1, by decide, hsame.1, hsame.2⟩

end Evidra
